import Mathlib

/-!
# House-Helper: durable workflows, events, validation and task pages

A shallow embedding of `services/temporal/internal/workflows` (`recurring_tasks.go`,
`timer.go`, `laundry.go`) together with the small part of Go's `time` package and of the
Temporal selector that the workflow code relies on, and of three functions of the other
services: `GetTasks` (`api/internal/handlers/tasks.go`), `validateStrongPassword`
(`api/pkg/validation/validator.go`) and `ToJSON` / `FromJSON`
(`kafka/pkg/events/types.go`) with the part of `encoding/json` they use.

Conventions of the embedding

* Go `int` and `time.Duration` values are mathematical integers (`Int`); durations count
  nanoseconds.  The workflows are followed in exact arithmetic, in the range in which
  Go's 64-bit arithmetic and `time.Time` do not wrap.  Where an `int` of the input enters
  a sum (the `Interval` of a recurrence rule, the page bounds of `GetTasks`) the 64-bit
  computation is followed as well (`wrapInt`, the definitions named `Machine.`), and
  shown to agree with exact arithmetic within bounds.
* A `time.Time` that carries calendar fields is a civil date and clock in a location with a
  fixed offset from UTC (`Time`).  Locations with daylight-saving transitions are outside
  the model.
* Values obtained from `workflow.Now` are only compared and subtracted by the workflows;
  they are represented by their instant, in nanoseconds since the Unix epoch.
* Activities complete in zero virtual time; the workflow context is never cancelled, so a
  timer future always resolves without error.
* Unbounded Go loops take a fuel argument; running out of fuel is reported as such and is
  never confused with a normal return.
* A selector hands the value of a ready channel to the callback registered with
  `AddReceive`, which is expected to receive it.  The callbacks of these workflows never
  do, so the value stays on the channel: every later `Select` with a case on that channel
  fires at once, until a `ReceiveAsync` takes the value.
* The reminder loops that `laundry.go` starts with `go` run on goroutines of their own,
  outside the coroutines of the workflow's dispatcher, where a call into the Temporal SDK
  panics.  `LaundryWorkflow` follows the main flow and records the loops it started.
* Outside the events a Go `string` is a sequence of characters (valid UTF-8); its `len` is
  the number of bytes of its encoding.  The character classes of package `unicode` are
  given on ASCII and read from tables beyond.
* In the events (`ToJSON`, `FromJSON`) a Go `string` and a JSON text are the lists of their
  bytes, valid UTF-8 or not.  A `float64` is a sign, a mantissa and a binary exponent, an
  infinity or NaN.  What `json.Marshal` takes from `strconv` (the shortest decimal text of
  a `float64`) or writes differently in different releases of Go is a parameter.  A Go map
  is the list of its entries in increasing order of the keys.
-/

namespace HouseHelper

/-! ## Part 1: definitions -/

/-! ### Go's `time` package -/

/-- Nanosecond count, as Go's `time.Duration`. -/
abbrev Duration := Int

/-- Go's `time.Second`. -/
def Second : Duration := 1000000000

/-- Go's `time.Minute`. -/
def Minute : Duration := 60 * Second

/-- Go's `time.Hour`. -/
def Hour : Duration := 60 * Minute

/-- A location with a fixed offset, in seconds east of UTC. -/
structure Location where
  offset : Int
deriving DecidableEq, Repr

/-- The location `time.UTC`. -/
def UTC : Location := ⟨0⟩

/-- A calendar date of the proleptic Gregorian calendar. -/
structure CivilDate where
  year : Int
  month : Int
  day : Int
deriving DecidableEq, Repr

/-- Go's `isLeap`. -/
def isLeap (year : Int) : Bool :=
  year % 4 == 0 && (year % 100 != 0 || year % 400 == 0)

/-- Number of days of a month of a year (month in 1..12). -/
def daysIn (year month : Int) : Int :=
  if month = 2 then (if isLeap year then 29 else 28)
  else if month = 4 ∨ month = 6 ∨ month = 9 ∨ month = 11 then 30
  else 31

/-- A date is valid when its month is in 1..12 and its day exists in that month. -/
def CivilDate.Valid (c : CivilDate) : Prop :=
  1 ≤ c.month ∧ c.month ≤ 12 ∧ 1 ≤ c.day ∧ c.day ≤ daysIn c.year c.month

instance (c : CivilDate) : Decidable c.Valid := by
  unfold CivilDate.Valid; infer_instance

/-- The day after a date. -/
def nextDay (c : CivilDate) : CivilDate :=
  if c.day < daysIn c.year c.month then ⟨c.year, c.month, c.day + 1⟩
  else if c.month < 12 then ⟨c.year, c.month + 1, 1⟩
  else ⟨c.year + 1, 1, 1⟩

/-- The day before a date. -/
def prevDay (c : CivilDate) : CivilDate :=
  if 1 < c.day then ⟨c.year, c.month, c.day - 1⟩
  else if 1 < c.month then ⟨c.year, c.month - 1, daysIn c.year (c.month - 1)⟩
  else ⟨c.year - 1, 12, 31⟩

/-- The date `n` days after a date (before it when `n` is negative). -/
def addDays (c : CivilDate) : Int → CivilDate
  | Int.ofNat k => nextDay^[k] c
  | Int.negSucc k => prevDay^[k + 1] c

/-- Days from 1970-01-01 to the first of January of a year. -/
def daysBeforeYear (year : Int) : Int :=
  365 * (year - 1970) + (year - 1) / 4 - (year - 1) / 100 + (year - 1) / 400 - 477

/-- Days from the first of January to the first of a month, as Go's `daysBefore` table
    with the leap-day adjustment of `time.Date`. -/
def daysBeforeMonth (year month : Int) : Int :=
  (if month = 1 then 0 else if month = 2 then 31 else if month = 3 then 59
   else if month = 4 then 90 else if month = 5 then 120 else if month = 6 then 151
   else if month = 7 then 181 else if month = 8 then 212 else if month = 9 then 243
   else if month = 10 then 273 else if month = 11 then 304 else 334)
  + (if isLeap year && decide (3 ≤ month) then 1 else 0)

/-- Days from 1970-01-01 to a date. -/
def daysFromCivil (c : CivilDate) : Int :=
  daysBeforeYear c.year + daysBeforeMonth c.year c.month + (c.day - 1)

/-- A `time.Time` with calendar fields: a civil date and clock in a fixed-offset location. -/
structure Time where
  year : Int
  month : Int
  day : Int
  hour : Int
  minute : Int
  second : Int
  nanosecond : Int
  loc : Location
deriving DecidableEq, Repr

/-- The calendar date of a time, as returned by `t.Date()`. -/
def Time.date (t : Time) : CivilDate := ⟨t.year, t.month, t.day⟩

/-- A time is valid when its date is valid and its clock fields are in range. -/
def Time.Valid (t : Time) : Prop :=
  t.date.Valid ∧ 0 ≤ t.hour ∧ t.hour < 24 ∧ 0 ≤ t.minute ∧ t.minute < 60
    ∧ 0 ≤ t.second ∧ t.second < 60 ∧ 0 ≤ t.nanosecond ∧ t.nanosecond < 1000000000

instance (t : Time) : Decidable t.Valid := by
  unfold Time.Valid; infer_instance

/-- Go's `norm`: carries the overflow of `lo` in base `base` into `hi`. -/
def norm (hi lo base : Int) : Int × Int := (hi + lo / base, lo % base)

/-- Go's `time.Date`: builds a time from possibly out-of-range fields, normalising the
    month into the year, then the clock fields into the day, then the day count into the
    calendar. -/
def Date (year month day hour min sec nsec : Int) (loc : Location) : Time :=
  let ym := norm year (month - 1) 12
  let sn := norm sec nsec 1000000000
  let ms := norm min sn.1 60
  let hm := norm hour ms.1 60
  let dh := norm day hm.1 24
  let c := addDays ⟨ym.1, ym.2 + 1, 1⟩ (dh.1 - 1)
  ⟨c.year, c.month, c.day, dh.2, hm.2, ms.2, sn.2, loc⟩

/-- Go's `t.AddDate`. -/
def Time.AddDate (t : Time) (years months days : Int) : Time :=
  Date (t.year + years) (t.month + months) (t.day + days)
    t.hour t.minute t.second t.nanosecond t.loc

/-- Go's `t.Weekday()`, 0 = Sunday .. 6 = Saturday (1970-01-01 was a Thursday). -/
def Time.Weekday (t : Time) : Int := (daysFromCivil t.date + 4) % 7

/-- The instant of a time, in nanoseconds since the Unix epoch (`t.UnixNano()`). -/
def Time.UnixNano (t : Time) : Int :=
  (daysFromCivil t.date * 86400 + t.hour * 3600 + t.minute * 60 + t.second - t.loc.offset)
    * 1000000000 + t.nanosecond

/-- Go's `t.After(u)`: the instant of `t` is later than that of `u`. -/
def Time.After (t u : Time) : Bool := decide (u.UnixNano < t.UnixNano)

/-- The time with the year, clock and location of `t`, on the given month and day. -/
def Time.onDay (t : Time) (month day : Int) : Time := { t with month := month, day := day }

/-! ### `recurring_tasks.go` -/

/-- The recurrence rule of a task (`RecurrenceRule`).  Field `Type_` is the source's
    `Type`: daily, weekly, monthly, custom. -/
structure RecurrenceRule where
  Type_ : String
  Interval : Int
  DaysOfWeek : List Int
  DayOfMonth : Int
  StartDate : Time
  EndDate : Option Time
  MaxOccurrences : Int
deriving DecidableEq, Repr

/-- Reminder configuration (`ReminderSettings`). -/
structure ReminderSettings where
  Enabled : Bool
  InitialDelay : Duration
  ReminderInterval : Duration
  MaxReminders : Int
  EscalateAfter : Int
deriving DecidableEq, Repr

/-- Input of the recurring task workflow (`RecurringTaskWorkflowParams`). -/
structure RecurringTaskWorkflowParams where
  TaskID : String
  UserID : String
  HouseholdID : String
  Name : String
  Description : String
  RecurrenceRule : RecurrenceRule
  AssignedMembers : List String
  DueDuration : Duration
  ReminderSettings : ReminderSettings
  AutoAssign : Bool
deriving DecidableEq, Repr

/-- One occurrence of a recurring task (`TaskOccurrence`); `CreatedAt` is an instant. -/
structure TaskOccurrence where
  OccurrenceID : String
  DueDate : Time
  AssignedTo : String
  Status : String
  CreatedAt : Int
  CompletedAt : Option Int
  CompletedBy : String
deriving DecidableEq, Repr

/-- Request of the `CreateTaskOccurrence` activity. -/
structure CreateTaskOccurrenceRequest where
  TaskID : String
  Occurrence : TaskOccurrence
  Name : String
  Description : String
  UserID : String
  HouseholdID : String
deriving DecidableEq, Repr

/-- Input of the task reminder child workflow (`TaskReminderWorkflowParams`). -/
structure TaskReminderWorkflowParams where
  OccurrenceID : String
  TaskID : String
  UserID : String
  HouseholdID : String
  AssignedTo : String
  DueDate : Time
  Name : String
  ReminderSettings : ReminderSettings
deriving DecidableEq, Repr

/-- The weekly search loop of `calculateNextDueDate`: starting at `nextDate`, step one day
    at a time until the weekday of the date equals some element of `daysOfWeek`.  The Go
    loop is unbounded; `none` means the fuel ran out before a date was returned. -/
def weeklySearch (daysOfWeek : List Int) : Nat → Time → Option Time
  | 0, _ => none
  | fuel + 1, nextDate =>
    if daysOfWeek.any (fun dow => nextDate.Weekday == dow) then some nextDate
    else weeklySearch daysOfWeek fuel (nextDate.AddDate 0 0 1)

/-- The monthly branch of `calculateNextDueDate` for a positive `DayOfMonth`, in exact
    arithmetic (`Machine.monthlyNext` follows the 64-bit computation). -/
def monthlyNext (rule : RecurrenceRule) (currentDate : Time) : Time :=
  let year := currentDate.year
  let month := currentDate.month
  let nextMonth0 := month + rule.Interval
  let nextYear := if nextMonth0 > 12 then year + Int.tdiv (nextMonth0 - 1) 12 else year
  let nextMonth := if nextMonth0 > 12 then Int.tmod (nextMonth0 - 1) 12 + 1 else nextMonth0
  let daysInMonth := (Date nextYear (nextMonth + 1) 0 0 0 0 0 currentDate.loc).day
  let day := if rule.DayOfMonth > daysInMonth then daysInMonth else rule.DayOfMonth
  Date nextYear nextMonth day currentDate.hour currentDate.minute currentDate.second
    currentDate.nanosecond currentDate.loc

/-- The function `calculateNextDueDate` in exact arithmetic
    (`Machine.calculateNextDueDate` follows the 64-bit computation; the two agree within
    the bounds of `machine_calculateNextDueDate_eq`).  The fuel bounds the weekly search
    loop. -/
def calculateNextDueDate (fuel : Nat) (rule : RecurrenceRule) (currentDate : Time) :
    Option Time :=
  if rule.Type_ = "daily" then some (currentDate.AddDate 0 0 rule.Interval)
  else if rule.Type_ = "weekly" then
    if rule.DaysOfWeek.length = 0 then some (currentDate.AddDate 0 0 (7 * rule.Interval))
    else weeklySearch rule.DaysOfWeek fuel (currentDate.AddDate 0 0 1)
  else if rule.Type_ = "monthly" then
    if rule.DayOfMonth > 0 then some (monthlyNext rule currentDate)
    else some (currentDate.AddDate 0 rule.Interval 0)
  else some (currentDate.AddDate 0 0 rule.Interval)

/-! ### `calculateNextDueDate` on a 64-bit platform

The definitions above compute with mathematical integers.  The ones below follow the same
code as a 64-bit platform runs it: every `int` operation is reduced to 64 bits in two's
complement, `time.Date` counts the seconds since the absolute epoch of package `time` in a
`uint64`, and the fields of the resulting `time.Time` are read back from that count
(`absDate`, `absClock`). -/

/-- The value of a Go `int` (64 bits, two's complement) after an operation whose exact
    result is `x`. -/
def wrapInt (x : Int) : Int :=
  (x + 9223372036854775808) % 18446744073709551616 - 9223372036854775808

/-- The value of a Go `uint64` after an operation whose exact result is `x`. -/
def wrapUint (x : Int) : Int := x % 18446744073709551616

/-- Go's `norm` on `int` values: the quotient is truncated and every operation wraps. -/
def Machine.norm (hi lo base : Int) : Int × Int :=
  let s : Int × Int :=
    if lo < 0 then
      let n := wrapInt (Int.tdiv (wrapInt (wrapInt (-lo) - 1)) base + 1)
      (wrapInt (hi - n), wrapInt (lo + wrapInt (n * base)))
    else (hi, lo)
  if s.2 ≥ base then
    let n := Int.tdiv s.2 base
    (wrapInt (s.1 + n), wrapInt (s.2 - wrapInt (n * base)))
  else s

/-- The constant `absoluteZeroYear` of package `time`: the year of the absolute epoch. -/
def absoluteZeroYear : Int := -292277022399

/-- The table `daysBefore` of package `time`: the days of a non-leap year before the
    month with the given index (0 for January), and 365 at index 12. -/
def daysBefore (index : Int) : Int :=
  ([0, 31, 59, 90, 120, 151, 181, 212, 243, 273, 304, 334, 365] : List Int).getD
    index.toNat 0

/-- Go's `daysSinceEpoch`: the days from the absolute epoch to the first of January of a
    year, counted in a `uint64` by cycles of 400, 100 and 4 years. -/
def Machine.daysSinceEpoch (year : Int) : Int :=
  let y := wrapUint (wrapInt (year - absoluteZeroYear))
  let n400 := y / 400
  let y1 := y - 400 * n400
  let d1 := wrapUint (146097 * n400)
  let n100 := y1 / 100
  let y2 := y1 - 100 * n100
  let d2 := wrapUint (d1 + wrapUint (36524 * n100))
  let n4 := y2 / 4
  let y3 := y2 - 4 * n4
  let d3 := wrapUint (d2 + wrapUint (1461 * n4))
  wrapUint (d3 + wrapUint (365 * y3))

/-- The first part of Go's `absDate`: the years since the absolute epoch and the day of
    the year (0 for the first of January) of a count of days since the absolute epoch, by
    cycles of 400, 100, 4 and 1 years. -/
def absCycles (days : Int) : Int × Int :=
  let n400 := days / 146097
  let d1 := days - 146097 * n400
  let n100 := d1 / 36524 - d1 / 36524 / 4
  let d2 := d1 - 36524 * n100
  let n4 := d2 / 1461
  let d3 := d2 - 1461 * n4
  let n1 := d3 / 365 - d3 / 365 / 4
  (400 * n400 + 100 * n100 + 4 * n4 + n1, d3 - 365 * n1)

/-- Go's `absDate`: the year, month and day of a count of days since the absolute
    epoch. -/
def absDate (days : Int) : CivilDate :=
  let year := wrapInt ((absCycles days).1 + absoluteZeroYear)
  let yday := (absCycles days).2
  if isLeap year && decide (yday = 59) then ⟨year, 2, 29⟩
  else
    let day := if isLeap year && decide (yday > 59) then yday - 1 else yday
    let month := day / 31
    if day ≥ daysBefore (month + 1) then ⟨year, month + 2, day - daysBefore (month + 1) + 1⟩
    else ⟨year, month + 1, day - daysBefore month + 1⟩

/-- The `time.Time` in a location that holds the given count of seconds since the absolute
    epoch on the clock of that location, as its methods `Date`, `Clock` and `Nanosecond`
    show it. -/
def Time.ofAbs (abs nsec : Int) (loc : Location) : Time :=
  let c := absDate (abs / 86400)
  let sec := abs % 86400
  ⟨c.year, c.month, c.day, sec / 3600, (sec - sec / 3600 * 3600) / 60,
    sec - sec / 3600 * 3600 - (sec - sec / 3600 * 3600) / 60 * 60, nsec, loc⟩

/-- Go's `time.Date` as a 64-bit platform computes it: the fields are normalised by
    `norm`, the seconds since the absolute epoch are counted in a `uint64`, and the time
    holds that count. -/
def Machine.Date (year month day hour min sec nsec : Int) (loc : Location) : Time :=
  let ym := Machine.norm year (wrapInt (month - 1)) 12
  let sn := Machine.norm sec nsec 1000000000
  let ms := Machine.norm min sn.1 60
  let hm := Machine.norm hour ms.1 60
  let dh := Machine.norm day hm.1 24
  let d0 := Machine.daysSinceEpoch ym.1
  let d1 := wrapUint (d0 + daysBefore ym.2)
  let d2 := if isLeap ym.1 && decide (ym.2 + 1 ≥ 3) then wrapUint (d1 + 1) else d1
  let d3 := wrapUint (d2 + wrapUint (wrapInt (dh.1 - 1)))
  let abs := wrapUint (d3 * 86400)
  let abs1 := wrapUint (abs + wrapUint (wrapInt (dh.2 * 3600 + hm.2 * 60 + ms.2)))
  Time.ofAbs abs1 sn.2 loc

/-- Go's `t.AddDate` as a 64-bit platform computes it. -/
def Machine.AddDate (t : Time) (years months days : Int) : Time :=
  Machine.Date (wrapInt (t.year + years)) (wrapInt (t.month + months))
    (wrapInt (t.day + days)) t.hour t.minute t.second t.nanosecond t.loc

/-- The weekly search loop of `calculateNextDueDate` on a 64-bit platform. -/
def Machine.weeklySearch (daysOfWeek : List Int) : Nat → Time → Option Time
  | 0, _ => none
  | fuel + 1, nextDate =>
    if daysOfWeek.any (fun dow => nextDate.Weekday == dow) then some nextDate
    else Machine.weeklySearch daysOfWeek fuel (Machine.AddDate nextDate 0 0 1)

/-- The monthly branch of `calculateNextDueDate` for a positive `DayOfMonth` on a 64-bit
    platform. -/
def Machine.monthlyNext (rule : RecurrenceRule) (currentDate : Time) : Time :=
  let year := currentDate.year
  let month := currentDate.month
  let nextMonth0 := wrapInt (month + rule.Interval)
  let nextYear :=
    if nextMonth0 > 12 then wrapInt (year + Int.tdiv (wrapInt (nextMonth0 - 1)) 12) else year
  let nextMonth :=
    if nextMonth0 > 12 then wrapInt (Int.tmod (wrapInt (nextMonth0 - 1)) 12 + 1)
    else nextMonth0
  let daysInMonth :=
    (Machine.Date nextYear (wrapInt (nextMonth + 1)) 0 0 0 0 0 currentDate.loc).day
  let day := if rule.DayOfMonth > daysInMonth then daysInMonth else rule.DayOfMonth
  Machine.Date nextYear nextMonth day currentDate.hour currentDate.minute currentDate.second
    currentDate.nanosecond currentDate.loc

/-- The function `calculateNextDueDate` on a 64-bit platform.  The fuel bounds the weekly
    search loop. -/
def Machine.calculateNextDueDate (fuel : Nat) (rule : RecurrenceRule) (currentDate : Time) :
    Option Time :=
  if rule.Type_ = "daily" then some (Machine.AddDate currentDate 0 0 rule.Interval)
  else if rule.Type_ = "weekly" then
    if rule.DaysOfWeek.length = 0 then
      some (Machine.AddDate currentDate 0 0 (wrapInt (7 * rule.Interval)))
    else Machine.weeklySearch rule.DaysOfWeek fuel (Machine.AddDate currentDate 0 0 1)
  else if rule.Type_ = "monthly" then
    if rule.DayOfMonth > 0 then some (Machine.monthlyNext rule currentDate)
    else some (Machine.AddDate currentDate 0 rule.Interval 0)
  else some (Machine.AddDate currentDate 0 0 rule.Interval)

/-- The environment of one run of the recurring task workflow: the instant the run starts,
    the instants at which `cancel_recurring_task` signals are delivered, and whether the
    `CreateTaskOccurrence` activity of the iteration with a given occurrence count fails
    (after its retries). -/
structure RecurringEnv where
  start : Int
  cancelSignals : List Int
  createFails : Nat → Bool

/-- How a workflow run ended: it returned nil, returned an error, panicked, waits for an
    event that never comes, or was still running when the fuel ran out. -/
inductive Outcome where
  | completed
  | failed (msg : String)
  | panicked (msg : String)
  | blocked
  | outOfFuel
deriving DecidableEq, Repr

/-- What one iteration of the loop of `RecurringTaskWorkflow` did: the instant at which
    it invoked `CreateTaskOccurrence`, the request, whether the activity failed, and the
    reminder child workflow it started (workflow id and input), if any. -/
structure IterationRecord where
  time : Int
  request : CreateTaskOccurrenceRequest
  failed : Bool
  child : Option (String × TaskReminderWorkflowParams)
deriving DecidableEq, Repr

/-- Result of a run of the recurring task workflow. -/
structure RecurringResult where
  outcome : Outcome
  trace : List IterationRecord
deriving DecidableEq, Repr

/-- The expression `AssignedMembers[occurrenceCount % len(AssignedMembers)]`, with Go's
    run-time panics made explicit. -/
def roundRobin (members : List String) (occurrenceCount : Nat) : Except String String :=
  if members.length = 0 then Except.error "integer divide by zero"
  else match members[occurrenceCount % members.length]? with
    | some m => Except.ok m
    | none => Except.error "index out of range"

/-- The assignee of the occurrence created with a given occurrence count. -/
def assignee (params : RecurringTaskWorkflowParams) (occurrenceCount : Nat) :
    Except String String :=
  if params.AutoAssign && decide (params.AssignedMembers.length > 0) then
    roundRobin params.AssignedMembers occurrenceCount
  else Except.ok ""

/-- The instant at which `selector.Select` returns at the end of an iteration: at once
    when a cancel signal is already buffered, otherwise at the delivery of the next cancel
    signal or one second later, whichever comes first. -/
def cancelSelect (signals : List Int) (now : Int) : Int :=
  if signals.any (fun s => decide (s ≤ now)) then now
  else signals.foldl min (now + Second)

/-- The probe `ReceiveAsync` on the cancel channel: a signal has been delivered. -/
def cancelReceived (signals : List Int) (now : Int) : Bool :=
  signals.any (fun s => decide (s ≤ now))

/-- The request an iteration sends, from the occurrence count, due date, assignee and the
    current instant. -/
def mkRequest (params : RecurringTaskWorkflowParams) (occurrenceCount : Nat)
    (nextDueDate : Time) (assignedTo : String) (now : Int) : CreateTaskOccurrenceRequest :=
  { TaskID := params.TaskID
    Occurrence :=
      { OccurrenceID := params.TaskID ++ "_" ++ toString (occurrenceCount + 1)
        DueDate := nextDueDate
        AssignedTo := assignedTo
        Status := "pending"
        CreatedAt := now
        CompletedAt := none
        CompletedBy := "" }
    Name := params.Name
    Description := params.Description
    UserID := params.UserID
    HouseholdID := params.HouseholdID }

/-- The reminder child workflow an iteration starts for its occurrence. -/
def mkChild (params : RecurringTaskWorkflowParams) (occurrence : TaskOccurrence) :
    String × TaskReminderWorkflowParams :=
  ("task-reminders-" ++ occurrence.OccurrenceID,
    { OccurrenceID := occurrence.OccurrenceID
      TaskID := params.TaskID
      UserID := params.UserID
      HouseholdID := params.HouseholdID
      AssignedTo := occurrence.AssignedTo
      DueDate := occurrence.DueDate
      Name := params.Name
      ReminderSettings := params.ReminderSettings })

/-- The first exit test of the loop: an end date is set and the next due date is after
    it. -/
def endReached (rule : RecurrenceRule) (nextDueDate : Time) : Bool :=
  match rule.EndDate with
  | some e => nextDueDate.After e
  | none => false

/-- The second exit test of the loop: a positive `MaxOccurrences` has been reached. -/
def maxReached (rule : RecurrenceRule) (occurrenceCount : Nat) : Bool :=
  decide (rule.MaxOccurrences > 0) && decide ((occurrenceCount : Int) ≥ rule.MaxOccurrences)

/-- The instant at which an iteration invokes the activity: the create time
    `DueDate.Add(-DueDuration)` when that is after the current instant (the workflow waits
    on a timer of the difference), the current instant otherwise. -/
def awaitCreateTime (params : RecurringTaskWorkflowParams) (nextDueDate : Time) (now : Int) :
    Int :=
  let currentTime := now
  let createTime := nextDueDate.UnixNano - params.DueDuration
  if createTime > currentTime then currentTime + (createTime - currentTime) else currentTime

/-- What one iteration does once the assignee is known: it waits for the create time,
    invokes `CreateTaskOccurrence`, and starts the reminder child workflow when the
    activity succeeded and reminders are enabled. -/
def iteration (params : RecurringTaskWorkflowParams) (env : RecurringEnv)
    (occurrenceCount : Nat) (nextDueDate : Time) (assignedTo : String) (now : Int) :
    IterationRecord :=
  let request := mkRequest params occurrenceCount nextDueDate assignedTo now
  let failed := env.createFails occurrenceCount
  { time := awaitCreateTime params nextDueDate now
    request := request
    failed := failed
    child := if !failed && params.ReminderSettings.Enabled
             then some (mkChild params request.Occurrence) else none }

/-- The loop of `RecurringTaskWorkflow`, from the state `(occurrenceCount, nextDueDate)` at
    instant `now`.  The first argument bounds the weekly search of `calculateNextDueDate`,
    the second the number of iterations. -/
def recurringLoop (params : RecurringTaskWorkflowParams) (env : RecurringEnv)
    (inner : Nat) : Nat → Nat → Time → Int → RecurringResult
  | 0, _, _, _ => ⟨Outcome.outOfFuel, []⟩
  | fuel + 1, occurrenceCount, nextDueDate, now =>
    if endReached params.RecurrenceRule nextDueDate then ⟨Outcome.completed, []⟩
    else if maxReached params.RecurrenceRule occurrenceCount then ⟨Outcome.completed, []⟩
    else
      match assignee params occurrenceCount with
      | Except.error msg => ⟨Outcome.panicked msg, []⟩
      | Except.ok assignedTo =>
        let record := iteration params env occurrenceCount nextDueDate assignedTo now
        match calculateNextDueDate inner params.RecurrenceRule nextDueDate with
        | none => ⟨Outcome.outOfFuel, [record]⟩
        | some next =>
          let now2 := cancelSelect env.cancelSignals record.time
          if cancelReceived env.cancelSignals now2 then ⟨Outcome.completed, [record]⟩
          else
            let rest := recurringLoop params env inner fuel (occurrenceCount + 1) next now2
            ⟨rest.outcome, record :: rest.trace⟩

/-- The workflow `RecurringTaskWorkflow`, run with the given fuel. -/
def RecurringTaskWorkflow (fuel : Nat) (env : RecurringEnv)
    (params : RecurringTaskWorkflowParams) : RecurringResult :=
  recurringLoop params env fuel fuel 0 params.RecurrenceRule.StartDate env.start

/-- The due dates of the requests of a run, in order. -/
def dueDates (r : RecurringResult) : List Time :=
  r.trace.map (fun x => x.request.Occurrence.DueDate)

/-- The occurrence ids of the requests of a run, in order. -/
def occurrenceIDs (r : RecurringResult) : List String :=
  r.trace.map (fun x => x.request.Occurrence.OccurrenceID)

/-! ### Activities of `activities.go` used by the timer, reminder and laundry workflows -/

/-- Request of the `StartTimer` activity. -/
structure StartTimerRequest where
  TimerID : String
  UserID : String
  Name : String
deriving DecidableEq, Repr

/-- Request of the `CompleteTimer` activity. -/
structure CompleteTimerRequest where
  TimerID : String
  UserID : String
  ElapsedTime : Duration
  Status : String
deriving DecidableEq, Repr

/-- Request of the `SendNotification` activity; `Data` lists the entries of the Go map. -/
structure NotificationRequest where
  UserID : String
  HouseholdID : String
  Title : String
  Body : String
  Data : List (String × String)
deriving DecidableEq, Repr

/-- Laundry configuration (`LaundrySettings` of `laundry.go`). -/
structure LaundrySettings where
  AutoStart : Bool
  NotifyOnStart : Bool
  NotifyOnWashDone : Bool
  NotifyOnDryDone : Bool
  NotifyReminders : Bool
  ReminderInterval : Duration
  MaxReminders : Int
  Temperature : String
  SpinSpeed : String
  DryLevel : String
  FabricSoftener : Bool
  ExtraRinse : Bool
deriving DecidableEq, Repr

/-- Request of the `StartLaundry` activity. -/
structure StartLaundryRequest where
  LaundryID : String
  UserID : String
  HouseholdID : String
  LoadType : String
  Settings : LaundrySettings
deriving DecidableEq, Repr

/-- Request of the `CompleteLaundry` activity. -/
structure CompleteLaundryRequest where
  LaundryID : String
  UserID : String
  WashTime : Duration
  DryTime : Duration
  TotalTime : Duration
  Status : String
deriving DecidableEq, Repr

/-- Request of the `CheckTaskCompletion` activity. -/
structure CheckTaskCompletionRequest where
  OccurrenceID : String
deriving DecidableEq, Repr

/-- An activity invocation of the timer, task reminder and laundry workflows. -/
inductive Activity where
  | startTimer (req : StartTimerRequest)
  | completeTimer (req : CompleteTimerRequest)
  | sendNotification (req : NotificationRequest)
  | checkTaskCompletion (req : CheckTaskCompletionRequest)
  | startLaundry (req : StartLaundryRequest)
  | completeLaundry (req : CompleteLaundryRequest)
deriving DecidableEq, Repr

/-- A call the workflow makes to the runtime: `workflow.NewTimer` with a duration, or
    `workflow.ExecuteActivity` of an activity. -/
inductive Event where
  | newTimer (d : Duration)
  | activity (a : Activity)
deriving DecidableEq, Repr

/-! ### The Temporal selector over signal channels and timer futures -/

/-- A signal delivered to the workflow at an instant. -/
structure Signal where
  time : Int
  name : String
deriving DecidableEq, Repr

/-- The state of a workflow run seen by workflow code: the virtual clock, the signals not
    yet taken from their channel (in delivery order), the channels that hold a value a
    selector handed to a callback which did not call `Receive` on it, and the calls
    made so far with their instants. -/
structure World where
  now : Int
  inbox : List Signal
  held : List String
  trace : List (Int × Event)
deriving DecidableEq, Repr

/-- A case registered on a selector: `AddFuture` of a timer that fires at an instant, or
    `AddReceive` on the signal channel of a name. -/
inductive SelCase where
  | future (fireAt : Int)
  | receive (name : String)
deriving DecidableEq, Repr

/-- A case can fire without blocking: the timer has fired, or the channel holds a value or
    has a delivered signal. -/
def caseReady (w : World) : SelCase → Bool
  | SelCase.future t => decide (t ≤ w.now)
  | SelCase.receive n =>
    w.held.contains n || w.inbox.any (fun s => s.name == n && decide (s.time ≤ w.now))

/-- The instant at which a case that is not ready becomes ready, if ever. -/
def caseTime (w : World) : SelCase → Option Int
  | SelCase.future t => some t
  | SelCase.receive n => (w.inbox.find? (fun s => s.name == n)).map (fun s => s.time)

/-- The case that becomes ready first; on equal instants the one registered first. -/
def earliest (w : World) : List SelCase → Option (Int × SelCase)
  | [] => none
  | c :: cs =>
    match caseTime w c, earliest w cs with
    | none, r => r
    | some t, none => some (t, c)
    | some t, some r => if t ≤ r.1 then some (t, c) else some r

/-- Firing a case: a receive case takes the value out of the channel and leaves it held by
    the channel for the callback. -/
def fire (w : World) : SelCase → World
  | SelCase.future _ => w
  | SelCase.receive n =>
    if w.held.contains n then w
    else
      match w.inbox.find? (fun s => s.name == n) with
      | some s => { w with inbox := w.inbox.erase s, held := n :: w.held }
      | none => w

/-- The call `selector.Select`: the first registered case that is ready fires at once;
    otherwise the run blocks until the first case becomes ready.  `none`: no case ever
    becomes ready. -/
def select (w : World) (cases : List SelCase) : Option (World × SelCase) :=
  match cases.find? (caseReady w) with
  | some c => some (fire w c, c)
  | none =>
    match earliest w cases with
    | some (t, c) => some (fire { w with now := t } c, c)
    | none => none

/-- The call `workflow.NewTimer(ctx, d)`: records the command and yields the future. -/
def newTimer (w : World) (d : Duration) : World × SelCase :=
  ({ w with trace := w.trace ++ [(w.now, Event.newTimer d)] }, SelCase.future (w.now + d))

/-- The call `workflow.ExecuteActivity(...).Get`: records the invocation; the second
    component tells whether it returned an error, as decided by the oracle on the number
    of calls made before it. -/
def executeActivity (fails : Nat → Bool) (w : World) (a : Activity) : World × Bool :=
  ({ w with trace := w.trace ++ [(w.now, Event.activity a)] }, fails w.trace.length)

/-! ### `timer.go` -/

/-- Timer configuration (`TimerSettings`). -/
structure TimerSettings where
  AutoStart : Bool
  NotifyOnStart : Bool
  NotifyOnPause : Bool
  NotifyOnFinish : Bool
  WorkDuration : Duration
  ShortBreak : Duration
  LongBreak : Duration
  BreakInterval : Int
  Repetitions : Int
  NotificationMsg : String
deriving DecidableEq, Repr

/-- Input of the timer workflow (`TimerWorkflowParams`); `Type_` is the source's `Type`:
    countdown, stopwatch, pomodoro. -/
structure TimerWorkflowParams where
  TimerID : String
  UserID : String
  HouseholdID : String
  Name : String
  Type_ : String
  Duration : HouseHelper.Duration
  Settings : TimerSettings
deriving DecidableEq, Repr

/-- The state of a timer (`TimerState`); `LastPauseStart` is an instant. -/
structure TimerState where
  Status : String
  ElapsedTime : Duration
  RemainingTime : Duration
  CurrentCycle : Int
  IsBreak : Bool
  PausedTime : Duration
  LastPauseStart : Int
  CompletedCycles : Int
deriving DecidableEq, Repr

/-- The instant of the zero `time.Time` (January 1, year 1, 00:00 UTC). -/
def zeroTimeInstant : Int := -62135596800000000000

/-- The environment of one run of the timer workflow: the instant the run starts, the
    signals delivered to it in delivery order, and the oracle telling which activity
    invocations fail (after their retries). -/
structure TimerEnv where
  start : Int
  signals : List Signal
  fails : Nat → Bool

/-- The state of a run inside a timer phase: it goes on, or it stopped for the given
    reason (blocked for ever, out of fuel). -/
structure Phase where
  world : World
  state : TimerState
  stopped : Option Outcome
deriving DecidableEq, Repr

/-- The pause callback of the countdown and period selectors. -/
def onPause (w : World) (state : TimerState) : TimerState :=
  { state with Status := "paused", LastPauseStart := w.now }

/-- The resume callback of the selectors. -/
def onResume (w : World) (state : TimerState) : TimerState :=
  if state.Status = "paused" then
    { state with PausedTime := state.PausedTime + (w.now - state.LastPauseStart),
                 Status := "running" }
  else state

/-- The stop callback of the countdown and period selectors. -/
def onStop (state : TimerState) : TimerState :=
  { state with Status := "stopped" }

/-- The function `runCountdownTimer`: one `Select` over the timer of the configured
    duration and the pause, resume and stop channels. -/
def runCountdownTimer (w : World) (params : TimerWorkflowParams) (state : TimerState) :
    Phase :=
  let tf := newTimer w params.Duration
  match select tf.1 [tf.2, SelCase.receive "pause_timer", SelCase.receive "resume_timer",
      SelCase.receive "stop_timer"] with
  | none => ⟨tf.1, state, some Outcome.blocked⟩
  | some (w1, SelCase.future _) =>
    ⟨w1, { state with Status := "completed", RemainingTime := 0,
                       ElapsedTime := params.Duration }, none⟩
  | some (w1, SelCase.receive n) =>
    if n = "pause_timer" then ⟨w1, onPause w1 state, none⟩
    else if n = "resume_timer" then ⟨w1, onResume w1 state, none⟩
    else ⟨w1, onStop state, none⟩

/-- The notification sent at the end of a period by `runTimerPeriod`; `cycle` and
    `isBreak` are `state.CurrentCycle` and `state.IsBreak`. -/
def periodNotification (params : TimerWorkflowParams) (cycle : Int) (isBreak : Bool)
    (message : String) : NotificationRequest :=
  { UserID := params.UserID
    HouseholdID := params.HouseholdID
    Title := params.Name
    Body := message
    Data := [("timerId", params.TimerID), ("type", "timer_period_complete"),
             ("cycle", toString cycle), ("isBreak", toString isBreak)] }

/-- The function `runTimerPeriod`: one `Select` over a timer of the given duration and the
    pause, resume and stop channels, then the period notification unless stopped. -/
def runTimerPeriod (fails : Nat → Bool) (w : World) (params : TimerWorkflowParams)
    (state : TimerState) (duration : Duration) (message : String) : Phase :=
  let tf := newTimer w duration
  match select tf.1 [tf.2, SelCase.receive "pause_timer", SelCase.receive "resume_timer",
      SelCase.receive "stop_timer"] with
  | none => ⟨tf.1, state, some Outcome.blocked⟩
  | some (w1, c) =>
    let state1 :=
      match c with
      | SelCase.future _ => state
      | SelCase.receive n =>
        if n = "pause_timer" then onPause w1 state
        else if n = "resume_timer" then onResume w1 state
        else onStop state
    if state1.Status ≠ "stopped" then
      ⟨(executeActivity fails w1
          (Activity.sendNotification
            (periodNotification params state1.CurrentCycle state1.IsBreak message))).1,
        state1, none⟩
    else ⟨w1, state1, none⟩

/-- The settings of a pomodoro run after the defaults of `runPomodoroTimer` are applied. -/
structure PomodoroConfig where
  workDuration : Duration
  shortBreak : Duration
  longBreak : Duration
  breakInterval : Int
  maxCycles : Int
deriving DecidableEq, Repr

/-- The defaulting at the head of `runPomodoroTimer`: a zero setting takes 25 minutes of
    work, a 5 minute short break, a 15 minute long break, a long break every 4 cycles and
    4 cycles. -/
def pomodoroConfig (s : TimerSettings) : PomodoroConfig :=
  { workDuration := if s.WorkDuration = 0 then 25 * Minute else s.WorkDuration
    shortBreak := if s.ShortBreak = 0 then 5 * Minute else s.ShortBreak
    longBreak := if s.LongBreak = 0 then 15 * Minute else s.LongBreak
    breakInterval := if s.BreakInterval = 0 then 4 else s.BreakInterval
    maxCycles := if s.Repetitions = 0 then 4 else s.Repetitions }

/-- The body of the loop of `runPomodoroTimer` up to the increment of the cycle: the work
    period, the count of the completed cycle and, unless the cycle is the last, the break.
    The flag tells that the function returns from inside the body (a period was stopped). -/
def pomodoroCycle (fails : Nat → Bool) (params : TimerWorkflowParams) (cfg : PomodoroConfig)
    (w : World) (state : TimerState) : Phase × Bool :=
  let work := runTimerPeriod fails w params { state with IsBreak := false }
    cfg.workDuration "Work time!"
  if work.stopped.isSome || work.state.Status = "stopped" then (work, true)
  else
    let state1 := { work.state with CompletedCycles := work.state.CompletedCycles + 1 }
    if state1.CurrentCycle < cfg.maxCycles then
      let long := Int.tmod state1.CompletedCycles cfg.breakInterval = 0
      let brk := runTimerPeriod fails work.world params { state1 with IsBreak := true }
        (if long then cfg.longBreak else cfg.shortBreak)
        (if long then "Long break time!" else "Short break time!")
      if brk.stopped.isSome || brk.state.Status = "stopped" then (brk, true)
      else (brk, false)
    else (⟨work.world, state1, none⟩, false)

/-- The loop of `runPomodoroTimer`; the fuel bounds the number of iterations. -/
def pomodoroLoop (fails : Nat → Bool) (params : TimerWorkflowParams) (cfg : PomodoroConfig) :
    Nat → World → TimerState → Phase
  | 0, w, state =>
    if state.CurrentCycle ≤ cfg.maxCycles then ⟨w, state, some Outcome.outOfFuel⟩
    else ⟨w, { state with Status := "completed" }, none⟩
  | fuel + 1, w, state =>
    if state.CurrentCycle ≤ cfg.maxCycles then
      let body := pomodoroCycle fails params cfg w state
      if body.2 then body.1
      else
        pomodoroLoop fails params cfg fuel body.1.world
          { body.1.state with CurrentCycle := body.1.state.CurrentCycle + 1 }
    else ⟨w, { state with Status := "completed" }, none⟩

/-- The function `runPomodoroTimer`. -/
def runPomodoroTimer (fuel : Nat) (fails : Nat → Bool) (w : World)
    (params : TimerWorkflowParams) (state : TimerState) : Phase :=
  pomodoroLoop fails params (pomodoroConfig params.Settings) fuel w state

/-- The loop `for state.Status != "stopped" { selector.Select(ctx) }` of
    `runStopwatchTimer`; its selector registers the stop, pause and resume channels. -/
def stopwatchLoop (startTime : Int) : Nat → World → TimerState → Phase
  | 0, w, state =>
    if state.Status ≠ "stopped" then ⟨w, state, some Outcome.outOfFuel⟩ else ⟨w, state, none⟩
  | fuel + 1, w, state =>
    if state.Status ≠ "stopped" then
      match select w [SelCase.receive "stop_timer", SelCase.receive "pause_timer",
          SelCase.receive "resume_timer"] with
      | none => ⟨w, state, some Outcome.blocked⟩
      | some (w1, SelCase.future _) => stopwatchLoop startTime fuel w1 state
      | some (w1, SelCase.receive n) =>
        if n = "stop_timer" then
          stopwatchLoop startTime fuel w1
            { state with Status := "stopped",
                         ElapsedTime := (w1.now - startTime) - state.PausedTime }
        else if n = "pause_timer" then
          stopwatchLoop startTime fuel w1
            (if state.Status = "running" then onPause w1 state else state)
        else stopwatchLoop startTime fuel w1 (onResume w1 state)
    else ⟨w, state, none⟩

/-- The function `runStopwatchTimer`. -/
def runStopwatchTimer (fuel : Nat) (w : World) (state : TimerState) : Phase :=
  stopwatchLoop w.now fuel w state

/-- Result of a run of the timer workflow: how it ended, the calls it made with their
    instants, and the final timer state. -/
structure TimerResult where
  outcome : Outcome
  trace : List (Int × Event)
  state : TimerState
deriving DecidableEq, Repr

/-- The "Timer Started" notification. -/
def startNotification (params : TimerWorkflowParams) : NotificationRequest :=
  { UserID := params.UserID
    HouseholdID := params.HouseholdID
    Title := "Timer Started"
    Body := params.Name ++ " timer has started"
    Data := [("timerId", params.TimerID), ("type", "timer_started")] }

/-- The "Timer Completed" notification. -/
def finishNotification (params : TimerWorkflowParams) : NotificationRequest :=
  { UserID := params.UserID
    HouseholdID := params.HouseholdID
    Title := "Timer Completed"
    Body := params.Name ++ " timer has finished"
    Data := [("timerId", params.TimerID), ("type", "timer_completed")] }

/-- The tail of `TimerWorkflow` after the type-specific phase returned: the `CompleteTimer`
    activity, then the completion notification when enabled. -/
def completeTimer (fails : Nat → Bool) (params : TimerWorkflowParams) (ph : Phase) :
    TimerResult :=
  match ph.stopped with
  | some o => ⟨o, ph.world.trace, ph.state⟩
  | none =>
    let state := { ph.state with Status := "completed" }
    let w1 := (executeActivity fails ph.world (Activity.completeTimer
      { TimerID := params.TimerID, UserID := params.UserID,
        ElapsedTime := state.ElapsedTime, Status := state.Status })).1
    let w2 := if params.Settings.NotifyOnFinish then
        (executeActivity fails w1 (Activity.sendNotification (finishNotification params))).1
      else w1
    ⟨Outcome.completed, w2.trace, state⟩

/-- The initial timer state of `TimerWorkflow`. -/
def createdState (params : TimerWorkflowParams) : TimerState :=
  { Status := "created", ElapsedTime := 0, RemainingTime := params.Duration,
    CurrentCycle := 1, IsBreak := false, PausedTime := 0,
    LastPauseStart := zeroTimeInstant, CompletedCycles := 0 }

/-- The state with which `TimerWorkflow` enters the type-specific phase, after the
    `StartTimer` activity succeeded. -/
def runningState (params : TimerWorkflowParams) : TimerState :=
  { createdState params with Status := "running" }

/-- The workflow `TimerWorkflow`, run with the given fuel. -/
def TimerWorkflow (fuel : Nat) (env : TimerEnv) (params : TimerWorkflowParams) :
    TimerResult :=
  let state := createdState params
  let w0 : World := { now := env.start, inbox := env.signals, held := [], trace := [] }
  let started := executeActivity env.fails w0 (Activity.startTimer
    { TimerID := params.TimerID, UserID := params.UserID, Name := params.Name })
  if started.2 then ⟨Outcome.failed "failed to start timer", started.1.trace, state⟩
  else
    let state := runningState params
    let w1 := if params.Settings.NotifyOnStart then
        (executeActivity env.fails started.1
          (Activity.sendNotification (startNotification params))).1
      else started.1
    if params.Type_ = "countdown" then
      completeTimer env.fails params (runCountdownTimer w1 params state)
    else if params.Type_ = "pomodoro" then
      completeTimer env.fails params (runPomodoroTimer fuel env.fails w1 params state)
    else if params.Type_ = "stopwatch" then
      completeTimer env.fails params (runStopwatchTimer fuel w1 state)
    else ⟨Outcome.failed ("unsupported timer type: " ++ params.Type_), w1.trace, state⟩

/-- The activity invocations of a trace with their instants, in order. -/
def activitiesOf (trace : List (Int × Event)) : List (Int × Activity) :=
  trace.filterMap (fun e =>
    match e.2 with
    | Event.activity a => some (e.1, a)
    | Event.newTimer _ => none)

/-- The timers of a trace with the instants at which they were scheduled, in order. -/
def timersOf (trace : List (Int × Event)) : List (Int × Duration) :=
  trace.filterMap (fun e =>
    match e.2 with
    | Event.newTimer d => some (e.1, d)
    | Event.activity _ => none)

/-- The `CompleteTimer` invocations of a trace with their instants, in order. -/
def completeTimerCalls (trace : List (Int × Event)) : List (Int × CompleteTimerRequest) :=
  trace.filterMap (fun e =>
    match e.2 with
    | Event.activity (Activity.completeTimer r) => some (e.1, r)
    | _ => none)

/-- The `SendNotification` invocations of a trace with their instants, in order. -/
def notificationsOf (trace : List (Int × Event)) : List (Int × NotificationRequest) :=
  trace.filterMap (fun e =>
    match e.2 with
    | Event.activity (Activity.sendNotification r) => some (e.1, r)
    | _ => none)

/-- The call `ReceiveAsync` on the signal channel of a name: takes the value the channel
    holds, or else the first delivered signal of the name, and tells whether there was one. -/
def receiveAsync (w : World) (n : String) : World × Bool :=
  if w.held.contains n then ({ w with held := w.held.erase n }, true)
  else
    match w.inbox.find? (fun s => s.name == n && decide (s.time ≤ w.now)) with
    | some s => ({ w with inbox := w.inbox.erase s }, true)
    | none => (w, false)

/-! ### Formatting of times (`Time.Format`) -/

/-- Go's `appendInt`: the decimal digits of `x` padded with zeros to the given width,
    after a minus sign when `x` is negative. -/
def appendInt (x : Int) (width : Nat) : String :=
  let digits := toString x.natAbs
  (if x < 0 then "-" else "") ++ String.mk (List.replicate (width - digits.length) '0')
    ++ digits

/-- The three-letter month names of the layout element `Jan`. -/
def shortMonthName (m : Int) : String :=
  if m = 1 then "Jan" else if m = 2 then "Feb" else if m = 3 then "Mar"
  else if m = 4 then "Apr" else if m = 5 then "May" else if m = 6 then "Jun"
  else if m = 7 then "Jul" else if m = 8 then "Aug" else if m = 9 then "Sep"
  else if m = 10 then "Oct" else if m = 11 then "Nov" else "Dec"

/-- The call `t.Format("Jan 2, 3:04 PM")`. -/
def Time.formatKitchenDate (t : Time) : String :=
  let hr := t.hour % 12
  shortMonthName t.month ++ " " ++ appendInt t.day 0 ++ ", "
    ++ appendInt (if hr = 0 then 12 else hr) 0 ++ ":" ++ appendInt t.minute 2 ++ " "
    ++ (if 12 ≤ t.hour then "PM" else "AM")

/-- The call `t.Format(time.RFC3339)`, layout `2006-01-02T15:04:05Z07:00`. -/
def Time.formatRFC3339 (t : Time) : String :=
  let zone := Int.tdiv t.loc.offset 60
  appendInt t.year 4 ++ "-" ++ appendInt t.month 2 ++ "-" ++ appendInt t.day 2 ++ "T"
    ++ appendInt t.hour 2 ++ ":" ++ appendInt t.minute 2 ++ ":" ++ appendInt t.second 2
    ++ (if t.loc.offset = 0 then "Z"
        else (if zone < 0 then "-" else "+") ++ appendInt (Int.tdiv zone.natAbs 60) 2 ++ ":"
          ++ appendInt (Int.tmod zone.natAbs 60) 2)

/-! ### `TaskReminderWorkflow` of `recurring_tasks.go` -/

/-- The environment of one run of the task reminder workflow: the instant the run starts,
    the signals delivered to it in delivery order, the result of each invocation of
    `CheckTaskCompletion` by its index (`none`: the activity returned an error, `some b`:
    it reported `b`), and the oracle telling which other activity invocations fail. -/
structure ReminderEnv where
  start : Int
  signals : List Signal
  checks : Nat → Option Bool
  fails : Nat → Bool

/-- Result of a workflow run: how it ended and the calls it made with their instants. -/
structure RunResult where
  outcome : Outcome
  trace : List (Int × Event)
deriving DecidableEq, Repr

/-- The notification request built in the iteration that starts with the given value of
    `reminderCount`. -/
def reminderNotification (params : TaskReminderWorkflowParams) (reminderCount : Nat) :
    NotificationRequest :=
  { UserID := params.AssignedTo
    HouseholdID := params.HouseholdID
    Title := "Task Reminder: " ++ params.Name
    Body := "Don't forget to complete your task: " ++ params.Name ++ " (Due: "
      ++ params.DueDate.formatKitchenDate ++ ")"
    Data := [("taskId", params.TaskID), ("occurrenceId", params.OccurrenceID),
             ("type", if (reminderCount : Int) ≥ params.ReminderSettings.EscalateAfter
                      then "escalated_reminder" else "reminder"),
             ("dueDate", params.DueDate.formatRFC3339)] }

/-- The loop `for reminderCount < MaxReminders` of `TaskReminderWorkflow`; the arguments
    are the fuel, the value of `reminderCount` and the state of the run. -/
def reminderLoop (env : ReminderEnv) (params : TaskReminderWorkflowParams) :
    Nat → Nat → World → RunResult
  | 0, reminderCount, w =>
    if (reminderCount : Int) < params.ReminderSettings.MaxReminders then
      ⟨Outcome.outOfFuel, w.trace⟩
    else ⟨Outcome.completed, w.trace⟩
  | fuel + 1, reminderCount, w =>
    if (reminderCount : Int) < params.ReminderSettings.MaxReminders then
      let w1 := (executeActivity env.fails w
        (Activity.checkTaskCompletion { OccurrenceID := params.OccurrenceID })).1
      if env.checks reminderCount = some true then ⟨Outcome.completed, w1.trace⟩
      else
        let w2 := (executeActivity env.fails w1
          (Activity.sendNotification (reminderNotification params reminderCount))).1
        if ((reminderCount + 1 : Nat) : Int) < params.ReminderSettings.MaxReminders then
          let tf := newTimer w2 params.ReminderSettings.ReminderInterval
          match select tf.1 [tf.2, SelCase.receive "task_completed"] with
          | none => ⟨Outcome.blocked, tf.1.trace⟩
          | some (w3, _) =>
            let got := receiveAsync w3 "task_completed"
            if got.2 then ⟨Outcome.completed, got.1.trace⟩
            else reminderLoop env params fuel (reminderCount + 1) got.1
        else reminderLoop env params fuel (reminderCount + 1) w2
    else ⟨Outcome.completed, w.trace⟩

/-- The workflow `TaskReminderWorkflow`, run with the given fuel: the wait until
    `InitialDelay` before the due date, then the reminder loop. -/
def TaskReminderWorkflow (fuel : Nat) (env : ReminderEnv)
    (params : TaskReminderWorkflowParams) : RunResult :=
  let w0 : World := { now := env.start, inbox := env.signals, held := [], trace := [] }
  let firstReminderTime := params.DueDate.UnixNano - params.ReminderSettings.InitialDelay
  let w1 := if w0.now < firstReminderTime then
      { (newTimer w0 (firstReminderTime - w0.now)).1 with now := firstReminderTime }
    else w0
  reminderLoop env params fuel 0 w1

/-- The `CheckTaskCompletion` invocations of a trace with their instants, in order. -/
def checksOf (trace : List (Int × Event)) : List (Int × CheckTaskCompletionRequest) :=
  trace.filterMap (fun e =>
    match e.2 with
    | Event.activity (Activity.checkTaskCompletion r) => some (e.1, r)
    | _ => none)

/-! ### `laundry.go`

The source starts the two reminder loops with a `go` statement.  `LaundryWorkflow` below
follows the main flow of the workflow and records which loops it started; the section
after it follows the wash reminder loop on the goroutine it is started on. -/

/-- Input of the laundry workflow (`LaundryWorkflowParams`). -/
structure LaundryWorkflowParams where
  LaundryID : String
  UserID : String
  HouseholdID : String
  LoadType : String
  WashTime : Duration
  DryTime : Duration
  Settings : LaundrySettings
deriving DecidableEq, Repr

/-- The state of a laundry (`LaundryState`); the times are instants. -/
structure LaundryState where
  Status : String
  WashStarted : Int
  WashFinished : Int
  DryStarted : Int
  DryFinished : Int
  RemindersLeft : Int
  LastReminder : Int
deriving DecidableEq, Repr

/-- The environment of one run of the laundry workflow: the instant the run starts, the
    signals delivered to it in delivery order, the oracle telling which activity
    invocations fail, and the reading of the wall clock of the worker at the moment the
    `CompleteLaundry` request is built (`time.Since`). -/
structure LaundryEnv where
  start : Int
  signals : List Signal
  fails : Nat → Bool
  wallClock : Int

/-- The state of a run inside the laundry workflow: the reminder loops started with `go`
    so far, and whether the run stopped (blocked for ever, out of fuel). -/
structure LaundryPhase where
  world : World
  state : LaundryState
  started : List String
  stopped : Option Outcome
deriving DecidableEq, Repr

/-- The notification requests of `laundry.go`: they differ in title, body and type. -/
def laundryNotification (params : LaundryWorkflowParams) (title body type : String) :
    NotificationRequest :=
  { UserID := params.UserID
    HouseholdID := params.HouseholdID
    Title := title
    Body := body
    Data := [("laundryId", params.LaundryID), ("type", type),
             ("loadType", params.LoadType)] }

/-- The "Laundry Started" notification. -/
def washStartNotification (params : LaundryWorkflowParams) : NotificationRequest :=
  laundryNotification params "Laundry Started"
    ("Wash cycle started for " ++ params.LoadType ++ " load") "wash_started"

/-- The "Wash Cycle Complete" notification. -/
def washDoneNotification (params : LaundryWorkflowParams) : NotificationRequest :=
  laundryNotification params "Wash Cycle Complete"
    "Your laundry is ready to be moved to the dryer" "wash_complete"

/-- The "Dry Cycle Started" notification. -/
def dryStartNotification (params : LaundryWorkflowParams) : NotificationRequest :=
  laundryNotification params "Dry Cycle Started"
    ("Dry cycle started for " ++ params.LoadType ++ " load") "dry_started"

/-- The "Laundry Complete" notification. -/
def dryDoneNotification (params : LaundryWorkflowParams) : NotificationRequest :=
  laundryNotification params "Laundry Complete"
    "Your laundry is ready to be folded and put away" "dry_complete"

/-- The "Laundry Reminder" notification of `runWashReminders`. -/
def washReminderNotification (params : LaundryWorkflowParams) : NotificationRequest :=
  laundryNotification params "Laundry Reminder"
    "Don't forget to move your laundry to the dryer" "wash_reminder"

/-- The condition under which the cycles start their reminder loop. -/
def remindersOn (params : LaundryWorkflowParams) : Bool :=
  params.Settings.NotifyReminders && decide (params.Settings.ReminderInterval > 0)

/-- The function `runWashCycle` up to its `Select`: the status `washing`, the start
    notification when enabled and the wash timer; with the cases registered on the
    selector, the wash timer before the `wash_complete` channel. -/
def washBegin (fails : Nat → Bool) (w : World) (params : LaundryWorkflowParams)
    (state : LaundryState) : World × LaundryState × List SelCase :=
  let state1 := { state with Status := "washing", WashStarted := w.now }
  let w1 := if params.Settings.NotifyOnStart then
      (executeActivity fails w (Activity.sendNotification (washStartNotification params))).1
    else w
  let tf := newTimer w1 params.WashTime
  (tf.1, state1, [tf.2, SelCase.receive "wash_complete"])

/-- The function `runWashCycle` from the return of its `Select`: the status `wash_done`
    set by either callback, the completion notification when enabled, and the start of
    the wash reminder loop when reminders are on. -/
def washEnd (fails : Nat → Bool) (w : World) (params : LaundryWorkflowParams)
    (state : LaundryState) : LaundryPhase :=
  let state2 := { state with Status := "wash_done", WashFinished := w.now }
  let w3 := if params.Settings.NotifyOnWashDone then
      (executeActivity fails w (Activity.sendNotification (washDoneNotification params))).1
    else w
  ⟨w3, state2, if remindersOn params then ["runWashReminders"] else [], none⟩

/-- The function `runWashCycle`. -/
def runWashCycle (fails : Nat → Bool) (w : World) (params : LaundryWorkflowParams)
    (state : LaundryState) : LaundryPhase :=
  let b := washBegin fails w params state
  match select b.1 b.2.2 with
  | none => ⟨b.1, b.2.1, [], some Outcome.blocked⟩
  | some (w2, _) => washEnd fails w2 params b.2.1

/-- The function `runDryCycle` up to its first `Select`: the auto-start timer of five
    minutes when `AutoStart` is set, registered before the `start_dry` channel. -/
def dryArm (w : World) (params : LaundryWorkflowParams) : World × List SelCase :=
  if params.Settings.AutoStart then
    let tf := newTimer w (5 * Minute)
    (tf.1, [tf.2, SelCase.receive "start_dry"])
  else (w, [SelCase.receive "start_dry"])

/-- The entry into the drying phase after the first `Select` of `runDryCycle` returned. -/
def dryEnter (w : World) (state : LaundryState) : LaundryState :=
  { state with Status := "drying", DryStarted := w.now }

/-- The first part of `runDryCycle`: the auto-start timer when enabled, one `Select` over
    that timer and the `start_dry` channel, then the entry into the drying phase. -/
def awaitDryStart (w : World) (params : LaundryWorkflowParams) (state : LaundryState) :
    LaundryPhase :=
  let armed := dryArm w params
  match select armed.1 armed.2 with
  | none => ⟨armed.1, state, [], some Outcome.blocked⟩
  | some (w1, _) => ⟨w1, dryEnter w1 state, [], none⟩

/-- The function `runDryCycle` between its two `Select` calls: the "Dry Cycle Started"
    notification and the dry timer; with the cases registered on the second selector. -/
def dryBegin (fails : Nat → Bool) (w : World) (params : LaundryWorkflowParams) :
    World × List SelCase :=
  let w1 := (executeActivity fails w
    (Activity.sendNotification (dryStartNotification params))).1
  let tf := newTimer w1 params.DryTime
  (tf.1, [tf.2, SelCase.receive "dry_complete"])

/-- The function `runDryCycle` from the return of its second `Select`: the status
    `dry_done` set by either callback, the completion notification when enabled, and the
    start of the dry reminder loop when reminders are on. -/
def dryEnd (fails : Nat → Bool) (w : World) (params : LaundryWorkflowParams)
    (state : LaundryState) : LaundryPhase :=
  let state2 := { state with Status := "dry_done", DryFinished := w.now }
  let w3 := if params.Settings.NotifyOnDryDone then
      (executeActivity fails w (Activity.sendNotification (dryDoneNotification params))).1
    else w
  ⟨w3, state2, if remindersOn params then ["runDryReminders"] else [], none⟩

/-- The function `runDryCycle`. -/
def runDryCycle (fails : Nat → Bool) (w : World) (params : LaundryWorkflowParams)
    (state : LaundryState) : LaundryPhase :=
  let begun := awaitDryStart w params state
  match begun.stopped with
  | some o => ⟨begun.world, begun.state, [], some o⟩
  | none =>
    let b := dryBegin fails begun.world params
    match select b.1 b.2 with
    | none => ⟨b.1, begun.state, [], some Outcome.blocked⟩
    | some (w2, _) => dryEnd fails w2 params begun.state

/-- Result of a run of the laundry workflow: how it ended, the calls of the main flow with
    their instants, the final state, and the reminder loops started with `go`. -/
structure LaundryResult where
  outcome : Outcome
  trace : List (Int × Event)
  state : LaundryState
  started : List String
deriving DecidableEq, Repr

/-- The initial laundry state of `LaundryWorkflow`. -/
def createdLaundry (params : LaundryWorkflowParams) : LaundryState :=
  { Status := "created", WashStarted := zeroTimeInstant, WashFinished := zeroTimeInstant,
    DryStarted := zeroTimeInstant, DryFinished := zeroTimeInstant,
    RemindersLeft := params.Settings.MaxReminders, LastReminder := zeroTimeInstant }

/-- The tail of `LaundryWorkflow` after the phases: the status `completed` and the
    `CompleteLaundry` activity. -/
def completeLaundry (env : LaundryEnv) (params : LaundryWorkflowParams)
    (ph : LaundryPhase) (started : List String) : LaundryResult :=
  match ph.stopped with
  | some o => ⟨o, ph.world.trace, ph.state, started⟩
  | none =>
    let state := { ph.state with Status := "completed" }
    let w1 := (executeActivity env.fails ph.world (Activity.completeLaundry
      { LaundryID := params.LaundryID, UserID := params.UserID,
        WashTime := state.WashFinished - state.WashStarted,
        DryTime := state.DryFinished - state.DryStarted,
        TotalTime := env.wallClock - state.WashStarted,
        Status := state.Status })).1
    ⟨Outcome.completed, w1.trace, state, started⟩

/-- The workflow `LaundryWorkflow`. -/
def LaundryWorkflow (env : LaundryEnv) (params : LaundryWorkflowParams) : LaundryResult :=
  let state := createdLaundry params
  let w0 : World := { now := env.start, inbox := env.signals, held := [], trace := [] }
  let begun := executeActivity env.fails w0 (Activity.startLaundry
    { LaundryID := params.LaundryID, UserID := params.UserID,
      HouseholdID := params.HouseholdID, LoadType := params.LoadType,
      Settings := params.Settings })
  if begun.2 then ⟨Outcome.failed "failed to start laundry tracking", begun.1.trace, state, []⟩
  else
    let wash := runWashCycle env.fails begun.1 params state
    match wash.stopped with
    | some o => ⟨o, wash.world.trace, wash.state, wash.started⟩
    | none =>
      if params.DryTime > 0 then
        let dry := runDryCycle env.fails wash.world params wash.state
        completeLaundry env params dry (wash.started ++ dry.started)
      else completeLaundry env params wash wash.started

/-! ### The reminder loops of `laundry.go`, started with `go`

`runWashCycle` starts `runWashReminders` with the plain `go` statement, not with
`workflow.Go`: the loop runs on a goroutine of its own, which the dispatcher of the
workflow does not know.  The Temporal SDK looks for the running coroutine of the
dispatcher whenever workflow code creates a timer, selects or receives, and panics when
the caller is not one; a panic that nothing recovers ends the worker process. -/

/-- Who runs a piece of workflow code: a coroutine of the workflow's dispatcher (the
    workflow function, and whatever it starts with `workflow.Go`), or a goroutine started
    with the `go` statement. -/
inductive Routine where
  | coroutine
  | goroutine
deriving DecidableEq, Repr

/-- The panic of the SDK when workflow code runs outside the coroutines of the
    dispatcher. -/
def outsideWorkflowContext : String :=
  "getState: illegal access from outside of workflow context"

/-- The function `workflow.NewTimer` as called by a routine: a coroutine gets its timer
    future, a goroutine gets the panic of the SDK. -/
def workflowNewTimer (r : Routine) (w : World) (d : Duration) :
    Except String (World × SelCase) :=
  match r with
  | Routine.coroutine => Except.ok (newTimer w d)
  | Routine.goroutine => Except.error outsideWorkflowContext

/-- How a reminder loop ended, with the world and the laundry state it left. -/
structure LoopResult where
  outcome : Outcome
  world : World
  state : LaundryState
deriving DecidableEq, Repr

/-- The function `runWashReminders`, run by the routine `r`: while reminders are left and
    the status is `wash_done`, a timer of the reminder interval, then a `Select` over that
    timer, whose callback sends the reminder, counts it and notes its instant, and the
    `start_dry` channel, whose callback only returns.  The fuel bounds the iterations. -/
def runWashReminders (r : Routine) (fails : Nat → Bool) (params : LaundryWorkflowParams) :
    Nat → World → LaundryState → LoopResult
  | 0, w, state => ⟨Outcome.outOfFuel, w, state⟩
  | fuel + 1, w, state =>
    if state.RemindersLeft > 0 ∧ state.Status = "wash_done" then
      match workflowNewTimer r w params.Settings.ReminderInterval with
      | Except.error msg => ⟨Outcome.panicked msg, w, state⟩
      | Except.ok tf =>
        match select tf.1 [tf.2, SelCase.receive "start_dry"] with
        | none => ⟨Outcome.blocked, tf.1, state⟩
        | some (w1, SelCase.future _) =>
          let w2 := (executeActivity fails w1
            (Activity.sendNotification (washReminderNotification params))).1
          runWashReminders r fails params fuel w2
            { state with RemindersLeft := state.RemindersLeft - 1, LastReminder := w2.now }
        | some (w1, SelCase.receive _) => runWashReminders r fails params fuel w1 state
    else ⟨Outcome.completed, w, state⟩

/-- The statement `go runWashReminders(ctx, params, state)` of `runWashCycle`: the loop on
    a goroutine, from the world and the state in which the wash cycle ended. -/
def goRunWashReminders (fuel : Nat) (fails : Nat → Bool) (params : LaundryWorkflowParams)
    (ph : LaundryPhase) : LoopResult :=
  runWashReminders Routine.goroutine fails params fuel ph.world ph.state

/-- The wash reminders of a trace with their instants, in order. -/
def remindersOf (params : LaundryWorkflowParams) (trace : List (Int × Event)) :
    List (Int × NotificationRequest) :=
  (notificationsOf trace).filter (fun e => e.2 = washReminderNotification params)


/-! ### The pomodoro schedule in the words of the specification -/

/-- A period of a pomodoro run: work or break, the cycle it belongs to, its length. -/
structure Period where
  isBreak : Bool
  cycle : Nat
  duration : Duration
deriving DecidableEq, Repr

/-- The length of the break after `c` completed cycles: the long break when `c` is a
    multiple of the break interval, the short break otherwise. -/
def breakDuration (cfg : PomodoroConfig) (c : Nat) : Duration :=
  if (c : Int) % cfg.breakInterval = 0 then cfg.longBreak else cfg.shortBreak

/-- The periods of cycle `c` of `n`: a work period, followed, unless the cycle is the
    last, by a break. -/
def cyclePeriods (cfg : PomodoroConfig) (n c : Nat) : List Period :=
  ⟨false, c, cfg.workDuration⟩ :: (if c < n then [⟨true, c, breakDuration cfg c⟩] else [])

/-- The schedule of the specification: the periods of the cycles `1..n` in order. -/
def pomodoroPlan (cfg : PomodoroConfig) (n : Nat) : List Period :=
  (List.range' 1 n).flatMap (cyclePeriods cfg n)

/-- The calls of one period: its timer, then the period notification. -/
def periodEvents (params : TimerWorkflowParams) (cfg : PomodoroConfig) (p : Period) :
    List Event :=
  [Event.newTimer p.duration,
   Event.activity (Activity.sendNotification (periodNotification params p.cycle p.isBreak
     (if p.isBreak then
        (if (p.cycle : Int) % cfg.breakInterval = 0 then "Long break time!"
         else "Short break time!")
      else "Work time!")))]

/-! ### Properties of traces and worlds used in the statements -/

/-- No `CompleteTimer` invocation and no "Timer Completed" notification in a trace. -/
def NoCompletion (params : TimerWorkflowParams) (trace : List (Int × Event)) : Prop :=
  completeTimerCalls trace = []
  ∧ ∀ e ∈ trace, e.2 ≠ Event.activity (Activity.sendNotification (finishNotification params))

/-- No signal of the name is held by its channel or waits in the inbox. -/
def Silent (w : World) (n : String) : Prop :=
  n ∉ w.held ∧ ∀ s ∈ w.inbox, s.name ≠ n

instance (params : TimerWorkflowParams) (trace : List (Int × Event)) :
    Decidable (NoCompletion params trace) := by
  unfold NoCompletion; infer_instance

instance (w : World) (n : String) : Decidable (Silent w n) := by
  unfold Silent; infer_instance

/-! ### Example inputs -/

/-- An environment that starts at the Unix epoch, delivers no signal and fails no
    activity. -/
def quietEnv : RecurringEnv := ⟨0, [], fun _ => false⟩

/-- Midnight UTC of a date. -/
def midnight (y m d : Int) : Time := ⟨y, m, d, 0, 0, 0, 0, UTC⟩

/-- A recurring task with the given rule, two members and automatic assignment. -/
def choresParams (rule : RecurrenceRule) : RecurringTaskWorkflowParams :=
  { TaskID := "task", UserID := "user-001", HouseholdID := "household-001",
    Name := "Chores", Description := "", RecurrenceRule := rule,
    AssignedMembers := ["A", "B"], DueDuration := Hour,
    ReminderSettings := ⟨false, 0, 0, 0, 0⟩, AutoAssign := true }

/-- Weekly on Monday and Friday, starting on Sunday 2025-01-05, two occurrences. -/
def sundayRule : RecurrenceRule :=
  ⟨"weekly", 1, [1, 5], 0, midnight 2025 1 5, none, 2⟩

/-- Monthly on day 31, starting on 2024-01-31, five occurrences. -/
def day31Rule : RecurrenceRule :=
  ⟨"monthly", 1, [], 31, midnight 2024 1 31, none, 5⟩

/-- Daily from 2025-01-01, three occurrences. -/
def dailyRule : RecurrenceRule :=
  ⟨"daily", 1, [], 0, midnight 2025 1 1, none, 3⟩

/-- Weekly with a day list that holds no weekday value, three occurrences. -/
def day7Rule : RecurrenceRule :=
  ⟨"weekly", 1, [7], 0, midnight 2025 1 5, none, 3⟩

/-- Daily from 2025-01-01 until 2025-01-03, at most ten occurrences. -/
def endingRule : RecurrenceRule :=
  ⟨"daily", 1, [], 0, midnight 2025 1 1, some (midnight 2025 1 3), 10⟩

/-- Daily without bound, first due one hour after the Unix epoch. -/
def epochRule : RecurrenceRule :=
  ⟨"daily", 1, [], 0, ⟨1970, 1, 1, 1, 0, 0, 0, UTC⟩, none, 0⟩

/-- A monthly rule for day 31 whose interval is the largest `int`. -/
def hugeMonthlyRule : RecurrenceRule :=
  ⟨"monthly", 9223372036854775807, [], 31, midnight 2025 1 31, none, 0⟩

/-- A daily rule whose interval is the largest `int`. -/
def hugeDailyRule : RecurrenceRule :=
  ⟨"daily", 9223372036854775807, [], 0, midnight 2025 1 31, none, 0⟩

/-- An environment that starts at the Unix epoch and delivers one cancel signal twelve
    hours later. -/
def cancelAtNoonEnv : RecurringEnv := ⟨0, [12 * Hour], fun _ => false⟩

/-- A five minute countdown with both notifications off. -/
def countdown5m : TimerWorkflowParams :=
  { TimerID := "timer-001", UserID := "user-001", HouseholdID := "household-001",
    Name := "Cooking Timer", Type_ := "countdown", Duration := 5 * Minute,
    Settings := ⟨false, false, false, false, 0, 0, 0, 0, 0, ""⟩ }

/-- A pause two minutes after the start and a resume one minute later. -/
def pauseResumeEnv : TimerEnv :=
  ⟨0, [⟨2 * Minute, "pause_timer"⟩, ⟨3 * Minute, "resume_timer"⟩], fun _ => false⟩

/-- A pomodoro of four repetitions with a long break every four cycles. -/
def pomodoro4 : TimerWorkflowParams :=
  { TimerID := "timer-002", UserID := "user-001", HouseholdID := "household-001",
    Name := "Focus", Type_ := "pomodoro", Duration := 0,
    Settings := ⟨false, false, false, false, 25 * Minute, 5 * Minute, 15 * Minute, 4, 4, ""⟩ }

/-- A pomodoro of five repetitions whose durations and break interval are left at zero. -/
def pomodoroZero : TimerWorkflowParams :=
  { TimerID := "timer-003", UserID := "user-001", HouseholdID := "household-001",
    Name := "Focus", Type_ := "pomodoro", Duration := 0,
    Settings := ⟨false, false, false, false, 0, 0, 0, 0, 5, ""⟩ }

/-- A world at the Unix epoch without signals. -/
def quietWorld : World := ⟨0, [], [], []⟩

/-- A stopwatch with both notifications off. -/
def stopwatch1 : TimerWorkflowParams :=
  { TimerID := "timer-004", UserID := "user-001", HouseholdID := "household-001",
    Name := "Run", Type_ := "stopwatch", Duration := 0,
    Settings := ⟨false, false, false, false, 0, 0, 0, 0, 0, ""⟩ }

/-- A world at the Unix epoch to which a pause is delivered after one minute, a resume
    after two and a stop after three. -/
def pauseResumeStopWorld : World :=
  ⟨0, [⟨1 * Minute, "pause_timer"⟩, ⟨2 * Minute, "resume_timer"⟩, ⟨3 * Minute, "stop_timer"⟩],
    [], []⟩

/-- A five minute countdown with the start and the finish notification on. -/
def countdownNotify : TimerWorkflowParams :=
  { TimerID := "timer-005", UserID := "user-001", HouseholdID := "household-001",
    Name := "Tea", Type_ := "countdown", Duration := 5 * Minute,
    Settings := ⟨false, true, false, true, 0, 0, 0, 0, 0, ""⟩ }

/-- A timer environment that starts at the Unix epoch, without signals or failures. -/
def quietTimerEnv : TimerEnv := ⟨0, [], fun _ => false⟩

/-- Reminders for a task due at 02:00 on the day of the Unix epoch: the first one hour
    before, then every fifteen minutes, at most three, escalated from the third. -/
def reminder3 : TaskReminderWorkflowParams :=
  { OccurrenceID := "occ-001", TaskID := "task-001", UserID := "user-001",
    HouseholdID := "household-001", AssignedTo := "user-002",
    DueDate := ⟨1970, 1, 1, 2, 0, 0, 0, UTC⟩, Name := "Dishes",
    ReminderSettings := ⟨true, 1 * Hour, 15 * Minute, 3, 2⟩ }

/-- A reminder environment in which no check reports the task completed. -/
def pendingEnv : ReminderEnv := ⟨0, [], fun _ => some false, fun _ => false⟩

/-- A reminder environment in which the second check reports the task completed. -/
def secondDoneEnv : ReminderEnv := ⟨0, [], fun k => some (k == 1), fun _ => false⟩

/-- A laundry of thirty minutes of wash and forty-five of dry with auto-start, the three
    notifications on and reminders off. -/
def laundryFull : LaundryWorkflowParams :=
  { LaundryID := "laundry-001", UserID := "user-001", HouseholdID := "household-001",
    LoadType := "normal", WashTime := 30 * Minute, DryTime := 45 * Minute,
    Settings := ⟨true, true, true, true, false, 0, 0, "warm", "medium", "medium", false,
      false⟩ }

/-- The laundry `laundryFull` without a dry cycle. -/
def laundryWashOnly : LaundryWorkflowParams := { laundryFull with DryTime := 0 }

/-- A laundry with reminders every ten minutes, at most two, and no auto-start. -/
def laundryReminders : LaundryWorkflowParams :=
  { LaundryID := "laundry-002", UserID := "user-001", HouseholdID := "household-001",
    LoadType := "delicate", WashTime := 25 * Minute, DryTime := 40 * Minute,
    Settings := ⟨false, false, true, true, true, 10 * Minute, 2, "", "", "", false, false⟩ }

/-- A laundry environment that starts at the Unix epoch with the given signals, without
    failures, whose wall clock reads two hours at the end. -/
def laundryEnv (signals : List Signal) : LaundryEnv :=
  ⟨0, signals, fun _ => false, 2 * Hour⟩

/-- The end of the wash cycle in the run of `LaundryWorkflow` in `laundryEnv signals`. -/
def washed (params : LaundryWorkflowParams) (signals : List Signal) : LaundryPhase :=
  runWashCycle (fun _ => false)
    (executeActivity (fun _ => false) ⟨0, signals, [], []⟩ (Activity.startLaundry
      { LaundryID := params.LaundryID, UserID := params.UserID,
        HouseholdID := params.HouseholdID, LoadType := params.LoadType,
        Settings := params.Settings })).1
    params (createdLaundry params)

/-! ### Further example inputs and projections of traces -/

/-- A timer environment that delivers a stop two minutes after the start. -/
def stopEnv : TimerEnv := ⟨0, [⟨2 * Minute, "stop_timer"⟩], fun _ => false⟩

/-- A timer environment that delivers a pause two minutes after the start. -/
def pauseEnv : TimerEnv := ⟨0, [⟨2 * Minute, "pause_timer"⟩], fun _ => false⟩

/-- A timer environment without signals in which the first activity, `StartTimer`, fails. -/
def failingStartEnv : TimerEnv := ⟨0, [], fun k => k == 0⟩

/-- A timer of a type the workflow does not know, with both notifications on. -/
def intervalTimer : TimerWorkflowParams :=
  { TimerID := "timer-006", UserID := "user-001", HouseholdID := "household-001",
    Name := "Laps", Type_ := "interval", Duration := 5 * Minute,
    Settings := ⟨false, true, false, true, 0, 0, 0, 0, 0, ""⟩ }

/-- The world in which `TimerWorkflow` enters the phase of a timer without start
    notification: the `StartTimer` invocation is recorded. -/
def afterStart (env : TimerEnv) (params : TimerWorkflowParams) : World :=
  (executeActivity env.fails ⟨env.start, env.signals, [], []⟩ (Activity.startTimer
    { TimerID := params.TimerID, UserID := params.UserID, Name := params.Name })).1

/-- The `StartTimer` invocations of a trace with their instants, in order. -/
def startTimerCalls (trace : List (Int × Event)) : List (Int × StartTimerRequest) :=
  trace.filterMap (fun e =>
    match e.2 with
    | Event.activity (Activity.startTimer r) => some (e.1, r)
    | _ => none)

/-- A pomodoro of two repetitions with the start and the finish notification on. -/
def pomodoro2 : TimerWorkflowParams :=
  { TimerID := "timer-002", UserID := "user-001", HouseholdID := "household-001",
    Name := "Study Session", Type_ := "pomodoro", Duration := 25 * Minute,
    Settings := ⟨false, true, false, true, 25 * Minute, 5 * Minute, 15 * Minute, 4, 2, ""⟩ }

/-- The `StartLaundry` invocations of a trace with their instants, in order. -/
def startLaundryCalls (trace : List (Int × Event)) : List (Int × StartLaundryRequest) :=
  trace.filterMap (fun e =>
    match e.2 with
    | Event.activity (Activity.startLaundry r) => some (e.1, r)
    | _ => none)

/-- The `CompleteLaundry` invocations of a trace with their instants, in order. -/
def completeLaundryCalls (trace : List (Int × Event)) :
    List (Int × CompleteLaundryRequest) :=
  trace.filterMap (fun e =>
    match e.2 with
    | Event.activity (Activity.completeLaundry r) => some (e.1, r)
    | _ => none)

/-- The request of a call without the field `TotalTime` of a `CompleteLaundry` request. -/
def withoutTotalTime : Event → Event
  | Event.activity (Activity.completeLaundry r) =>
    Event.activity (Activity.completeLaundry { r with TotalTime := 0 })
  | e => e

/-- The environment `laundryEnv signals` on a worker whose wall clock reads three hours
    at the end: the same start, signals and activity results. -/
def laundryEnvLate (signals : List Signal) : LaundryEnv :=
  { laundryEnv signals with wallClock := 3 * Hour }



/-- Daily from 2025-01-01, three occurrences, with reminders enabled. -/
def remindedParams : RecurringTaskWorkflowParams :=
  { choresParams dailyRule with ReminderSettings := ⟨true, Hour, 15 * Minute, 3, 2⟩ }

/-- An environment without cancel signal in which the `CreateTaskOccurrence` activity of
    the second occurrence fails. -/
def secondFailsEnv : RecurringEnv := ⟨0, [], fun k => k == 1⟩

/-! ### `GetTasks` of `api/internal/handlers/tasks.go` -/

/-- A task of a response (`TaskResponse`); the times are instants. -/
structure TaskResponse where
  ID : String
  Title : String
  Description : Option String
  Status : String
  Priority : Option String
  CreatedAt : Int
  UpdatedAt : Int
  CompletedAt : Option Int
  DueAt : Option Int
  Tags : List String
  HouseholdID : String
  AssignedTo : Option String
deriving DecidableEq, Repr

/-- The body of the response of `GetTasks` (`gin.H` with the keys tasks, total, limit,
    offset). -/
structure TasksPage where
  tasks : List TaskResponse
  total : Int
  limit : Int
  offset : Int
deriving DecidableEq, Repr

/-- What a request to `GetTasks` ends in: the 401 response, the 200 response with its
    body, or a run-time panic of the handler. -/
inductive TasksResponse where
  | unauthorized (error : String)
  | ok (page : TasksPage)
  | panicked (msg : String)
deriving DecidableEq, Repr

/-- The mock tasks of `GetTasks`; `now` is the reading of `time.Now()`. -/
def mockTasks (householdID : String) (now : Int) : List TaskResponse :=
  [{ ID := "task-1", Title := "Take out trash", Description := some "Weekly trash pickup",
     Status := "pending", Priority := some "medium", CreatedAt := now + -24 * Hour,
     UpdatedAt := now + -24 * Hour, CompletedAt := none, DueAt := some (now + 2 * Hour),
     Tags := ["weekly", "household"], HouseholdID := householdID, AssignedTo := none },
   { ID := "task-2", Title := "Water plants", Description := some "Water all indoor plants",
     Status := "completed", Priority := some "low", CreatedAt := now + -48 * Hour,
     UpdatedAt := now + -2 * Hour, CompletedAt := some (now + -2 * Hour), DueAt := none,
     Tags := ["plants", "daily"], HouseholdID := householdID, AssignedTo := none },
   { ID := "task-3", Title := "Grocery shopping",
     Description := some "Buy items from shopping list", Status := "pending",
     Priority := some "high", CreatedAt := now + -12 * Hour, UpdatedAt := now + -12 * Hour,
     CompletedAt := none, DueAt := some (now + 24 * Hour), Tags := ["shopping", "food"],
     HouseholdID := householdID, AssignedTo := none }]

/-- The status filter of `GetTasks`: every task when the status is empty, the tasks of
    the status otherwise. -/
def filterByStatus (tasks : List TaskResponse) (status : String) : List TaskResponse :=
  if status ≠ "" then tasks.filter (fun task => task.Status = status) else tasks

/-- The bounds `start` and `end` that `GetTasks` computes for a list of the given length:
    `offset` and `offset + limit`, a sum of two `int` values, each lowered to the length
    when above it. -/
def pageBounds (len : Nat) (limit offset : Int) : Int × Int :=
  let start := offset
  let end_ := wrapInt (offset + limit)
  let start := if start > len then (len : Int) else start
  let end_ := if end_ > len then (len : Int) else end_
  (start, end_)

/-- The slice expression `s[lo:hi]` with its run-time check `0 <= lo <= hi <= len(s)`
    (an upper bound within the length is within the capacity). -/
def sliceExpr {α : Type} (s : List α) (lo hi : Int) : Except String (List α) :=
  if 0 ≤ lo ∧ lo ≤ hi ∧ hi ≤ s.length then
    Except.ok ((s.drop lo.toNat).take (hi.toNat - lo.toNat))
  else Except.error "slice bounds out of range"

/-- The handler `GetTasks`.  `householdID` is the value of the context key
    `household_id`, if any; `limit` and `offset` are the integers `strconv.Atoi` yields
    for the query values (50 and 0 when the parameter is absent). -/
def GetTasks (householdID : Option String) (now : Int) (status : String)
    (limit offset : Int) : TasksResponse :=
  match householdID with
  | none => TasksResponse.unauthorized "Household not found in token"
  | some id =>
    let tasks := filterByStatus (mockTasks id now) status
    let bounds := pageBounds tasks.length limit offset
    match sliceExpr tasks bounds.1 bounds.2 with
    | Except.error msg => TasksResponse.panicked msg
    | Except.ok page =>
      TasksResponse.ok
        { tasks := page, total := tasks.length, limit := limit, offset := offset }

/-! ### `validateStrongPassword` of `api/pkg/validation/validator.go` -/

/-- The character classes of package `unicode` beyond ASCII (general categories Lu, Ll,
    N, P and S), as read from the tables of the package. -/
structure UnicodeTables where
  upper : Char → Bool
  lower : Char → Bool
  number : Char → Bool
  punct : Char → Bool
  symbol : Char → Bool

/-- Go's `unicode.IsUpper`: on ASCII the letters A to Z. -/
def isUpper (tables : UnicodeTables) (r : Char) : Bool :=
  if r.toNat < 128 then decide (65 ≤ r.toNat ∧ r.toNat ≤ 90) else tables.upper r

/-- Go's `unicode.IsLower`: on ASCII the letters a to z. -/
def isLower (tables : UnicodeTables) (r : Char) : Bool :=
  if r.toNat < 128 then decide (97 ≤ r.toNat ∧ r.toNat ≤ 122) else tables.lower r

/-- Go's `unicode.IsNumber`: on ASCII the digits 0 to 9. -/
def isNumber (tables : UnicodeTables) (r : Char) : Bool :=
  if r.toNat < 128 then decide (48 ≤ r.toNat ∧ r.toNat ≤ 57) else tables.number r

/-- Go's `unicode.IsPunct`: on ASCII the characters of category P, by code point. -/
def isPunct (tables : UnicodeTables) (r : Char) : Bool :=
  if r.toNat < 128 then
    decide (r.toNat ∈ [33, 34, 35, 37, 38, 39, 40, 41, 42, 44, 45, 46, 47, 58, 59, 63, 64,
      91, 92, 93, 95, 123, 125])
  else tables.punct r

/-- Go's `unicode.IsSymbol`: on ASCII the characters of category S, by code point. -/
def isSymbol (tables : UnicodeTables) (r : Char) : Bool :=
  if r.toNat < 128 then decide (r.toNat ∈ [36, 43, 60, 61, 62, 94, 96, 124, 126])
  else tables.symbol r

/-- The four flags of `validateStrongPassword`. -/
structure PasswordFlags where
  hasUpper : Bool
  hasLower : Bool
  hasNumber : Bool
  hasSpecial : Bool
deriving DecidableEq, Repr

/-- The `switch` in the loop of `validateStrongPassword`: the first case that holds for
    the character sets its flag. -/
def classify (tables : UnicodeTables) (flags : PasswordFlags) (char : Char) : PasswordFlags :=
  if isUpper tables char then { flags with hasUpper := true }
  else if isLower tables char then { flags with hasLower := true }
  else if isNumber tables char then { flags with hasNumber := true }
  else if isPunct tables char || isSymbol tables char then { flags with hasSpecial := true }
  else flags

/-- The function `validateStrongPassword` on the string of the field: `len(password)` is
    the number of bytes of its UTF-8 encoding, the loop ranges over its characters. -/
def validateStrongPassword (tables : UnicodeTables) (password : String) : Bool :=
  if password.utf8ByteSize < 8 then false
  else
    let flags := password.toList.foldl (classify tables) ⟨false, false, false, false⟩
    flags.hasUpper && flags.hasLower && flags.hasNumber && flags.hasSpecial

/-! ### `events/types.go` of the Kafka service, with the part of `encoding/json` it uses

`ToJSON` and `FromJSON` call `json.Marshal` and `json.Unmarshal`.  Here a Go `string` and a
`[]byte` are the list of their bytes, numbers below 256, whether they are valid UTF-8 or
not.  `json.Marshal` is followed in what it writes (`marshalValue`, `printValue`),
`json.Unmarshal` in its two passes: the scanner checks the text (`parseJSON`, which hands
on the document it has recognised, the strings and numbers in it as they are written),
then the decoder stores the values, unquoting the strings and converting the numbers.  A
`float64` is a sign, a mantissa and a binary exponent, an infinity or NaN; the number of a
text is rounded to the nearest one.  What `json.Marshal` takes from package `strconv`, and
what it writes differently in different releases of Go, is a parameter (`Encoder`).  A Go
map is represented by the list of its entries in increasing order of the keys, `none`
standing for the nil map. -/

/-- The bytes of a text of ASCII characters. -/
def ascii (s : String) : List Nat := s.toList.map Char.toNat

/-- A `float64`: a finite value `± mantissa * 2 ^ exponent` (zero with mantissa and exponent
    zero; otherwise the mantissa has 53 bits, or fewer at the least exponent, -1074), an
    infinity, or NaN. -/
inductive Float64 where
  | finite (negative : Bool) (mantissa : Nat) (exponent : Int)
  | inf (negative : Bool)
  | nan
deriving DecidableEq, Repr

/-- A JSON document as the scanner of `encoding/json` recognises it in a text: a string
    and the key of a member are the bytes between the quotes as written, escapes included;
    a number is its literal; the members of an object are in the order of the text. -/
inductive JSONValue where
  | null
  | bool (b : Bool)
  | number (literal : List Nat)
  | string (raw : List Nat)
  | array (elems : List JSONValue)
  | object (members : List (List Nat × JSONValue))

/-- A value of type `interface{}` in the `Data` map of an event, of one of these dynamic
    types: the nil interface, a `bool`, an `int`, a `float64`, a `string`, a non-nil
    `[]interface{}` or a non-nil `map[string]interface{}`.  Values of other dynamic types
    are outside the model. -/
inductive GoValue where
  | nil
  | bool (b : Bool)
  | int (n : Int)
  | float64 (x : Float64)
  | string (s : List Nat)
  | slice (elems : List GoValue)
  | map (entries : List (List Nat × GoValue))

/-- The assignment `m[k] = v` on a map; the keys are ordered as byte sequences. -/
def mapAssign {α : Type} : List (List Nat × α) → List Nat → α → List (List Nat × α)
  | [], k, v => [(k, v)]
  | (k1, v1) :: rest, k, v =>
    if k < k1 then (k, v) :: (k1, v1) :: rest
    else if k = k1 then (k, v) :: rest
    else (k1, v1) :: mapAssign rest k v

/-- The map that results from assigning the entries of a list in order to a map. -/
def mapAssignAll {α : Type} (m : List (List Nat × α)) (entries : List (List Nat × α)) :
    List (List Nat × α) :=
  entries.foldl (fun acc e => mapAssign acc e.1 e.2) m

/-- The keys of the list increase strictly: the list represents a map. -/
def keysIncrease {α : Type} (m : List (List Nat × α)) : Prop :=
  (m.map Prod.fst).Pairwise (fun a b => a < b)

instance {α : Type} (m : List (List Nat × α)) : Decidable (keysIncrease m) := by
  unfold keysIncrease; infer_instance

/-! #### UTF-8 (package `unicode/utf8`) -/

/-- The character U+FFFD, `utf8.RuneError`. -/
def runeError : Nat := 65533

/-- The function `utf8.DecodeRune`: the character at the head of the bytes and the number
    of bytes of its encoding; `(RuneError, 1)` when the bytes at the head are not the
    encoding of a character, `(RuneError, 0)` when there are no bytes.  Encodings longer
    than needed, of surrogates and of numbers above U+10FFFF are not encodings of a
    character. -/
def decodeRune (p : List Nat) : Nat × Nat :=
  match p with
  | [] => (runeError, 0)
  | p0 :: rest =>
    if p0 < 128 then (p0, 1)
    else if 194 ≤ p0 ∧ p0 ≤ 223 then
      match rest with
      | b1 :: _ =>
        if 128 ≤ b1 ∧ b1 ≤ 191 then (p0 % 32 * 64 + b1 % 64, 2) else (runeError, 1)
      | _ => (runeError, 1)
    else if 224 ≤ p0 ∧ p0 ≤ 239 then
      match rest with
      | b1 :: b2 :: _ =>
        if (if p0 = 224 then 160 else 128) ≤ b1 ∧ b1 ≤ (if p0 = 237 then 159 else 191)
            ∧ 128 ≤ b2 ∧ b2 ≤ 191 then
          (p0 % 16 * 4096 + b1 % 64 * 64 + b2 % 64, 3)
        else (runeError, 1)
      | _ => (runeError, 1)
    else if 240 ≤ p0 ∧ p0 ≤ 244 then
      match rest with
      | b1 :: b2 :: b3 :: _ =>
        if (if p0 = 240 then 144 else 128) ≤ b1 ∧ b1 ≤ (if p0 = 244 then 143 else 191)
            ∧ 128 ≤ b2 ∧ b2 ≤ 191 ∧ 128 ≤ b3 ∧ b3 ≤ 191 then
          (p0 % 8 * 262144 + b1 % 64 * 4096 + b2 % 64 * 64 + b3 % 64, 4)
        else (runeError, 1)
      | _ => (runeError, 1)
    else (runeError, 1)

/-- The function `utf8.EncodeRune`: the bytes of a character; those of U+FFFD for a
    surrogate and for a number above U+10FFFF. -/
def encodeRune (r : Nat) : List Nat :=
  if r < 128 then [r]
  else if r < 2048 then [192 + r / 64, 128 + r % 64]
  else if (55296 ≤ r ∧ r < 57344) ∨ r > 1114111 then [239, 191, 189]
  else if r < 65536 then [224 + r / 4096, 128 + r / 64 % 64, 128 + r % 64]
  else [240 + r / 262144, 128 + r / 4096 % 64, 128 + r / 64 % 64, 128 + r % 64]

/-- The loop of `utf8.Valid`, one character for each unit of fuel. -/
def validFrom : Nat → List Nat → Bool
  | _, [] => true
  | 0, _ :: _ => false
  | fuel + 1, b :: rest =>
    if (decodeRune (b :: rest)).1 = runeError ∧ (decodeRune (b :: rest)).2 = 1 then false
    else validFrom fuel ((b :: rest).drop (decodeRune (b :: rest)).2)

/-- The function `utf8.Valid`: the bytes are the encodings of characters, one after the
    other. -/
def validUTF8 (s : List Nat) : Bool := validFrom s.length s

/-- The bytes of a text, its encoding in UTF-8. -/
def utf8 (s : String) : List Nat := (s.toList.map (fun c => encodeRune c.toNat)).flatten

/-! #### The encoder (`json.Marshal`) -/

/-- The hexadecimal digit of a number below sixteen, in lower case (the table `hex` of
    `encoding/json`). -/
def hexDigit (n : Nat) : Nat := if n < 10 then 48 + n else 87 + n

/-- What the encoder takes from elsewhere, or writes differently in different releases of
    Go: the shortest decimal text of a finite `float64`, from package `strconv`; and
    whether backspace and form feed are written as `\b` and `\f` (from Go 1.22 on) or as
    `\u0008` and `\u000c` (before). -/
structure Encoder where
  formatFloat : Float64 → List Nat
  shortEscapes : Bool

/-- An ASCII byte of a string as the encoder writes it between the quotes, with HTML
    escaping on as in `json.Marshal`: the quote (34) and the backslash (92) behind a
    backslash; the short escapes of line feed, carriage return and tab, and of backspace
    and form feed where the release has them; the other control characters and `<`, `>`,
    `&` as `\u00XX`; any other byte as it is. -/
def escapeByte (short : Bool) (b : Nat) : List Nat :=
  if b = 34 ∨ b = 92 then [92, b]
  else if b = 8 ∧ short = true then [92, 'b'.toNat]
  else if b = 12 ∧ short = true then [92, 'f'.toNat]
  else if b = 10 then [92, 'n'.toNat]
  else if b = 13 then [92, 'r'.toNat]
  else if b = 9 then [92, 't'.toNat]
  else if b < 32 ∨ b = '<'.toNat ∨ b = '>'.toNat ∨ b = '&'.toNat then
    [92, 'u'.toNat, '0'.toNat, '0'.toNat, hexDigit (b / 16), hexDigit (b % 16)]
  else [b]

/-- The loop of the encoder over the bytes of a string, one character for each unit of
    fuel: an ASCII byte is written as `escapeByte` tells; a byte that does not begin the
    encoding of a character as `\ufffd`; U+2028 and U+2029 as `\u2028` and `\u2029`; the
    bytes of any other character as they are. -/
def escapeFrom (short : Bool) : Nat → List Nat → List Nat
  | _, [] => []
  | 0, _ :: _ => []
  | fuel + 1, b :: rest =>
    if b < 128 then escapeByte short b ++ escapeFrom short fuel rest
    else if (decodeRune (b :: rest)).1 = runeError ∧ (decodeRune (b :: rest)).2 = 1 then
      ascii "\\ufffd" ++ escapeFrom short fuel rest
    else if (decodeRune (b :: rest)).1 = 8232 ∨ (decodeRune (b :: rest)).1 = 8233 then
      ascii "\\u202" ++ hexDigit ((decodeRune (b :: rest)).1 % 16)
        :: escapeFrom short fuel ((b :: rest).drop (decodeRune (b :: rest)).2)
    else
      (b :: rest).take (decodeRune (b :: rest)).2
        ++ escapeFrom short fuel ((b :: rest).drop (decodeRune (b :: rest)).2)

/-- The bytes of a string as the encoder writes them between the quotes. -/
def escapeString (short : Bool) (s : List Nat) : List Nat := escapeFrom short s.length s

mutual
/-- A `float64` that `json.Marshal` rejects (NaN or an infinity) occurs in the value. -/
def GoValue.unsupported : GoValue → Bool
  | GoValue.float64 (Float64.finite _ _ _) => false
  | GoValue.float64 _ => true
  | GoValue.slice elems => GoValue.unsupportedAny elems
  | GoValue.map entries => GoValue.unsupportedEntries entries
  | _ => false
/-- Such a value occurs in an element of the list. -/
def GoValue.unsupportedAny : List GoValue → Bool
  | [] => false
  | v :: vs => GoValue.unsupported v || GoValue.unsupportedAny vs
/-- Such a value occurs in an entry of the map. -/
def GoValue.unsupportedEntries : List (List Nat × GoValue) → Bool
  | [] => false
  | (_, v) :: rest => GoValue.unsupported v || GoValue.unsupportedEntries rest
end

mutual
/-- The document that `json.Marshal` writes for a value in which no NaN and no infinity
    occurs: an `int` in decimal digits, a `float64` in its shortest decimal text, a string
    with its bytes escaped, a map as an object with its keys in increasing order. -/
def marshalValue (enc : Encoder) : GoValue → JSONValue
  | GoValue.nil => JSONValue.null
  | GoValue.bool b => JSONValue.bool b
  | GoValue.int n => JSONValue.number (ascii (toString n))
  | GoValue.float64 x => JSONValue.number (enc.formatFloat x)
  | GoValue.string s => JSONValue.string (escapeString enc.shortEscapes s)
  | GoValue.slice elems => JSONValue.array (marshalValues enc elems)
  | GoValue.map entries => JSONValue.object (marshalEntries enc entries)
/-- The documents of the elements of a slice. -/
def marshalValues (enc : Encoder) : List GoValue → List JSONValue
  | [] => []
  | v :: vs => marshalValue enc v :: marshalValues enc vs
/-- The members of the entries of a map. -/
def marshalEntries (enc : Encoder) :
    List (List Nat × GoValue) → List (List Nat × JSONValue)
  | [] => []
  | (k, v) :: rest =>
    (escapeString enc.shortEscapes k, marshalValue enc v) :: marshalEntries enc rest
end

mutual
/-- The text of a document as the encoder writes it: no space, the members and elements
    separated by commas; 34 is the quote, 123 and 125 are the braces. -/
def printValue : JSONValue → List Nat
  | JSONValue.null => ascii "null"
  | JSONValue.bool b => if b then ascii "true" else ascii "false"
  | JSONValue.number literal => literal
  | JSONValue.string raw => 34 :: (raw ++ [34])
  | JSONValue.array elems => '['.toNat :: printElements elems
  | JSONValue.object members => 123 :: printMembers members
/-- The elements of an array and the closing bracket. -/
def printElements : List JSONValue → List Nat
  | [] => [']'.toNat]
  | v :: vs =>
    printValue v ++ (if vs.isEmpty then printElements vs else ','.toNat :: printElements vs)
/-- The members of an object and the closing brace. -/
def printMembers : List (List Nat × JSONValue) → List Nat
  | [] => [125]
  | (k, v) :: rest =>
    34 :: (k ++ 34 :: ':'.toNat :: (printValue v
      ++ (if rest.isEmpty then printMembers rest else ','.toNat :: printMembers rest)))
end

/-! #### The scanner and the decoder (`json.Unmarshal`) -/

/-- The value of a hexadecimal digit. -/
def hexValue (c : Nat) : Option Nat :=
  if 48 ≤ c ∧ c ≤ 57 then some (c - 48)
  else if 97 ≤ c ∧ c ≤ 102 then some (c - 87)
  else if 65 ≤ c ∧ c ≤ 70 then some (c - 55)
  else none

/-- The number of the four hexadecimal digits of an escape `\uXXXX` (`getu4`). -/
def getu4 (h1 h2 h3 h4 : Nat) : Option Nat :=
  match hexValue h1, hexValue h2, hexValue h3, hexValue h4 with
  | some a, some b, some c, some d => some (((a * 16 + b) * 16 + c) * 16 + d)
  | _, _, _, _ => none

/-- One of the bytes that may follow a backslash besides `u`: the quote, the backslash,
    `/`, `b`, `f`, `n`, `r`, `t`. -/
def isEscape (c : Nat) : Bool :=
  decide (c = 34 ∨ c = 92 ∨ c = '/'.toNat ∨ c = 'b'.toNat ∨ c = 'f'.toNat ∨ c = 'n'.toNat
    ∨ c = 'r'.toNat ∨ c = 't'.toNat)

/-- The scanner inside a string, behind the opening quote: the bytes up to the closing
    quote as written, and the text behind it.  A control character, a backslash that no
    escape character follows and a `\u` without four hexadecimal digits are errors. -/
def scanString : List Nat → Option (List Nat × List Nat)
  | [] => none
  | c :: cs =>
    if c = 34 then some ([], cs)
    else if c = 92 then
      match cs with
      | [] => none
      | e :: rest =>
        if e = 'u'.toNat then
          match rest with
          | h1 :: h2 :: h3 :: h4 :: rest1 =>
            match getu4 h1 h2 h3 h4 with
            | none => none
            | some _ =>
              (scanString rest1).map (fun r => (c :: e :: h1 :: h2 :: h3 :: h4 :: r.1, r.2))
          | _ => none
        else if isEscape e then (scanString rest).map (fun r => (c :: e :: r.1, r.2))
        else none
    else if c < 32 then none
    else (scanString cs).map (fun r => (c :: r.1, r.2))

/-- The byte that a short escape denotes; `unquote` also takes the apostrophe (39), which
    the scanner does not let through. -/
def unescape (c : Nat) : Option Nat :=
  if c = 34 ∨ c = 92 ∨ c = '/'.toNat ∨ c = 39 then some c
  else if c = 'b'.toNat then some 8
  else if c = 'f'.toNat then some 12
  else if c = 'n'.toNat then some 10
  else if c = 'r'.toNat then some 13
  else if c = 't'.toNat then some 9
  else none

/-- The character of a surrogate pair: `rr` is a high surrogate and the text goes on with
    the `\u` escape of a low surrogate (`utf16.DecodeRune` on `getu4` of the text). -/
def surrogatePair (rr : Nat) (s : List Nat) : Option Nat :=
  match s with
  | b :: u :: k1 :: k2 :: k3 :: k4 :: _ =>
    match (if b = 92 ∧ u = 'u'.toNat then getu4 k1 k2 k3 k4 else none) with
    | some rr1 =>
      if rr < 56320 ∧ 56320 ≤ rr1 ∧ rr1 < 57344 then
        some ((rr - 55296) * 1024 + (rr1 - 56320) + 65536)
      else none
    | none => none
  | _ => none

/-- One escape of a string, behind its backslash: the bytes of the character it denotes,
    and the number of bytes it takes behind the backslash.  Two `\u` escapes of a
    surrogate pair denote the character of the pair, a surrogate without its partner
    U+FFFD. -/
def unquoteEscape (cs : List Nat) : Option (List Nat × Nat) :=
  match cs with
  | [] => none
  | e :: rest =>
    if e = 'u'.toNat then
      match rest with
      | h1 :: h2 :: h3 :: h4 :: rest1 =>
        match getu4 h1 h2 h3 h4 with
        | none => none
        | some rr =>
          if 55296 ≤ rr ∧ rr < 57344 then
            match surrogatePair rr rest1 with
            | some pair => some (encodeRune pair, 11)
            | none => some (encodeRune runeError, 5)
          else some (encodeRune rr, 5)
      | _ => none
    else (unescape e).map (fun d => ([d], 1))

/-- The loop of `unquote`, one character for each unit of fuel: an escape is replaced by
    what it denotes, an ASCII byte is kept, any other byte is read as the encoding of a
    character and the character written again, U+FFFD for a byte that begins none. -/
def unquoteFrom : Nat → List Nat → Option (List Nat)
  | _, [] => some []
  | 0, _ :: _ => none
  | fuel + 1, c :: cs =>
    if c = 92 then
      match unquoteEscape cs with
      | none => none
      | some (d, n) => (unquoteFrom fuel (cs.drop n)).map (fun r => d ++ r)
    else if c = 34 ∨ c < 32 then none
    else if c < 128 then (unquoteFrom fuel cs).map (fun r => c :: r)
    else
      (unquoteFrom fuel ((c :: cs).drop (decodeRune (c :: cs)).2)).map
        (fun r => encodeRune (decodeRune (c :: cs)).1 ++ r)

/-- The function `unquote` of the decoder on the bytes between the quotes. -/
def unquote (raw : List Nat) : Option (List Nat) := unquoteFrom raw.length raw

/-- The string that the bytes between the quotes denote. -/
def unquoteString (raw : List Nat) : List Nat := (unquote raw).getD []

/-! #### Times in JSON (`Time.MarshalJSON`, `Time.UnmarshalJSON`) -/

/-- The decimal digit of a number below ten. -/
def digitChar (n : Nat) : Char := Char.ofNat (48 + n % 10)

/-- The decimal digits of `n` in the given width, the most significant first. -/
def padDigits : Nat → Nat → List Char
  | 0, _ => []
  | width + 1, n => padDigits width (n / 10) ++ [digitChar n]

/-- The character is one of `0` to `9`. -/
def isDigitChar (c : Char) : Bool := decide (48 ≤ c.toNat ∧ c.toNat ≤ 57)

/-- The number a list of digits denotes. -/
def digitsValue (s : List Char) : Nat :=
  s.foldl (fun x c => x * 10 + (c.toNat - 48)) 0

/-- The helper `parseUint` of `parseRFC3339`: the number the characters denote, provided
    all are digits and the number lies between `min` and `max`. -/
def parseUint (s : List Char) (min max : Nat) : Option Nat :=
  if s.all isDigitChar ∧ min ≤ digitsValue s ∧ digitsValue s ≤ max then some (digitsValue s)
  else none

/-- The list without the zeros at its end. -/
def trimZeros (s : List Char) : List Char :=
  (s.reverse.dropWhile (fun c => c == '0')).reverse

/-- The fractional second of the layout `RFC3339Nano`: nothing for zero nanoseconds, else
    a point and the nine digits of the nanoseconds without the zeros at their end. -/
def fractionChars (nsec : Nat) : List Char :=
  if nsec = 0 then [] else '.' :: trimZeros (padDigits 9 nsec)

/-- The zone of the layout `RFC3339Nano`: `Z` for the offset zero, else the sign and the
    hours and minutes of the offset. -/
def zoneChars (offset : Int) : List Char :=
  let zone := Int.tdiv offset 60
  if offset = 0 then ['Z']
  else (if zone < 0 then '-' else '+') :: (padDigits 2 (zone.natAbs / 60) ++ ':'
    :: padDigits 2 (zone.natAbs % 60))

/-- The call `t.Format(time.RFC3339Nano)` for a year in 0..9999. -/
def Time.formatRFC3339Nano (t : Time) : String :=
  String.mk (padDigits 4 t.year.toNat ++ '-' :: padDigits 2 t.month.toNat ++ '-'
    :: padDigits 2 t.day.toNat ++ 'T' :: padDigits 2 t.hour.toNat ++ ':'
    :: padDigits 2 t.minute.toNat ++ ':' :: padDigits 2 t.second.toNat
    ++ fractionChars t.nanosecond.toNat ++ zoneChars t.loc.offset)

/-- The text of a time in a JSON document (`Time.MarshalJSON`): the layout `RFC3339Nano`;
    an error for a year outside 0..9999 or a zone offset of 24 hours or more. -/
def Time.MarshalJSON (t : Time) : Except String String :=
  if t.year < 0 ∨ t.year ≥ 10000 then
    Except.error "Time.MarshalJSON: year outside of range [0,9999]"
  else if (Int.tdiv t.loc.offset 60).natAbs / 60 ≥ 24 then
    Except.error "Time.MarshalJSON: timezone hour outside of range [0,23]"
  else Except.ok t.formatRFC3339Nano

/-- The digits at the head of a list, and what follows them. -/
def leadingDigits : List Char → List Char × List Char
  | [] => ([], [])
  | c :: cs =>
    if isDigitChar c then ((leadingDigits cs).1.cons c, (leadingDigits cs).2)
    else ([], c :: cs)

/-- The fractional second of `parseRFC3339`: after a point that a digit follows, the
    digits up to the first other character; at most nine of them count, as nanoseconds. -/
def parseFraction (s : List Char) : Nat × List Char :=
  match s with
  | '.' :: c :: cs =>
    if isDigitChar c then
      let ds := leadingDigits (c :: cs)
      let counted := ds.1.take 9
      (digitsValue counted * 10 ^ (9 - counted.length), ds.2)
    else (0, s)
  | _ => (0, s)

/-- The zone of `parseRFC3339`: `Z`, or a sign with hours below 24 and minutes below 60;
    the result is the offset in seconds. -/
def parseZone (s : List Char) : Option Int :=
  match s with
  | ['Z'] => some 0
  | [sign, h1, h2, colon, m1, m2] =>
    match parseUint [h1, h2] 0 23, parseUint [m1, m2] 0 59 with
    | some hr, some mm =>
      if (sign = '-' ∨ sign = '+') ∧ colon = ':' then
        some (if sign = '-' then -(((hr * 60 + mm) * 60 : Nat) : Int)
              else (((hr * 60 + mm) * 60 : Nat) : Int))
      else none
    | _, _ => none
  | _ => none

/-- The function `parseRFC3339` of package `time`, by which `Time.UnmarshalJSON` reads the
    text of a time: the fields at their fixed places, each in its range, the fractional
    second and the zone.  A time with a zone other than `Z` is given in the location of
    that offset. -/
def parseRFC3339 (s : List Char) : Option Time :=
  match s with
  | y1 :: y2 :: y3 :: y4 :: c4 :: mo1 :: mo2 :: c7 :: d1 :: d2 :: c10 :: h1 :: h2 :: c13
      :: mi1 :: mi2 :: c16 :: s1 :: s2 :: rest =>
    match parseUint [y1, y2, y3, y4] 0 9999, parseUint [mo1, mo2] 1 12,
        parseUint [h1, h2] 0 23, parseUint [mi1, mi2] 0 59, parseUint [s1, s2] 0 59 with
    | some year, some month, some hour, some min, some sec =>
      match parseUint [d1, d2] 1 (daysIn year month).toNat with
      | some day =>
        if c4 = '-' ∧ c7 = '-' ∧ c10 = 'T' ∧ c13 = ':' ∧ c16 = ':' then
          let frac := parseFraction rest
          match parseZone frac.2 with
          | some offset =>
            some { Date year month day hour min sec frac.1 UTC with loc := ⟨offset⟩ }
          | none => none
        else none
      | none => none
    | _, _, _, _, _ => none
  | _ => none

/-- The method `Time.UnmarshalJSON` on the string of a document.  A text that
    `parseRFC3339` does not accept is an error here; the source tries the layout parser
    on it before it rejects what RFC 3339 forbids. -/
def Time.UnmarshalJSON (s : String) : Except String Time :=
  match parseRFC3339 s.toList with
  | some t => Except.ok t
  | none => Except.error "Time.UnmarshalJSON: cannot parse the input as RFC 3339"

/-! #### Numbers -/

/-- The byte is one of the digits `0` to `9`. -/
def isDigit (c : Nat) : Bool := decide (48 ≤ c ∧ c ≤ 57)

/-- The digits at the head of a text, and what follows them. -/
def digitRun : List Nat → List Nat × List Nat
  | [] => ([], [])
  | c :: cs => if isDigit c then (c :: (digitRun cs).1, (digitRun cs).2) else ([], c :: cs)

/-- The number that a list of digits denotes. -/
def decimalValue (s : List Nat) : Nat := s.foldl (fun x c => x * 10 + (c - 48)) 0

/-- The exponent of a number behind `e` or `E`: a sign or none, and one digit at least. -/
def scanExponent (s : List Nat) : Option (List Nat × List Nat) :=
  let signed : List Nat × List Nat :=
    match s with
    | c :: cs => if c = '+'.toNat ∨ c = '-'.toNat then ([c], cs) else ([], s)
    | [] => ([], [])
  let ds := digitRun signed.2
  if ds.1 = [] then none else some (signed.1 ++ ds.1, ds.2)

/-- The fraction of a number: behind a point one digit at least; without a point none. -/
def scanFraction (s : List Nat) : Option (List Nat × List Nat) :=
  match s with
  | p :: rest =>
    if p = '.'.toNat then
      let ds := digitRun rest
      if ds.1 = [] then none else some (p :: ds.1, ds.2)
    else some ([], s)
  | [] => some ([], [])

/-- The scanner on a number: a minus sign or none, `0` or a digit from 1 to 9 followed by
    digits, a fraction or none, an exponent or none.  The result is the literal and the
    text behind it. -/
def scanNumber (s : List Nat) : Option (List Nat × List Nat) :=
  let signed : List Nat × List Nat :=
    match s with
    | c :: cs => if c = '-'.toNat then ([c], cs) else ([], s)
    | [] => ([], [])
  match signed.2 with
  | [] => none
  | c :: cs =>
    if isDigit c then
      let whole : List Nat × List Nat :=
        if c = '0'.toNat then ([c], cs) else digitRun (c :: cs)
      match scanFraction whole.2 with
      | none => none
      | some frac =>
        match frac.2 with
        | x :: rest =>
          if x = 'e'.toNat ∨ x = 'E'.toNat then
            (scanExponent rest).map
              (fun r => (signed.1 ++ whole.1 ++ frac.1 ++ x :: r.1, r.2))
          else some (signed.1 ++ whole.1 ++ frac.1, frac.2)
        | [] => some (signed.1 ++ whole.1 ++ frac.1, [])
    else none

/-- The number of binary digits of a number. -/
def bitLength : Nat → Nat → Nat
  | 0, _ => 0
  | fuel + 1, n => if n = 0 then 0 else bitLength fuel (n / 2) + 1

/-- The quotient of `num / den` by `2 ^ e` as a fraction of two natural numbers. -/
def scaleBy (num den : Nat) (e : Int) : Nat × Nat :=
  if e ≥ 0 then (num, den * 2 ^ e.toNat) else (num * 2 ^ (-e).toNat, den)

/-- The `float64` nearest to `± num / den`, a tie going to the even mantissa, as
    `strconv.ParseFloat` gives it; none when the result would not be finite.  The exponent
    is chosen for a mantissa of 53 bits, but not below -1074. -/
def roundFloat64 (negative : Bool) (num den : Nat) : Option Float64 :=
  if num = 0 then some (Float64.finite negative 0 0)
  else
    let e1 : Int := (bitLength num num : Int) - (bitLength den den : Int) - 52
    let q1 := (scaleBy num den e1).1 / (scaleBy num den e1).2
    let e2 : Int := if q1 ≥ 2 ^ 52 then e1 else e1 - 1
    let e : Int := if e2 < -1074 then -1074 else e2
    let q := (scaleBy num den e).1 / (scaleBy num den e).2
    let r := (scaleBy num den e).1 % (scaleBy num den e).2
    let up : Bool := decide (2 * r > (scaleBy num den e).2)
      || (decide (2 * r = (scaleBy num den e).2) && decide (q % 2 = 1))
    let m := if up then q + 1 else q
    let mantissa := if m = 2 ^ 53 then 2 ^ 52 else m
    let exponent := if m = 2 ^ 53 then e + 1 else e
    if exponent > 971 then none
    else if mantissa = 0 then some (Float64.finite negative 0 0)
    else some (Float64.finite negative mantissa exponent)

/-- The decoder on the literal of a number that is stored in an `interface{}`
    (`convertNumber`): `strconv.ParseFloat` of the literal; none is its range error. -/
def convertNumber (literal : List Nat) : Option Float64 :=
  let negative : Bool := decide (literal.head? = some '-'.toNat)
  let whole := digitRun (if negative then literal.tail else literal)
  let frac : List Nat × List Nat :=
    match whole.2 with
    | p :: rest => if p = '.'.toNat then digitRun rest else ([], whole.2)
    | [] => ([], [])
  let exp : Int :=
    match frac.2 with
    | _ :: c :: rest =>
      if c = '-'.toNat then -(decimalValue rest : Int)
      else if c = '+'.toNat then (decimalValue rest : Int)
      else (decimalValue (c :: rest) : Int)
    | _ => 0
  let digits := decimalValue (whole.1 ++ frac.1)
  let e10 : Int := exp - (frac.1.length : Int)
  if e10 ≥ 0 then roundFloat64 negative (digits * 10 ^ e10.toNat) 1
  else roundFloat64 negative digits (10 ^ (-e10).toNat)

/-! #### Documents -/

/-- A space, a tab, a carriage return or a line feed. -/
def isSpace (c : Nat) : Bool := decide (c = 32 ∨ c = 9 ∨ c = 13 ∨ c = 10)

/-- The text without the white space at its head. -/
def skipSpace : List Nat → List Nat
  | [] => []
  | c :: cs => if isSpace c then skipSpace cs else c :: cs

/-- The number of nested arrays and objects that the scanner accepts. -/
def maxNestingDepth : Nat := 10000

mutual
/-- The scanner on a value inside `depth` arrays and objects: the document of the value
    and the text behind it; 34 is the quote, 123 and 125 are the braces. -/
def parseValue : Nat → Nat → List Nat → Option (JSONValue × List Nat)
  | 0, _, _ => none
  | fuel + 1, depth, s =>
    match s with
    | [] => none
    | c :: cs =>
      if c = 34 then (scanString cs).map (fun r => (JSONValue.string r.1, r.2))
      else if c = '['.toNat then
        if depth ≥ maxNestingDepth then none
        else
          match skipSpace cs with
          | [] => none
          | d :: ds =>
            if d = ']'.toNat then some (JSONValue.array [], ds)
            else (parseElements fuel (depth + 1) (d :: ds)).map
              (fun r => (JSONValue.array r.1, r.2))
      else if c = 123 then
        if depth ≥ maxNestingDepth then none
        else
          match skipSpace cs with
          | [] => none
          | d :: ds =>
            if d = 125 then some (JSONValue.object [], ds)
            else (parseMembers fuel (depth + 1) (d :: ds)).map
              (fun r => (JSONValue.object r.1, r.2))
      else if c = 't'.toNat then
        if cs.take 3 = ascii "rue" then some (JSONValue.bool true, cs.drop 3) else none
      else if c = 'f'.toNat then
        if cs.take 4 = ascii "alse" then some (JSONValue.bool false, cs.drop 4) else none
      else if c = 'n'.toNat then
        if cs.take 3 = ascii "ull" then some (JSONValue.null, cs.drop 3) else none
      else (scanNumber (c :: cs)).map (fun r => (JSONValue.number r.1, r.2))
/-- The scanner on the elements of an array, up to the closing bracket. -/
def parseElements : Nat → Nat → List Nat → Option (List JSONValue × List Nat)
  | 0, _, _ => none
  | fuel + 1, depth, s =>
    match parseValue fuel depth s with
    | none => none
    | some (v, rest) =>
      match skipSpace rest with
      | [] => none
      | d :: ds =>
        if d = ','.toNat then
          (parseElements fuel depth (skipSpace ds)).map (fun r => (v :: r.1, r.2))
        else if d = ']'.toNat then some ([v], ds)
        else none
/-- The scanner on the members of an object, up to the closing brace. -/
def parseMembers : Nat → Nat → List Nat → Option (List (List Nat × JSONValue) × List Nat)
  | 0, _, _ => none
  | fuel + 1, depth, s =>
    match s with
    | [] => none
    | q :: cs =>
      if q = 34 then
        match scanString cs with
        | none => none
        | some (key, rest) =>
          match skipSpace rest with
          | [] => none
          | c :: rest1 =>
            if c = ':'.toNat then
              match parseValue fuel depth (skipSpace rest1) with
              | none => none
              | some (v, rest2) =>
                match skipSpace rest2 with
                | [] => none
                | d :: ds =>
                  if d = ','.toNat then
                    (parseMembers fuel depth (skipSpace ds)).map
                      (fun r => ((key, v) :: r.1, r.2))
                  else if d = 125 then some ([(key, v)], ds)
                  else none
            else none
      else none
end

/-- The scanner on a whole text (`checkValid`): one value, white space around it allowed;
    none is a syntax error. -/
def parseJSON (data : List Nat) : Option JSONValue :=
  match parseValue (data.length + 1) 0 (skipSpace data) with
  | none => none
  | some (v, rest) => if skipSpace rest = [] then some v else none

mutual
/-- The decoding of a document into an `interface{}` by `json.Unmarshal`: null becomes
    nil, a number a `float64` (nil when it is out of range, which the decoder notes as an
    error), an array a `[]interface{}`, an object a `map[string]interface{}` in which a
    repeated key keeps its last value. -/
def unmarshalValue : JSONValue → GoValue
  | JSONValue.null => GoValue.nil
  | JSONValue.bool b => GoValue.bool b
  | JSONValue.number literal =>
    match convertNumber literal with
    | some x => GoValue.float64 x
    | none => GoValue.nil
  | JSONValue.string raw => GoValue.string (unquoteString raw)
  | JSONValue.array elems => GoValue.slice (unmarshalValues elems)
  | JSONValue.object members => GoValue.map (mapAssignAll [] (unmarshalMembers members))
/-- The decoding of the elements of an array. -/
def unmarshalValues : List JSONValue → List GoValue
  | [] => []
  | v :: vs => unmarshalValue v :: unmarshalValues vs
/-- The decoding of the members of an object, in the order of the text. -/
def unmarshalMembers : List (List Nat × JSONValue) → List (List Nat × GoValue)
  | [] => []
  | (k, v) :: rest => (unquoteString k, unmarshalValue v) :: unmarshalMembers rest
end

mutual
/-- A number of the document is out of the range of `float64`: the decoder notes the
    error, goes on, and `json.Unmarshal` returns it at the end. -/
def JSONValue.rangeError : JSONValue → Bool
  | JSONValue.number literal => (convertNumber literal).isNone
  | JSONValue.array elems => JSONValue.rangeErrorAny elems
  | JSONValue.object members => JSONValue.rangeErrorMembers members
  | _ => false
/-- Such a number occurs in an element of the list. -/
def JSONValue.rangeErrorAny : List JSONValue → Bool
  | [] => false
  | v :: vs => JSONValue.rangeError v || JSONValue.rangeErrorAny vs
/-- Such a number occurs in a member of the object. -/
def JSONValue.rangeErrorMembers : List (List Nat × JSONValue) → Bool
  | [] => false
  | (_, v) :: rest => JSONValue.rangeError v || JSONValue.rangeErrorMembers rest
end

mutual
/-- A value that holds no `int`, no NaN and no infinity, and whose strings are valid UTF-8:
    nil, a `bool`, a finite `float64`, a `string` of valid UTF-8, or a slice or a map of
    such values. -/
def GoValue.plain : GoValue → Bool
  | GoValue.nil => true
  | GoValue.bool _ => true
  | GoValue.int _ => false
  | GoValue.float64 (Float64.finite _ _ _) => true
  | GoValue.float64 _ => false
  | GoValue.string s => validUTF8 s
  | GoValue.slice elems => GoValue.plainAll elems
  | GoValue.map entries => decide (keysIncrease entries) && GoValue.plainEntries entries
/-- Every element of the list is such a value. -/
def GoValue.plainAll : List GoValue → Bool
  | [] => true
  | v :: vs => GoValue.plain v && GoValue.plainAll vs
/-- Every entry has a key of valid UTF-8 and such a value. -/
def GoValue.plainEntries : List (List Nat × GoValue) → Bool
  | [] => true
  | (k, v) :: rest => validUTF8 k && GoValue.plain v && GoValue.plainEntries rest
end

mutual
/-- The number of slices and maps nested in a value, the value itself included. -/
def GoValue.depth : GoValue → Nat
  | GoValue.slice elems => GoValue.depthAll elems + 1
  | GoValue.map entries => GoValue.depthEntries entries + 1
  | _ => 0
/-- The greatest depth of an element of the list. -/
def GoValue.depthAll : List GoValue → Nat
  | [] => 0
  | v :: vs => max (GoValue.depth v) (GoValue.depthAll vs)
/-- The greatest depth of a value of the entries. -/
def GoValue.depthEntries : List (List Nat × GoValue) → Nat
  | [] => 0
  | (_, v) :: rest => max (GoValue.depth v) (GoValue.depthEntries rest)
end

/-! #### Events -/

/-- A domain event (`Event` of package `events`); `Type_` is the source's `Type`, a
    string. -/
structure Events.Event where
  ID : List Nat
  Type_ : List Nat
  Source : List Nat
  HouseholdID : List Nat
  UserID : List Nat
  Timestamp : Time
  Version : List Nat
  Data : Option (List (List Nat × GoValue))
  Metadata : Option (List (List Nat × List Nat))

/-- The zero `time.Time`. -/
def zeroTime : Time := ⟨1, 1, 1, 0, 0, 0, 0, UTC⟩

/-- The zero value of `Event`, into which `FromJSON` decodes. -/
def Events.zeroEvent : Events.Event :=
  { ID := [], Type_ := [], Source := [], HouseholdID := [], UserID := [],
    Timestamp := zeroTime, Version := [], Data := none, Metadata := none }

/-- The key of the member of a struct field, as the encoder writes it between the
    quotes. -/
def fieldKey (enc : Encoder) (name : String) : List Nat :=
  escapeString enc.shortEscapes (ascii name)

/-- The member of a struct field of type `string`. -/
def stringMember (enc : Encoder) (name : String) (value : List Nat) :
    List Nat × JSONValue :=
  (fieldKey enc name, JSONValue.string (escapeString enc.shortEscapes value))

/-- A member of the object of a struct field with the option `omitempty`: left out when
    the string is empty. -/
def omitEmpty (enc : Encoder) (name : String) (value : List Nat) :
    List (List Nat × JSONValue) :=
  if value = [] then [] else [stringMember enc name value]

/-- The value of the member `data`: null for the nil map, else the object of the map. -/
def Events.dataValue (enc : Encoder) (data : Option (List (List Nat × GoValue))) :
    JSONValue :=
  match data with
  | none => JSONValue.null
  | some m => JSONValue.object (marshalEntries enc m)

/-- The member `metadata`, which has the option `omitempty`: left out when the map is nil
    or empty. -/
def Events.metadataMembers (enc : Encoder)
    (metadata : Option (List (List Nat × List Nat))) : List (List Nat × JSONValue) :=
  match metadata with
  | none => []
  | some [] => []
  | some m => [(fieldKey enc "metadata", JSONValue.object (m.map (fun kv =>
      (escapeString enc.shortEscapes kv.1,
        JSONValue.string (escapeString enc.shortEscapes kv.2)))))]

/-- The members of the object of an event: they follow the order of the struct fields;
    `householdId`, `userId` and `metadata` are left out when empty.  The text of the
    timestamp, which is ASCII, is written as `Time.MarshalJSON` returns it. -/
def Events.members (enc : Encoder) (e : Events.Event) (timestamp : String) :
    List (List Nat × JSONValue) :=
  [stringMember enc "id" e.ID, stringMember enc "type" e.Type_,
   stringMember enc "source" e.Source]
  ++ omitEmpty enc "householdId" e.HouseholdID ++ omitEmpty enc "userId" e.UserID
  ++ [(fieldKey enc "timestamp", JSONValue.string (ascii timestamp)),
      stringMember enc "version" e.Version,
      (fieldKey enc "data", Events.dataValue enc e.Data)]
  ++ Events.metadataMembers enc e.Metadata

/-- The method `ToJSON`: `json.Marshal` of the event, the text of its document.  It fails
    when `Time.MarshalJSON` fails and when the data hold NaN or an infinity. -/
def Events.ToJSON (enc : Encoder) (e : Events.Event) : Except String (List Nat) :=
  match e.Timestamp.MarshalJSON with
  | Except.error msg =>
    Except.error ("json: error calling MarshalJSON for type time.Time: " ++ msg)
  | Except.ok timestamp =>
    if GoValue.unsupportedEntries (e.Data.getD []) then
      Except.error "json: unsupported value"
    else
      Except.ok (printValue (JSONValue.object (Events.members enc e timestamp)))

/-- The decoding of a document into a field of type `string`: a string is stored, null
    leaves the field as it is, anything else is an error. -/
def unmarshalString (field : String) (current : List Nat) :
    JSONValue → Except String (List Nat)
  | JSONValue.string raw => Except.ok (unquoteString raw)
  | JSONValue.null => Except.ok current
  | _ => Except.error ("json: cannot unmarshal into Go struct field Event." ++ field)

/-- The decoding of the members of an object into a `map[string]string`: a string is
    stored, null stores the empty string, anything else is an error. -/
def unmarshalStrings :
    List (List Nat × JSONValue) → Except String (List (List Nat × List Nat))
  | [] => Except.ok []
  | (k, JSONValue.string raw) :: rest =>
    match unmarshalStrings rest with
    | Except.ok m => Except.ok ((unquoteString k, unquoteString raw) :: m)
    | Except.error msg => Except.error msg
  | (k, JSONValue.null) :: rest =>
    match unmarshalStrings rest with
    | Except.ok m => Except.ok ((unquoteString k, []) :: m)
    | Except.error msg => Except.error msg
  | _ :: _ => Except.error "json: cannot unmarshal into Go struct field Event.metadata"

/-- The function `foldName` of the decoder as far as it can yield capital ASCII letters:
    a small ASCII letter becomes its capital; the bytes of U+017F (197, 191) become `S`,
    those of U+212A (226, 132, 170) become `K`; any other byte stays. -/
def foldName : List Nat → List Nat
  | [] => []
  | 197 :: 191 :: cs => 'S'.toNat :: foldName cs
  | 226 :: 132 :: 170 :: cs => 'K'.toNat :: foldName cs
  | c :: cs => (if 97 ≤ c ∧ c ≤ 122 then c - 32 else c) :: foldName cs

/-- The key of a member names the struct field of the given name, which consists of
    ASCII letters: it is the name, or folds to what the name folds to. -/
def fieldNamed (key : List Nat) (name : String) : Bool :=
  decide (key = ascii name) || decide (foldName key = foldName (ascii name))

/-- The decoding of one member of the object into the event: the member of a known key
    is stored in its field, any other member is skipped.  `Time.UnmarshalJSON` is given
    the text of the timestamp as it is written. -/
def Events.unmarshalMember (e : Events.Event) (key : List Nat) (value : JSONValue) :
    Except String Events.Event :=
  if fieldNamed key "id" then
    (unmarshalString "id" e.ID value).map (fun s => { e with ID := s })
  else if fieldNamed key "type" then
    (unmarshalString "type" e.Type_ value).map (fun s => { e with Type_ := s })
  else if fieldNamed key "source" then
    (unmarshalString "source" e.Source value).map (fun s => { e with Source := s })
  else if fieldNamed key "householdId" then
    (unmarshalString "householdId" e.HouseholdID value).map
      (fun s => { e with HouseholdID := s })
  else if fieldNamed key "userId" then
    (unmarshalString "userId" e.UserID value).map (fun s => { e with UserID := s })
  else if fieldNamed key "timestamp" then
    match value with
    | JSONValue.string raw =>
      (Time.UnmarshalJSON (String.mk (raw.map Char.ofNat))).map
        (fun t => { e with Timestamp := t })
    | JSONValue.null => Except.ok e
    | _ => Except.error "Time.UnmarshalJSON: input is not a JSON string"
  else if fieldNamed key "version" then
    (unmarshalString "version" e.Version value).map (fun s => { e with Version := s })
  else if fieldNamed key "data" then
    match value with
    | JSONValue.object members =>
      if JSONValue.rangeErrorMembers members then
        Except.error
          "json: cannot unmarshal number into Go struct field Event.data of type float64"
      else
        Except.ok { e with
          Data := some (mapAssignAll (e.Data.getD []) (unmarshalMembers members)) }
    | JSONValue.null => Except.ok { e with Data := none }
    | _ => Except.error "json: cannot unmarshal into Go struct field Event.data"
  else if fieldNamed key "metadata" then
    match value with
    | JSONValue.object members =>
      (unmarshalStrings members).map
        (fun m => { e with Metadata := some (mapAssignAll (e.Metadata.getD []) m) })
    | JSONValue.null => Except.ok { e with Metadata := none }
    | _ => Except.error "json: cannot unmarshal into Go struct field Event.metadata"
  else Except.ok e

/-- The decoding of the members of the object in the order of the text. -/
def Events.unmarshalMembers : Events.Event → List (List Nat × JSONValue) →
    Except String Events.Event
  | e, [] => Except.ok e
  | e, member :: rest =>
    match Events.unmarshalMember e (unquoteString member.1) member.2 with
    | Except.ok e1 => Events.unmarshalMembers e1 rest
    | Except.error msg => Except.error msg

/-- The function `FromJSON`: `json.Unmarshal` of a text into a zero event.  A text that
    the scanner rejects is an error; so is a document other than an object or null. -/
def Events.FromJSON (data : List Nat) : Except String Events.Event :=
  match parseJSON data with
  | none => Except.error "json: syntax error"
  | some (JSONValue.object members) => Events.unmarshalMembers Events.zeroEvent members
  | some JSONValue.null => Except.ok Events.zeroEvent
  | some _ => Except.error "json: cannot unmarshal into Go value of type events.Event"

/-- The strings of the event other than those of the data are valid UTF-8. -/
def Events.Event.validStrings (e : Events.Event) : Bool :=
  validUTF8 e.ID && validUTF8 e.Type_ && validUTF8 e.Source && validUTF8 e.HouseholdID
    && validUTF8 e.UserID && validUTF8 e.Version
    && (e.Metadata.getD []).all (fun kv => validUTF8 kv.1 && validUTF8 kv.2)

/-- An event as the producer builds it for a shopping item: `NewEvent` gives it an empty
    metadata map, and the quantity is an `int`. -/
def shoppingEvent : Events.Event :=
  { ID := utf8 "20250101120000-abcdefgh", Type_ := utf8 "shopping.item.added",
    Source := utf8 "api-service", HouseholdID := utf8 "household-001",
    UserID := utf8 "user-001", Timestamp := ⟨2025, 1, 1, 12, 0, 0, 0, UTC⟩,
    Version := utf8 "1.0",
    Data := some [(utf8 "name", GoValue.string (utf8 "milk")),
      (utf8 "quantity", GoValue.int 2)],
    Metadata := some [] }

/-- The text that `ToJSON` writes for `shoppingEvent`. -/
def shoppingEventText : String :=
  "\x7b\"id\":\"20250101120000-abcdefgh\",\"type\":\"shopping.item.added\",\"source\":\"api-service\",\"householdId\":\"household-001\",\"userId\":\"user-001\",\"timestamp\":\"2025-01-01T12:00:00Z\",\"version\":\"1.0\",\"data\":\x7b\"name\":\"milk\",\"quantity\":2\x7d\x7d"

/-- The event `shoppingEvent` after `ToJSON` and `FromJSON`: the quantity is the
    `float64` 2, the metadata map is nil. -/
def shoppingEventDecoded : Events.Event :=
  { shoppingEvent with
    Data := some [(utf8 "name", GoValue.string (utf8 "milk")),
      (utf8 "quantity", GoValue.float64 (Float64.finite false 4503599627370496 (-51)))],
    Metadata := none }

/-- An event as the producer builds it for a timer with `NewEvent`: the data hold strings
    (one with characters that the encoder escapes and one beyond ASCII), the `float64` 1.5,
    a `bool`, nil and a slice; the metadata map is empty, the time has a fractional
    second. -/
def timerEvent : Events.Event :=
  { ID := utf8 "20250101120000-abcdefgh", Type_ := utf8 "timer.started",
    Source := utf8 "temporal-service", HouseholdID := [], UserID := utf8 "user-001",
    Timestamp := ⟨2025, 1, 1, 12, 30, 15, 120000000, UTC⟩, Version := utf8 "1.0",
    Data := some [(utf8 "duration", GoValue.string (utf8 "5m0s")),
      (utf8 "hours", GoValue.float64 (Float64.finite false 6755399441055744 (-52))),
      (utf8 "name", GoValue.string (utf8 "Thé & <cake>")),
      (utf8 "paused", GoValue.bool false),
      (utf8 "tags", GoValue.slice [GoValue.string (utf8 "kitchen"), GoValue.nil])],
    Metadata := some [] }

/-- An encoder that writes 1.5, the only `float64` of `timerEvent`, as `strconv` does, and
    has the short escapes of Go 1.22. -/
def timerEncoder : Encoder := ⟨fun _ => ascii "1.5", true⟩

/-- The text that `ToJSON` writes for `timerEvent`. -/
def timerEventText : String :=
  "\x7b\"id\":\"20250101120000-abcdefgh\",\"type\":\"timer.started\",\"source\":\"temporal-service\",\"userId\":\"user-001\",\"timestamp\":\"2025-01-01T12:30:15.12Z\",\"version\":\"1.0\",\"data\":\x7b\"duration\":\"5m0s\",\"hours\":1.5,\"name\":\"Thé \\u0026 \\u003ccake\\u003e\",\"paused\":false,\"tags\":[\"kitchen\",null]\x7d\x7d"

/-! #### Documents that the scanner reads back -/

/-- The bytes between the quotes of a string are read back by the scanner, whatever
    follows the closing quote. -/
def scannedBack (raw : List Nat) : Prop :=
  ∀ rest, scanString (raw ++ 34 :: rest) = some (raw, rest)

/-- The text begins with a comma, a closing bracket or a closing brace (125), as the text
    behind a value inside an array or an object does. -/
def delimited (rest : List Nat) : Prop :=
  ∃ c tail, rest = c :: tail ∧ (c = ','.toNat ∨ c = ']'.toNat ∨ c = 125)

/-- The literal of a number begins with a minus sign or a digit and is read back by the
    scanner in front of a delimiter. -/
def numberScannedBack (literal : List Nat) : Prop :=
  (∃ c tail, literal = c :: tail ∧ (c = '-'.toNat ∨ isDigit c = true))
  ∧ ∀ rest, delimited rest → scanNumber (literal ++ rest) = some (literal, rest)

mutual
/-- A document the strings and numbers of which the scanner reads back. -/
def JSONValue.written : JSONValue → Prop
  | JSONValue.null => True
  | JSONValue.bool _ => True
  | JSONValue.number literal => numberScannedBack literal
  | JSONValue.string raw => scannedBack raw
  | JSONValue.array elems => JSONValue.writtenAll elems
  | JSONValue.object members => JSONValue.writtenMembers members
/-- Every element of the list is such a document. -/
def JSONValue.writtenAll : List JSONValue → Prop
  | [] => True
  | v :: vs => JSONValue.written v ∧ JSONValue.writtenAll vs
/-- Every member of the list has such a key and such a value. -/
def JSONValue.writtenMembers : List (List Nat × JSONValue) → Prop
  | [] => True
  | (k, v) :: rest => scannedBack k ∧ JSONValue.written v ∧ JSONValue.writtenMembers rest
end

mutual
/-- The number of arrays and objects nested in a document, the document itself
    included. -/
def JSONValue.height : JSONValue → Nat
  | JSONValue.array elems => JSONValue.heightAll elems + 1
  | JSONValue.object members => JSONValue.heightMembers members + 1
  | _ => 0
/-- The greatest height of an element of the list. -/
def JSONValue.heightAll : List JSONValue → Nat
  | [] => 0
  | v :: vs => max (JSONValue.height v) (JSONValue.heightAll vs)
/-- The greatest height of a value of the members. -/
def JSONValue.heightMembers : List (List Nat × JSONValue) → Nat
  | [] => 0
  | (_, v) :: rest => max (JSONValue.height v) (JSONValue.heightMembers rest)
end


mutual
/-- Every `float64` of the value is written by the encoder as a literal that the scanner
    reads back and that `strconv.ParseFloat` converts to that `float64`, as package
    `strconv` promises of the text it writes. -/
def GoValue.readBack (enc : Encoder) : GoValue → Prop
  | GoValue.float64 x =>
    numberScannedBack (enc.formatFloat x) ∧ convertNumber (enc.formatFloat x) = some x
  | GoValue.slice elems => GoValue.readBackAll enc elems
  | GoValue.map entries => GoValue.readBackEntries enc entries
  | _ => True
/-- Every `float64` of the elements is so. -/
def GoValue.readBackAll (enc : Encoder) : List GoValue → Prop
  | [] => True
  | v :: vs => GoValue.readBack enc v ∧ GoValue.readBackAll enc vs
/-- Every `float64` of the entries is so. -/
def GoValue.readBackEntries (enc : Encoder) : List (List Nat × GoValue) → Prop
  | [] => True
  | (_, v) :: rest => GoValue.readBack enc v ∧ GoValue.readBackEntries enc rest
end

/-! ## Part 2: theorems -/

set_option maxRecDepth 100000

/-! ### The calendar -/

theorem isLeap_iff (y : Int) : isLeap y = true ↔ (y % 4 = 0 ∧ (y % 100 ≠ 0 ∨ y % 400 = 0)) := by
  simp [isLeap]

theorem daysIn_cases (y m : Int) :
    (m = 2 ∧ isLeap y = true ∧ daysIn y m = 29) ∨ (m = 2 ∧ isLeap y = false ∧ daysIn y m = 28)
    ∨ ((m = 4 ∨ m = 6 ∨ m = 9 ∨ m = 11) ∧ daysIn y m = 30)
    ∨ (m ≠ 2 ∧ m ≠ 4 ∧ m ≠ 6 ∧ m ≠ 9 ∧ m ≠ 11 ∧ daysIn y m = 31) := by
  unfold daysIn
  by_cases h2 : m = 2
  · cases hl : isLeap y <;> simp [h2]
  · by_cases h : m = 4 ∨ m = 6 ∨ m = 9 ∨ m = 11
    · simp [h2, h]
    · simp only [h2, h, if_false]
      push_neg at h
      simp [h2, h.1, h.2.1, h.2.2.1, h.2.2.2]

theorem daysIn_pos (y m : Int) : 28 ≤ daysIn y m ∧ daysIn y m ≤ 31 := by
  rcases daysIn_cases y m with h | h | h | h <;> omega

theorem daysBeforeYear_succ (y : Int) :
    daysBeforeYear (y + 1) = daysBeforeYear y + 365 + (if isLeap y then 1 else 0) := by
  unfold daysBeforeYear
  by_cases h : isLeap y = true
  · rw [if_pos h]
    rw [isLeap_iff] at h
    omega
  · rw [if_neg h]
    rw [isLeap_iff] at h
    omega

theorem daysBeforeMonth_succ (y m : Int) (h1 : 1 ≤ m) (h2 : m < 12) :
    daysBeforeMonth y (m + 1) = daysBeforeMonth y m + daysIn y m := by
  have hm : m = 1 ∨ m = 2 ∨ m = 3 ∨ m = 4 ∨ m = 5 ∨ m = 6 ∨ m = 7 ∨ m = 8 ∨ m = 9 ∨ m = 10
      ∨ m = 11 := by omega
  cases hl : isLeap y <;>
  rcases hm with h | h | h | h | h | h | h | h | h | h | h <;>
  subst h <;> simp [daysBeforeMonth, daysIn, hl]

theorem daysBeforeMonth_one (y : Int) : daysBeforeMonth y 1 = 0 := by
  simp [daysBeforeMonth]

theorem daysBeforeMonth_twelve (y : Int) :
    daysBeforeMonth y 12 = 334 + (if isLeap y then 1 else 0) := by
  cases hl : isLeap y <;> simp [daysBeforeMonth, hl]

theorem nextDay_valid (c : CivilDate) (h : c.Valid) : (nextDay c).Valid := by
  obtain ⟨h1, h2, h3, h4⟩ := h
  unfold nextDay
  split_ifs with ha hb
  · exact ⟨h1, h2, by simp only; omega, by simp only; omega⟩
  · have := daysIn_pos c.year (c.month + 1)
    exact ⟨by simp only; omega, by simp only; omega, by simp only; omega, by simp only; omega⟩
  · have := daysIn_pos (c.year + 1) 1
    exact ⟨by simp only; omega, by simp only; omega, by simp only; omega, by simp only; omega⟩

theorem daysFromCivil_nextDay (c : CivilDate) (h : c.Valid) :
    daysFromCivil (nextDay c) = daysFromCivil c + 1 := by
  obtain ⟨h1, h2, h3, h4⟩ := h
  unfold nextDay
  split_ifs with ha hb
  · simp only [daysFromCivil]; omega
  · simp only [daysFromCivil]
    rw [daysBeforeMonth_succ _ _ h1 hb]
    omega
  · simp only [daysFromCivil]
    have hm : c.month = 12 := by omega
    rw [daysBeforeYear_succ, daysBeforeMonth_one, hm, daysBeforeMonth_twelve]
    have hd : daysIn c.year 12 = 31 := by simp [daysIn]
    rw [hm, hd] at ha h4
    split_ifs <;> omega

theorem iterate_nextDay (c : CivilDate) (h : c.Valid) (k : Nat) :
    (nextDay^[k] c).Valid ∧ daysFromCivil (nextDay^[k] c) = daysFromCivil c + k := by
  induction k with
  | zero => exact ⟨h, by simp⟩
  | succ k ih =>
    rw [Function.iterate_succ_apply']
    refine ⟨nextDay_valid _ ih.1, ?_⟩
    rw [daysFromCivil_nextDay _ ih.1, ih.2]
    push_cast
    omega

/-! ### `time.Date` and `AddDate` -/

theorem norm_inRange (hi lo base : Int) (h0 : 0 ≤ lo) (h1 : lo < base) :
    norm hi lo base = (hi, lo) := by
  unfold norm
  rw [Int.ediv_eq_zero_of_lt h0 h1, Int.emod_eq_of_lt h0 h1]
  simp

theorem addDays_natCast (c : CivilDate) (k : Nat) : addDays c (k : Int) = nextDay^[k] c := rfl

theorem addDays_neg_one (c : CivilDate) : addDays c (-1) = prevDay c := rfl

theorem iterate_nextDay_sameMonth (y m : Int) (k : Nat) (h : 1 + (k : Int) ≤ daysIn y m) :
    nextDay^[k] ⟨y, m, 1⟩ = ⟨y, m, 1 + k⟩ := by
  induction k with
  | zero => simp
  | succ k ih =>
    rw [Function.iterate_succ_apply', ih (by push_cast at h; omega)]
    unfold nextDay
    push_cast at h
    have : (1 : Int) + k < daysIn y m := by omega
    simp only [this, if_true]
    congr 1

/-- On in-range clock fields and a month in 1..12 `Date` only normalises the day. -/
theorem Date_clock (y m d h mi s ns : Int) (loc : Location)
    (hm : 1 ≤ m ∧ m ≤ 12) (hh : 0 ≤ h ∧ h < 24) (hmi : 0 ≤ mi ∧ mi < 60)
    (hs : 0 ≤ s ∧ s < 60) (hns : 0 ≤ ns ∧ ns < 1000000000) :
    Date y m d h mi s ns loc =
      ⟨(addDays ⟨y, m, 1⟩ (d - 1)).year, (addDays ⟨y, m, 1⟩ (d - 1)).month,
       (addDays ⟨y, m, 1⟩ (d - 1)).day, h, mi, s, ns, loc⟩ := by
  unfold Date
  rw [norm_inRange y (m - 1) 12 (by omega) (by omega),
    norm_inRange s ns 1000000000 hns.1 hns.2]
  simp only
  rw [norm_inRange mi s 60 hs.1 hs.2]
  simp only
  rw [norm_inRange h mi 60 hmi.1 hmi.2]
  simp only
  rw [norm_inRange d h 24 hh.1 hh.2]
  simp only [sub_add_cancel]

/-- On valid fields `Date` returns exactly those fields. -/
theorem Date_valid (y m d h mi s ns : Int) (loc : Location)
    (hm : 1 ≤ m ∧ m ≤ 12) (hd : 1 ≤ d ∧ d ≤ daysIn y m) (hh : 0 ≤ h ∧ h < 24)
    (hmi : 0 ≤ mi ∧ mi < 60) (hs : 0 ≤ s ∧ s < 60) (hns : 0 ≤ ns ∧ ns < 1000000000) :
    Date y m d h mi s ns loc = ⟨y, m, d, h, mi, s, ns, loc⟩ := by
  rw [Date_clock y m d h mi s ns loc hm hh hmi hs hns]
  obtain ⟨k, hk⟩ := Int.eq_ofNat_of_zero_le (show 0 ≤ d - 1 by omega)
  rw [hk, addDays_natCast, iterate_nextDay_sameMonth y m k (by omega)]
  simp only
  congr 1
  omega

/-- Adding a natural number of days to a valid time moves its date by that many
    `nextDay` steps and keeps clock and location. -/
theorem AddDate_days (t : Time) (ht : t.Valid) (n : Nat) :
    t.AddDate 0 0 n =
      ⟨(nextDay^[n] t.date).year, (nextDay^[n] t.date).month, (nextDay^[n] t.date).day,
        t.hour, t.minute, t.second, t.nanosecond, t.loc⟩ := by
  obtain ⟨⟨h1, h2, h3, h4⟩, hh0, hh1, hm0, hm1, hs0, hs1, hn0, hn1⟩ := ht
  simp only [Time.date] at h1 h2 h3 h4
  unfold Time.AddDate
  rw [add_zero, add_zero, Date_clock _ _ _ _ _ _ _ _ ⟨h1, h2⟩ ⟨hh0, hh1⟩ ⟨hm0, hm1⟩ ⟨hs0, hs1⟩
    ⟨hn0, hn1⟩]
  obtain ⟨k, hk⟩ := Int.eq_ofNat_of_zero_le (show 0 ≤ t.day - 1 by omega)
  have e : t.day + (n : Int) - 1 = ((k + n : Nat) : Int) := by push_cast; omega
  rw [e, addDays_natCast, Nat.add_comm, Function.iterate_add_apply,
    iterate_nextDay_sameMonth t.year t.month k (by omega)]
  have e2 : (1 : Int) + k = t.day := by omega
  rw [e2]
  rfl

/-! ### The monthly branch of `calculateNextDueDate` -/

/-- Day 0 of the month after `m` is the last day of month `m`. -/
theorem Date_lastDay (y m : Int) (loc : Location) (hm : 1 ≤ m ∧ m ≤ 12) :
    (Date y (m + 1) 0 0 0 0 0 loc).day = daysIn y m := by
  unfold Date norm
  simp only [add_sub_cancel_right, Int.zero_ediv, Int.zero_emod, add_zero, zero_sub]
  rw [addDays_neg_one]
  by_cases h12 : m = 12
  · subst h12
    simp [prevDay, daysIn]
  · have e1 : m / 12 = 0 := by omega
    have e2 : m % 12 = m := by omega
    rw [e1, e2]
    unfold prevDay
    have : (1 : Int) < m + 1 := by omega
    simp [this]

/-- The year and month reached by the monthly branch. -/
theorem monthlyNext_spec (rule : RecurrenceRule) (t : Time) (ht : t.Valid)
    (hd : 1 ≤ rule.DayOfMonth) (hk : 1 ≤ rule.Interval) :
    ∃ r, monthlyNext rule t = r ∧
      r.year * 12 + (r.month - 1) = t.year * 12 + (t.month - 1) + rule.Interval ∧
      1 ≤ r.month ∧ r.month ≤ 12 ∧
      r.day = min rule.DayOfMonth (daysIn r.year r.month) ∧
      r.hour = t.hour ∧ r.minute = t.minute ∧ r.second = t.second ∧
      r.nanosecond = t.nanosecond ∧ r.loc = t.loc := by
  obtain ⟨⟨h1, h2, h3, h4⟩, hh0, hh1, hm0, hm1, hs0, hs1, hn0, hn1⟩ := ht
  simp only [Time.date] at h1 h2 h3 h4
  refine ⟨_, rfl, ?_⟩
  unfold monthlyNext
  simp only
  have key : ∃ ny nm : Int,
      (if t.month + rule.Interval > 12 then
        t.year + Int.tdiv (t.month + rule.Interval - 1) 12 else t.year) = ny ∧
      (if t.month + rule.Interval > 12 then
        Int.tmod (t.month + rule.Interval - 1) 12 + 1 else t.month + rule.Interval) = nm ∧
      1 ≤ nm ∧ nm ≤ 12 ∧ ny * 12 + (nm - 1) = t.year * 12 + (t.month - 1) + rule.Interval := by
    by_cases hgt : t.month + rule.Interval > 12
    · refine ⟨_, _, rfl, rfl, ?_⟩
      rw [if_pos hgt, if_pos hgt, Int.tdiv_eq_ediv (by omega) (by omega),
        Int.tmod_eq_emod (by omega) (by omega)]
      omega
    · refine ⟨_, _, rfl, rfl, ?_⟩
      rw [if_neg hgt, if_neg hgt]
      omega
  obtain ⟨ny, nm, e1, e2, hnm1, hnm2, hsum⟩ := key
  rw [e1, e2, Date_lastDay ny nm t.loc ⟨hnm1, hnm2⟩]
  have hdim := daysIn_pos ny nm
  have hday : (if rule.DayOfMonth > daysIn ny nm then daysIn ny nm else rule.DayOfMonth)
      = min rule.DayOfMonth (daysIn ny nm) := by
    split_ifs with h
    · rw [min_eq_right (by omega)]
    · rw [min_eq_left (by omega)]
  rw [hday, Date_valid ny nm _ _ _ _ _ _ ⟨hnm1, hnm2⟩
    ⟨by rw [le_min_iff]; omega, min_le_right _ _⟩ ⟨hh0, hh1⟩ ⟨hm0, hm1⟩ ⟨hs0, hs1⟩ ⟨hn0, hn1⟩]
  exact ⟨hsum, hnm1, hnm2, rfl, rfl, rfl, rfl, rfl, rfl⟩

theorem calculateNextDueDate_monthly (fuel : Nat) (rule : RecurrenceRule) (t : Time)
    (htype : rule.Type_ = "monthly") (hd : 1 ≤ rule.DayOfMonth) :
    calculateNextDueDate fuel rule t = some (monthlyNext rule t) := by
  unfold calculateNextDueDate
  have hpos : rule.DayOfMonth > 0 := by omega
  simp [htype, hpos]

/-! ### The weekly branch of `calculateNextDueDate` -/

theorem AddDate_days_valid (t : Time) (ht : t.Valid) (n : Nat) : (t.AddDate 0 0 n).Valid := by
  rw [AddDate_days t ht n]
  obtain ⟨hd, hrest⟩ := ht
  exact ⟨(iterate_nextDay t.date hd n).1, hrest⟩

theorem AddDate_days_date (t : Time) (ht : t.Valid) (n : Nat) :
    (t.AddDate 0 0 n).date = nextDay^[n] t.date := by
  rw [AddDate_days t ht n]
  rfl

theorem AddDate_zero (t : Time) (ht : t.Valid) : t.AddDate 0 0 0 = t := by
  have := AddDate_days t ht 0
  simp only [Nat.cast_zero, Function.iterate_zero, id_eq] at this
  rw [this]
  rfl

theorem AddDate_days_succ (t : Time) (ht : t.Valid) (n : Nat) :
    (t.AddDate 0 0 1).AddDate 0 0 n = t.AddDate 0 0 ((n + 1 : Nat) : Int) := by
  have h1 := AddDate_days t ht 1
  have hv := AddDate_days_valid t ht 1
  simp only [Nat.cast_one] at h1 hv
  rw [AddDate_days _ hv n, AddDate_days t ht (n + 1), Function.iterate_succ_apply]
  rw [h1]
  simp only [Function.iterate_one, Time.date]

theorem Weekday_AddDate_days (t : Time) (ht : t.Valid) (n : Nat) :
    (t.AddDate 0 0 n).Weekday = (t.Weekday + n) % 7 := by
  unfold Time.Weekday
  rw [AddDate_days_date t ht n, (iterate_nextDay t.date ht.1 n).2]
  omega

theorem UnixNano_AddDate_days (t : Time) (ht : t.Valid) (n : Nat) :
    (t.AddDate 0 0 n).UnixNano = t.UnixNano + n * (24 * Hour) := by
  unfold Time.UnixNano
  rw [AddDate_days_date t ht n, (iterate_nextDay t.date ht.1 n).2, AddDate_days t ht n]
  simp only [Hour, Minute, Second]
  ring

theorem Weekday_range (t : Time) : 0 ≤ t.Weekday ∧ t.Weekday ≤ 6 := by
  unfold Time.Weekday
  omega

theorem any_weekday (days : List Int) (t : Time) :
    days.any (fun dow => t.Weekday == dow) = true ↔ t.Weekday ∈ days := by
  simp [List.any_eq_true]

/-- The weekly search returns the first date, counted from its start, whose weekday is in
    the list, provided the fuel reaches it. -/
theorem weeklySearch_first (days : List Int) (j : Nat) :
    ∀ (fuel : Nat) (s : Time), s.Valid → j < fuel →
      (s.AddDate 0 0 j).Weekday ∈ days →
      (∀ i : Nat, i < j → (s.AddDate 0 0 i).Weekday ∉ days) →
      weeklySearch days fuel s = some (s.AddDate 0 0 j) := by
  induction j with
  | zero =>
    intro fuel s hs hf hin _
    obtain ⟨f, rfl⟩ : ∃ f, fuel = f + 1 := ⟨fuel - 1, by omega⟩
    simp only [Nat.cast_zero] at hin ⊢
    rw [AddDate_zero s hs] at hin ⊢
    unfold weeklySearch
    rw [if_pos ((any_weekday days s).2 hin)]
  | succ j ih =>
    intro fuel s hs hf hin hnot
    obtain ⟨f, rfl⟩ : ∃ f, fuel = f + 1 := ⟨fuel - 1, by omega⟩
    have h0 : s.Weekday ∉ days := by
      have := hnot 0 (by omega)
      simp only [Nat.cast_zero] at this
      rwa [AddDate_zero s hs] at this
    unfold weeklySearch
    rw [if_neg (fun h => h0 ((any_weekday days s).1 h))]
    have hv := AddDate_days_valid s hs 1
    simp only [Nat.cast_one] at hv
    rw [ih f (s.AddDate 0 0 1) hv (by omega)
      (by rw [AddDate_days_succ s hs j]; exact hin)
      (by
        intro i hi
        rw [AddDate_days_succ s hs i]
        exact hnot (i + 1) (by omega))]
    rw [AddDate_days_succ s hs j]

/-- Without a weekday value in the list the weekly search never returns. -/
theorem weeklySearch_none (days : List Int) (hbad : ∀ d ∈ days, ¬ (0 ≤ d ∧ d ≤ 6)) :
    ∀ (fuel : Nat) (s : Time), weeklySearch days fuel s = none := by
  intro fuel
  induction fuel with
  | zero => intro s; rfl
  | succ f ih =>
    intro s
    unfold weeklySearch
    rw [if_neg (fun h => hbad _ ((any_weekday days s).1 h) (Weekday_range s))]
    exact ih _

/-- Among the seven days that follow a valid time one has its weekday in a list that
    holds a weekday value; the first such day is returned. -/
theorem weekly_first_exists (days : List Int) (t : Time) (ht : t.Valid)
    (hday : ∃ d ∈ days, 0 ≤ d ∧ d ≤ 6) :
    ∃ n : Nat, 1 ≤ n ∧ n ≤ 7 ∧ (t.AddDate 0 0 n).Weekday ∈ days ∧
      ∀ j : Nat, 1 ≤ j → j < n → (t.AddDate 0 0 j).Weekday ∉ days := by
  obtain ⟨d, hd, hd0, hd6⟩ := hday
  have hw := Weekday_range t
  have hex : ∃ n : Nat, 1 ≤ n ∧ (t.AddDate 0 0 n).Weekday ∈ days := by
    refine ⟨((d - t.Weekday - 1) % 7).toNat + 1, by omega, ?_⟩
    rw [Weekday_AddDate_days t ht]
    have : (t.Weekday + (((d - t.Weekday - 1) % 7).toNat + 1 : Nat)) % 7 = d := by
      push_cast
      omega
    rw [this]
    exact hd
  classical
  refine ⟨Nat.find hex, (Nat.find_spec hex).1, ?_, (Nat.find_spec hex).2, ?_⟩
  · have : Nat.find hex ≤ ((d - t.Weekday - 1) % 7).toNat + 1 := by
      apply Nat.find_min'
      refine ⟨by omega, ?_⟩
      rw [Weekday_AddDate_days t ht]
      have : (t.Weekday + (((d - t.Weekday - 1) % 7).toNat + 1 : Nat)) % 7 = d := by
        push_cast
        omega
      rw [this]
      exact hd
    omega
  · intro j hj1 hjn hin
    exact Nat.find_min hex hjn ⟨hj1, hin⟩

theorem calculateNextDueDate_weekly (fuel : Nat) (rule : RecurrenceRule) (t : Time)
    (htype : rule.Type_ = "weekly") (hne : rule.DaysOfWeek ≠ []) :
    calculateNextDueDate fuel rule t = weeklySearch rule.DaysOfWeek fuel (t.AddDate 0 0 1) := by
  unfold calculateNextDueDate
  have : rule.DaysOfWeek.length ≠ 0 := by
    intro h
    exact hne (List.length_eq_zero.1 h)
  simp [htype, this]

/-- The weekly branch returns the first of the following days whose weekday is listed. -/
theorem weekly_result (rule : RecurrenceRule) (t : Time) (ht : t.Valid)
    (htype : rule.Type_ = "weekly") (n : Nat) (hn1 : 1 ≤ n)
    (hin : (t.AddDate 0 0 n).Weekday ∈ rule.DaysOfWeek)
    (hmin : ∀ j : Nat, 1 ≤ j → j < n → (t.AddDate 0 0 j).Weekday ∉ rule.DaysOfWeek)
    (fuel : Nat) (hf : n ≤ fuel) :
    calculateNextDueDate fuel rule t = some (t.AddDate 0 0 n) := by
  have hne : rule.DaysOfWeek ≠ [] := by
    intro h
    rw [h] at hin
    simp at hin
  rw [calculateNextDueDate_weekly fuel rule t htype hne]
  obtain ⟨k, rfl⟩ : ∃ k, n = k + 1 := ⟨n - 1, by omega⟩
  have hv := AddDate_days_valid t ht 1
  simp only [Nat.cast_one] at hv
  rw [weeklySearch_first rule.DaysOfWeek k fuel (t.AddDate 0 0 1) hv (by omega)
    (by rw [AddDate_days_succ t ht k]; exact hin)
    (by
      intro i hi
      rw [AddDate_days_succ t ht i]
      exact hmin (i + 1) (by omega) (by omega))]
  rw [AddDate_days_succ t ht k]

/-! ### Validity of computed dates -/

theorem prevDay_valid (c : CivilDate) (h : c.Valid) : (prevDay c).Valid := by
  obtain ⟨h1, h2, h3, h4⟩ := h
  unfold prevDay
  split_ifs with ha hb
  · exact ⟨h1, h2, by simp only; omega, by simp only; omega⟩
  · have := daysIn_pos c.year (c.month - 1)
    exact ⟨by simp only; omega, by simp only; omega, by simp only; omega, by simp only; omega⟩
  · refine ⟨by simp only; omega, by simp only; omega, by simp only; omega, ?_⟩
    simp [daysIn]

theorem iterate_prevDay_valid (c : CivilDate) (h : c.Valid) (k : Nat) :
    (prevDay^[k] c).Valid := by
  induction k with
  | zero => exact h
  | succ k ih =>
    rw [Function.iterate_succ_apply']
    exact prevDay_valid _ ih

theorem addDays_valid (c : CivilDate) (h : c.Valid) (n : Int) : (addDays c n).Valid := by
  cases n with
  | ofNat k => exact (iterate_nextDay c h k).1
  | negSucc k => exact iterate_prevDay_valid c h (k + 1)

/-- Every time built by `Date` is valid. -/
theorem Date_isValid (y m d h mi s ns : Int) (loc : Location) :
    (Date y m d h mi s ns loc).Valid := by
  have hfirst : (CivilDate.mk (norm y (m - 1) 12).1 ((norm y (m - 1) 12).2 + 1) 1).Valid := by
    have := daysIn_pos (norm y (m - 1) 12).1 ((norm y (m - 1) 12).2 + 1)
    refine ⟨?_, ?_, by simp only; omega, by simp only; omega⟩
    · simp only [norm]; omega
    · simp only [norm]; omega
  refine ⟨addDays_valid _ hfirst _, ?_⟩
  simp only [Date, norm]
  omega

theorem calculateNextDueDate_valid (fuel : Nat) (rule : RecurrenceRule) (t r : Time)
    (h : calculateNextDueDate fuel rule t = some r) : r.Valid := by
  unfold calculateNextDueDate at h
  split_ifs at h with h1 h2 h3 h4 h5
  · cases h; exact Date_isValid _ _ _ _ _ _ _ _
  · cases h; exact Date_isValid _ _ _ _ _ _ _ _
  · have hv : (t.AddDate 0 0 1).Valid := Date_isValid _ _ _ _ _ _ _ _
    clear h3
    generalize t.AddDate 0 0 1 = s at h hv
    induction fuel generalizing s with
    | zero => simp [weeklySearch] at h
    | succ f ih =>
      unfold weeklySearch at h
      split_ifs at h
      · cases h; exact hv
      · exact ih _ h (Date_isValid _ _ _ _ _ _ _ _)
  · cases h; exact Date_isValid _ _ _ _ _ _ _ _
  · cases h; exact Date_isValid _ _ _ _ _ _ _ _
  · cases h; exact Date_isValid _ _ _ _ _ _ _ _

/-- A rule on which `calculateNextDueDate` returns: it is not a weekly rule whose non-empty
    day list lacks every weekday value. -/
theorem calculateNextDueDate_total (rule : RecurrenceRule)
    (hterm : rule.Type_ = "weekly" → rule.DaysOfWeek = [] ∨ ∃ d ∈ rule.DaysOfWeek, 0 ≤ d ∧ d ≤ 6)
    (fuel : Nat) (hf : 7 ≤ fuel) (t : Time) (ht : t.Valid) :
    ∃ r, calculateNextDueDate fuel rule t = some r ∧ r.Valid := by
  have hsome : ∃ r, calculateNextDueDate fuel rule t = some r := by
    by_cases hw : rule.Type_ = "weekly"
    · rcases hterm hw with he | hd
      · refine ⟨t.AddDate 0 0 (7 * rule.Interval), ?_⟩
        unfold calculateNextDueDate
        simp [hw, he]
      · obtain ⟨n, hn1, hn7, hin, hmin⟩ := weekly_first_exists rule.DaysOfWeek t ht hd
        exact ⟨_, weekly_result rule t ht hw n hn1 hin hmin fuel (by omega)⟩
    · unfold calculateNextDueDate
      simp only [hw, if_false]
      split_ifs <;> exact ⟨_, rfl⟩
  obtain ⟨r, hr⟩ := hsome
  exact ⟨r, hr, calculateNextDueDate_valid fuel rule t r hr⟩

/-! ### The 64-bit computation agrees with exact arithmetic in a bounded range -/

theorem wrapInt_of_range (x : Int) (h1 : -9223372036854775808 ≤ x)
    (h2 : x < 9223372036854775808) : wrapInt x = x := by
  unfold wrapInt
  omega

theorem wrapUint_of_range (x : Int) (h1 : 0 ≤ x) (h2 : x < 18446744073709551616) :
    wrapUint x = x := by
  unfold wrapUint
  omega

/-- The count of `daysSinceEpoch` in exact arithmetic. -/
theorem daysSinceEpoch_cycles (y : Int) (h1 : 0 ≤ y) (h2 : y ≤ 400000000000) :
    wrapUint (wrapUint (wrapUint (wrapUint (146097 * (y / 400))
        + wrapUint (36524 * ((y - 400 * (y / 400)) / 100)))
        + wrapUint (1461 * ((y - 400 * (y / 400) - 100 * ((y - 400 * (y / 400)) / 100)) / 4)))
        + wrapUint (365 * (y - 400 * (y / 400) - 100 * ((y - 400 * (y / 400)) / 100)
            - 4 * ((y - 400 * (y / 400) - 100 * ((y - 400 * (y / 400)) / 100)) / 4))))
      = 365 * y + y / 4 - y / 100 + y / 400 := by
  rw [wrapUint_of_range (146097 * _) (by omega) (by omega),
    wrapUint_of_range (36524 * _) (by omega) (by omega),
    wrapUint_of_range (1461 * _) (by omega) (by omega),
    wrapUint_of_range (365 * _) (by omega) (by omega),
    wrapUint_of_range (146097 * _ + _) (by omega) (by omega),
    wrapUint_of_range (146097 * _ + _ + _) (by omega) (by omega),
    wrapUint_of_range _ (by omega) (by omega)]
  omega

/-- Go's `daysSinceEpoch` counts the days from the first of January of the year of the
    absolute epoch: 106751991073094 more than the days from 1970-01-01. -/
theorem daysSinceEpoch_eq (year : Int) (h1 : -292277022399 ≤ year)
    (h2 : year ≤ 100000000000) :
    Machine.daysSinceEpoch year = daysBeforeYear year + 106751991073094 := by
  have hy : wrapUint (wrapInt (year - absoluteZeroYear)) = year + 292277022399 := by
    unfold absoluteZeroYear
    rw [wrapInt_of_range _ (by omega) (by omega), wrapUint_of_range _ (by omega) (by omega)]
    omega
  unfold Machine.daysSinceEpoch
  simp only [hy]
  rw [daysSinceEpoch_cycles _ (by omega) (by omega)]
  unfold daysBeforeYear
  omega

theorem cycle_quotient (n b r : Int) (hn : 0 < n) (hb0 : 0 ≤ b) (hb1 : b ≤ 3) (hr0 : 0 ≤ r)
    (hr : r < n ∨ (r = n ∧ b = 3)) :
    (n * b + r) / n - (n * b + r) / n / 4 = b := by
  rcases hr with h | ⟨h1, h2⟩
  · have e1 : (n * b + r) / n = b := by
      rw [Int.add_comm, Int.add_mul_ediv_left _ _ (by omega), Int.ediv_eq_zero_of_lt hr0 h]
      omega
    rw [e1]
    omega
  · subst h1 h2
    have e1 : (r * 3 + r) / r = 4 := by
      have : r * 3 + r = r * 4 := by ring
      rw [this, Int.mul_ediv_cancel_left _ (by omega)]
    rw [e1]
    decide

/-- The cycles of `absDate` recover the year and the day of the year. -/
theorem absDate_cycles (y e : Int) (h0 : 0 ≤ y) (he0 : 0 ≤ e)
    (he : e ≤ 364 ∨ (e = 365 ∧ (y + 1) % 4 = 0 ∧ ((y + 1) % 100 ≠ 0 ∨ (y + 1) % 400 = 0)))
    (days : Int) (hdays : days = 365 * y + y / 4 - y / 100 + y / 400 + e) :
    absCycles days = (y, e) := by
  unfold absCycles
  dsimp only
  obtain ⟨a, b, c, f, hy, hb0, hb1, hc0, hc1, hf0, hf1⟩ :
      ∃ a b c f : Int, y = 400 * a + 100 * b + 4 * c + f ∧ 0 ≤ b ∧ b ≤ 3 ∧ 0 ≤ c ∧ c ≤ 24
        ∧ 0 ≤ f ∧ f ≤ 3 :=
    ⟨y / 400, y % 400 / 100, y % 400 % 100 / 4, y % 400 % 100 % 4, by omega, by omega,
      by omega, by omega, by omega, by omega, by omega⟩
  have ha0 : 0 ≤ a := by omega
  have hd : days = 146097 * a + 36524 * b + 1461 * c + 365 * f + e := by omega
  have he' : e ≤ 364 ∨ (e = 365 ∧ f = 3 ∧ (c ≠ 24 ∨ b = 3)) := by omega
  have s1 : days / 146097 = a := by omega
  rw [s1]
  have d1 : days - 146097 * a = 36524 * b + 1461 * c + 365 * f + e := by omega
  rw [d1]
  have s2 : (36524 * b + 1461 * c + 365 * f + e) / 36524
      - (36524 * b + 1461 * c + 365 * f + e) / 36524 / 4 = b := by
    have hsum : 36524 * b + 1461 * c + 365 * f + e = 36524 * b + (1461 * c + 365 * f + e) := by
      ring
    rw [hsum]
    exact cycle_quotient 36524 b (1461 * c + 365 * f + e) (by omega) hb0 hb1 (by omega)
      (by omega)
  rw [s2]
  have d2 : 36524 * b + 1461 * c + 365 * f + e - 36524 * b = 1461 * c + 365 * f + e := by
    omega
  rw [d2]
  have s3 : (1461 * c + 365 * f + e) / 1461 = c := by omega
  rw [s3]
  have d3 : 1461 * c + 365 * f + e - 1461 * c = 365 * f + e := by omega
  rw [d3]
  have s4 : (365 * f + e) / 365 - (365 * f + e) / 365 / 4 = f :=
    cycle_quotient 365 f e (by omega) hf0 hf1 he0 (by omega)
  rw [s4, Prod.mk.injEq]
  omega

/-- The month estimate of `absDate`: a day of a non-leap year that lies in month `M` is
    found in month `M`, on the right day. -/
theorem absDate_monthDay (M day : Int) (hM1 : 1 ≤ M) (hM2 : M ≤ 12)
    (h1 : daysBefore (M - 1) ≤ day) (h2 : day < daysBefore M) :
    (day ≥ daysBefore (day / 31 + 1) →
      day / 31 + 2 = M ∧ day - daysBefore (day / 31 + 1) + 1 = day - daysBefore (M - 1) + 1)
    ∧ (¬ day ≥ daysBefore (day / 31 + 1) →
      day / 31 + 1 = M ∧ day - daysBefore (day / 31) + 1 = day - daysBefore (M - 1) + 1) := by
  have t0 : daysBefore 0 = 0 := rfl
  have t1 : daysBefore 1 = 31 := rfl
  have t2 : daysBefore 2 = 59 := rfl
  have t3 : daysBefore 3 = 90 := rfl
  have t4 : daysBefore 4 = 120 := rfl
  have t5 : daysBefore 5 = 151 := rfl
  have t6 : daysBefore 6 = 181 := rfl
  have t7 : daysBefore 7 = 212 := rfl
  have t8 : daysBefore 8 = 243 := rfl
  have t9 : daysBefore 9 = 273 := rfl
  have t10 : daysBefore 10 = 304 := rfl
  have t11 : daysBefore 11 = 334 := rfl
  have t12 : daysBefore 12 = 365 := rfl
  interval_cases M <;>
    simp only [t0, t1, t2, t3, t4, t5, t6, t7, t8, t9, t10, t11, t12, Int.reduceSub] at h1 h2 <;>
    interval_cases day <;> decide

/-- The table `daysBefore` and the days before a month. -/
theorem daysBeforeMonth_table (Y M : Int) (hM1 : 1 ≤ M) (hM2 : M ≤ 12) :
    daysBeforeMonth Y M
      = daysBefore (M - 1) + (if isLeap Y = true ∧ 3 ≤ M then 1 else 0)
    ∧ daysIn Y M = daysBefore M - daysBefore (M - 1)
        + (if isLeap Y = true ∧ M = 2 then 1 else 0) := by
  by_cases hl : isLeap Y = true
  · interval_cases M <;> simp [daysBeforeMonth, daysIn, daysBefore, hl]
  · interval_cases M <;> simp [daysBeforeMonth, daysIn, daysBefore, hl]

theorem daysBefore_bounds (M : Int) (hM1 : 1 ≤ M) (hM2 : M ≤ 12) :
    0 ≤ daysBefore (M - 1) ∧ daysBefore (M - 1) + 28 ≤ daysBefore M ∧ daysBefore M ≤ 365
    ∧ (M = 1 → daysBefore M = 31) ∧ (M = 2 → daysBefore M = 59 ∧ daysBefore (M - 1) = 31)
    ∧ (3 ≤ M → 59 ≤ daysBefore (M - 1)) := by
  interval_cases M <;> simp [daysBefore]

/-- The month and day that `absDate` finds for a day of the year. -/
theorem absDate_tail (Y M D day : Int) (hM1 : 1 ≤ M) (hM2 : M ≤ 12)
    (hday : day = daysBefore (M - 1) + D - 1) (hD1 : 1 ≤ D)
    (hD2 : D ≤ daysBefore M - daysBefore (M - 1)) :
    (if day ≥ daysBefore (day / 31 + 1) then
        (⟨Y, day / 31 + 2, day - daysBefore (day / 31 + 1) + 1⟩ : CivilDate)
      else ⟨Y, day / 31 + 1, day - daysBefore (day / 31) + 1⟩) = ⟨Y, M, D⟩ := by
  have h := absDate_monthDay M day hM1 hM2 (by omega) (by omega)
  split_ifs with hc
  · obtain ⟨e1, e2⟩ := h.1 hc
    rw [e1, e2]
    congr 1
    omega
  · obtain ⟨e1, e2⟩ := h.2 hc
    rw [e1, e2]
    congr 1
    omega

/-- The day of the year of a valid date, as `absDate` splits the cases: the leap day, or
    a day that lies in its month of the non-leap table once the leap day is taken out. -/
theorem yday_cases (Y M D : Int) (hM1 : 1 ≤ M) (hM2 : M ≤ 12) (hD1 : 1 ≤ D)
    (hD2 : D ≤ daysIn Y M) :
    0 ≤ daysBeforeMonth Y M + (D - 1)
    ∧ (daysBeforeMonth Y M + (D - 1) ≤ 364
        ∨ (daysBeforeMonth Y M + (D - 1) = 365 ∧ isLeap Y = true))
    ∧ ((isLeap Y = true ∧ daysBeforeMonth Y M + (D - 1) = 59 ∧ M = 2 ∧ D = 29)
        ∨ (¬ (isLeap Y = true ∧ daysBeforeMonth Y M + (D - 1) = 59)
            ∧ (if isLeap Y = true ∧ daysBeforeMonth Y M + (D - 1) > 59
                then daysBeforeMonth Y M + (D - 1) - 1 else daysBeforeMonth Y M + (D - 1))
              = daysBefore (M - 1) + D - 1
            ∧ D ≤ daysBefore M - daysBefore (M - 1))) := by
  by_cases hl : isLeap Y = true
  · interval_cases M <;> simp [daysBeforeMonth, daysIn, daysBefore, hl] at hD2 ⊢ <;> omega
  · interval_cases M <;> simp [daysBeforeMonth, daysIn, daysBefore, hl] at hD2 ⊢ <;> omega

/-- The function `absDate` is the inverse of the day count: it returns the valid date
    whose distance from the absolute epoch it is given. -/
theorem absDate_daysFromCivil (c : CivilDate) (hc : c.Valid) (h1 : -292277022399 ≤ c.year)
    (h2 : c.year ≤ 100000000000) :
    absDate (daysFromCivil c + 106751991073094) = c := by
  obtain ⟨Y, M, D⟩ := c
  obtain ⟨hM1, hM2, hD1, hD2⟩ := hc
  simp only at hM1 hM2 hD1 hD2 h1 h2
  obtain ⟨he0, he, hcase⟩ := yday_cases Y M D hM1 hM2 hD1 hD2
  have hyear : wrapInt (Y + 292277022399 + absoluteZeroYear) = Y := by
    unfold absoluteZeroYear
    rw [wrapInt_of_range _ (by omega) (by omega)]
    omega
  have he2 : daysBeforeMonth Y M + (D - 1) ≤ 364
      ∨ (daysBeforeMonth Y M + (D - 1) = 365 ∧ (Y + 292277022399 + 1) % 4 = 0
        ∧ ((Y + 292277022399 + 1) % 100 ≠ 0 ∨ (Y + 292277022399 + 1) % 400 = 0)) := by
    rcases he with h | ⟨h, hl⟩
    · exact Or.inl h
    · have := (isLeap_iff Y).mp hl
      refine Or.inr ⟨h, ?_⟩
      clear hcase he0 hyear hD2
      omega
  have hdays : daysFromCivil ⟨Y, M, D⟩ + 106751991073094
      = 365 * (Y + 292277022399) + (Y + 292277022399) / 4 - (Y + 292277022399) / 100
        + (Y + 292277022399) / 400 + (daysBeforeMonth Y M + (D - 1)) := by
    unfold daysFromCivil daysBeforeYear
    simp only
    clear hcase he0 hyear hD2 he he2
    omega
  have hcyc : absCycles (daysFromCivil ⟨Y, M, D⟩ + 106751991073094)
      = (Y + 292277022399, daysBeforeMonth Y M + (D - 1)) :=
    absDate_cycles _ _ (by omega) he0 he2 _ hdays
  unfold absDate
  simp only [hcyc, hyear, Bool.and_eq_true, decide_eq_true_eq]
  rcases hcase with ⟨hl, h59, hM, hD⟩ | ⟨hn, hday, hD3⟩
  · rw [if_pos ⟨hl, h59⟩, hM, hD]
  · rw [if_neg hn]
    simp only [hday]
    exact absDate_tail Y M D _ hM1 hM2 rfl hD1 hD3

theorem daysFromCivil_prevDay (c : CivilDate) (h : c.Valid) :
    daysFromCivil (prevDay c) = daysFromCivil c - 1 := by
  obtain ⟨h1, h2, h3, h4⟩ := h
  unfold prevDay
  split_ifs with ha hb
  · simp only [daysFromCivil]; omega
  · simp only [daysFromCivil]
    have := daysBeforeMonth_succ c.year (c.month - 1) (by omega) (by omega)
    rw [sub_add_cancel] at this
    omega
  · simp only [daysFromCivil]
    have hm : c.month = 1 := by omega
    have hy := daysBeforeYear_succ (c.year - 1)
    rw [sub_add_cancel] at hy
    rw [hy, hm, daysBeforeMonth_one, daysBeforeMonth_twelve]
    split_ifs <;> omega

theorem iterate_prevDay (c : CivilDate) (h : c.Valid) (k : Nat) :
    (prevDay^[k] c).Valid ∧ daysFromCivil (prevDay^[k] c) = daysFromCivil c - k := by
  induction k with
  | zero => exact ⟨h, by simp⟩
  | succ k ih =>
    rw [Function.iterate_succ_apply']
    refine ⟨prevDay_valid _ ih.1, ?_⟩
    rw [daysFromCivil_prevDay _ ih.1, ih.2]
    push_cast
    omega

/-- The date `n` days after a valid date is `n` days later in the day count. -/
theorem daysFromCivil_addDays (c : CivilDate) (h : c.Valid) (n : Int) :
    daysFromCivil (addDays c n) = daysFromCivil c + n := by
  cases n with
  | ofNat k =>
    have := (iterate_nextDay c h k).2
    simpa [addDays] using this
  | negSucc k =>
    have := (iterate_prevDay c h (k + 1)).2
    simp only [addDays]
    rw [this, Int.negSucc_eq]
    push_cast
    omega

/-- The day count of a valid date lies within its year. -/
theorem daysFromCivil_year (c : CivilDate) (h : c.Valid) :
    daysBeforeYear c.year ≤ daysFromCivil c ∧ daysFromCivil c < daysBeforeYear (c.year + 1) := by
  obtain ⟨Y, M, D⟩ := c
  obtain ⟨hM1, hM2, hD1, hD2⟩ := h
  simp only at hM1 hM2 hD1 hD2
  obtain ⟨he0, he, -⟩ := yday_cases Y M D hM1 hM2 hD1 hD2
  rw [daysBeforeYear_succ]
  unfold daysFromCivil
  simp only
  rcases he with h | ⟨h, hl⟩
  · split_ifs <;> omega
  · rw [if_pos hl]
    omega

/-- A later year starts at least 365 days later for every year in between. -/
theorem daysBeforeYear_le (a b : Int) (h : a ≤ b) :
    daysBeforeYear a + 365 * (b - a) ≤ daysBeforeYear b := by
  obtain ⟨k, rfl⟩ : ∃ k : Nat, b = a + k := ⟨(b - a).toNat, by omega⟩
  clear h
  induction k with
  | zero => simp
  | succ k ih =>
    have hs := daysBeforeYear_succ (a + k)
    have e : a + ((k + 1 : Nat) : Int) = a + k + 1 := by push_cast; ring
    rw [e, hs]
    split_ifs <;> omega

/-- A valid date with a moderate day count lies in a year that `absDate` covers. -/
theorem year_of_daysFromCivil (c : CivilDate) (h : c.Valid)
    (h1 : -100000000000000 ≤ daysFromCivil c) (h2 : daysFromCivil c ≤ 36000000000000) :
    -292277022399 ≤ c.year ∧ c.year ≤ 100000000000 := by
  obtain ⟨b1, b2⟩ := daysFromCivil_year c h
  unfold daysBeforeYear at b1 b2
  constructor <;> omega

/-- Reading back a valid time from its count of seconds since the absolute epoch. -/
theorem ofAbs_of_valid (t : Time) (ht : t.Valid) (h1 : -292277022399 ≤ t.year)
    (h2 : t.year ≤ 100000000000) :
    Time.ofAbs ((daysFromCivil t.date + 106751991073094) * 86400
        + (t.hour * 3600 + t.minute * 60 + t.second)) t.nanosecond t.loc = t := by
  obtain ⟨hd, hh0, hh1, hm0, hm1, hs0, hs1, hn0, hn1⟩ := ht
  have hc := absDate_daysFromCivil t.date hd h1 h2
  have q : ((daysFromCivil t.date + 106751991073094) * 86400
        + (t.hour * 3600 + t.minute * 60 + t.second)) / 86400
      = daysFromCivil t.date + 106751991073094 := by omega
  have r : ((daysFromCivil t.date + 106751991073094) * 86400
        + (t.hour * 3600 + t.minute * 60 + t.second)) % 86400
      = t.hour * 3600 + t.minute * 60 + t.second := by omega
  unfold Time.ofAbs
  simp only [q, r, hc]
  have e1 : (t.hour * 3600 + t.minute * 60 + t.second) / 3600 = t.hour := by omega
  rw [e1]
  have e2 : (t.hour * 3600 + t.minute * 60 + t.second - t.hour * 3600) / 60 = t.minute := by
    omega
  rw [e2]
  have e3 : t.hour * 3600 + t.minute * 60 + t.second - t.hour * 3600 - t.minute * 60
      = t.second := by omega
  rw [e3]
  rfl

/-- Go's `norm` leaves a pair alone whose low part is in range. -/
theorem machine_norm_inRange (hi lo base : Int) (h0 : 0 ≤ lo) (h1 : lo < base) :
    Machine.norm hi lo base = (hi, lo) := by
  unfold Machine.norm
  have hn : ¬ lo < 0 := by omega
  have hb : ¬ lo ≥ base := by omega
  simp only [hn, hb, if_false]

/-- Go's `norm` of a year and a month index agrees with the exact carry when the values are
    far from the ends of `int`. -/
theorem machine_norm_month (hi lo : Int) (hhi : -100000000000 ≤ hi ∧ hi ≤ 100000000000)
    (hlo : -1000000000000 ≤ lo ∧ lo ≤ 1000000000000) :
    Machine.norm hi lo 12 = norm hi lo 12 := by
  unfold Machine.norm norm
  by_cases hneg : lo < 0
  · have e1 : wrapInt (-lo) = -lo := wrapInt_of_range _ (by omega) (by omega)
    have e2 : wrapInt (-lo - 1) = -lo - 1 := wrapInt_of_range _ (by omega) (by omega)
    have e3 : Int.tdiv (-lo - 1) 12 = (-lo - 1) / 12 := Int.tdiv_eq_ediv (by omega) (by omega)
    have e4 : wrapInt ((-lo - 1) / 12 + 1) = (-lo - 1) / 12 + 1 :=
      wrapInt_of_range _ (by omega) (by omega)
    have e5 : wrapInt (hi - ((-lo - 1) / 12 + 1)) = hi - ((-lo - 1) / 12 + 1) :=
      wrapInt_of_range _ (by omega) (by omega)
    have e6 : wrapInt (((-lo - 1) / 12 + 1) * 12) = ((-lo - 1) / 12 + 1) * 12 :=
      wrapInt_of_range _ (by omega) (by omega)
    have e7 : wrapInt (lo + ((-lo - 1) / 12 + 1) * 12) = lo + ((-lo - 1) / 12 + 1) * 12 :=
      wrapInt_of_range _ (by omega) (by omega)
    simp only [hneg, if_true, e1, e2, e3, e4, e5, e6, e7]
    have hb : ¬ lo + ((-lo - 1) / 12 + 1) * 12 ≥ 12 := by omega
    simp only [hb, if_false, Prod.mk.injEq]
    refine ⟨?_, ?_⟩ <;> first | trivial | omega
  · simp only [hneg, if_false]
    by_cases hb : lo ≥ 12
    · have e3 : Int.tdiv lo 12 = lo / 12 := Int.tdiv_eq_ediv (by omega) (by omega)
      have e5 : wrapInt (hi + lo / 12) = hi + lo / 12 :=
        wrapInt_of_range _ (by omega) (by omega)
      have e6 : wrapInt (lo / 12 * 12) = lo / 12 * 12 :=
        wrapInt_of_range _ (by omega) (by omega)
      have e7 : wrapInt (lo - lo / 12 * 12) = lo - lo / 12 * 12 :=
        wrapInt_of_range _ (by omega) (by omega)
      rw [if_pos hb]
      simp only [e3, e5, e6, e7, Prod.mk.injEq]
      refine ⟨?_, ?_⟩ <;> first | trivial | omega
    · rw [if_neg hb, Prod.mk.injEq]
      constructor <;> omega

/-- The exact `time.Date` carries the month into the year first. -/
theorem Date_norm_month (y m d h mi s ns : Int) (loc : Location) :
    Date y m d h mi s ns loc
      = Date (y + (m - 1) / 12) ((m - 1) % 12 + 1) d h mi s ns loc := by
  have e : norm (y + (m - 1) / 12) ((m - 1) % 12 + 1 - 1) 12 = norm y (m - 1) 12 := by
    unfold norm
    rw [Prod.mk.injEq]
    constructor <;> omega
  unfold Date
  rw [e]

/-- The table `daysBefore` at a month index. -/
theorem daysBefore_index (i : Int) (h0 : 0 ≤ i) (h1 : i ≤ 11) :
    0 ≤ daysBefore i ∧ daysBefore i ≤ 334 := by
  interval_cases i <;> simp [daysBefore]

/-- Sums of `uint64` values: the inner reduction can be dropped. -/
theorem wrapUint_add_wrapUint (a b : Int) : wrapUint (a + wrapUint b) = wrapUint (a + b) := by
  unfold wrapUint
  omega

theorem wrapUint_wrapInt (a : Int) : wrapUint (wrapInt a) = wrapUint a := by
  unfold wrapUint wrapInt
  omega

/-- Far from the ends of `int` and of `time.Time`, Go's `time.Date` on a 64-bit platform
    returns the date of exact arithmetic. -/
theorem machine_Date_eq (year month day hour min sec nsec : Int) (loc : Location)
    (hy : -10000000000 ≤ year ∧ year ≤ 10000000000)
    (hm : -100000000000 ≤ month ∧ month ≤ 100000000000)
    (hd : -100000000000 ≤ day ∧ day ≤ 100000000000)
    (hh : 0 ≤ hour ∧ hour < 24) (hmi : 0 ≤ min ∧ min < 60)
    (hs : 0 ≤ sec ∧ sec < 60) (hns : 0 ≤ nsec ∧ nsec < 1000000000) :
    Machine.Date year month day hour min sec nsec loc
      = Date year month day hour min sec nsec loc := by
  have hm0 : 0 ≤ (month - 1) % 12 ∧ (month - 1) % 12 ≤ 11 := by omega
  have hy1 : -292277022399 ≤ year + (month - 1) / 12
      ∧ year + (month - 1) / 12 ≤ 100000000000 := by omega
  have hfirst : (CivilDate.mk (year + (month - 1) / 12) ((month - 1) % 12 + 1) 1).Valid := by
    have := daysIn_pos (year + (month - 1) / 12) ((month - 1) % 12 + 1)
    exact ⟨by simp only; omega, by simp only; omega, by simp only; omega, by simp only; omega⟩
  have hcv := addDays_valid _ hfirst (day - 1)
  have hcd := daysFromCivil_addDays _ hfirst (day - 1)
  have htab := (daysBeforeMonth_table (year + (month - 1) / 12) ((month - 1) % 12 + 1)
    (by omega) (by omega)).1
  rw [add_sub_cancel_right] at htab
  have hidx := daysBefore_index ((month - 1) % 12) hm0.1 hm0.2
  have hdby : -7000000000000 ≤ daysBeforeYear (year + (month - 1) / 12)
      ∧ daysBeforeYear (year + (month - 1) / 12) ≤ 7000000000000 := by
    unfold daysBeforeYear
    constructor <;> omega
  have hfc : daysFromCivil ⟨year + (month - 1) / 12, (month - 1) % 12 + 1, 1⟩
      = daysBeforeYear (year + (month - 1) / 12)
        + daysBeforeMonth (year + (month - 1) / 12) ((month - 1) % 12 + 1) := by
    simp only [daysFromCivil]
    omega
  have hbm : 0 ≤ daysBeforeMonth (year + (month - 1) / 12) ((month - 1) % 12 + 1)
      ∧ daysBeforeMonth (year + (month - 1) / 12) ((month - 1) % 12 + 1) ≤ 335 := by
    rw [htab]
    split_ifs <;> omega
  -- the exact side
  rw [Date_norm_month, Date_clock _ _ _ _ _ _ _ _ ⟨by omega, by omega⟩ hh hmi hs hns]
  -- the machine side
  have hyr := year_of_daysFromCivil _ hcv (by rw [hcd, hfc]; omega) (by rw [hcd, hfc]; omega)
  have hback := ofAbs_of_valid
    ⟨(addDays ⟨year + (month - 1) / 12, (month - 1) % 12 + 1, 1⟩ (day - 1)).year,
     (addDays ⟨year + (month - 1) / 12, (month - 1) % 12 + 1, 1⟩ (day - 1)).month,
     (addDays ⟨year + (month - 1) / 12, (month - 1) % 12 + 1, 1⟩ (day - 1)).day,
     hour, min, sec, nsec, loc⟩
    ⟨hcv, hh.1, hh.2, hmi.1, hmi.2, hs.1, hs.2, hns.1, hns.2⟩ hyr.1 hyr.2
  simp only [Time.date] at hback
  rw [hcd, hfc] at hback
  rw [← hback]
  unfold Machine.Date
  rw [wrapInt_of_range (month - 1) (by omega) (by omega),
    machine_norm_month year (month - 1) ⟨by omega, by omega⟩ ⟨by omega, by omega⟩,
    machine_norm_inRange sec nsec _ hns.1 hns.2]
  simp only [norm]
  rw [machine_norm_inRange min sec _ hs.1 hs.2, machine_norm_inRange hour min _ hmi.1 hmi.2,
    machine_norm_inRange day hour _ hh.1 hh.2]
  simp only
  rw [daysSinceEpoch_eq _ hy1.1 hy1.2]
  congr 1
  have e1 : wrapUint (daysBeforeYear (year + (month - 1) / 12) + 106751991073094
        + daysBefore ((month - 1) % 12))
      = daysBeforeYear (year + (month - 1) / 12) + 106751991073094
        + daysBefore ((month - 1) % 12) := wrapUint_of_range _ (by omega) (by omega)
  rw [e1]
  have e2 : (if (isLeap (year + (month - 1) / 12)
        && decide ((month - 1) % 12 + 1 ≥ 3)) = true then
        wrapUint (daysBeforeYear (year + (month - 1) / 12) + 106751991073094
          + daysBefore ((month - 1) % 12) + 1)
      else daysBeforeYear (year + (month - 1) / 12) + 106751991073094
          + daysBefore ((month - 1) % 12))
      = daysBeforeYear (year + (month - 1) / 12) + 106751991073094
        + daysBeforeMonth (year + (month - 1) / 12) ((month - 1) % 12 + 1) := by
    rw [htab]
    by_cases hc : isLeap (year + (month - 1) / 12) = true ∧ 3 ≤ (month - 1) % 12 + 1
    · rw [if_pos hc, if_pos (by simpa using hc), wrapUint_of_range _ (by omega) (by omega)]
      omega
    · rw [if_neg hc, if_neg (by simpa using hc)]
      omega
  rw [e2]
  simp only [wrapUint_wrapInt, wrapUint_add_wrapUint]
  rw [wrapUint_of_range (_ + (day - 1)) (by omega) (by omega),
    wrapUint_of_range (_ * 86400) (by omega) (by omega),
    wrapUint_of_range _ (by omega) (by omega)]
  ring

/-- Far from the ends of `int` and of `time.Time`, `AddDate` on a 64-bit platform returns
    the date of exact arithmetic. -/
theorem machine_AddDate_eq (t : Time) (ht : t.Valid)
    (hy : -5000000000 ≤ t.year ∧ t.year ≤ 5000000000) (years months days : Int)
    (h1 : -5000000000 ≤ years ∧ years ≤ 5000000000)
    (h2 : -10000000000 ≤ months ∧ months ≤ 10000000000)
    (h3 : -10000000000 ≤ days ∧ days ≤ 10000000000) :
    Machine.AddDate t years months days = t.AddDate years months days := by
  obtain ⟨⟨hm1, hm2, hd1, hd2⟩, hh0, hh1, hmi0, hmi1, hs0, hs1, hn0, hn1⟩ := ht
  simp only [Time.date] at hm1 hm2 hd1 hd2
  have := daysIn_pos t.year t.month
  unfold Machine.AddDate Time.AddDate
  rw [wrapInt_of_range (t.year + years) (by omega) (by omega),
    wrapInt_of_range (t.month + months) (by omega) (by omega),
    wrapInt_of_range (t.day + days) (by omega) (by omega)]
  exact machine_Date_eq _ _ _ _ _ _ _ _ ⟨by omega, by omega⟩ ⟨by omega, by omega⟩
    ⟨by omega, by omega⟩ ⟨hh0, hh1⟩ ⟨hmi0, hmi1⟩ ⟨hs0, hs1⟩ ⟨hn0, hn1⟩

/-- The year of a date a few days after a valid date. -/
theorem AddDate_days_year (t : Time) (ht : t.Valid) (n : Nat) (hn : n ≤ 366) :
    t.year ≤ (t.AddDate 0 0 n).year ∧ (t.AddDate 0 0 n).year ≤ t.year + 2 := by
  have hv := AddDate_days_valid t ht n
  have hd := AddDate_days_date t ht n
  have hc := (iterate_nextDay t.date ht.1 n).2
  rw [← hd] at hc
  obtain ⟨a1, a2⟩ := daysFromCivil_year t.date ht.1
  obtain ⟨b1, b2⟩ := daysFromCivil_year (t.AddDate 0 0 n).date hv.1
  simp only [Time.date] at a1 a2 b1 b2 hc
  constructor
  · by_contra hlt
    have := daysBeforeYear_le ((t.AddDate 0 0 n).year + 1) t.year (by omega)
    omega
  · by_contra hgt
    have := daysBeforeYear_le (t.year + 1) (t.AddDate 0 0 n).year (by omega)
    omega

/-- The weekly search on a 64-bit platform returns the first listed day, as the exact
    search does. -/
theorem machine_weeklySearch_first (days : List Int) (j : Nat) :
    ∀ (fuel : Nat) (s : Time), s.Valid → j ≤ 7 →
      -4000000000 + 2 * j ≤ s.year ∧ s.year ≤ 4000000000 - 2 * j → j < fuel →
      (s.AddDate 0 0 j).Weekday ∈ days →
      (∀ i : Nat, i < j → (s.AddDate 0 0 i).Weekday ∉ days) →
      Machine.weeklySearch days fuel s = some (s.AddDate 0 0 j) := by
  induction j with
  | zero =>
    intro fuel s hs _ _ hf hin _
    obtain ⟨f, rfl⟩ : ∃ f, fuel = f + 1 := ⟨fuel - 1, by omega⟩
    simp only [Nat.cast_zero] at hin ⊢
    rw [AddDate_zero s hs] at hin ⊢
    unfold Machine.weeklySearch
    rw [if_pos ((any_weekday days s).2 hin)]
  | succ j ih =>
    intro fuel s hs hj hy hf hin hnot
    obtain ⟨f, rfl⟩ : ∃ f, fuel = f + 1 := ⟨fuel - 1, by omega⟩
    have h0 : s.Weekday ∉ days := by
      have := hnot 0 (by omega)
      simp only [Nat.cast_zero] at this
      rwa [AddDate_zero s hs] at this
    unfold Machine.weeklySearch
    rw [if_neg (fun h => h0 ((any_weekday days s).1 h))]
    have hv := AddDate_days_valid s hs 1
    have hyr := AddDate_days_year s hs 1 (by omega)
    simp only [Nat.cast_one] at hv hyr
    push_cast at hy
    rw [machine_AddDate_eq s hs ⟨by omega, by omega⟩ 0 0 1 (by omega) (by omega) (by omega)]
    rw [ih f (s.AddDate 0 0 1) hv (by omega) ⟨by omega, by omega⟩ (by omega)
      (by rw [AddDate_days_succ s hs j]; exact hin)
      (by
        intro i hi
        rw [AddDate_days_succ s hs i]
        exact hnot (i + 1) (by omega))]
    rw [AddDate_days_succ s hs j]

/-- Without a match among the first `fuel` days the weekly search runs out of fuel. -/
theorem weeklySearch_short (days : List Int) :
    ∀ (fuel : Nat) (s : Time), s.Valid →
      (∀ i : Nat, i < fuel → (s.AddDate 0 0 i).Weekday ∉ days) →
      weeklySearch days fuel s = none := by
  intro fuel
  induction fuel with
  | zero => intro s _ _; rfl
  | succ f ih =>
    intro s hs hnot
    have h0 : s.Weekday ∉ days := by
      have := hnot 0 (by omega)
      simp only [Nat.cast_zero] at this
      rwa [AddDate_zero s hs] at this
    unfold weeklySearch
    rw [if_neg (fun h => h0 ((any_weekday days s).1 h))]
    have hv := AddDate_days_valid s hs 1
    simp only [Nat.cast_one] at hv
    apply ih _ hv
    intro i hi
    rw [AddDate_days_succ s hs i]
    exact hnot (i + 1) (by omega)

theorem machine_weeklySearch_short (days : List Int) :
    ∀ (fuel : Nat) (s : Time), s.Valid → fuel ≤ 7 →
      -4000000000 + 2 * fuel ≤ s.year ∧ s.year ≤ 4000000000 - 2 * fuel →
      (∀ i : Nat, i < fuel → (s.AddDate 0 0 i).Weekday ∉ days) →
      Machine.weeklySearch days fuel s = none := by
  intro fuel
  induction fuel with
  | zero => intro s _ _ _ _; rfl
  | succ f ih =>
    intro s hs hf hy hnot
    have h0 : s.Weekday ∉ days := by
      have := hnot 0 (by omega)
      simp only [Nat.cast_zero] at this
      rwa [AddDate_zero s hs] at this
    unfold Machine.weeklySearch
    rw [if_neg (fun h => h0 ((any_weekday days s).1 h))]
    have hv := AddDate_days_valid s hs 1
    have hyr := AddDate_days_year s hs 1 (by omega)
    simp only [Nat.cast_one] at hv hyr
    push_cast at hy
    rw [machine_AddDate_eq s hs ⟨by omega, by omega⟩ 0 0 1 (by omega) (by omega) (by omega)]
    apply ih _ hv (by omega) ⟨by omega, by omega⟩
    intro i hi
    rw [AddDate_days_succ s hs i]
    exact hnot (i + 1) (by omega)

/-- Without a weekday value in the list the weekly search never returns on a 64-bit
    platform either. -/
theorem machine_weeklySearch_none (days : List Int)
    (hbad : ∀ d ∈ days, ¬ (0 ≤ d ∧ d ≤ 6)) :
    ∀ (fuel : Nat) (s : Time), Machine.weeklySearch days fuel s = none := by
  intro fuel
  induction fuel with
  | zero => intro s; rfl
  | succ f ih =>
    intro s
    unfold Machine.weeklySearch
    rw [if_neg (fun h => hbad _ ((any_weekday days s).1 h) (Weekday_range s))]
    exact ih _

/-- Among a valid time and the six days after it one has its weekday in a list that holds
    a weekday value. -/
theorem weekly_first_from (days : List Int) (s : Time) (hs : s.Valid)
    (hday : ∃ d ∈ days, 0 ≤ d ∧ d ≤ 6) :
    ∃ j : Nat, j ≤ 6 ∧ (s.AddDate 0 0 j).Weekday ∈ days ∧
      ∀ i : Nat, i < j → (s.AddDate 0 0 i).Weekday ∉ days := by
  obtain ⟨d, hd, hd0, hd6⟩ := hday
  have hw := Weekday_range s
  have hex : ∃ n : Nat, (s.AddDate 0 0 n).Weekday ∈ days := by
    refine ⟨((d - s.Weekday) % 7).toNat, ?_⟩
    rw [Weekday_AddDate_days s hs]
    have : (s.Weekday + (((d - s.Weekday) % 7).toNat : Nat)) % 7 = d := by
      omega
    rw [this]
    exact hd
  classical
  refine ⟨Nat.find hex, ?_, Nat.find_spec hex, ?_⟩
  · have : Nat.find hex ≤ ((d - s.Weekday) % 7).toNat := by
      apply Nat.find_min'
      rw [Weekday_AddDate_days s hs]
      have : (s.Weekday + (((d - s.Weekday) % 7).toNat : Nat)) % 7 = d := by
        omega
      rw [this]
      exact hd
    omega
  · intro i hi hin
    exact Nat.find_min hex hi hin

/-- The weekly search on a 64-bit platform agrees with the exact search. -/
theorem machine_weeklySearch_eq (days : List Int) (fuel : Nat) (s : Time) (hs : s.Valid)
    (hy : -3000000000 ≤ s.year ∧ s.year ≤ 3000000000) :
    Machine.weeklySearch days fuel s = weeklySearch days fuel s := by
  by_cases hbad : ∀ d ∈ days, ¬ (0 ≤ d ∧ d ≤ 6)
  · rw [machine_weeklySearch_none days hbad, weeklySearch_none days hbad]
  · have hday : ∃ d ∈ days, 0 ≤ d ∧ d ≤ 6 := by
      by_contra hne
      apply hbad
      intro d hd hr
      exact hne ⟨d, hd, hr⟩
    obtain ⟨j, hj, hin, hnot⟩ := weekly_first_from days s hs hday
    by_cases hf : j < fuel
    · rw [machine_weeklySearch_first days j fuel s hs (by omega) ⟨by omega, by omega⟩ hf hin
        hnot, weeklySearch_first days j fuel s hs hf hin hnot]
    · rw [machine_weeklySearch_short days fuel s hs (by omega) ⟨by omega, by omega⟩
        (fun i hi => hnot i (by omega)),
        weeklySearch_short days fuel s hs (fun i hi => hnot i (by omega))]

/-- The monthly branch on a 64-bit platform agrees with exact arithmetic. -/
theorem machine_monthlyNext_eq (rule : RecurrenceRule) (t : Time) (ht : t.Valid)
    (hy : -3000000000 ≤ t.year ∧ t.year ≤ 3000000000)
    (hI : -1000000000 ≤ rule.Interval ∧ rule.Interval ≤ 1000000000)
    (hd : 1 ≤ rule.DayOfMonth) :
    Machine.monthlyNext rule t = monthlyNext rule t := by
  obtain ⟨⟨hm1, hm2, hd1, hd2⟩, hh0, hh1, hmi0, hmi1, hs0, hs1, hn0, hn1⟩ := ht
  simp only [Time.date] at hm1 hm2 hd1 hd2
  unfold Machine.monthlyNext monthlyNext
  simp only
  rw [wrapInt_of_range (t.month + rule.Interval) (by omega) (by omega),
    wrapInt_of_range (t.month + rule.Interval - 1) (by omega) (by omega)]
  have hq : -100000000 ≤ Int.tdiv (t.month + rule.Interval - 1) 12
      ∧ Int.tdiv (t.month + rule.Interval - 1) 12 ≤ 100000000 := by
    by_cases hneg : 0 ≤ t.month + rule.Interval - 1
    · rw [Int.tdiv_eq_ediv hneg (by omega)]
      omega
    · have : Int.tdiv (t.month + rule.Interval - 1) 12
          = -((-(t.month + rule.Interval - 1)) / 12) := by
        rw [← Int.tdiv_eq_ediv (by omega) (by omega), Int.neg_tdiv, neg_neg]
      rw [this]
      omega
  have hr : -11 ≤ Int.tmod (t.month + rule.Interval - 1) 12
      ∧ Int.tmod (t.month + rule.Interval - 1) 12 ≤ 11 := by
    have := Int.tmod_add_tdiv (t.month + rule.Interval - 1) 12
    by_cases hneg : 0 ≤ t.month + rule.Interval - 1
    · rw [Int.tmod_eq_emod hneg (by omega)]
      omega
    · have h2 : Int.tdiv (t.month + rule.Interval - 1) 12
          = -((-(t.month + rule.Interval - 1)) / 12) := by
        rw [← Int.tdiv_eq_ediv (by omega) (by omega), Int.neg_tdiv, neg_neg]
      rw [h2] at this
      omega
  rw [wrapInt_of_range (t.year + _) (by omega) (by omega),
    wrapInt_of_range (Int.tmod _ 12 + 1) (by omega) (by omega)]
  have hny : -3200000000 ≤ (if t.month + rule.Interval > 12 then
        t.year + Int.tdiv (t.month + rule.Interval - 1) 12 else t.year)
      ∧ (if t.month + rule.Interval > 12 then
        t.year + Int.tdiv (t.month + rule.Interval - 1) 12 else t.year) ≤ 3200000000 := by
    split_ifs <;> omega
  have hnm : -2000000000 ≤ (if t.month + rule.Interval > 12 then
        Int.tmod (t.month + rule.Interval - 1) 12 + 1 else t.month + rule.Interval)
      ∧ (if t.month + rule.Interval > 12 then
        Int.tmod (t.month + rule.Interval - 1) 12 + 1 else t.month + rule.Interval)
        ≤ 2000000000 := by
    split_ifs <;> omega
  generalize (if t.month + rule.Interval > 12 then
      t.year + Int.tdiv (t.month + rule.Interval - 1) 12 else t.year) = ny at hny ⊢
  generalize (if t.month + rule.Interval > 12 then
      Int.tmod (t.month + rule.Interval - 1) 12 + 1 else t.month + rule.Interval) = nm at hnm ⊢
  rw [wrapInt_of_range (nm + 1) (by omega) (by omega),
    machine_Date_eq ny (nm + 1) 0 0 0 0 0 t.loc ⟨by omega, by omega⟩ ⟨by omega, by omega⟩
      ⟨by omega, by omega⟩ ⟨by omega, by omega⟩ ⟨by omega, by omega⟩ ⟨by omega, by omega⟩
      ⟨by omega, by omega⟩]
  have hv := (Date_isValid ny (nm + 1) 0 0 0 0 0 t.loc).1
  have hdim := daysIn_pos (Date ny (nm + 1) 0 0 0 0 0 t.loc).year
    (Date ny (nm + 1) 0 0 0 0 0 t.loc).month
  obtain ⟨-, -, v3, v4⟩ := hv
  simp only [Time.date] at v3 v4
  apply machine_Date_eq _ _ _ _ _ _ _ _ ⟨by omega, by omega⟩ ⟨by omega, by omega⟩ _
    ⟨hh0, hh1⟩ ⟨hmi0, hmi1⟩ ⟨hs0, hs1⟩ ⟨hn0, hn1⟩
  split_ifs <;> constructor <;> omega

/-- Within a thousand million years of the year 0 and for intervals of at most a thousand
    million, `calculateNextDueDate` on a 64-bit platform returns what exact arithmetic
    returns: nothing wraps. -/
theorem machine_calculateNextDueDate_eq (fuel : Nat) (rule : RecurrenceRule) (t : Time)
    (ht : t.Valid) (hy : -2000000000 ≤ t.year ∧ t.year ≤ 2000000000)
    (hI : -1000000000 ≤ rule.Interval ∧ rule.Interval ≤ 1000000000) :
    Machine.calculateNextDueDate fuel rule t = calculateNextDueDate fuel rule t := by
  have hyr := AddDate_days_year t ht 1 (by omega)
  have hv := AddDate_days_valid t ht 1
  simp only [Nat.cast_one] at hv hyr
  unfold Machine.calculateNextDueDate calculateNextDueDate
  rw [wrapInt_of_range (7 * rule.Interval) (by omega) (by omega),
    machine_AddDate_eq t ht ⟨by omega, by omega⟩ 0 0 rule.Interval (by omega) (by omega)
      ⟨by omega, by omega⟩,
    machine_AddDate_eq t ht ⟨by omega, by omega⟩ 0 0 (7 * rule.Interval) (by omega) (by omega)
      ⟨by omega, by omega⟩,
    machine_AddDate_eq t ht ⟨by omega, by omega⟩ 0 0 1 (by omega) (by omega) (by omega),
    machine_AddDate_eq t ht ⟨by omega, by omega⟩ 0 rule.Interval 0 (by omega)
      ⟨by omega, by omega⟩ (by omega),
    machine_weeklySearch_eq _ fuel _ hv ⟨by omega, by omega⟩]
  by_cases hdom : rule.DayOfMonth > 0
  · rw [machine_monthlyNext_eq rule t ht ⟨by omega, by omega⟩ hI (by omega)]
  · simp only [hdom, if_false]

/-! ### One iteration of the recurring task loop -/

/-- The assignee expression never panics: it yields the round-robin member when automatic
    assignment is on and members exist, the empty string otherwise. -/
theorem assignee_ok (params : RecurringTaskWorkflowParams) (k : Nat) :
    ∃ a, assignee params k = Except.ok a ∧
      (params.AutoAssign = true → params.AssignedMembers ≠ [] →
        params.AssignedMembers[k % params.AssignedMembers.length]? = some a) ∧
      (¬ (params.AutoAssign = true ∧ params.AssignedMembers ≠ []) → a = "") := by
  unfold assignee
  by_cases ha : params.AutoAssign = true
  · by_cases hm : params.AssignedMembers = []
    · refine ⟨"", ?_, fun _ h => absurd hm h, fun _ => rfl⟩
      simp [ha, hm]
    · have hlen : 0 < params.AssignedMembers.length := List.length_pos.2 hm
      have hlt : k % params.AssignedMembers.length < params.AssignedMembers.length :=
        Nat.mod_lt _ hlen
      refine ⟨params.AssignedMembers[k % params.AssignedMembers.length], ?_, ?_, ?_⟩
      · have hne : params.AssignedMembers.length ≠ 0 := by omega
        simp [ha, hlen, roundRobin, hne, List.getElem?_eq_getElem hlt]
      · intro _ _
        exact List.getElem?_eq_getElem hlt
      · intro h
        exact absurd ⟨ha, hm⟩ h
  · refine ⟨"", ?_, fun h => absurd h ha, fun _ => rfl⟩
    simp [ha]

theorem recurringLoop_succ (params : RecurringTaskWorkflowParams) (env : RecurringEnv)
    (inner fuel count : Nat) (due : Time) (now : Int) :
    recurringLoop params env inner (fuel + 1) count due now =
      if endReached params.RecurrenceRule due then ⟨Outcome.completed, []⟩
      else if maxReached params.RecurrenceRule count then ⟨Outcome.completed, []⟩
      else
        match assignee params count with
        | Except.error msg => ⟨Outcome.panicked msg, []⟩
        | Except.ok assignedTo =>
          match calculateNextDueDate inner params.RecurrenceRule due with
          | none => ⟨Outcome.outOfFuel, [iteration params env count due assignedTo now]⟩
          | some next =>
            if cancelReceived env.cancelSignals (cancelSelect env.cancelSignals
                (iteration params env count due assignedTo now).time) then
              ⟨Outcome.completed, [iteration params env count due assignedTo now]⟩
            else
              ⟨(recurringLoop params env inner fuel (count + 1) next
                  (cancelSelect env.cancelSignals
                    (iteration params env count due assignedTo now).time)).outcome,
                iteration params env count due assignedTo now ::
                  (recurringLoop params env inner fuel (count + 1) next
                    (cancelSelect env.cancelSignals
                      (iteration params env count due assignedTo now).time)).trace⟩ := rfl

/-- One iteration of the loop, case by case. -/
theorem recurringLoop_step (params : RecurringTaskWorkflowParams) (env : RecurringEnv)
    (inner fuel count : Nat) (due : Time) (now : Int) :
    ((endReached params.RecurrenceRule due = true ∨ maxReached params.RecurrenceRule count = true)
      ∧ recurringLoop params env inner (fuel + 1) count due now = ⟨Outcome.completed, []⟩)
    ∨ (endReached params.RecurrenceRule due = false ∧ maxReached params.RecurrenceRule count = false
      ∧ ∃ a, assignee params count = Except.ok a ∧
        ((calculateNextDueDate inner params.RecurrenceRule due = none ∧
          recurringLoop params env inner (fuel + 1) count due now
            = ⟨Outcome.outOfFuel, [iteration params env count due a now]⟩)
        ∨ ∃ next, calculateNextDueDate inner params.RecurrenceRule due = some next ∧
          ((cancelReceived env.cancelSignals
              (cancelSelect env.cancelSignals (iteration params env count due a now).time) = true
            ∧ recurringLoop params env inner (fuel + 1) count due now
              = ⟨Outcome.completed, [iteration params env count due a now]⟩)
          ∨ (cancelReceived env.cancelSignals
              (cancelSelect env.cancelSignals (iteration params env count due a now).time) = false
            ∧ recurringLoop params env inner (fuel + 1) count due now
              = ⟨(recurringLoop params env inner fuel (count + 1) next
                    (cancelSelect env.cancelSignals
                      (iteration params env count due a now).time)).outcome,
                 iteration params env count due a now ::
                  (recurringLoop params env inner fuel (count + 1) next
                    (cancelSelect env.cancelSignals
                      (iteration params env count due a now).time)).trace⟩)))) := by
  obtain ⟨a, ha, -, -⟩ := assignee_ok params count
  rw [recurringLoop_succ]
  cases he : endReached params.RecurrenceRule due
  · cases hm : maxReached params.RecurrenceRule count
    · right
      refine ⟨rfl, rfl, a, ha, ?_⟩
      simp only [ha]
      cases hc : calculateNextDueDate inner params.RecurrenceRule due with
      | none => left; simp
      | some next =>
        right
        refine ⟨next, rfl, ?_⟩
        cases hr : cancelReceived env.cancelSignals
            (cancelSelect env.cancelSignals (iteration params env count due a now).time)
        · right; simp [hr]
        · left; simp [hr]
    · left; simp
  · left; simp

/-! ### Invariants of the recurring task loop -/

/-- Every record of a run of the loop is the iteration of its position: the record at
    index `i` was made with occurrence count `count + i`, an assignee the assignment
    yields, and a due date that passed both exit tests. -/
theorem recurringLoop_records (params : RecurringTaskWorkflowParams) (env : RecurringEnv)
    (inner : Nat) :
    ∀ (fuel count : Nat) (due : Time) (now : Int) (i : Nat)
      (h : i < (recurringLoop params env inner fuel count due now).trace.length),
      ∃ a d t, assignee params (count + i) = Except.ok a ∧
        (recurringLoop params env inner fuel count due now).trace[i]
          = iteration params env (count + i) d a t ∧
        endReached params.RecurrenceRule d = false ∧
        maxReached params.RecurrenceRule (count + i) = false := by
  intro fuel
  induction fuel with
  | zero => intro count due now i h; simp [recurringLoop] at h
  | succ f ih =>
    intro count due now i h
    rcases recurringLoop_step params env inner f count due now with
      ⟨-, e⟩ | ⟨he, hm, a, ha, ⟨-, e⟩ | ⟨next, -, ⟨-, e⟩ | ⟨-, e⟩⟩⟩
    · simp [e] at h
    · simp only [e, List.length_singleton] at h
      have hi : i = 0 := by omega
      subst hi
      exact ⟨a, due, now, ha, by simp [e], he, hm⟩
    · simp only [e, List.length_singleton] at h
      have hi : i = 0 := by omega
      subst hi
      exact ⟨a, due, now, ha, by simp [e], he, hm⟩
    · cases i with
      | zero => exact ⟨a, due, now, ha, by simp [e], he, hm⟩
      | succ j =>
        simp only [e, List.length_cons] at h
        obtain ⟨a2, d2, t2, h1, h2, h3, h4⟩ := ih (count + 1) next
          (cancelSelect env.cancelSignals (iteration params env count due a now).time) j
          (by omega)
        have hc : count + (j + 1) = count + 1 + j := by omega
        refine ⟨a2, d2, t2, by rw [hc]; exact h1, ?_, h3, by rw [hc]; exact h4⟩
        simp only [e, List.getElem_cons_succ]
        rw [hc]
        exact h2

/-- The loop never panics. -/
theorem recurringLoop_no_panic (params : RecurringTaskWorkflowParams) (env : RecurringEnv)
    (inner : Nat) :
    ∀ (fuel count : Nat) (due : Time) (now : Int) (msg : String),
      (recurringLoop params env inner fuel count due now).outcome ≠ Outcome.panicked msg := by
  intro fuel
  induction fuel with
  | zero => intro count due now msg; simp [recurringLoop]
  | succ f ih =>
    intro count due now msg
    rcases recurringLoop_step params env inner f count due now with
      ⟨-, e⟩ | ⟨-, -, a, -, ⟨-, e⟩ | ⟨next, -, ⟨-, e⟩ | ⟨-, e⟩⟩⟩
    · simp [e]
    · simp [e]
    · simp [e]
    · rw [e]
      exact ih _ _ _ _

/-- The due dates of a run of the loop start at the due date of the state, and each is
    computed from the one before by `calculateNextDueDate`. -/
theorem recurringLoop_chain (params : RecurringTaskWorkflowParams) (env : RecurringEnv)
    (inner : Nat) :
    ∀ (fuel count : Nat) (due : Time) (now : Int),
      dueDates (recurringLoop params env inner fuel count due now) = [] ∨
      ∃ rest, dueDates (recurringLoop params env inner fuel count due now) = due :: rest ∧
        List.Chain (fun a b => calculateNextDueDate inner params.RecurrenceRule a = some b)
          due rest := by
  intro fuel
  induction fuel with
  | zero => intro count due now; left; simp [recurringLoop, dueDates]
  | succ f ih =>
    intro count due now
    rcases recurringLoop_step params env inner f count due now with
      ⟨-, e⟩ | ⟨-, -, a, -, ⟨-, e⟩ | ⟨next, hn, ⟨-, e⟩ | ⟨-, e⟩⟩⟩
    · left; simp [e, dueDates]
    · right
      exact ⟨[], by simp [e, dueDates, iteration, mkRequest], List.Chain.nil⟩
    · right
      exact ⟨[], by simp [e, dueDates, iteration, mkRequest], List.Chain.nil⟩
    · right
      rcases ih (count + 1) next
          (cancelSelect env.cancelSignals (iteration params env count due a now).time) with
        h0 | ⟨rest, h1, h2⟩
      · refine ⟨[], ?_, List.Chain.nil⟩
        simp only [dueDates] at h0 ⊢
        simp only [e, List.map_cons, h0]
        simp [iteration, mkRequest]
      · refine ⟨next :: rest, ?_, List.Chain.cons hn h2⟩
        simp only [dueDates] at h1 ⊢
        simp only [e, List.map_cons, h1]
        simp [iteration, mkRequest]

theorem cancelReceived_nil (now : Int) : cancelReceived [] now = false := rfl

/-- Without cancel signal and end date, a loop with a positive `MaxOccurrences` and
    enough fuel completes after exactly the remaining number of iterations. -/
theorem recurringLoop_completes (params : RecurringTaskWorkflowParams) (env : RecurringEnv)
    (inner : Nat) (hsig : env.cancelSignals = []) (hend : params.RecurrenceRule.EndDate = none)
    (n : Nat) (hn : params.RecurrenceRule.MaxOccurrences = n) (hpos : 0 < n)
    (htot : ∀ t : Time, t.Valid →
      ∃ r, calculateNextDueDate inner params.RecurrenceRule t = some r ∧ r.Valid) :
    ∀ (fuel count : Nat) (due : Time) (now : Int), due.Valid → count ≤ n →
      n - count < fuel →
      (recurringLoop params env inner fuel count due now).outcome = Outcome.completed ∧
      (recurringLoop params env inner fuel count due now).trace.length = n - count := by
  intro fuel
  induction fuel with
  | zero => intro count due now _ _ h; omega
  | succ f ih =>
    intro count due now hv hle hlt
    have hnoend : endReached params.RecurrenceRule due = false := by simp [endReached, hend]
    obtain ⟨r, hr, hrv⟩ := htot due hv
    rcases recurringLoop_step params env inner f count due now with
      ⟨h, e⟩ | ⟨-, hm, a, -, ⟨hnone, -⟩ | ⟨next, hnx, ⟨hc, -⟩ | ⟨-, e⟩⟩⟩
    · rcases h with h | h
      · rw [hnoend] at h; cases h
      · rw [e]
        refine ⟨rfl, ?_⟩
        unfold maxReached at h
        rw [hn] at h
        simp at h
        simp only [List.length_nil]
        omega
    · rw [hr] at hnone; cases hnone
    · rw [hsig, cancelReceived_nil] at hc; cases hc
    · rw [hr] at hnx
      cases hnx
      have hcount : count < n := by
        unfold maxReached at hm
        rw [hn] at hm
        simp at hm
        have := hm (by omega)
        omega
      obtain ⟨h1, h2⟩ := ih (count + 1) r
        (cancelSelect env.cancelSignals (iteration params env count due a now).time) hrv
        (by omega) (by omega)
      rw [e]
      refine ⟨h1, ?_⟩
      simp only [List.length_cons, h2]
      omega

/-! ### Selector and periods without signals -/

/-- Without signals a selector over a timer and the three control channels fires the
    timer, at the later of the current instant and the firing instant. -/
theorem select_quiet (now : Int) (trace : List (Int × Event)) (t : Int) :
    select ⟨now, [], [], trace⟩ [SelCase.future t, SelCase.receive "pause_timer",
      SelCase.receive "resume_timer", SelCase.receive "stop_timer"]
      = some (⟨max now t, [], [], trace⟩, SelCase.future t) := by
  unfold select
  by_cases h : t ≤ now
  · simp [List.find?, caseReady, h, fire, max_eq_left h]
  · have h2 : now ≤ t := by omega
    simp [List.find?, caseReady, h, earliest, caseTime, fire, max_eq_right h2]

/-- Without signals a period runs its timer and then sends its notification. -/
theorem runTimerPeriod_quiet (fails : Nat → Bool) (now : Int) (trace : List (Int × Event))
    (params : TimerWorkflowParams) (state : TimerState) (d : Duration) (message : String)
    (hs : state.Status ≠ "stopped") :
    runTimerPeriod fails ⟨now, [], [], trace⟩ params state d message =
      ⟨⟨max now (now + d), [], [],
          trace ++ [(now, Event.newTimer d),
            (max now (now + d), Event.activity (Activity.sendNotification
              (periodNotification params state.CurrentCycle state.IsBreak message)))]⟩,
        state, none⟩ := by
  unfold runTimerPeriod newTimer
  simp only
  rw [select_quiet]
  simp [hs, executeActivity]

/-! ### The pomodoro loop without signals -/

theorem tmod_zero_iff (a b : Int) : Int.tmod a b = 0 ↔ a % b = 0 := by
  rw [← Int.dvd_iff_tmod_eq_zero, ← Int.dvd_iff_emod_eq_zero]

/-- Without signals one pass of the loop body runs the periods of its cycle and does not
    return from the function. -/
theorem pomodoroCycle_quiet (fails : Nat → Bool) (params : TimerWorkflowParams)
    (cfg : PomodoroConfig) (n c : Nat) (hn : cfg.maxCycles = n) (now : Int)
    (trace : List (Int × Event)) (state : TimerState)
    (hs : state.Status ≠ "stopped")
    (hc : state.CurrentCycle = c) (hcc : state.CompletedCycles + 1 = c) :
    ∃ now1 trace1 state1,
      pomodoroCycle fails params cfg ⟨now, [], [], trace⟩ state
        = (⟨⟨now1, [], [], trace1⟩, state1, none⟩, false) ∧
      state1.Status = state.Status ∧ state1.CurrentCycle = c ∧ state1.CompletedCycles = c ∧
      trace1.map Prod.snd =
        trace.map Prod.snd ++ (cyclePeriods cfg n c).flatMap (periodEvents params cfg) := by
  unfold pomodoroCycle
  simp only
  rw [runTimerPeriod_quiet fails now trace params _ _ _ (by simpa using hs)]
  simp only [Option.isSome_none, Bool.false_or, hs, decide_False, Bool.false_eq_true, if_false]
  by_cases hlt : c < n
  · have hlt2 : state.CurrentCycle < cfg.maxCycles := by rw [hc, hn]; exact_mod_cast hlt
    simp only [hlt2, if_true]
    rw [runTimerPeriod_quiet fails _ _ params _ _ _ (by simpa using hs)]
    simp only [Option.isSome_none, Bool.false_or, hs, decide_False, Bool.false_eq_true, if_false]
    refine ⟨_, _, _, rfl, rfl, hc, hcc, ?_⟩
    simp only [cyclePeriods, hlt, if_true, List.flatMap_cons, List.flatMap_nil, periodEvents,
      breakDuration, List.map_append, List.map_cons, List.map_nil, hc, hcc, tmod_zero_iff]
    simp
  · have hlt2 : ¬ state.CurrentCycle < cfg.maxCycles := by
      rw [hc, hn]; intro h; exact hlt (by exact_mod_cast h)
    simp only [hlt2, if_false]
    refine ⟨_, _, _, rfl, rfl, hc, hcc, ?_⟩
    simp only [cyclePeriods, hlt, if_false, List.flatMap_cons, List.flatMap_nil, periodEvents,
      List.map_append, List.map_cons, List.map_nil, hc]
    simp

theorem pomodoroLoop_succ (fails : Nat → Bool) (params : TimerWorkflowParams)
    (cfg : PomodoroConfig) (fuel : Nat) (w : World) (state : TimerState) :
    pomodoroLoop fails params cfg (fuel + 1) w state =
      if state.CurrentCycle ≤ cfg.maxCycles then
        if (pomodoroCycle fails params cfg w state).2 then
          (pomodoroCycle fails params cfg w state).1
        else
          pomodoroLoop fails params cfg fuel (pomodoroCycle fails params cfg w state).1.world
            { (pomodoroCycle fails params cfg w state).1.state with
              CurrentCycle := (pomodoroCycle fails params cfg w state).1.state.CurrentCycle + 1 }
      else ⟨w, { state with Status := "completed" }, none⟩ := rfl

/-- Without signals the loop runs the remaining cycles in order and ends completed. -/
theorem pomodoroLoop_quiet (fails : Nat → Bool) (params : TimerWorkflowParams)
    (cfg : PomodoroConfig) (n : Nat) (hn : cfg.maxCycles = n) :
    ∀ (k fuel c : Nat) (now : Int) (trace : List (Int × Event)) (state : TimerState),
      state.Status ≠ "stopped" → state.CurrentCycle = c → state.CompletedCycles + 1 = c →
      c + k = n + 1 → k ≤ fuel →
      ∃ now1 trace1 state1,
        pomodoroLoop fails params cfg fuel ⟨now, [], [], trace⟩ state
          = ⟨⟨now1, [], [], trace1⟩, state1, none⟩ ∧
        state1.Status = "completed" ∧
        trace1.map Prod.snd = trace.map Prod.snd ++
          ((List.range' c k).flatMap (cyclePeriods cfg n)).flatMap (periodEvents params cfg) := by
  intro k
  induction k with
  | zero =>
    intro fuel c now trace state hs hc hcc hck _
    have hgt : ¬ state.CurrentCycle ≤ cfg.maxCycles := by
      rw [hc, hn]; intro h; have : c ≤ n := by exact_mod_cast h
      omega
    refine ⟨now, trace, { state with Status := "completed" }, ?_, rfl, by simp⟩
    cases fuel with
    | zero => simp [pomodoroLoop, hgt]
    | succ f => rw [pomodoroLoop_succ, if_neg hgt]
  | succ k ih =>
    intro fuel c now trace state hs hc hcc hck hf
    obtain ⟨f, rfl⟩ : ∃ f, fuel = f + 1 := ⟨fuel - 1, by omega⟩
    have hle : state.CurrentCycle ≤ cfg.maxCycles := by
      rw [hc, hn]; exact_mod_cast (show c ≤ n by omega)
    obtain ⟨now1, trace1, state1, hcyc, hst, hcur, hcomp, htr⟩ :=
      pomodoroCycle_quiet fails params cfg n c hn now trace state hs hc hcc
    rw [pomodoroLoop_succ, if_pos hle, hcyc]
    simp only [Bool.false_eq_true, if_false]
    obtain ⟨now2, trace2, state2, hloop, hst2, htr2⟩ :=
      ih f (c + 1) now1 trace1 { state1 with CurrentCycle := state1.CurrentCycle + 1 }
        (by simpa [hst] using hs) (by simp [hcur]) (by simp [hcomp]) (by omega) (by omega)
    refine ⟨now2, trace2, state2, hloop, hst2, ?_⟩
    rw [htr2, htr, List.range'_succ, List.flatMap_cons, List.flatMap_append, List.append_assoc]

/-! ### The pomodoro schedule -/

theorem plan_work_periods (cfg : PomodoroConfig) (n : Nat) (l : List Nat) :
    (l.flatMap (cyclePeriods cfg n)).filter (fun p => !p.isBreak)
      = l.map (fun c => (⟨false, c, cfg.workDuration⟩ : Period)) := by
  induction l with
  | nil => rfl
  | cons c l ih =>
    rw [List.flatMap_cons, List.filter_append, ih]
    unfold cyclePeriods
    split_ifs <;> simp

theorem plan_break_periods (cfg : PomodoroConfig) (n : Nat) (l : List Nat) :
    (l.flatMap (cyclePeriods cfg n)).filter (fun p => p.isBreak)
      = (l.filter (fun c => decide (c < n))).map
          (fun c => (⟨true, c, breakDuration cfg c⟩ : Period)) := by
  induction l with
  | nil => rfl
  | cons c l ih =>
    rw [List.flatMap_cons, List.filter_append, ih]
    unfold cyclePeriods
    by_cases h : c < n <;> simp [h]

theorem range'_filter_lt (n : Nat) (hn : 1 ≤ n) :
    (List.range' 1 n).filter (fun c => decide (c < n)) = List.range' 1 (n - 1) := by
  obtain ⟨m, rfl⟩ : ∃ m, n = m + 1 := ⟨n - 1, by omega⟩
  rw [List.range'_concat, List.filter_append]
  simp only [Nat.add_sub_cancel]
  have h1 : (List.range' 1 m).filter (fun c => decide (c < m + 1)) = List.range' 1 m := by
    rw [List.filter_eq_self]
    intro a ha
    rw [List.mem_range'_1] at ha
    simp
    omega
  rw [h1]
  simp
  omega

/-! ### More on the weekly branch and on the length of runs -/

/-- Whatever the fuel, a weekly search that returns a date returns the first of the
    following days whose weekday is listed. -/
theorem weekly_result_unique (rule : RecurrenceRule) (t : Time) (ht : t.Valid)
    (htype : rule.Type_ = "weekly") (n : Nat) (hn1 : 1 ≤ n)
    (hin : (t.AddDate 0 0 n).Weekday ∈ rule.DaysOfWeek)
    (hmin : ∀ j : Nat, 1 ≤ j → j < n → (t.AddDate 0 0 j).Weekday ∉ rule.DaysOfWeek)
    (fuel : Nat) (b : Time) (h : calculateNextDueDate fuel rule t = some b) :
    b = t.AddDate 0 0 n := by
  by_cases hf : n ≤ fuel
  · rw [weekly_result rule t ht htype n hn1 hin hmin fuel hf] at h
    cases h
    rfl
  · exfalso
    have hne : rule.DaysOfWeek ≠ [] := by
      intro h0
      rw [h0] at hin
      simp at hin
    rw [calculateNextDueDate_weekly fuel rule t htype hne] at h
    have hv := AddDate_days_valid t ht 1
    simp only [Nat.cast_one] at hv
    rw [weeklySearch_short rule.DaysOfWeek fuel _ hv (by
      intro i hi
      rw [AddDate_days_succ t ht i]
      exact hmin (i + 1) (by omega) (by omega))] at h
    cases h

/-- Without cancel signal and end date the loop runs at least as many iterations as the
    fuel and `MaxOccurrences` allow. -/
theorem recurringLoop_length_ge (params : RecurringTaskWorkflowParams) (env : RecurringEnv)
    (inner : Nat) (hsig : env.cancelSignals = []) (hend : params.RecurrenceRule.EndDate = none)
    (htot : ∀ t : Time, t.Valid →
      ∃ r, calculateNextDueDate inner params.RecurrenceRule t = some r ∧ r.Valid) :
    ∀ (fuel count k : Nat) (due : Time) (now : Int), due.Valid → k ≤ fuel →
      (params.RecurrenceRule.MaxOccurrences ≤ 0 ∨
        ((count + k : Nat) : Int) ≤ params.RecurrenceRule.MaxOccurrences) →
      k ≤ (recurringLoop params env inner fuel count due now).trace.length := by
  intro fuel
  induction fuel with
  | zero => intro count k due now _ hk _; omega
  | succ f ih =>
    intro count k due now hv hk hmax
    cases k with
    | zero => omega
    | succ k =>
      have hnoend : endReached params.RecurrenceRule due = false := by simp [endReached, hend]
      have hnomax : maxReached params.RecurrenceRule count = false := by
        unfold maxReached
        rcases hmax with h | h
        · simp; intro h2; omega
        · simp; intro _; push_cast at h; omega
      obtain ⟨r, hr, hrv⟩ := htot due hv
      rcases recurringLoop_step params env inner f count due now with
        ⟨h, -⟩ | ⟨-, -, a, -, ⟨hn, -⟩ | ⟨next, hn, ⟨hc, -⟩ | ⟨-, e⟩⟩⟩
      · rcases h with h | h
        · rw [hnoend] at h; cases h
        · rw [hnomax] at h; cases h
      · rw [hr] at hn; cases hn
      · rw [hsig, cancelReceived_nil] at hc; cases hc
      · rw [hr] at hn
        cases hn
        rw [e]
        simp only [List.length_cons]
        have := ih (count + 1) k r
          (cancelSelect env.cancelSignals (iteration params env count due a now).time) hrv
          (by omega) (by
            rcases hmax with h | h
            · left; exact h
            · right; push_cast at h ⊢; omega)
        omega

theorem dueDates_length (r : RecurringResult) : (dueDates r).length = r.trace.length := by
  simp [dueDates]

/-! ### Claims C2 and C3: monthly and weekly due dates -/

/-- The claim C2 as worded fails on a 64-bit platform.  The rule `hugeMonthlyRule` is
    monthly with `DayOfMonth = 31` and `Interval = 9223372036854775807`, the largest
    `int`.  From 2025-01-31 00:00 UTC the sum `month + time.Month(rule.Interval)` wraps,
    and so does the count of seconds in `time.Date`: `calculateNextDueDate` returns
    2024-12-27 21:07:12 UTC, a month before the current date instead of `Interval` months
    after it, on day 27 instead of day 31, at another time of day. -/
theorem monthly_huge_interval_counterexample :
    hugeMonthlyRule.Type_ = "monthly" ∧ hugeMonthlyRule.DayOfMonth = 31
    ∧ hugeMonthlyRule.Interval = 9223372036854775807
    ∧ (midnight 2025 1 31).Valid
    ∧ Machine.calculateNextDueDate 0 hugeMonthlyRule (midnight 2025 1 31)
        = some ⟨2024, 12, 27, 21, 7, 12, 0, UTC⟩
    ∧ ¬ ((2024 : Int) * 12 + (12 - 1)
        = (midnight 2025 1 31).year * 12 + ((midnight 2025 1 31).month - 1)
          + hugeMonthlyRule.Interval)
    ∧ ¬ ((27 : Int) = min hugeMonthlyRule.DayOfMonth (daysIn 2024 12))
    ∧ ¬ ((21 : Int) = (midnight 2025 1 31).hour) := by
  decide

/-- C2 (amended): for a monthly rule with `DayOfMonth` d >= 1 and `Interval` k with
    1 <= k <= 1000000000 and every current date in a year from -1000000000 to 1000000000,
    `calculateNextDueDate` returns on a 64-bit platform (whatever the fuel) the date whose
    year and month lie exactly k months after those of the current date, across year
    boundaries, whose day is the smaller of d and the number of days of that month, and
    whose clock and location are those of the current date. -/
theorem monthly_next_due_date (fuel : Nat) (rule : RecurrenceRule) (currentDate : Time)
    (hvalid : currentDate.Valid)
    (hyear : -1000000000 ≤ currentDate.year ∧ currentDate.year ≤ 1000000000)
    (htype : rule.Type_ = "monthly")
    (hd : 1 ≤ rule.DayOfMonth) (hk : 1 ≤ rule.Interval) (hkmax : rule.Interval ≤ 1000000000) :
    ∃ r, Machine.calculateNextDueDate fuel rule currentDate = some r ∧
      r.year * 12 + (r.month - 1)
        = currentDate.year * 12 + (currentDate.month - 1) + rule.Interval ∧
      1 ≤ r.month ∧ r.month ≤ 12 ∧
      r.day = min rule.DayOfMonth (daysIn r.year r.month) ∧
      r.hour = currentDate.hour ∧ r.minute = currentDate.minute ∧
      r.second = currentDate.second ∧ r.nanosecond = currentDate.nanosecond ∧
      r.loc = currentDate.loc := by
  obtain ⟨r, hr, hrest⟩ := monthlyNext_spec rule currentDate hvalid hd hk
  refine ⟨r, ?_, hrest⟩
  rw [machine_calculateNextDueDate_eq fuel rule currentDate hvalid ⟨by omega, by omega⟩
    ⟨by omega, by omega⟩, calculateNextDueDate_monthly fuel rule currentDate htype hd, hr]

/-- Witness of C2: from 2025-01-31 a monthly rule on day 31 leads to a date in February
    2025 with day 28. -/
theorem monthly_next_due_date_witness :
    (midnight 2025 1 31).Valid
    ∧ (-1000000000 ≤ (midnight 2025 1 31).year ∧ (midnight 2025 1 31).year ≤ 1000000000)
    ∧ day31Rule.Type_ = "monthly" ∧ 1 ≤ day31Rule.DayOfMonth ∧
    1 ≤ day31Rule.Interval ∧ day31Rule.Interval ≤ 1000000000 ∧
    ∃ r, Machine.calculateNextDueDate 0 day31Rule (midnight 2025 1 31) = some r ∧
      r.year * 12 + (r.month - 1)
        = (midnight 2025 1 31).year * 12 + ((midnight 2025 1 31).month - 1)
          + day31Rule.Interval ∧
      1 ≤ r.month ∧ r.month ≤ 12 ∧
      r.day = min day31Rule.DayOfMonth (daysIn r.year r.month) ∧
      r.hour = (midnight 2025 1 31).hour ∧ r.minute = (midnight 2025 1 31).minute ∧
      r.second = (midnight 2025 1 31).second ∧
      r.nanosecond = (midnight 2025 1 31).nanosecond ∧
      r.loc = (midnight 2025 1 31).loc :=
  ⟨by decide, by decide, by decide, by decide, by decide, by decide,
    monthly_next_due_date 0 day31Rule (midnight 2025 1 31) (by decide) (by decide) (by decide)
      (by decide) (by decide) (by decide)⟩

/-- January 31 with day 31 and interval 1 gives February 28 in a common year and February
    29 in a leap year. -/
theorem january_31_next :
    calculateNextDueDate 0 day31Rule (midnight 2025 1 31) = some (midnight 2025 2 28) ∧
    calculateNextDueDate 0 day31Rule (midnight 2024 1 31) = some (midnight 2024 2 29) := by
  decide

/-- C3: for a weekly rule whose `DaysOfWeek` holds a value in 0..6 and every current date,
    `calculateNextDueDate` returns, for every fuel of at least 7, the date `n` days after
    the current date for some `n` in 1..7, at the same time of day; the weekday of that date
    is in `DaysOfWeek`, and no date strictly between the current date and it has a weekday
    in `DaysOfWeek`. -/
theorem weekly_next_due_date (rule : RecurrenceRule) (currentDate : Time)
    (hvalid : currentDate.Valid) (htype : rule.Type_ = "weekly")
    (hday : ∃ d ∈ rule.DaysOfWeek, 0 ≤ d ∧ d ≤ 6) :
    ∃ n : Nat, 1 ≤ n ∧ n ≤ 7 ∧
      (∀ fuel, 7 ≤ fuel →
        calculateNextDueDate fuel rule currentDate = some (currentDate.AddDate 0 0 n)) ∧
      (currentDate.AddDate 0 0 n).Weekday ∈ rule.DaysOfWeek ∧
      (∀ j : Nat, 1 ≤ j → j < n → (currentDate.AddDate 0 0 j).Weekday ∉ rule.DaysOfWeek) ∧
      (currentDate.AddDate 0 0 n).UnixNano = currentDate.UnixNano + n * (24 * Hour) ∧
      (currentDate.AddDate 0 0 n).After currentDate = true ∧
      (currentDate.AddDate 0 0 n).hour = currentDate.hour ∧
      (currentDate.AddDate 0 0 n).minute = currentDate.minute ∧
      (currentDate.AddDate 0 0 n).second = currentDate.second ∧
      (currentDate.AddDate 0 0 n).nanosecond = currentDate.nanosecond ∧
      (currentDate.AddDate 0 0 n).loc = currentDate.loc := by
  obtain ⟨n, hn1, hn7, hin, hmin⟩ :=
    weekly_first_exists rule.DaysOfWeek currentDate hvalid hday
  have hu := UnixNano_AddDate_days currentDate hvalid n
  refine ⟨n, hn1, hn7, ?_, hin, hmin, hu, ?_, ?_⟩
  · intro fuel hf
    exact weekly_result rule currentDate hvalid htype n hn1 hin hmin fuel (by omega)
  · unfold Time.After
    rw [hu]
    simp only [Hour, Minute, Second, decide_eq_true_eq]
    have : (1 : Int) ≤ n := by exact_mod_cast hn1
    omega
  · rw [AddDate_days currentDate hvalid n]
    exact ⟨rfl, rfl, rfl, rfl, rfl⟩

/-- Witness of C3: the weekly rule on Monday and Friday at Sunday 2025-01-05. -/
theorem weekly_next_due_date_witness :
    (midnight 2025 1 5).Valid ∧ sundayRule.Type_ = "weekly" ∧
    (∃ d ∈ sundayRule.DaysOfWeek, 0 ≤ d ∧ d ≤ 6) ∧
    ∃ n : Nat, 1 ≤ n ∧ n ≤ 7 ∧
      (∀ fuel, 7 ≤ fuel →
        calculateNextDueDate fuel sundayRule (midnight 2025 1 5)
          = some ((midnight 2025 1 5).AddDate 0 0 n)) ∧
      ((midnight 2025 1 5).AddDate 0 0 n).Weekday ∈ sundayRule.DaysOfWeek ∧
      (∀ j : Nat, 1 ≤ j → j < n →
        ((midnight 2025 1 5).AddDate 0 0 j).Weekday ∉ sundayRule.DaysOfWeek) ∧
      ((midnight 2025 1 5).AddDate 0 0 n).UnixNano
        = (midnight 2025 1 5).UnixNano + n * (24 * Hour) ∧
      ((midnight 2025 1 5).AddDate 0 0 n).After (midnight 2025 1 5) = true ∧
      ((midnight 2025 1 5).AddDate 0 0 n).hour = (midnight 2025 1 5).hour ∧
      ((midnight 2025 1 5).AddDate 0 0 n).minute = (midnight 2025 1 5).minute ∧
      ((midnight 2025 1 5).AddDate 0 0 n).second = (midnight 2025 1 5).second ∧
      ((midnight 2025 1 5).AddDate 0 0 n).nanosecond = (midnight 2025 1 5).nanosecond ∧
      ((midnight 2025 1 5).AddDate 0 0 n).loc = (midnight 2025 1 5).loc :=
  ⟨by decide, by decide, ⟨1, by decide, by decide, by decide⟩,
    weekly_next_due_date sundayRule (midnight 2025 1 5) (by decide) (by decide)
      ⟨1, by decide, by decide, by decide⟩⟩

/-! ### Claims C4 and C5: due dates of runs -/

/-- C4 (amended): for a weekly rule with `DaysOfWeek = [1, 5]` and a start date that falls
    on a Sunday, in every run the first request carries the start date itself, the second
    the Monday after it and the third the Friday after it, as far as the run issues them;
    with `MaxOccurrences >= 2`, no end date, no cancel signal and fuel of at least 7 the run
    issues at least two requests, due on the start date and on the Monday. -/
theorem weekly_sunday_start_due_dates (fuel : Nat) (env : RecurringEnv)
    (params : RecurringTaskWorkflowParams)
    (htype : params.RecurrenceRule.Type_ = "weekly")
    (hdays : params.RecurrenceRule.DaysOfWeek = [1, 5])
    (hvalid : params.RecurrenceRule.StartDate.Valid)
    (hsun : params.RecurrenceRule.StartDate.Weekday = 0) :
    (dueDates (RecurringTaskWorkflow fuel env params)).take 3
      = [params.RecurrenceRule.StartDate,
         params.RecurrenceRule.StartDate.AddDate 0 0 1,
         params.RecurrenceRule.StartDate.AddDate 0 0 5].take
          (dueDates (RecurringTaskWorkflow fuel env params)).length ∧
    (params.RecurrenceRule.StartDate.AddDate 0 0 1).Weekday = 1 ∧
    (params.RecurrenceRule.StartDate.AddDate 0 0 5).Weekday = 5 ∧
    (env.cancelSignals = [] → params.RecurrenceRule.EndDate = none →
      2 ≤ params.RecurrenceRule.MaxOccurrences → 7 ≤ fuel →
      (dueDates (RecurringTaskWorkflow fuel env params)).take 2
        = [params.RecurrenceRule.StartDate,
           params.RecurrenceRule.StartDate.AddDate 0 0 1]) := by
  have hw : ∀ n : Nat, (params.RecurrenceRule.StartDate.AddDate 0 0 n).Weekday = (n : Int) % 7 := by
    intro n
    rw [Weekday_AddDate_days _ hvalid n, hsun]
    simp
  have hw1 : (params.RecurrenceRule.StartDate.AddDate 0 0 1).Weekday = 1 := by
    have := hw 1
    simpa using this
  have hw5 : (params.RecurrenceRule.StartDate.AddDate 0 0 5).Weekday = 5 := by
    have := hw 5
    simpa using this
  have hv1 : (params.RecurrenceRule.StartDate.AddDate 0 0 1).Valid := by
    have := AddDate_days_valid _ hvalid 1
    simpa using this
  -- the successor of the start date is the Monday
  have step1 : ∀ b, calculateNextDueDate fuel params.RecurrenceRule
      params.RecurrenceRule.StartDate = some b →
      b = params.RecurrenceRule.StartDate.AddDate 0 0 1 := by
    intro b hb
    have := weekly_result_unique params.RecurrenceRule _ hvalid htype 1 (by omega)
      (by rw [hdays]; simp only [Nat.cast_one]; rw [hw1]; simp)
      (by intro j h1 h2; omega) fuel b hb
    simpa using this
  -- the successor of the Monday is the Friday
  have step2 : ∀ b, calculateNextDueDate fuel params.RecurrenceRule
      (params.RecurrenceRule.StartDate.AddDate 0 0 1) = some b →
      b = params.RecurrenceRule.StartDate.AddDate 0 0 5 := by
    intro b hb
    have hshift : ∀ j : Nat, (params.RecurrenceRule.StartDate.AddDate 0 0 1).AddDate 0 0 j
        = params.RecurrenceRule.StartDate.AddDate 0 0 ((j + 1 : Nat) : Int) :=
      fun j => AddDate_days_succ _ hvalid j
    have := weekly_result_unique params.RecurrenceRule _ hv1 htype 4 (by omega)
      (by rw [hshift 4, hdays, hw]; simp)
      (by
        intro j h1 h2
        rw [hshift j, hdays, hw]
        have : j = 1 ∨ j = 2 ∨ j = 3 := by omega
        rcases this with h | h | h <;> subst h <;> simp)
      fuel b hb
    rw [this, hshift 4]
    rfl
  have hchain := recurringLoop_chain params env fuel fuel 0 params.RecurrenceRule.StartDate
    env.start
  refine ⟨?_, hw1, hw5, ?_⟩
  · unfold RecurringTaskWorkflow
    rcases hchain with h0 | ⟨rest, h1, h2⟩
    · rw [h0]; rfl
    · rw [h1]
      cases rest with
      | nil => rfl
      | cons b rest =>
        rw [List.chain_cons] at h2
        obtain ⟨hb, h3⟩ := h2
        have eb := step1 b hb
        subst eb
        cases rest with
        | nil => rfl
        | cons c rest =>
          rw [List.chain_cons] at h3
          obtain ⟨hc, -⟩ := h3
          have ec := step2 c hc
          subst ec
          simp
  · intro hsig hend hmax hf
    have htot : ∀ t : Time, t.Valid →
        ∃ r, calculateNextDueDate fuel params.RecurrenceRule t = some r ∧ r.Valid := by
      intro t ht
      exact calculateNextDueDate_total params.RecurrenceRule
        (fun _ => Or.inr ⟨1, by rw [hdays]; simp, by omega, by omega⟩) fuel hf t ht
    have hlen := recurringLoop_length_ge params env fuel hsig hend htot fuel 0 2
      params.RecurrenceRule.StartDate env.start hvalid (by omega)
      (Or.inr (by push_cast; omega))
    unfold RecurringTaskWorkflow
    rw [← dueDates_length] at hlen
    rcases hchain with h0 | ⟨rest, h1, h2⟩
    · rw [h0] at hlen; simp at hlen
    · rw [h1] at hlen ⊢
      cases rest with
      | nil => simp at hlen
      | cons b rest =>
        rw [List.chain_cons] at h2
        have eb := step1 b h2.1
        subst eb
        simp

/-- Counterexample to C4 as stated: with the weekly rule on Monday and Friday starting on
    Sunday 2025-01-05 and two occurrences, the two requests are due on the Sunday and on
    Monday 2025-01-06, not on the Monday and on Friday 2025-01-10. -/
theorem weekly_sunday_start_counterexample :
    sundayRule.StartDate.Weekday = 0 ∧ sundayRule.DaysOfWeek = [1, 5] ∧
    2 ≤ sundayRule.MaxOccurrences ∧
    (RecurringTaskWorkflow 10 quietEnv (choresParams sundayRule)).outcome
      = Outcome.completed ∧
    dueDates (RecurringTaskWorkflow 10 quietEnv (choresParams sundayRule))
      = [midnight 2025 1 5, midnight 2025 1 6] ∧
    dueDates (RecurringTaskWorkflow 10 quietEnv (choresParams sundayRule))
      ≠ [midnight 2025 1 6, midnight 2025 1 10] := by
  decide

/-- Witness of C4 (amended): the weekly rule on Monday and Friday starting on Sunday
    2025-01-05. -/
theorem weekly_sunday_start_due_dates_witness :
    (choresParams sundayRule).RecurrenceRule.Type_ = "weekly" ∧
    (choresParams sundayRule).RecurrenceRule.DaysOfWeek = [1, 5] ∧
    (choresParams sundayRule).RecurrenceRule.StartDate.Valid ∧
    (choresParams sundayRule).RecurrenceRule.StartDate.Weekday = 0 ∧
    ((dueDates (RecurringTaskWorkflow 10 quietEnv (choresParams sundayRule))).take 3
      = [(choresParams sundayRule).RecurrenceRule.StartDate,
         (choresParams sundayRule).RecurrenceRule.StartDate.AddDate 0 0 1,
         (choresParams sundayRule).RecurrenceRule.StartDate.AddDate 0 0 5].take
          (dueDates (RecurringTaskWorkflow 10 quietEnv (choresParams sundayRule))).length ∧
    ((choresParams sundayRule).RecurrenceRule.StartDate.AddDate 0 0 1).Weekday = 1 ∧
    ((choresParams sundayRule).RecurrenceRule.StartDate.AddDate 0 0 5).Weekday = 5 ∧
    (quietEnv.cancelSignals = [] → (choresParams sundayRule).RecurrenceRule.EndDate = none →
      2 ≤ (choresParams sundayRule).RecurrenceRule.MaxOccurrences → 7 ≤ 10 →
      (dueDates (RecurringTaskWorkflow 10 quietEnv (choresParams sundayRule))).take 2
        = [(choresParams sundayRule).RecurrenceRule.StartDate,
           (choresParams sundayRule).RecurrenceRule.StartDate.AddDate 0 0 1])) :=
  ⟨by decide, by decide, by decide, by decide,
    weekly_sunday_start_due_dates 10 quietEnv (choresParams sundayRule) (by decide)
      (by decide) (by decide) (by decide)⟩

/-- One step of a monthly rule on day 31 with interval 1 from a month before December:
    the same year, the next month, day 31 clamped to that month, the same clock. -/
theorem monthly31_step (fuel : Nat) (rule : RecurrenceRule) (htype : rule.Type_ = "monthly")
    (hint : rule.Interval = 1) (hday : rule.DayOfMonth = 31) (t : Time) (ht : t.Valid)
    (hm : t.month ≤ 11) (b : Time) (h : calculateNextDueDate fuel rule t = some b) :
    b = t.onDay (t.month + 1) (min 31 (daysIn t.year (t.month + 1))) := by
  rw [calculateNextDueDate_monthly fuel rule t htype (by omega)] at h
  obtain ⟨r, hr, h1, h2, h3, h4, h5, h6, h7, h8, h9⟩ :=
    monthlyNext_spec rule t ht (by omega) (by omega)
  rw [hr] at h
  have hb : r = b := Option.some.inj h
  subst hb
  have hm1 := ht.1.1
  simp only [Time.date] at hm1
  rw [hint] at h1
  have hmonth : r.month = t.month + 1 := by omega
  have hyear : r.year = t.year := by omega
  rw [hday, hyear, hmonth] at h4
  cases r
  simp only at hmonth hyear h4 h5 h6 h7 h8 h9
  subst hmonth hyear h4 h5 h6 h7 h8 h9
  rfl

/-- C5: for a monthly rule with interval 1 and day 31 whose start date is January 31 of any
    year, in every run the due dates of the first five requests are, as far as the run
    issues them, January 31, February 28 (29 in a leap year), March 31, April 30 and May
    31 of that year, at the clock of the start date; without end date and cancel signal,
    with `MaxOccurrences` unbounded or at least 5 and fuel of at least 5, the run issues
    all five. -/
theorem monthly_day31_due_dates (fuel : Nat) (env : RecurringEnv)
    (params : RecurringTaskWorkflowParams)
    (htype : params.RecurrenceRule.Type_ = "monthly")
    (hint : params.RecurrenceRule.Interval = 1)
    (hday : params.RecurrenceRule.DayOfMonth = 31)
    (hvalid : params.RecurrenceRule.StartDate.Valid)
    (hjan : params.RecurrenceRule.StartDate.month = 1)
    (h31 : params.RecurrenceRule.StartDate.day = 31) :
    (dueDates (RecurringTaskWorkflow fuel env params)).take 5
      = [params.RecurrenceRule.StartDate.onDay 1 31,
         params.RecurrenceRule.StartDate.onDay 2
           (if isLeap params.RecurrenceRule.StartDate.year then 29 else 28),
         params.RecurrenceRule.StartDate.onDay 3 31,
         params.RecurrenceRule.StartDate.onDay 4 30,
         params.RecurrenceRule.StartDate.onDay 5 31].take
          (dueDates (RecurringTaskWorkflow fuel env params)).length ∧
    (env.cancelSignals = [] → params.RecurrenceRule.EndDate = none →
      (params.RecurrenceRule.MaxOccurrences ≤ 0 ∨ 5 ≤ params.RecurrenceRule.MaxOccurrences) →
      5 ≤ fuel →
      (dueDates (RecurringTaskWorkflow fuel env params)).take 5
        = [params.RecurrenceRule.StartDate.onDay 1 31,
           params.RecurrenceRule.StartDate.onDay 2
             (if isLeap params.RecurrenceRule.StartDate.year then 29 else 28),
           params.RecurrenceRule.StartDate.onDay 3 31,
           params.RecurrenceRule.StartDate.onDay 4 30,
           params.RecurrenceRule.StartDate.onDay 5 31]) := by
  set S := params.RecurrenceRule.StartDate with hS0
  have hS1 : S.onDay 1 31 = S := by
    unfold Time.onDay
    rw [← hjan, ← h31]
  have hstep : ∀ (t : Time), t.Valid → t.month ≤ 11 → ∀ b,
      calculateNextDueDate fuel params.RecurrenceRule t = some b →
      b = t.onDay (t.month + 1) (min 31 (daysIn t.year (t.month + 1))) ∧ b.Valid := by
    intro t ht hm b hb
    exact ⟨monthly31_step fuel params.RecurrenceRule htype hint hday t ht hm b hb,
      calculateNextDueDate_valid fuel _ t b hb⟩
  have hfeb : min 31 (daysIn S.year (1 + 1)) = if isLeap S.year then 29 else 28 := by
    cases hl : isLeap S.year <;> simp [daysIn, hl]
  -- the four steps from the start date
  have s1 : ∀ b, calculateNextDueDate fuel params.RecurrenceRule S = some b →
      b = S.onDay 2 (if isLeap S.year then 29 else 28) ∧ b.Valid := by
    intro b hb
    obtain ⟨e, v⟩ := hstep S hvalid (by omega) b hb
    rw [hjan, hfeb] at e
    exact ⟨e, v⟩
  have s2 : ∀ b, calculateNextDueDate fuel params.RecurrenceRule
      (S.onDay 2 (if isLeap S.year then 29 else 28)) = some b →
      (S.onDay 2 (if isLeap S.year then 29 else 28)).Valid →
      b = S.onDay 3 31 ∧ b.Valid := by
    intro b hb hv
    obtain ⟨e, v⟩ := hstep _ hv (by simp [Time.onDay]) b hb
    refine ⟨?_, v⟩
    rw [e]
    simp [daysIn, Time.onDay]
  have s3 : ∀ b, calculateNextDueDate fuel params.RecurrenceRule (S.onDay 3 31) = some b →
      (S.onDay 3 31).Valid → b = S.onDay 4 30 ∧ b.Valid := by
    intro b hb hv
    obtain ⟨e, v⟩ := hstep _ hv (by simp [Time.onDay]) b hb
    refine ⟨?_, v⟩
    rw [e]
    simp [daysIn, Time.onDay]
  have s4 : ∀ b, calculateNextDueDate fuel params.RecurrenceRule (S.onDay 4 30) = some b →
      (S.onDay 4 30).Valid → b = S.onDay 5 31 := by
    intro b hb hv
    obtain ⟨e, -⟩ := hstep _ hv (by simp [Time.onDay]) b hb
    rw [e]
    simp [daysIn, Time.onDay]
  have hchain := recurringLoop_chain params env fuel fuel 0 S env.start
  have hshape : ∀ l : List Time,
      List.Chain (fun a b => calculateNextDueDate fuel params.RecurrenceRule a = some b) S l →
      (S :: l).take 5
        = [S, S.onDay 2 (if isLeap S.year then 29 else 28), S.onDay 3 31, S.onDay 4 30,
           S.onDay 5 31].take (S :: l).length := by
    intro l hl
    cases l with
    | nil => rfl
    | cons b1 l =>
      rw [List.chain_cons] at hl
      obtain ⟨e1, v1⟩ := s1 b1 hl.1
      subst e1
      cases l with
      | nil => rfl
      | cons b2 l =>
        have hl2 := hl.2
        rw [List.chain_cons] at hl2
        obtain ⟨e2, v2⟩ := s2 b2 hl2.1 v1
        subst e2
        cases l with
        | nil => rfl
        | cons b3 l =>
          have hl3 := hl2.2
          rw [List.chain_cons] at hl3
          obtain ⟨e3, v3⟩ := s3 b3 hl3.1 v2
          subst e3
          cases l with
          | nil => rfl
          | cons b4 l =>
            have hl4 := hl3.2
            rw [List.chain_cons] at hl4
            have e4 := s4 b4 hl4.1 v3
            subst e4
            simp
  have hS : params.RecurrenceRule.StartDate = S := rfl
  have hpart : (dueDates (RecurringTaskWorkflow fuel env params)).take 5
      = [S.onDay 1 31, S.onDay 2 (if isLeap S.year then 29 else 28), S.onDay 3 31,
         S.onDay 4 30, S.onDay 5 31].take
          (dueDates (RecurringTaskWorkflow fuel env params)).length := by
    unfold RecurringTaskWorkflow
    rw [hS, hS1]
    rcases hchain with h0 | ⟨rest, h1, h2⟩
    · rw [h0]; rfl
    · rw [h1]
      exact hshape rest h2
  refine ⟨hpart, ?_⟩
  intro hsig hend hmax hf
  have htot : ∀ t : Time, t.Valid →
      ∃ r, calculateNextDueDate fuel params.RecurrenceRule t = some r ∧ r.Valid := by
    intro t _
    have e := calculateNextDueDate_monthly fuel params.RecurrenceRule t htype (by omega)
    exact ⟨_, e, calculateNextDueDate_valid fuel _ t _ e⟩
  have hlen := recurringLoop_length_ge params env fuel hsig hend htot fuel 0 5 S env.start
    hvalid hf (by
      rcases hmax with h | h
      · left; exact h
      · right; push_cast; omega)
  have hlen2 : 5 ≤ (dueDates (RecurringTaskWorkflow fuel env params)).length := by
    rw [dueDates_length]
    unfold RecurringTaskWorkflow
    rw [hS]
    exact hlen
  rw [hpart, List.take_of_length_le (by simpa using hlen2)]

/-- Witness of C5: the monthly rule on day 31 starting on 2024-01-31, a leap year. -/
theorem monthly_day31_due_dates_witness :
    (choresParams day31Rule).RecurrenceRule.Type_ = "monthly" ∧
    (choresParams day31Rule).RecurrenceRule.Interval = 1 ∧
    (choresParams day31Rule).RecurrenceRule.DayOfMonth = 31 ∧
    (choresParams day31Rule).RecurrenceRule.StartDate.Valid ∧
    (choresParams day31Rule).RecurrenceRule.StartDate.month = 1 ∧
    (choresParams day31Rule).RecurrenceRule.StartDate.day = 31 ∧
    ((dueDates (RecurringTaskWorkflow 10 quietEnv (choresParams day31Rule))).take 5
      = [(choresParams day31Rule).RecurrenceRule.StartDate.onDay 1 31,
         (choresParams day31Rule).RecurrenceRule.StartDate.onDay 2
           (if isLeap (choresParams day31Rule).RecurrenceRule.StartDate.year then 29 else 28),
         (choresParams day31Rule).RecurrenceRule.StartDate.onDay 3 31,
         (choresParams day31Rule).RecurrenceRule.StartDate.onDay 4 30,
         (choresParams day31Rule).RecurrenceRule.StartDate.onDay 5 31].take
          (dueDates (RecurringTaskWorkflow 10 quietEnv (choresParams day31Rule))).length ∧
    (quietEnv.cancelSignals = [] → (choresParams day31Rule).RecurrenceRule.EndDate = none →
      ((choresParams day31Rule).RecurrenceRule.MaxOccurrences ≤ 0 ∨
        5 ≤ (choresParams day31Rule).RecurrenceRule.MaxOccurrences) →
      5 ≤ 10 →
      (dueDates (RecurringTaskWorkflow 10 quietEnv (choresParams day31Rule))).take 5
        = [(choresParams day31Rule).RecurrenceRule.StartDate.onDay 1 31,
           (choresParams day31Rule).RecurrenceRule.StartDate.onDay 2
             (if isLeap (choresParams day31Rule).RecurrenceRule.StartDate.year
              then 29 else 28),
           (choresParams day31Rule).RecurrenceRule.StartDate.onDay 3 31,
           (choresParams day31Rule).RecurrenceRule.StartDate.onDay 4 30,
           (choresParams day31Rule).RecurrenceRule.StartDate.onDay 5 31])) :=
  ⟨by decide, by decide, by decide, by decide, by decide, by decide,
    monthly_day31_due_dates 10 quietEnv (choresParams day31Rule) (by decide) (by decide)
      (by decide) (by decide) (by decide) (by decide)⟩

/-- The run of the monthly rule on day 31 from 2024-01-31 is due on January 31, February
    29, March 31, April 30 and May 31. -/
theorem monthly_day31_run :
    dueDates (RecurringTaskWorkflow 10 quietEnv (choresParams day31Rule))
      = [midnight 2024 1 31, midnight 2024 2 29, midnight 2024 3 31, midnight 2024 4 30,
         midnight 2024 5 31] := by
  decide

/-! ### Claims C6 and C7: occurrence ids and assignees -/

theorem occurrenceIDs_length (r : RecurringResult) :
    (occurrenceIDs r).length = r.trace.length := by
  simp [occurrenceIDs]

/-- The loop never returns an error. -/
theorem recurringLoop_no_error (params : RecurringTaskWorkflowParams) (env : RecurringEnv)
    (inner : Nat) :
    ∀ (fuel count : Nat) (due : Time) (now : Int) (msg : String),
      (recurringLoop params env inner fuel count due now).outcome ≠ Outcome.failed msg := by
  intro fuel
  induction fuel with
  | zero => intro count due now msg; simp [recurringLoop]
  | succ f ih =>
    intro count due now msg
    rcases recurringLoop_step params env inner f count due now with
      ⟨-, e⟩ | ⟨-, -, a, -, ⟨-, e⟩ | ⟨next, -, ⟨-, e⟩ | ⟨-, e⟩⟩⟩
    · simp [e]
    · simp [e]
    · simp [e]
    · rw [e]
      exact ih _ _ _ _

/-- C6 (amended): for every input with `MaxOccurrences = n > 0`, no end date and no cancel
    signal, whose rule is not a weekly rule with a non-empty `DaysOfWeek` that holds no
    value in 0..6, the workflow (with fuel of at least n + 7) invokes
    `CreateTaskOccurrence` exactly n times, the k-th request carrying the occurrence id
    `TaskID`, "_" and the decimal k, and then completes without error, whether or not the
    activities succeed. -/
theorem max_occurrences_ids (fuel : Nat) (env : RecurringEnv)
    (params : RecurringTaskWorkflowParams) (n : Nat) (hpos : 0 < n)
    (hmax : params.RecurrenceRule.MaxOccurrences = n)
    (hend : params.RecurrenceRule.EndDate = none)
    (hsig : env.cancelSignals = [])
    (hvalid : params.RecurrenceRule.StartDate.Valid)
    (hrule : params.RecurrenceRule.Type_ = "weekly" →
      params.RecurrenceRule.DaysOfWeek = [] ∨
        ∃ d ∈ params.RecurrenceRule.DaysOfWeek, 0 ≤ d ∧ d ≤ 6)
    (hfuel : n + 7 ≤ fuel) :
    (RecurringTaskWorkflow fuel env params).outcome = Outcome.completed ∧
    (RecurringTaskWorkflow fuel env params).trace.length = n ∧
    occurrenceIDs (RecurringTaskWorkflow fuel env params)
      = (List.range n).map (fun k => params.TaskID ++ "_" ++ toString (k + 1)) := by
  have htot : ∀ t : Time, t.Valid →
      ∃ r, calculateNextDueDate fuel params.RecurrenceRule t = some r ∧ r.Valid :=
    fun t ht => calculateNextDueDate_total params.RecurrenceRule hrule fuel (by omega) t ht
  obtain ⟨h1, h2⟩ := recurringLoop_completes params env fuel hsig hend n hmax hpos htot fuel 0
    params.RecurrenceRule.StartDate env.start hvalid (by omega) (by omega)
  simp only [Nat.sub_zero] at h2
  refine ⟨h1, h2, ?_⟩
  apply List.ext_getElem
  · rw [occurrenceIDs_length]
    simp only [List.length_map, List.length_range]
    exact h2
  · intro i hi1 hi2
    rw [occurrenceIDs_length] at hi1
    obtain ⟨a, d, t, -, he, -, -⟩ := recurringLoop_records params env fuel fuel 0
      params.RecurrenceRule.StartDate env.start i hi1
    simp only [occurrenceIDs, RecurringTaskWorkflow, List.getElem_map, List.getElem_range]
    rw [he]
    simp [iteration, mkRequest]

/-- Witness of C6 (amended): the daily rule with three occurrences yields the ids task_1,
    task_2 and task_3. -/
theorem max_occurrences_ids_witness :
    0 < 3 ∧ (choresParams dailyRule).RecurrenceRule.MaxOccurrences = (3 : Nat) ∧
    (choresParams dailyRule).RecurrenceRule.EndDate = none ∧
    quietEnv.cancelSignals = [] ∧
    (choresParams dailyRule).RecurrenceRule.StartDate.Valid ∧
    ((choresParams dailyRule).RecurrenceRule.Type_ = "weekly" →
      (choresParams dailyRule).RecurrenceRule.DaysOfWeek = [] ∨
        ∃ d ∈ (choresParams dailyRule).RecurrenceRule.DaysOfWeek, 0 ≤ d ∧ d ≤ 6) ∧
    3 + 7 ≤ 10 ∧
    ((RecurringTaskWorkflow 10 quietEnv (choresParams dailyRule)).outcome
        = Outcome.completed ∧
      (RecurringTaskWorkflow 10 quietEnv (choresParams dailyRule)).trace.length = 3 ∧
      occurrenceIDs (RecurringTaskWorkflow 10 quietEnv (choresParams dailyRule))
        = (List.range 3).map
            (fun k => (choresParams dailyRule).TaskID ++ "_" ++ toString (k + 1))) :=
  ⟨by decide, by decide, by decide, by decide, by decide, fun _ => Or.inl rfl, by decide,
    max_occurrences_ids 10 quietEnv (choresParams dailyRule) 3 (by decide) (by decide)
      (by decide) (by decide) (by decide) (fun _ => Or.inl rfl) (by decide)⟩

/-- The daily run of scenario 4: ids task_1, task_2, task_3 and assignees A, B, A. -/
theorem daily_run_ids_and_assignees :
    (RecurringTaskWorkflow 10 quietEnv (choresParams dailyRule)).trace.map
        (fun x => (x.request.Occurrence.OccurrenceID, x.request.Occurrence.AssignedTo))
      = [("task_1", "A"), ("task_2", "B"), ("task_3", "A")] := by
  decide

/-- Counterexample to C6 as stated: a weekly rule whose day list is `[7]`, with
    `MaxOccurrences = 3`, no end date, no cancel signal and no failing activity; after the
    first request the weekly search never returns, so for every fuel the run has not
    completed and holds at most one request. -/
theorem max_occurrences_counterexample :
    (choresParams day7Rule).RecurrenceRule.MaxOccurrences = 3 ∧
    (choresParams day7Rule).RecurrenceRule.EndDate = none ∧
    quietEnv.cancelSignals = [] ∧ (∀ k, quietEnv.createFails k = false) ∧
    ∀ fuel, (RecurringTaskWorkflow fuel quietEnv (choresParams day7Rule)).outcome
        = Outcome.outOfFuel ∧
      (RecurringTaskWorkflow fuel quietEnv (choresParams day7Rule)).trace.length ≤ 1 := by
  refine ⟨rfl, rfl, rfl, fun _ => rfl, ?_⟩
  intro fuel
  have hnone : ∀ t, calculateNextDueDate fuel (choresParams day7Rule).RecurrenceRule t
      = none := by
    intro t
    rw [calculateNextDueDate_weekly fuel _ t rfl (by decide)]
    exact weeklySearch_none _ (by decide) fuel _
  unfold RecurringTaskWorkflow
  cases fuel with
  | zero => exact ⟨rfl, by simp [recurringLoop]⟩
  | succ f =>
    rcases recurringLoop_step (choresParams day7Rule) quietEnv (f + 1) f 0
        (choresParams day7Rule).RecurrenceRule.StartDate quietEnv.start with
      ⟨h, -⟩ | ⟨-, -, a, -, ⟨-, e⟩ | ⟨next, hn, -⟩⟩
    · rcases h with h | h
      · exact absurd h (by decide)
      · exact absurd h (by decide)
    · rw [e]
      exact ⟨rfl, by simp⟩
    · rw [hnone] at hn
      cases hn

/-- C7: in every run the request at position k (counted from 1) has the occurrence id
    with suffix k and is assigned to `AssignedMembers[(k-1) mod len(AssignedMembers)]`
    when `AutoAssign` is set and the member list is non-empty (the index is in bounds),
    and has the empty assignee otherwise; the run never panics, so no index is out of
    range and no modulo by zero occurs. -/
theorem round_robin_assignment (fuel : Nat) (env : RecurringEnv)
    (params : RecurringTaskWorkflowParams) :
    (∀ msg, (RecurringTaskWorkflow fuel env params).outcome ≠ Outcome.panicked msg) ∧
    ∀ (i : Nat) (h : i < (RecurringTaskWorkflow fuel env params).trace.length),
      ((RecurringTaskWorkflow fuel env params).trace[i]).request.Occurrence.OccurrenceID
        = params.TaskID ++ "_" ++ toString (i + 1) ∧
      (params.AutoAssign = true → params.AssignedMembers ≠ [] →
        params.AssignedMembers[i % params.AssignedMembers.length]?
          = some ((RecurringTaskWorkflow fuel env params).trace[i]).request.Occurrence.AssignedTo) ∧
      (¬ (params.AutoAssign = true ∧ params.AssignedMembers ≠ []) →
        ((RecurringTaskWorkflow fuel env params).trace[i]).request.Occurrence.AssignedTo = "") := by
  refine ⟨fun msg => recurringLoop_no_panic params env fuel fuel 0 _ _ msg, ?_⟩
  intro i h
  obtain ⟨a, d, t, ha, he, -, -⟩ := recurringLoop_records params env fuel fuel 0
    params.RecurrenceRule.StartDate env.start i h
  obtain ⟨a2, ha2, hin, hout⟩ := assignee_ok params i
  rw [Nat.zero_add] at ha he
  rw [ha] at ha2
  cases ha2
  have hrec : (RecurringTaskWorkflow fuel env params).trace[i] = iteration params env i d a t := he
  rw [hrec]
  exact ⟨by simp [iteration, mkRequest], hin, hout⟩

/-! ### Claims C8, C9 and C1: end conditions, cancellation, pause -/

/-- C8: in every run no request has a due date after the end date of the rule, a run with
    a positive `MaxOccurrences` issues at most that many requests, the loop returns nil
    without a further request as soon as it is entered with a next due date after the end
    date, and a run never returns an error. -/
theorem end_date_and_max_bound (fuel : Nat) (env : RecurringEnv)
    (params : RecurringTaskWorkflowParams) :
    (∀ e, params.RecurrenceRule.EndDate = some e →
      ∀ x ∈ (RecurringTaskWorkflow fuel env params).trace,
        x.request.Occurrence.DueDate.After e = false) ∧
    (0 < params.RecurrenceRule.MaxOccurrences →
      ((RecurringTaskWorkflow fuel env params).trace.length : Int)
        ≤ params.RecurrenceRule.MaxOccurrences) ∧
    (∀ (e : Time) (inner steps count : Nat) (due : Time) (now : Int),
      params.RecurrenceRule.EndDate = some e → due.After e = true →
      recurringLoop params env inner (steps + 1) count due now = ⟨Outcome.completed, []⟩) ∧
    (∀ msg, (RecurringTaskWorkflow fuel env params).outcome ≠ Outcome.failed msg) := by
  refine ⟨?_, ?_, ?_, fun msg => recurringLoop_no_error params env fuel fuel 0 _ _ msg⟩
  · intro e he x hx
    obtain ⟨i, hi, rfl⟩ := List.getElem_of_mem hx
    obtain ⟨a, d, t, -, hrec, hend, -⟩ := recurringLoop_records params env fuel fuel 0
      params.RecurrenceRule.StartDate env.start i hi
    have hrec2 : (RecurringTaskWorkflow fuel env params).trace[i]
        = iteration params env (0 + i) d a t := hrec
    rw [hrec2]
    simp only [endReached, he] at hend
    simpa [iteration, mkRequest] using hend
  · intro hpos
    by_cases hlen : (RecurringTaskWorkflow fuel env params).trace.length = 0
    · rw [hlen]
      simp only [Nat.cast_zero]
      omega
    · obtain ⟨a, d, t, -, -, -, hmax⟩ := recurringLoop_records params env fuel fuel 0
        params.RecurrenceRule.StartDate env.start
        ((RecurringTaskWorkflow fuel env params).trace.length - 1)
        (by unfold RecurringTaskWorkflow at hlen ⊢; omega)
      unfold maxReached at hmax
      simp only [hpos, decide_True, Bool.true_and, decide_eq_false_iff_not, not_le] at hmax
      push_cast at hmax
      omega
  · intro e inner steps count due now he hafter
    rw [recurringLoop_succ]
    simp [endReached, he, hafter]

/-- A run of C8: daily from 2025-01-01 with end date 2025-01-03 stops after the request
    due on the end date. -/
theorem end_date_run :
    (RecurringTaskWorkflow 10 quietEnv (choresParams endingRule)).outcome
      = Outcome.completed ∧
    dueDates (RecurringTaskWorkflow 10 quietEnv (choresParams endingRule))
      = [midnight 2025 1 1, midnight 2025 1 2, midnight 2025 1 3] := by
  decide

/-- A cancel signal delivered while an iteration waits for its create time does not stop
    the creation: the iteration still invokes `CreateTaskOccurrence`, at the create time
    and so after the signal; the run ends only after that request (provided
    `calculateNextDueDate` returns). -/
theorem cancel_during_create_wait (params : RecurringTaskWorkflowParams)
    (env : RecurringEnv) (inner fuel count : Nat) (due : Time) (now s : Int)
    (hend : endReached params.RecurrenceRule due = false)
    (hmax : maxReached params.RecurrenceRule count = false)
    (hs : s ∈ env.cancelSignals) (hlo : now < s)
    (hhi : s < due.UnixNano - params.DueDuration) :
    ∃ record rest,
      (recurringLoop params env inner (fuel + 1) count due now).trace = record :: rest ∧
      record.time = due.UnixNano - params.DueDuration ∧ s < record.time ∧
      record.request.Occurrence.OccurrenceID
        = params.TaskID ++ "_" ++ toString (count + 1) ∧
      record.request.Occurrence.DueDate = due ∧
      (∀ next, calculateNextDueDate inner params.RecurrenceRule due = some next →
        recurringLoop params env inner (fuel + 1) count due now
          = ⟨Outcome.completed, [record]⟩) := by
  have htime : ∀ a, (iteration params env count due a now).time
      = due.UnixNano - params.DueDuration := by
    intro a
    have : due.UnixNano - params.DueDuration > now := by omega
    simp only [iteration, awaitCreateTime, this, if_true]
    omega
  have hrecv : ∀ a, cancelReceived env.cancelSignals
      (cancelSelect env.cancelSignals (iteration params env count due a now).time) = true := by
    intro a
    have hany : env.cancelSignals.any
        (fun x => decide (x ≤ (iteration params env count due a now).time)) = true := by
      rw [List.any_eq_true]
      exact ⟨s, hs, by rw [htime a]; simp; omega⟩
    simp only [cancelReceived, cancelSelect, hany, if_true]
  rcases recurringLoop_step params env inner fuel count due now with
    ⟨h, -⟩ | ⟨-, -, a, -, ⟨hn, e⟩ | ⟨next, hn, ⟨-, e⟩ | ⟨hc, -⟩⟩⟩
  · rcases h with h | h
    · rw [hend] at h; cases h
    · rw [hmax] at h; cases h
  · refine ⟨iteration params env count due a now, [], by rw [e], htime a,
      by rw [htime a]; exact hhi, rfl, rfl, ?_⟩
    intro next hnext
    rw [hn] at hnext
    cases hnext
  · refine ⟨iteration params env count due a now, [], by rw [e], htime a,
      by rw [htime a]; exact hhi, rfl, rfl, ?_⟩
    intro _ _
    exact e
  · rw [hrecv a] at hc
    cases hc

/-- C9, what the code does: a cancel signal is delivered twelve hours after the start,
    while the run waits on the timer that precedes the creation of the second occurrence
    (from one second to twenty-four hours after the start); the second
    `CreateTaskOccurrence` is still invoked when that timer fires, after the signal, and
    only then the run ends. -/
theorem cancel_during_wait_still_creates :
    cancelAtNoonEnv.cancelSignals = [12 * Hour] ∧
    (RecurringTaskWorkflow 10 cancelAtNoonEnv (choresParams epochRule)).outcome
      = Outcome.completed ∧
    (RecurringTaskWorkflow 10 cancelAtNoonEnv (choresParams epochRule)).trace.map
        (fun x => (x.time, x.request.Occurrence.OccurrenceID))
      = [(0, "task_1"), (24 * Hour, "task_2")] := by
  decide

/-- A selector over a countdown timer and the control channels, entered before a pause
    signal that precedes the expiry of the timer, fires the pause case at the delivery of
    the signal. -/
theorem select_pause_first (start D t P : Int) (trace : List (Int × Event))
    (ht0 : 0 < t) (htD : t < D) (hP : 0 ≤ P) :
    select ⟨start, [⟨start + t, "pause_timer"⟩, ⟨start + t + P, "resume_timer"⟩], [], trace⟩
      [SelCase.future (start + D), SelCase.receive "pause_timer",
        SelCase.receive "resume_timer", SelCase.receive "stop_timer"]
      = some (⟨start + t, [⟨start + t + P, "resume_timer"⟩], ["pause_timer"], trace⟩,
          SelCase.receive "pause_timer") := by
  have h1 : ¬ (start + D ≤ start) := by omega
  have h2 : ¬ (start + t ≤ start) := by omega
  have h3 : ¬ (start + t + P ≤ start) := by omega
  have h4 : start + t ≤ start + t + P := by omega
  have h5 : ¬ (start + D ≤ start + t) := by omega
  simp [select, List.find?, caseReady, h1, h2, h3, earliest, caseTime, h4, h5, fire]

/-- For every countdown of duration D that receives `pause_timer` at t after the start,
    0 < t < D, and `resume_timer` P later, with a `StartTimer` activity that succeeds,
    `TimerWorkflow` completes and invokes `CompleteTimer` exactly once, at the pause, t
    after the start, with elapsed time 0; the resume signal is never received and no paused
    time is recorded. -/
theorem countdown_pause_ends_phase (fuel : Nat) (env : TimerEnv)
    (params : TimerWorkflowParams) (t P : Int)
    (htype : params.Type_ = "countdown") (ht0 : 0 < t) (htD : t < params.Duration)
    (hP : 0 ≤ P)
    (hsig : env.signals
      = [⟨env.start + t, "pause_timer"⟩, ⟨env.start + t + P, "resume_timer"⟩])
    (hstart : env.fails 0 = false) :
    (TimerWorkflow fuel env params).outcome = Outcome.completed ∧
    completeTimerCalls (TimerWorkflow fuel env params).trace
      = [(env.start + t, ⟨params.TimerID, params.UserID, 0, "completed"⟩)] ∧
    (TimerWorkflow fuel env params).state.PausedTime = 0 := by
  unfold TimerWorkflow
  simp only [executeActivity, List.length_nil, hstart, Bool.false_eq_true, if_false, htype,
    if_true, hsig]
  cases hn : params.Settings.NotifyOnStart <;> cases hf : params.Settings.NotifyOnFinish <;>
  · simp only [Bool.false_eq_true, if_false, if_true, runCountdownTimer, newTimer]
    rw [select_pause_first env.start params.Duration t P _ ht0 htD hP]
    simp [completeTimer, executeActivity, onPause, hf, completeTimerCalls, runningState,
      createdState]

/-- C1, what the code does: a five minute countdown paused after two minutes and resumed a
    minute later invokes `CompleteTimer` once, at the pause two minutes after the start,
    with elapsed time 0, and records no paused time. -/
theorem countdown_pause_completes_at_pause :
    (TimerWorkflow 10 pauseResumeEnv countdown5m).outcome = Outcome.completed ∧
    completeTimerCalls (TimerWorkflow 10 pauseResumeEnv countdown5m).trace
      = [(2 * Minute, ⟨"timer-001", "user-001", 0, "completed"⟩)] ∧
    (TimerWorkflow 10 pauseResumeEnv countdown5m).state.PausedTime = 0 := by
  decide

/-! ### Claim C10: the pomodoro schedule -/

/-- C10 (amended): for every pomodoro timer with `Repetitions = n >= 1` and no signals,
    `runPomodoroTimer` (entered as `TimerWorkflow` enters it, with fuel of at least n)
    returns with status completed after making exactly the calls of the schedule: for
    each cycle 1..n a work period, followed, unless the cycle is the last, by a break.
    The schedule holds n work periods, each of the work duration, and n - 1 breaks, the
    one after the c-th work period (c = 1..n-1) lasting the long break if c mod
    the break interval is 0 and the short break otherwise.  Work duration, breaks and
    break interval are the settings, a zero setting standing for its default. -/
theorem pomodoro_schedule (fuel : Nat) (fails : Nat → Bool) (now : Int)
    (trace : List (Int × Event)) (params : TimerWorkflowParams) (n : Nat) (hn : 1 ≤ n)
    (hrep : params.Settings.Repetitions = n) (hfuel : n ≤ fuel) :
    ∃ now1 trace1 state1,
      runPomodoroTimer fuel fails ⟨now, [], [], trace⟩ params (runningState params)
        = ⟨⟨now1, [], [], trace1⟩, state1, none⟩ ∧
      state1.Status = "completed" ∧
      trace1.map Prod.snd = trace.map Prod.snd ++
        (pomodoroPlan (pomodoroConfig params.Settings) n).flatMap
          (periodEvents params (pomodoroConfig params.Settings)) ∧
      ((pomodoroPlan (pomodoroConfig params.Settings) n).filter (fun p => !p.isBreak)).map
          (fun p => p.duration)
        = List.replicate n (pomodoroConfig params.Settings).workDuration ∧
      (pomodoroPlan (pomodoroConfig params.Settings) n).filter (fun p => p.isBreak)
        = (List.range' 1 (n - 1)).map (fun c =>
            (⟨true, c, if (c : Int) % (pomodoroConfig params.Settings).breakInterval = 0
                then (pomodoroConfig params.Settings).longBreak
                else (pomodoroConfig params.Settings).shortBreak⟩ : Period)) ∧
      (pomodoroConfig params.Settings).workDuration
        = (if params.Settings.WorkDuration = 0 then 25 * Minute
           else params.Settings.WorkDuration) ∧
      (pomodoroConfig params.Settings).shortBreak
        = (if params.Settings.ShortBreak = 0 then 5 * Minute
           else params.Settings.ShortBreak) ∧
      (pomodoroConfig params.Settings).longBreak
        = (if params.Settings.LongBreak = 0 then 15 * Minute
           else params.Settings.LongBreak) ∧
      (pomodoroConfig params.Settings).breakInterval
        = (if params.Settings.BreakInterval = 0 then 4
           else params.Settings.BreakInterval) := by
  have hmaxc : (pomodoroConfig params.Settings).maxCycles = n := by
    have hne : params.Settings.Repetitions ≠ 0 := by rw [hrep]; exact_mod_cast (by omega : n ≠ 0)
    simp only [pomodoroConfig, hne, if_false]
    exact hrep
  obtain ⟨now1, trace1, state1, hrun, hst, htr⟩ :=
    pomodoroLoop_quiet fails params (pomodoroConfig params.Settings) n hmaxc n fuel 1 now trace
      (runningState params) (by simp [runningState]) rfl rfl (by omega) hfuel
  refine ⟨now1, trace1, state1, hrun, hst, htr, ?_, ?_, rfl, rfl, rfl, rfl⟩
  · unfold pomodoroPlan
    rw [plan_work_periods, List.map_map]
    apply List.eq_replicate_iff.2
    refine ⟨by simp, ?_⟩
    intro d hd
    simp only [List.mem_map, Function.comp] at hd
    obtain ⟨c, -, rfl⟩ := hd
    rfl
  · unfold pomodoroPlan
    rw [plan_break_periods, range'_filter_lt n hn]
    rfl

/-- Witness of C10: four repetitions with a long break every four cycles. -/
theorem pomodoro_schedule_witness :
    1 ≤ 4 ∧ pomodoro4.Settings.Repetitions = (4 : Nat) ∧ 4 ≤ 4 ∧
    ∃ now1 trace1 state1,
      runPomodoroTimer 4 (fun _ => false) ⟨0, [], [], []⟩ pomodoro4 (runningState pomodoro4)
        = ⟨⟨now1, [], [], trace1⟩, state1, none⟩ ∧
      state1.Status = "completed" ∧
      trace1.map Prod.snd = ([] : List (Int × Event)).map Prod.snd ++
        (pomodoroPlan (pomodoroConfig pomodoro4.Settings) 4).flatMap
          (periodEvents pomodoro4 (pomodoroConfig pomodoro4.Settings)) ∧
      ((pomodoroPlan (pomodoroConfig pomodoro4.Settings) 4).filter
          (fun p => !p.isBreak)).map (fun p => p.duration)
        = List.replicate 4 (pomodoroConfig pomodoro4.Settings).workDuration ∧
      (pomodoroPlan (pomodoroConfig pomodoro4.Settings) 4).filter (fun p => p.isBreak)
        = (List.range' 1 (4 - 1)).map (fun c =>
            (⟨true, c, if (c : Int) % (pomodoroConfig pomodoro4.Settings).breakInterval = 0
                then (pomodoroConfig pomodoro4.Settings).longBreak
                else (pomodoroConfig pomodoro4.Settings).shortBreak⟩ : Period)) ∧
      (pomodoroConfig pomodoro4.Settings).workDuration
        = (if pomodoro4.Settings.WorkDuration = 0 then 25 * Minute
           else pomodoro4.Settings.WorkDuration) ∧
      (pomodoroConfig pomodoro4.Settings).shortBreak
        = (if pomodoro4.Settings.ShortBreak = 0 then 5 * Minute
           else pomodoro4.Settings.ShortBreak) ∧
      (pomodoroConfig pomodoro4.Settings).longBreak
        = (if pomodoro4.Settings.LongBreak = 0 then 15 * Minute
           else pomodoro4.Settings.LongBreak) ∧
      (pomodoroConfig pomodoro4.Settings).breakInterval
        = (if pomodoro4.Settings.BreakInterval = 0 then 4
           else pomodoro4.Settings.BreakInterval) :=
  ⟨by decide, by decide, by decide,
    pomodoro_schedule 4 (fun _ => false) 0 [] pomodoro4 4 (by decide) (by decide) (by decide)⟩

/-- With four repetitions and a long break every four cycles the schedule is work, short
    break, work, short break, work, short break, work: three breaks, all short, and none
    after the fourth cycle. -/
theorem pomodoro4_plan :
    pomodoroPlan (pomodoroConfig pomodoro4.Settings) 4
      = [⟨false, 1, 25 * Minute⟩, ⟨true, 1, 5 * Minute⟩, ⟨false, 2, 25 * Minute⟩,
         ⟨true, 2, 5 * Minute⟩, ⟨false, 3, 25 * Minute⟩, ⟨true, 3, 5 * Minute⟩,
         ⟨false, 4, 25 * Minute⟩] := by
  decide

/-- The pomodoro run of four repetitions issues four work timers and three short break
    timers, in this order. -/
theorem pomodoro4_run :
    timersOf (runPomodoroTimer 4 (fun _ => false) quietWorld pomodoro4
        (runningState pomodoro4)).world.trace
      = [(0, 25 * Minute), (25 * Minute, 5 * Minute), (30 * Minute, 25 * Minute),
         (55 * Minute, 5 * Minute), (60 * Minute, 25 * Minute), (85 * Minute, 5 * Minute),
         (90 * Minute, 25 * Minute)] := by
  decide

/-- Counterexample to C10 as stated: with `Repetitions = 5` and `WorkDuration`,
    `ShortBreak`, `LongBreak` and `BreakInterval` all 0, the work periods last 25 minutes,
    the breaks after the first three cycles 5 minutes and the break after the fourth 15
    minutes; no period has the zero duration of the settings. -/
theorem pomodoro_zero_settings_counterexample :
    pomodoroZero.Settings.Repetitions = 5 ∧ pomodoroZero.Settings.WorkDuration = 0 ∧
    pomodoroZero.Settings.ShortBreak = 0 ∧ pomodoroZero.Settings.LongBreak = 0 ∧
    pomodoroZero.Settings.BreakInterval = 0 ∧
    (timersOf (runPomodoroTimer 5 (fun _ => false) quietWorld pomodoroZero
        (runningState pomodoroZero)).world.trace).map Prod.snd
      = [25 * Minute, 5 * Minute, 25 * Minute, 5 * Minute, 25 * Minute, 5 * Minute,
         25 * Minute, 15 * Minute, 25 * Minute] ∧
    pomodoroZero.Settings.WorkDuration ∉
      (timersOf (runPomodoroTimer 5 (fun _ => false) quietWorld pomodoroZero
        (runningState pomodoroZero)).world.trace).map Prod.snd := by
  decide

/-! ### Claim C11: the stopwatch -/

theorem stopwatchLoop_succ (startTime : Int) (fuel : Nat) (w : World) (state : TimerState) :
    stopwatchLoop startTime (fuel + 1) w state =
      if state.Status ≠ "stopped" then
        match select w [SelCase.receive "stop_timer", SelCase.receive "pause_timer",
            SelCase.receive "resume_timer"] with
        | none => ⟨w, state, some Outcome.blocked⟩
        | some (w1, SelCase.future _) => stopwatchLoop startTime fuel w1 state
        | some (w1, SelCase.receive n) =>
          if n = "stop_timer" then
            stopwatchLoop startTime fuel w1
              { state with Status := "stopped",
                           ElapsedTime := (w1.now - startTime) - state.PausedTime }
          else if n = "pause_timer" then
            stopwatchLoop startTime fuel w1
              (if state.Status = "running" then onPause w1 state else state)
          else stopwatchLoop startTime fuel w1 (onResume w1 state)
      else ⟨w, state, none⟩ := rfl

/-- Once the stopwatch is paused and the pause channel holds its value, the pause case
    fires on every `Select`: nothing else is handled and the loop does not return. -/
theorem stopwatch_pause_spins (startTime : Int) (fuel : Nat) (w : World) (state : TimerState)
    (hs : state.Status = "paused") (hheld : w.held.contains "pause_timer" = true)
    (hstop : caseReady w (SelCase.receive "stop_timer") = false) :
    stopwatchLoop startTime fuel w state = ⟨w, state, some Outcome.outOfFuel⟩ := by
  induction fuel with
  | zero => simp [stopwatchLoop, hs]
  | succ k ih =>
    have hp : caseReady w (SelCase.receive "pause_timer") = true := by
      simp only [caseReady, hheld, Bool.true_or]
    have hsel : select w [SelCase.receive "stop_timer", SelCase.receive "pause_timer",
        SelCase.receive "resume_timer"] = some (w, SelCase.receive "pause_timer") := by
      simp only [select, List.find?, hstop, hp, fire, hheld, if_true]
    rw [stopwatchLoop_succ, hsel]
    simp [hs, ih]

/-- Claim C11 (failing input): a stopwatch that receives a pause after one minute, a resume
    after two and a stop after three.  The pause callback does not receive the value from
    its channel, so the pause case, registered before the resume case, fires again on
    every later `Select`: with any fuel `runStopwatchTimer` has not returned, and the
    resume and the stop signal are still waiting. -/
theorem stopwatch_pause_never_returns :
    ∀ fuel : Nat,
      (runStopwatchTimer fuel pauseResumeStopWorld (runningState stopwatch1)).stopped
          = some Outcome.outOfFuel
      ∧ (fuel ≠ 0 →
          (runStopwatchTimer fuel pauseResumeStopWorld (runningState stopwatch1)).world.inbox
            = [⟨2 * Minute, "resume_timer"⟩, ⟨3 * Minute, "stop_timer"⟩]) := by
  intro fuel
  cases fuel with
  | zero => exact ⟨by decide, fun h => absurd rfl h⟩
  | succ k =>
    have hsel : select pauseResumeStopWorld [SelCase.receive "stop_timer",
        SelCase.receive "pause_timer", SelCase.receive "resume_timer"]
        = some (⟨1 * Minute, [⟨2 * Minute, "resume_timer"⟩, ⟨3 * Minute, "stop_timer"⟩],
            ["pause_timer"], []⟩, SelCase.receive "pause_timer") := by decide
    have h := stopwatch_pause_spins 0 k
      ⟨1 * Minute, [⟨2 * Minute, "resume_timer"⟩, ⟨3 * Minute, "stop_timer"⟩],
        ["pause_timer"], []⟩
      (onPause ⟨1 * Minute, [⟨2 * Minute, "resume_timer"⟩, ⟨3 * Minute, "stop_timer"⟩],
        ["pause_timer"], []⟩ (runningState stopwatch1)) rfl (by decide) (by decide)
    have hrun : runStopwatchTimer (k + 1) pauseResumeStopWorld (runningState stopwatch1)
        = ⟨⟨1 * Minute, [⟨2 * Minute, "resume_timer"⟩, ⟨3 * Minute, "stop_timer"⟩],
            ["pause_timer"], []⟩,
           onPause ⟨1 * Minute, [⟨2 * Minute, "resume_timer"⟩, ⟨3 * Minute, "stop_timer"⟩],
            ["pause_timer"], []⟩ (runningState stopwatch1), some Outcome.outOfFuel⟩ := by
      unfold runStopwatchTimer
      rw [show pauseResumeStopWorld.now = 0 from rfl, stopwatchLoop_succ, hsel]
      simp only [runningState, createdState, ne_eq, String.reduceEq, not_false_eq_true,
        if_true, if_false]
      exact h
    rw [hrun]
    exact ⟨rfl, fun _ => rfl⟩

/-- A stopwatch that only receives a stop returns at the stop, and its elapsed time is the
    time from its start to the stop minus the paused time it was entered with. -/
theorem stopwatch_stop_only (fuel : Nat) (now t : Int) (trace : List (Int × Event))
    (state : TimerState) (hs : state.Status ≠ "stopped") :
    runStopwatchTimer (fuel + 1) ⟨now, [⟨t, "stop_timer"⟩], [], trace⟩ state
      = ⟨⟨max now t, [], ["stop_timer"], trace⟩,
          { state with Status := "stopped", ElapsedTime := (max now t - now) - state.PausedTime },
          none⟩ := by
  have hsel : select ⟨now, [⟨t, "stop_timer"⟩], [], trace⟩ [SelCase.receive "stop_timer",
      SelCase.receive "pause_timer", SelCase.receive "resume_timer"]
      = some (⟨max now t, [], ["stop_timer"], trace⟩, SelCase.receive "stop_timer") := by
    unfold select
    by_cases h : t ≤ now
    · simp [List.find?, caseReady, h, fire, max_eq_left h]
    · have h2 : now ≤ t := by omega
      simp [List.find?, caseReady, h, earliest, caseTime, fire, max_eq_right h2]
  unfold runStopwatchTimer
  rw [stopwatchLoop_succ, hsel]
  simp only [hs, ne_eq, not_false_eq_true, if_true]
  cases fuel <;> simp [stopwatchLoop]

/-! ### Claim C12: the end of `TimerWorkflow` -/

/-- A `Select` leaves the record of calls as it is. -/
theorem select_trace (w w1 : World) (cases : List SelCase) (c : SelCase)
    (h : select w cases = some (w1, c)) : w1.trace = w.trace := by
  have hfire : ∀ (v : World) (d : SelCase), (fire v d).trace = v.trace := by
    intro v d
    cases d with
    | future t => rfl
    | receive n =>
      simp only [fire]
      split
      · rfl
      · split <;> rfl
  unfold select at h
  split at h
  · cases h; exact hfire _ _
  · split at h
    · cases h; exact hfire _ _
    · cases h

/-- A selector with a timer case never blocks for ever. -/
theorem select_with_future (w : World) (t : Int) (cs : List SelCase) :
    ∃ w1 c, select w (SelCase.future t :: cs) = some (w1, c) := by
  unfold select
  split
  · exact ⟨_, _, rfl⟩
  · have he : ∃ r, earliest w (SelCase.future t :: cs) = some r := by
      simp only [earliest, caseTime]
      split
      · simp at *
      · exact ⟨_, rfl⟩
      · split <;> exact ⟨_, rfl⟩
    obtain ⟨r, hr⟩ := he
    rw [hr]
    exact ⟨_, _, rfl⟩

/-- The countdown phase always ends: its selector has a timer case. -/
theorem runCountdownTimer_returns (params : TimerWorkflowParams) (w : World)
    (state : TimerState) : (runCountdownTimer w params state).stopped = none := by
  obtain ⟨w1, c, hsel⟩ := select_with_future (newTimer w params.Duration).1
    (w.now + params.Duration)
    [SelCase.receive "pause_timer", SelCase.receive "resume_timer", SelCase.receive "stop_timer"]
  unfold runCountdownTimer
  simp only [newTimer] at hsel ⊢
  rw [hsel]
  cases c with
  | future t => rfl
  | receive n =>
    simp only
    split
    · rfl
    · split <;> rfl

/-- A countdown whose `StartTimer` succeeds completes, whatever signals it receives. -/
theorem countdown_completes (fuel : Nat) (env : TimerEnv) (params : TimerWorkflowParams)
    (htype : params.Type_ = "countdown") (hok : env.fails 0 = false) :
    (TimerWorkflow fuel env params).outcome = Outcome.completed := by
  simp only [TimerWorkflow, executeActivity, hok, htype, List.length_nil, if_true,
    Bool.false_eq_true, if_false, completeTimer, runCountdownTimer_returns]

theorem noCompletion_newTimer (params : TimerWorkflowParams) (w : World) (d : Duration)
    (h : NoCompletion params w.trace) : NoCompletion params (newTimer w d).1.trace := by
  refine ⟨?_, ?_⟩
  · simp [newTimer, completeTimerCalls, List.filterMap_append] 
    simpa [completeTimerCalls] using h.1
  · intro e he
    simp only [newTimer, List.mem_append, List.mem_singleton] at he
    rcases he with he | he
    · exact h.2 e he
    · subst he; simp

theorem noCompletion_period (params : TimerWorkflowParams) (fails : Nat → Bool) (w : World)
    (cycle : Int) (isBreak : Bool) (message : String) (h : NoCompletion params w.trace) :
    NoCompletion params (executeActivity fails w (Activity.sendNotification
      (periodNotification params cycle isBreak message))).1.trace := by
  refine ⟨?_, ?_⟩
  · simp [executeActivity, completeTimerCalls, List.filterMap_append]
    simpa [completeTimerCalls] using h.1
  · intro e he
    simp only [executeActivity, List.mem_append, List.mem_singleton] at he
    rcases he with he | he
    · exact h.2 e he
    · subst he
      simp [periodNotification, finishNotification]

theorem runCountdownTimer_noCompletion (params : TimerWorkflowParams) (w : World)
    (state : TimerState) (h : NoCompletion params w.trace) :
    NoCompletion params (runCountdownTimer w params state).world.trace := by
  have h1 := noCompletion_newTimer params w params.Duration h
  unfold runCountdownTimer
  simp only
  split
  · exact h1
  · rename_i w1 t hsel
    rw [select_trace _ _ _ _ hsel]; exact h1
  · rename_i w1 n hsel
    have := select_trace _ _ _ _ hsel
    split
    · simpa [this] using h1
    · split <;> simpa [this] using h1

theorem runTimerPeriod_noCompletion (fails : Nat → Bool) (params : TimerWorkflowParams)
    (w : World) (state : TimerState) (d : Duration) (message : String)
    (h : NoCompletion params w.trace) :
    NoCompletion params (runTimerPeriod fails w params state d message).world.trace := by
  have h1 := noCompletion_newTimer params w d h
  unfold runTimerPeriod
  simp only
  split
  · exact h1
  · rename_i w1 c hsel
    have ht := select_trace _ _ _ _ hsel
    rw [← ht] at h1
    split
    · exact noCompletion_period params fails w1 _ _ _ h1
    · exact h1

theorem pomodoroCycle_noCompletion (fails : Nat → Bool) (params : TimerWorkflowParams)
    (cfg : PomodoroConfig) (w : World) (state : TimerState)
    (h : NoCompletion params w.trace) :
    NoCompletion params (pomodoroCycle fails params cfg w state).1.world.trace := by
  have hw := runTimerPeriod_noCompletion fails params w { state with IsBreak := false }
    cfg.workDuration "Work time!" h
  have hpick : ∀ (c : Prop) [Decidable c] (p : Phase),
      (if c then (p, true) else (p, false)).1 = p := by
    intro c _ p; split <;> rfl
  unfold pomodoroCycle
  simp only
  split
  · exact hw
  · split
    · rw [hpick]
      exact runTimerPeriod_noCompletion fails params _ _ _ _ hw
    · exact hw

theorem pomodoroLoop_noCompletion (fails : Nat → Bool) (params : TimerWorkflowParams)
    (cfg : PomodoroConfig) (fuel : Nat) (w : World) (state : TimerState)
    (h : NoCompletion params w.trace) :
    NoCompletion params (pomodoroLoop fails params cfg fuel w state).world.trace := by
  induction fuel generalizing w state with
  | zero =>
    unfold pomodoroLoop
    split <;> exact h
  | succ k ih =>
    rw [pomodoroLoop_succ]
    simp only
    split
    · split
      · exact pomodoroCycle_noCompletion fails params cfg w state h
      · exact ih _ _ (pomodoroCycle_noCompletion fails params cfg w state h)
    · exact h

theorem stopwatchLoop_noCompletion (params : TimerWorkflowParams) (startTime : Int)
    (fuel : Nat) (w : World) (state : TimerState) (h : NoCompletion params w.trace) :
    NoCompletion params (stopwatchLoop startTime fuel w state).world.trace := by
  induction fuel generalizing w state with
  | zero =>
    unfold stopwatchLoop
    split <;> exact h
  | succ k ih =>
    rw [stopwatchLoop_succ]
    split
    · split
      · exact h
      · rename_i w1 t hsel
        exact ih _ _ (by rw [select_trace _ _ _ _ hsel]; exact h)
      · rename_i w1 n hsel
        have h1 : NoCompletion params w1.trace := by
          rw [select_trace _ _ _ _ hsel]; exact h
        split
        · exact ih _ _ h1
        · split <;> exact ih _ _ h1
    · exact h

theorem runCountdownTimer_stopped (params : TimerWorkflowParams) (w : World)
    (state : TimerState) : (runCountdownTimer w params state).stopped ≠ some Outcome.completed := by
  unfold runCountdownTimer
  simp only
  split
  · simp
  · simp
  · split
    · simp
    · split <;> simp

theorem runTimerPeriod_stopped (fails : Nat → Bool) (params : TimerWorkflowParams)
    (w : World) (state : TimerState) (d : Duration) (message : String) :
    (runTimerPeriod fails w params state d message).stopped ≠ some Outcome.completed := by
  unfold runTimerPeriod
  simp only
  split
  · simp
  · split <;> simp

theorem pomodoroCycle_stopped (fails : Nat → Bool) (params : TimerWorkflowParams)
    (cfg : PomodoroConfig) (w : World) (state : TimerState) :
    (pomodoroCycle fails params cfg w state).1.stopped ≠ some Outcome.completed := by
  have hpick : ∀ (c : Prop) [Decidable c] (p : Phase),
      (if c then (p, true) else (p, false)).1 = p := by
    intro c _ p; split <;> rfl
  unfold pomodoroCycle
  simp only
  split
  · exact runTimerPeriod_stopped _ _ _ _ _ _
  · split
    · rw [hpick]
      exact runTimerPeriod_stopped _ _ _ _ _ _
    · simp

theorem pomodoroLoop_stopped (fails : Nat → Bool) (params : TimerWorkflowParams)
    (cfg : PomodoroConfig) (fuel : Nat) (w : World) (state : TimerState) :
    (pomodoroLoop fails params cfg fuel w state).stopped ≠ some Outcome.completed := by
  induction fuel generalizing w state with
  | zero =>
    unfold pomodoroLoop
    split <;> simp
  | succ k ih =>
    rw [pomodoroLoop_succ]
    simp only
    split
    · split
      · exact pomodoroCycle_stopped fails params cfg w state
      · exact ih _ _
    · simp

theorem stopwatchLoop_stopped (startTime : Int) (fuel : Nat) (w : World)
    (state : TimerState) :
    (stopwatchLoop startTime fuel w state).stopped ≠ some Outcome.completed := by
  induction fuel generalizing w state with
  | zero =>
    unfold stopwatchLoop
    split <;> simp
  | succ k ih =>
    rw [stopwatchLoop_succ]
    split
    · split
      · simp
      · exact ih _ _
      · split
        · exact ih _ _
        · split <;> exact ih _ _
    · simp

/-- The tail of `TimerWorkflow` after a phase that made no completion call. -/
theorem completeTimer_shape (fails : Nat → Bool) (params : TimerWorkflowParams) (ph : Phase)
    (hgood : NoCompletion params ph.world.trace)
    (hne : ph.stopped ≠ some Outcome.completed)
    (h : (completeTimer fails params ph).outcome = Outcome.completed) :
    ∃ pre t req,
      (completeTimer fails params ph).trace =
        pre ++ (t, Event.activity (Activity.completeTimer req)) ::
          (if params.Settings.NotifyOnFinish then
            [(t, Event.activity (Activity.sendNotification (finishNotification params)))]
           else [])
      ∧ completeTimerCalls pre = []
      ∧ ∀ e ∈ pre,
          e.2 ≠ Event.activity (Activity.sendNotification (finishNotification params)) := by
  unfold completeTimer at h ⊢
  cases hs : ph.stopped with
  | some o =>
    rw [hs] at h hne
    simp only at h
    exact absurd (by rw [h]) hne
  | none =>
    refine ⟨ph.world.trace, ph.world.now,
      { TimerID := params.TimerID, UserID := params.UserID,
        ElapsedTime := ph.state.ElapsedTime, Status := "completed" }, ?_, hgood.1, hgood.2⟩
    cases hf : params.Settings.NotifyOnFinish <;> simp [executeActivity]

/-- Claim C12: when a run of `TimerWorkflow` gets past its type-specific phase (it completes),
    its record of calls ends with one `CompleteTimer` invocation followed by the "Timer
    Completed" notification exactly when `NotifyOnFinish` is set; before that invocation
    there is no `CompleteTimer` and no "Timer Completed" notification. -/
theorem complete_timer_then_finish_notification (fuel : Nat) (env : TimerEnv)
    (params : TimerWorkflowParams)
    (h : (TimerWorkflow fuel env params).outcome = Outcome.completed) :
    ∃ pre t req,
      (TimerWorkflow fuel env params).trace =
        pre ++ (t, Event.activity (Activity.completeTimer req)) ::
          (if params.Settings.NotifyOnFinish then
            [(t, Event.activity (Activity.sendNotification (finishNotification params)))]
           else [])
      ∧ completeTimerCalls pre = []
      ∧ ∀ e ∈ pre,
          e.2 ≠ Event.activity (Activity.sendNotification (finishNotification params)) := by
  have hfin : ∀ (p : Prop) [Decidable p], NoCompletion params
      (if p then
        ({ now := env.start, inbox := env.signals, held := [],
           trace := [(env.start, Event.activity (Activity.startTimer
              { TimerID := params.TimerID, UserID := params.UserID, Name := params.Name })),
             (env.start, Event.activity
                (Activity.sendNotification (startNotification params)))] } : World)
       else
        { now := env.start, inbox := env.signals, held := [],
          trace := [(env.start, Event.activity (Activity.startTimer
              { TimerID := params.TimerID, UserID := params.UserID,
                Name := params.Name }))] }).trace := by
    intro p _
    split <;>
      simp [NoCompletion, completeTimerCalls, startNotification, finishNotification]
  by_cases hst : env.fails 0 = true
  · simp [TimerWorkflow, executeActivity, hst] at h
  · by_cases hc : params.Type_ = "countdown"
    · simp only [TimerWorkflow, executeActivity, hst, hc, List.length_nil, if_true, if_false,
        List.nil_append, List.singleton_append] at h ⊢
      exact completeTimer_shape _ _ _ (runCountdownTimer_noCompletion _ _ _ (hfin _))
        (runCountdownTimer_stopped _ _ _) h
    · by_cases hp : params.Type_ = "pomodoro"
      · simp only [TimerWorkflow, executeActivity, hst, hc, hp, List.length_nil, if_true,
          if_false, List.nil_append, List.singleton_append] at h ⊢
        exact completeTimer_shape _ _ _ (pomodoroLoop_noCompletion _ _ _ _ _ _ (hfin _))
          (pomodoroLoop_stopped _ _ _ _ _ _) h
      · by_cases hs : params.Type_ = "stopwatch"
        · simp only [TimerWorkflow, executeActivity, hst, hc, hp, hs, List.length_nil, if_true,
            if_false, List.nil_append, List.singleton_append] at h ⊢
          exact completeTimer_shape _ _ _ (stopwatchLoop_noCompletion _ _ _ _ _ (hfin _))
            (stopwatchLoop_stopped _ _ _ _) h
        · simp [TimerWorkflow, executeActivity, hst, hc, hp, hs] at h

theorem complete_timer_then_finish_notification_witness :
    (TimerWorkflow 0 pauseResumeEnv countdownNotify).outcome = Outcome.completed
    ∧ ∃ pre t req,
      (TimerWorkflow 0 pauseResumeEnv countdownNotify).trace =
        pre ++ (t, Event.activity (Activity.completeTimer req)) ::
          (if countdownNotify.Settings.NotifyOnFinish then
            [(t, Event.activity (Activity.sendNotification
              (finishNotification countdownNotify)))]
           else [])
      ∧ completeTimerCalls pre = []
      ∧ ∀ e ∈ pre, e.2 ≠ Event.activity
          (Activity.sendNotification (finishNotification countdownNotify)) :=
  ⟨by decide,
    complete_timer_then_finish_notification 0 pauseResumeEnv countdownNotify (by decide)⟩

/-! ### Claim C13: the countdown without signals -/

/-- Claim C13: a countdown without signals whose activities succeed invokes `StartTimer`,
    the "Timer Started" notification when `NotifyOnStart` is set, `CompleteTimer` with the
    configured duration as elapsed time and status `completed` once the timer has fired,
    and the "Timer Completed" notification when `NotifyOnFinish` is set, and completes. -/
theorem countdown_quiet_run (fuel : Nat) (env : TimerEnv) (params : TimerWorkflowParams)
    (htype : params.Type_ = "countdown") (hsig : env.signals = [])
    (hok : ∀ i, env.fails i = false) :
    (TimerWorkflow fuel env params).outcome = Outcome.completed
    ∧ activitiesOf (TimerWorkflow fuel env params).trace =
        [(env.start, Activity.startTimer
            { TimerID := params.TimerID, UserID := params.UserID, Name := params.Name })]
        ++ (if params.Settings.NotifyOnStart then
              [(env.start, Activity.sendNotification (startNotification params))] else [])
        ++ [(max env.start (env.start + params.Duration), Activity.completeTimer
              { TimerID := params.TimerID, UserID := params.UserID,
                ElapsedTime := params.Duration, Status := "completed" })]
        ++ (if params.Settings.NotifyOnFinish then
              [(max env.start (env.start + params.Duration),
                Activity.sendNotification (finishNotification params))] else [])
    ∧ timersOf (TimerWorkflow fuel env params).trace = [(env.start, params.Duration)] := by
  unfold TimerWorkflow
  simp only [hsig, htype, executeActivity, hok, if_true, Bool.false_eq_true, if_false]
  cases hn : params.Settings.NotifyOnStart <;> cases hf : params.Settings.NotifyOnFinish <;>
    simp only [Bool.false_eq_true, if_false, if_true, runCountdownTimer, newTimer,
      List.nil_append, List.length_nil, select_quiet, completeTimer, executeActivity, hf] <;>
    simp [activitiesOf, timersOf]

theorem countdown_quiet_run_witness :
    countdownNotify.Type_ = "countdown" ∧ quietTimerEnv.signals = []
    ∧ (TimerWorkflow 0 quietTimerEnv countdownNotify).outcome = Outcome.completed
    ∧ activitiesOf (TimerWorkflow 0 quietTimerEnv countdownNotify).trace =
        [(0, Activity.startTimer ⟨"timer-005", "user-001", "Tea"⟩),
         (0, Activity.sendNotification (startNotification countdownNotify)),
         (5 * Minute, Activity.completeTimer ⟨"timer-005", "user-001", 5 * Minute, "completed"⟩),
         (5 * Minute, Activity.sendNotification (finishNotification countdownNotify))] :=
  ⟨rfl, rfl, (countdown_quiet_run 0 quietTimerEnv countdownNotify rfl rfl (fun _ => rfl)).1,
    (countdown_quiet_run 0 quietTimerEnv countdownNotify rfl rfl (fun _ => rfl)).2.1.trans
      (by decide)⟩

/-! ### Claims C14 and C15: the task reminders -/

theorem receiveAsync_trace (w : World) (n : String) :
    (receiveAsync w n).1.trace = w.trace := by
  unfold receiveAsync
  split
  · rfl
  · split <;> rfl

theorem silent_any (w : World) (n : String) (h : Silent w n) (now : Int) :
    w.inbox.any (fun s => s.name == n && decide (s.time ≤ now)) = false := by
  rw [List.any_eq_false]
  intro s hs
  have := h.2 s hs
  simp [this]

theorem silent_find (w : World) (n : String) (h : Silent w n) :
    w.inbox.find? (fun s => s.name == n) = none := by
  rw [List.find?_eq_none]
  intro s hs
  have := h.2 s hs
  simp [this]

/-- A selector over a timer and a channel without signals fires the timer. -/
theorem select_silent (w : World) (t : Int) (n : String) (h : Silent w n) :
    select w [SelCase.future t, SelCase.receive n]
      = some ({ w with now := max w.now t }, SelCase.future t) := by
  unfold select
  by_cases ht : t ≤ w.now
  · simp [List.find?, caseReady, ht, fire, max_eq_left ht]
  · have h2 : w.now ≤ t := by omega
    simp [List.find?, caseReady, ht, h.1, silent_any w n h, earliest, caseTime,
      silent_find w n h, fire, max_eq_right h2]

theorem receiveAsync_silent (w : World) (n : String) (h : Silent w n) :
    receiveAsync w n = (w, false) := by
  unfold receiveAsync
  have hf : w.inbox.find? (fun s => s.name == n && decide (s.time ≤ w.now)) = none := by
    rw [List.find?_eq_none]
    intro s hs
    have := h.2 s hs
    simp [this]
  simp [h.1, hf]

theorem reminderLoop_succ (env : ReminderEnv) (params : TaskReminderWorkflowParams)
    (fuel reminderCount : Nat) (w : World) :
    reminderLoop env params (fuel + 1) reminderCount w =
      if (reminderCount : Int) < params.ReminderSettings.MaxReminders then
        if env.checks reminderCount = some true then
          ⟨Outcome.completed, (executeActivity env.fails w
            (Activity.checkTaskCompletion { OccurrenceID := params.OccurrenceID })).1.trace⟩
        else
          if ((reminderCount + 1 : Nat) : Int) < params.ReminderSettings.MaxReminders then
            match select (newTimer (executeActivity env.fails (executeActivity env.fails w
                (Activity.checkTaskCompletion { OccurrenceID := params.OccurrenceID })).1
                (Activity.sendNotification (reminderNotification params reminderCount))).1
                params.ReminderSettings.ReminderInterval).1
              [(newTimer (executeActivity env.fails (executeActivity env.fails w
                (Activity.checkTaskCompletion { OccurrenceID := params.OccurrenceID })).1
                (Activity.sendNotification (reminderNotification params reminderCount))).1
                params.ReminderSettings.ReminderInterval).2, SelCase.receive "task_completed"] with
            | none => ⟨Outcome.blocked, (newTimer (executeActivity env.fails
                (executeActivity env.fails w
                (Activity.checkTaskCompletion { OccurrenceID := params.OccurrenceID })).1
                (Activity.sendNotification (reminderNotification params reminderCount))).1
                params.ReminderSettings.ReminderInterval).1.trace⟩
            | some (w3, _) =>
              if (receiveAsync w3 "task_completed").2 then
                ⟨Outcome.completed, (receiveAsync w3 "task_completed").1.trace⟩
              else reminderLoop env params fuel (reminderCount + 1)
                (receiveAsync w3 "task_completed").1
          else reminderLoop env params fuel (reminderCount + 1)
            (executeActivity env.fails (executeActivity env.fails w
                (Activity.checkTaskCompletion { OccurrenceID := params.OccurrenceID })).1
                (Activity.sendNotification (reminderNotification params reminderCount))).1
      else ⟨Outcome.completed, w.trace⟩ := rfl

theorem notificationsOf_append (a b : List (Int × Event)) :
    notificationsOf (a ++ b) = notificationsOf a ++ notificationsOf b := by
  simp [notificationsOf, List.filterMap_append]

theorem checksOf_append (a b : List (Int × Event)) :
    checksOf (a ++ b) = checksOf a ++ checksOf b := by
  simp [checksOf, List.filterMap_append]

/-- One iteration of the reminder loop that is not ended by its check, while no
    `task_completed` signal is there: a check, a notification, and the wait when another
    iteration follows. -/
theorem reminderLoop_step_silent (env : ReminderEnv) (params : TaskReminderWorkflowParams)
    (fuel c : Nat) (w : World) (hs : Silent w "task_completed")
    (hlt : (c : Int) < params.ReminderSettings.MaxReminders)
    (hnc : env.checks c ≠ some true) :
    ∃ w1 : World, Silent w1 "task_completed"
      ∧ notificationsOf w1.trace
          = notificationsOf w.trace ++ [(w.now, reminderNotification params c)]
      ∧ checksOf w1.trace = checksOf w.trace ++ [(w.now, ⟨params.OccurrenceID⟩)]
      ∧ reminderLoop env params (fuel + 1) c w = reminderLoop env params fuel (c + 1) w1 := by
  rw [reminderLoop_succ]
  simp only [hlt, hnc, if_true, if_false]
  by_cases hnext : ((c + 1 : Nat) : Int) < params.ReminderSettings.MaxReminders
  · simp only [hnext, if_true]
    have hs2 : Silent (newTimer (executeActivity env.fails (executeActivity env.fails w
        (Activity.checkTaskCompletion { OccurrenceID := params.OccurrenceID })).1
        (Activity.sendNotification (reminderNotification params c))).1
        params.ReminderSettings.ReminderInterval).1 "task_completed" := hs
    simp only [newTimer] at hs2 ⊢
    rw [select_silent _ _ _ hs2]
    have hs3 : Silent { (⟨(executeActivity env.fails (executeActivity env.fails w
        (Activity.checkTaskCompletion { OccurrenceID := params.OccurrenceID })).1
        (Activity.sendNotification (reminderNotification params c))).1.now,
        (executeActivity env.fails (executeActivity env.fails w
        (Activity.checkTaskCompletion { OccurrenceID := params.OccurrenceID })).1
        (Activity.sendNotification (reminderNotification params c))).1.inbox,
        (executeActivity env.fails (executeActivity env.fails w
        (Activity.checkTaskCompletion { OccurrenceID := params.OccurrenceID })).1
        (Activity.sendNotification (reminderNotification params c))).1.held,
        (executeActivity env.fails (executeActivity env.fails w
        (Activity.checkTaskCompletion { OccurrenceID := params.OccurrenceID })).1
        (Activity.sendNotification (reminderNotification params c))).1.trace ++
          [((executeActivity env.fails (executeActivity env.fails w
        (Activity.checkTaskCompletion { OccurrenceID := params.OccurrenceID })).1
        (Activity.sendNotification (reminderNotification params c))).1.now,
            Event.newTimer params.ReminderSettings.ReminderInterval)]⟩ : World) with
        now := max w.now (w.now + params.ReminderSettings.ReminderInterval) }
        "task_completed" := hs
    simp only [executeActivity] at hs3 ⊢
    rw [receiveAsync_silent _ _ hs3]
    simp only [Bool.false_eq_true, if_false]
    refine ⟨_, hs3, ?_, ?_, rfl⟩
    · simp [notificationsOf, List.filterMap_append]
    · simp [checksOf, List.filterMap_append]
  · simp only [hnext, if_false]
    refine ⟨_, ?_, ?_, ?_, rfl⟩
    · exact hs
    · simp [executeActivity, notificationsOf, List.filterMap_append]
    · simp [executeActivity, checksOf, List.filterMap_append]

/-- While no check reports completion and no signal arrives, the loop sends one reminder
    per remaining count and returns. -/
theorem reminderLoop_all_sent (env : ReminderEnv) (params : TaskReminderWorkflowParams)
    (n : Nat) (hn : params.ReminderSettings.MaxReminders = n) :
    ∀ (fuel c : Nat) (w : World), Silent w "task_completed" → c ≤ n →
      (∀ k, c ≤ k → k < n → env.checks k ≠ some true) → n - c ≤ fuel →
      (reminderLoop env params fuel c w).outcome = Outcome.completed
      ∧ (notificationsOf (reminderLoop env params fuel c w).trace).length
          = (notificationsOf w.trace).length + (n - c)
      ∧ (checksOf (reminderLoop env params fuel c w).trace).length
          = (checksOf w.trace).length + (n - c) := by
  intro fuel
  induction fuel with
  | zero =>
    intro c w _ hc _ hf
    have hcn : c = n := by omega
    have hnot : ¬ ((c : Int) < params.ReminderSettings.MaxReminders) := by
      rw [hn]; omega
    subst hcn
    simp [reminderLoop, hnot]
  | succ fuel ih =>
    intro c w hs hc hall hf
    by_cases hcn : c = n
    · have hnot : ¬ ((c : Int) < params.ReminderSettings.MaxReminders) := by
        rw [hn]; omega
      rw [reminderLoop_succ]
      subst hcn
      simp [hnot]
    · have hlt : (c : Int) < params.ReminderSettings.MaxReminders := by
        rw [hn]; omega
      obtain ⟨w1, hs1, hnote, hchk, heq⟩ :=
        reminderLoop_step_silent env params fuel c w hs hlt (hall c (le_refl c) (by omega))
      rw [heq]
      obtain ⟨h1, h2, h3⟩ := ih (c + 1) w1 hs1 (by omega)
        (fun k hk hkn => hall k (by omega) hkn) (by omega)
      refine ⟨h1, ?_, ?_⟩
      · rw [h2, hnote, List.length_append, List.length_singleton]; omega
      · rw [h3, hchk, List.length_append, List.length_singleton]; omega

/-- When the check of index `m` is the first to report completion, the loop sends `m - c`
    more reminders, makes that check and returns at once. -/
theorem reminderLoop_completed_at (env : ReminderEnv) (params : TaskReminderWorkflowParams)
    (n m : Nat) (hn : params.ReminderSettings.MaxReminders = n) (hm : m < n)
    (hdone : env.checks m = some true) :
    ∀ (fuel c : Nat) (w : World), Silent w "task_completed" → c ≤ m →
      (∀ k, c ≤ k → k < m → env.checks k ≠ some true) → m - c + 1 ≤ fuel →
      (reminderLoop env params fuel c w).outcome = Outcome.completed
      ∧ (notificationsOf (reminderLoop env params fuel c w).trace).length
          = (notificationsOf w.trace).length + (m - c)
      ∧ (checksOf (reminderLoop env params fuel c w).trace).length
          = (checksOf w.trace).length + (m - c + 1)
      ∧ ∃ t, (reminderLoop env params fuel c w).trace.getLast?
          = some (t, Event.activity (Activity.checkTaskCompletion ⟨params.OccurrenceID⟩)) := by
  intro fuel
  induction fuel with
  | zero => intro c w _ _ _ hf; omega
  | succ fuel ih =>
    intro c w hs hc hall hf
    by_cases hcm : c = m
    · have hlt : (c : Int) < params.ReminderSettings.MaxReminders := by
        rw [hn]; omega
      rw [reminderLoop_succ]
      subst hcm
      simp [hlt, hdone, executeActivity, notificationsOf_append, checksOf_append,
        notificationsOf, checksOf]
    · have hlt : (c : Int) < params.ReminderSettings.MaxReminders := by
        rw [hn]; omega
      obtain ⟨w1, hs1, hnote, hchk, heq⟩ :=
        reminderLoop_step_silent env params fuel c w hs hlt (hall c (le_refl c) (by omega))
      rw [heq]
      obtain ⟨h1, h2, h3, h4⟩ := ih (c + 1) w1 hs1 (by omega)
        (fun k hk hkn => hall k (by omega) hkn) (by omega)
      refine ⟨h1, ?_, ?_, h4⟩
      · rw [h2, hnote, List.length_append, List.length_singleton]; omega
      · rw [h3, hchk, List.length_append, List.length_singleton]; omega

/-- The run enters the reminder loop in a state without `task_completed` signal and without
    earlier activity. -/
theorem reminder_entry (env : ReminderEnv) (params : TaskReminderWorkflowParams)
    (hsig : ∀ s ∈ env.signals, s.name ≠ "task_completed") (fuel : Nat) :
    ∃ w : World, Silent w "task_completed" ∧ notificationsOf w.trace = []
      ∧ checksOf w.trace = []
      ∧ TaskReminderWorkflow fuel env params = reminderLoop env params fuel 0 w := by
  unfold TaskReminderWorkflow
  simp only
  split
  · exact ⟨_, ⟨by simp [newTimer], by simpa [newTimer] using hsig⟩,
      by simp [newTimer, notificationsOf], by simp [newTimer, checksOf], rfl⟩
  · exact ⟨_, ⟨by simp, by simpa using hsig⟩, by simp [notificationsOf],
      by simp [checksOf], rfl⟩

/-- Claim C14: a run of `TaskReminderWorkflow` with `MaxReminders = n`, no `task_completed`
    signal and enough fuel completes.  When none of the first `n` checks reports the task
    completed it makes `n` checks and sends `n` notifications; when the check of index
    `m < n` is the first to report it completed, it sends `m` notifications, makes `m + 1`
    checks, and that check is its last call. -/
theorem reminder_counts (fuel n : Nat) (env : ReminderEnv)
    (params : TaskReminderWorkflowParams)
    (hn : params.ReminderSettings.MaxReminders = n)
    (hsig : ∀ s ∈ env.signals, s.name ≠ "task_completed") (hfuel : n ≤ fuel) :
    ((∀ k, k < n → env.checks k ≠ some true) →
      (TaskReminderWorkflow fuel env params).outcome = Outcome.completed
      ∧ (notificationsOf (TaskReminderWorkflow fuel env params).trace).length = n
      ∧ (checksOf (TaskReminderWorkflow fuel env params).trace).length = n)
    ∧ ∀ m, m < n → env.checks m = some true → (∀ k, k < m → env.checks k ≠ some true) →
      (TaskReminderWorkflow fuel env params).outcome = Outcome.completed
      ∧ (notificationsOf (TaskReminderWorkflow fuel env params).trace).length = m
      ∧ (checksOf (TaskReminderWorkflow fuel env params).trace).length = m + 1
      ∧ ∃ t, (TaskReminderWorkflow fuel env params).trace.getLast?
          = some (t, Event.activity (Activity.checkTaskCompletion ⟨params.OccurrenceID⟩)) := by
  obtain ⟨w, hs, hnote, hchk, heq⟩ := reminder_entry env params hsig fuel
  rw [heq]
  constructor
  · intro hall
    have h := reminderLoop_all_sent env params n hn fuel 0 w hs (Nat.zero_le n)
      (fun k _ hk => hall k hk) (by omega)
    simpa [hnote, hchk] using h
  · intro m hm hdone hall
    have h := reminderLoop_completed_at env params n m hn hm hdone fuel 0 w hs
      (Nat.zero_le m) (fun k _ hk => hall k hk) (by omega)
    simpa [hnote, hchk] using h

theorem reminder_counts_witness :
    ((notificationsOf (TaskReminderWorkflow 3 pendingEnv reminder3).trace).length = 3
      ∧ (checksOf (TaskReminderWorkflow 3 pendingEnv reminder3).trace).length = 3)
    ∧ (notificationsOf (TaskReminderWorkflow 3 secondDoneEnv reminder3).trace).length = 1
    ∧ (checksOf (TaskReminderWorkflow 3 secondDoneEnv reminder3).trace).length = 2 :=
  ⟨((reminder_counts 3 3 pendingEnv reminder3 rfl (by simp [pendingEnv]) (le_refl 3)).1
      (fun _ _ => by simp [pendingEnv])).2,
    ((reminder_counts 3 3 secondDoneEnv reminder3 rfl (by simp [secondDoneEnv])
      (le_refl 3)).2 1 (by decide) rfl (fun k hk => by
        have hk0 : k = 0 := by omega
        subst hk0
        simp [secondDoneEnv])).2.1,
    ((reminder_counts 3 3 secondDoneEnv reminder3 rfl (by simp [secondDoneEnv])
      (le_refl 3)).2 1 (by decide) rfl (fun k hk => by
        have hk0 : k = 0 := by omega
        subst hk0
        simp [secondDoneEnv])).2.2.1⟩

/-- The reminders of the loop are those of consecutive counts, starting at the count with
    which the loop is entered. -/
theorem reminderLoop_notifications (env : ReminderEnv) (params : TaskReminderWorkflowParams) :
    ∀ (fuel c : Nat) (w : World), ∃ j : Nat,
      (notificationsOf (reminderLoop env params fuel c w).trace).map Prod.snd
        = (notificationsOf w.trace).map Prod.snd
          ++ (List.range' c j).map (reminderNotification params) := by
  intro fuel
  induction fuel with
  | zero =>
    intro c w
    refine ⟨0, ?_⟩
    unfold reminderLoop
    split <;> simp
  | succ fuel ih =>
    intro c w
    rw [reminderLoop_succ]
    split
    · split
      · exact ⟨0, by simp [executeActivity, notificationsOf_append, notificationsOf]⟩
      · have hcons : ∀ (v : World) (j : Nat),
            (notificationsOf v.trace).map Prod.snd
              = (notificationsOf w.trace).map Prod.snd ++ [reminderNotification params c] →
            (notificationsOf (reminderLoop env params fuel (c + 1) v).trace).map Prod.snd
              = (notificationsOf v.trace).map Prod.snd
                ++ (List.range' (c + 1) j).map (reminderNotification params) →
            (notificationsOf (reminderLoop env params fuel (c + 1) v).trace).map Prod.snd
              = (notificationsOf w.trace).map Prod.snd
                ++ (List.range' c (j + 1)).map (reminderNotification params) := by
          intro v j hv hj
          rw [hj, hv, List.range'_succ]
          simp
        have hbase : (notificationsOf (newTimer (executeActivity env.fails
                (executeActivity env.fails w
                (Activity.checkTaskCompletion { OccurrenceID := params.OccurrenceID })).1
                (Activity.sendNotification (reminderNotification params c))).1
                params.ReminderSettings.ReminderInterval).1.trace).map Prod.snd
              = (notificationsOf w.trace).map Prod.snd ++ [reminderNotification params c] := by
          simp [newTimer, executeActivity, notificationsOf_append, notificationsOf]
        split
        · split
          · refine ⟨1, ?_⟩
            rw [hbase]
            simp [List.range'_succ]
          · rename_i w3 d hsel
            have ht3 := select_trace _ _ _ _ hsel
            split
            · refine ⟨1, ?_⟩
              rw [receiveAsync_trace, ht3, hbase]
              simp [List.range'_succ]
            · obtain ⟨j, hj⟩ := ih (c + 1) (receiveAsync w3 "task_completed").1
              exact ⟨j + 1, hcons _ j (by rw [receiveAsync_trace, ht3, hbase]) hj⟩
        · obtain ⟨j, hj⟩ := ih (c + 1) (executeActivity env.fails (executeActivity env.fails w
                (Activity.checkTaskCompletion { OccurrenceID := params.OccurrenceID })).1
                (Activity.sendNotification (reminderNotification params c))).1
          exact ⟨j + 1, hcons _ j
            (by simp [executeActivity, notificationsOf_append, notificationsOf]) hj⟩
    · exact ⟨0, by simp⟩

/-- Claim C15: the notifications of a run of `TaskReminderWorkflow` are, in order, those of
    the iterations 0, 1, 2, ...; the one of iteration `i` has the type `escalated_reminder`
    when `i ≥ EscalateAfter` and `reminder` otherwise. -/
theorem reminder_escalation (fuel : Nat) (env : ReminderEnv)
    (params : TaskReminderWorkflowParams) :
    (notificationsOf (TaskReminderWorkflow fuel env params).trace).map Prod.snd
      = (List.range (notificationsOf (TaskReminderWorkflow fuel env params).trace).length).map
          (reminderNotification params)
    ∧ ∀ i : Nat, (reminderNotification params i).Data.lookup "type"
        = some (if (i : Int) ≥ params.ReminderSettings.EscalateAfter
            then "escalated_reminder" else "reminder") := by
  constructor
  · have hentry : ∃ w : World, notificationsOf w.trace = []
        ∧ TaskReminderWorkflow fuel env params = reminderLoop env params fuel 0 w := by
      unfold TaskReminderWorkflow
      simp only
      split
      · exact ⟨_, by simp [newTimer, notificationsOf], rfl⟩
      · exact ⟨_, by simp [notificationsOf], rfl⟩
    obtain ⟨w, hw, heq⟩ := hentry
    obtain ⟨j, hj⟩ := reminderLoop_notifications env params fuel 0 w
    rw [heq]
    rw [hw] at hj
    simp only [List.map_nil, List.nil_append] at hj
    have hlen : (notificationsOf (reminderLoop env params fuel 0 w).trace).length = j := by
      have := congrArg List.length hj
      simpa using this
    rw [hlen, hj, List.range_eq_range']
  · intro i
    simp [reminderNotification, List.lookup]

/-- The run of the three reminders of `reminder3`: the third is escalated. -/
theorem reminder3_types :
    (notificationsOf (TaskReminderWorkflow 3 pendingEnv reminder3).trace).map
        (fun e => (e.1, e.2.Data.lookup "type"))
      = [(1 * Hour, some "reminder"), (1 * Hour + 15 * Minute, some "reminder"),
         (1 * Hour + 30 * Minute, some "escalated_reminder")] := by
  decide

/-! ### Claims C16 to C18: the laundry cycle -/

/-- Without signals a selector over a timer and one channel fires the timer. -/
theorem select_quiet_pair (now : Int) (trace : List (Int × Event)) (t : Int) (n : String) :
    select ⟨now, [], [], trace⟩ [SelCase.future t, SelCase.receive n]
      = some (⟨max now t, [], [], trace⟩, SelCase.future t) :=
  select_silent ⟨now, [], [], trace⟩ t n ⟨by simp, by simp⟩

/-- Claim C16: a laundry with positive wash and dry times, auto-start, the three
    notifications on and reminders off, run without signals and with succeeding
    activities, makes exactly these calls: `StartLaundry`, "Laundry Started", the wash
    timer, "Wash Cycle Complete" when it fires, the auto-start timer of five minutes, "Dry
    Cycle Started" when it fires, the dry timer, "Laundry Complete" when it fires, and
    `CompleteLaundry`; it completes and starts no reminder loop. -/
theorem laundry_full_cycle (env : LaundryEnv) (params : LaundryWorkflowParams)
    (hW : 0 < params.WashTime) (hD : 0 < params.DryTime)
    (hauto : params.Settings.AutoStart = true)
    (hstart : params.Settings.NotifyOnStart = true)
    (hwash : params.Settings.NotifyOnWashDone = true)
    (hdry : params.Settings.NotifyOnDryDone = true)
    (hrem : params.Settings.NotifyReminders = false)
    (hsig : env.signals = []) (hok : ∀ i, env.fails i = false) :
    (LaundryWorkflow env params).outcome = Outcome.completed
    ∧ (LaundryWorkflow env params).trace =
        [(env.start, Event.activity (Activity.startLaundry
            { LaundryID := params.LaundryID, UserID := params.UserID,
              HouseholdID := params.HouseholdID, LoadType := params.LoadType,
              Settings := params.Settings })),
         (env.start, Event.activity (Activity.sendNotification (washStartNotification params))),
         (env.start, Event.newTimer params.WashTime),
         (env.start + params.WashTime,
            Event.activity (Activity.sendNotification (washDoneNotification params))),
         (env.start + params.WashTime, Event.newTimer (5 * Minute)),
         (env.start + params.WashTime + 5 * Minute,
            Event.activity (Activity.sendNotification (dryStartNotification params))),
         (env.start + params.WashTime + 5 * Minute, Event.newTimer params.DryTime),
         (env.start + params.WashTime + 5 * Minute + params.DryTime,
            Event.activity (Activity.sendNotification (dryDoneNotification params))),
         (env.start + params.WashTime + 5 * Minute + params.DryTime,
            Event.activity (Activity.completeLaundry
              { LaundryID := params.LaundryID, UserID := params.UserID,
                WashTime := params.WashTime, DryTime := params.DryTime,
                TotalTime := env.wallClock - env.start, Status := "completed" }))]
    ∧ (LaundryWorkflow env params).started = [] := by
  have h5 : (0 : Int) < 5 * Minute := by decide
  have hW1 : (0 : Int) < params.WashTime := hW
  have hD1 : (0 : Int) < params.DryTime := hD
  have m1 : max env.start (env.start + params.WashTime) = env.start + params.WashTime :=
    max_eq_right (by omega)
  have m2 : max (env.start + params.WashTime) (env.start + params.WashTime + 5 * Minute)
      = env.start + params.WashTime + 5 * Minute := max_eq_right (by omega)
  have m3 : max (env.start + params.WashTime + 5 * Minute)
      (env.start + params.WashTime + 5 * Minute + params.DryTime)
      = env.start + params.WashTime + 5 * Minute + params.DryTime := max_eq_right (by omega)
  have hD2 : params.DryTime > 0 := hD
  simp only [LaundryWorkflow, runWashCycle, washBegin, washEnd, runDryCycle, awaitDryStart,
    dryArm, dryEnter, dryBegin, dryEnd, completeLaundry,
    createdLaundry, remindersOn, executeActivity, newTimer, hok, hsig, hauto, hstart, hwash,
    hdry, hrem, hD2, if_true, Bool.false_eq_true, if_false, select_quiet_pair, m1, m2, m3,
    Bool.false_and, List.nil_append, List.append_nil, List.cons_append, List.append_assoc]
  refine ⟨trivial, ?_, trivial⟩
  simp

/-- The `Select` of a cycle over its timer and one channel returns, with the trace it
    was entered with. -/
theorem select_timer_pair (v : World) (d : Duration) (n : String) :
    ∃ w2 c, select (newTimer v d).1 [(newTimer v d).2, SelCase.receive n] = some (w2, c)
      ∧ w2.trace = v.trace ++ [(v.now, Event.newTimer d)] := by
  obtain ⟨w2, c, hsel⟩ := select_with_future (newTimer v d).1 (v.now + d) [SelCase.receive n]
  exact ⟨w2, c, hsel, select_trace _ _ _ _ hsel⟩

/-- The wash cycle always ends: it leaves the status `wash_done`, the instants of its
    start and end, and the calls listed. -/
theorem runWashCycle_shape (fails : Nat → Bool) (w : World) (params : LaundryWorkflowParams)
    (state : LaundryState) :
    ∃ finished : Int,
      (runWashCycle fails w params state).stopped = none
      ∧ (runWashCycle fails w params state).state
          = { state with Status := "wash_done", WashStarted := w.now,
                         WashFinished := finished }
      ∧ (runWashCycle fails w params state).world.now = finished
      ∧ (runWashCycle fails w params state).world.trace
          = w.trace
            ++ (if params.Settings.NotifyOnStart then
                  [(w.now, Event.activity (Activity.sendNotification
                    (washStartNotification params)))] else [])
            ++ [(w.now, Event.newTimer params.WashTime)]
            ++ (if params.Settings.NotifyOnWashDone then
                  [(finished, Event.activity (Activity.sendNotification
                    (washDoneNotification params)))] else []) := by
  unfold runWashCycle washBegin washEnd
  simp only
  cases hs : params.Settings.NotifyOnStart
  · obtain ⟨w2, c, hsel, htr⟩ := select_timer_pair w params.WashTime "wash_complete"
    simp only [Bool.false_eq_true, if_false]
    rw [hsel]
    refine ⟨w2.now, rfl, rfl, ?_, ?_⟩
    · cases params.Settings.NotifyOnWashDone <;> simp [executeActivity]
    · cases params.Settings.NotifyOnWashDone <;> simp [executeActivity, htr]
  · obtain ⟨w2, c, hsel, htr⟩ := select_timer_pair (executeActivity fails w
      (Activity.sendNotification (washStartNotification params))).1 params.WashTime
      "wash_complete"
    simp only [if_true]
    rw [hsel]
    refine ⟨w2.now, rfl, rfl, ?_, ?_⟩
    · cases params.Settings.NotifyOnWashDone <;> simp [executeActivity]
    · cases params.Settings.NotifyOnWashDone <;> simp [executeActivity, htr]

/-- Claim C17: with `DryTime = 0` a run whose `StartLaundry` succeeded completes with
    `CompleteLaundry` as its last call, made at the instant the wash ended and carrying a
    dry duration of 0; the wash timer is the only timer of the run, and no notification
    is titled "Dry Cycle Started" or "Laundry Complete". -/
theorem laundry_without_dry (env : LaundryEnv) (params : LaundryWorkflowParams)
    (hD : params.DryTime = 0) (hok : env.fails 0 = false) :
    (LaundryWorkflow env params).outcome = Outcome.completed
    ∧ (∃ pre req, (LaundryWorkflow env params).trace
          = pre ++ [((LaundryWorkflow env params).state.WashFinished,
              Event.activity (Activity.completeLaundry req))]
        ∧ req.DryTime = 0)
    ∧ timersOf (LaundryWorkflow env params).trace = [(env.start, params.WashTime)]
    ∧ ∀ e ∈ notificationsOf (LaundryWorkflow env params).trace,
        e.2.Title ≠ "Dry Cycle Started" ∧ e.2.Title ≠ "Laundry Complete" := by
  obtain ⟨finished, h1, h2, h3, h4⟩ := runWashCycle_shape env.fails
    (executeActivity env.fails
      { now := env.start, inbox := env.signals, held := [], trace := [] }
      (Activity.startLaundry
        { LaundryID := params.LaundryID, UserID := params.UserID,
          HouseholdID := params.HouseholdID, LoadType := params.LoadType,
          Settings := params.Settings })).1 params (createdLaundry params)
  have hnot : ¬ (params.DryTime > 0) := by rw [hD]; decide
  have hrun : LaundryWorkflow env params = completeLaundry env params
      (runWashCycle env.fails (executeActivity env.fails
        { now := env.start, inbox := env.signals, held := [], trace := [] }
        (Activity.startLaundry
          { LaundryID := params.LaundryID, UserID := params.UserID,
            HouseholdID := params.HouseholdID, LoadType := params.LoadType,
            Settings := params.Settings })).1 params (createdLaundry params))
      (runWashCycle env.fails (executeActivity env.fails
        { now := env.start, inbox := env.signals, held := [], trace := [] }
        (Activity.startLaundry
          { LaundryID := params.LaundryID, UserID := params.UserID,
            HouseholdID := params.HouseholdID, LoadType := params.LoadType,
            Settings := params.Settings })).1 params (createdLaundry params)).started := by
    have hb : (executeActivity env.fails
        { now := env.start, inbox := env.signals, held := [], trace := [] }
        (Activity.startLaundry
          { LaundryID := params.LaundryID, UserID := params.UserID,
            HouseholdID := params.HouseholdID, LoadType := params.LoadType,
            Settings := params.Settings })).2 = false := by
      simpa [executeActivity] using hok
    unfold LaundryWorkflow
    simp only [hb, h1, hnot, Bool.false_eq_true, if_false]
  rw [hrun]
  unfold completeLaundry
  generalize hW : (executeActivity env.fails
      { now := env.start, inbox := env.signals, held := [], trace := [] }
      (Activity.startLaundry
        { LaundryID := params.LaundryID, UserID := params.UserID,
          HouseholdID := params.HouseholdID, LoadType := params.LoadType,
          Settings := params.Settings })).1 = W0 at h1 h2 h3 h4 ⊢
  have hnow : W0.now = env.start := by rw [← hW]; rfl
  have htr0 : W0.trace = [(env.start, Event.activity (Activity.startLaundry
        { LaundryID := params.LaundryID, UserID := params.UserID,
          HouseholdID := params.HouseholdID, LoadType := params.LoadType,
          Settings := params.Settings }))] := by rw [← hW]; simp [executeActivity]
  simp only [h1, h2, h3, h4, executeActivity, hnow, htr0]
  refine ⟨trivial, ⟨_, _, rfl, ?_⟩, ?_, ?_⟩
  · simp [createdLaundry]
  · cases params.Settings.NotifyOnStart <;> cases params.Settings.NotifyOnWashDone <;>
      simp [timersOf]
  · intro e he
    cases hs : params.Settings.NotifyOnStart <;> cases hw : params.Settings.NotifyOnWashDone <;>
      simp [hs, hw, notificationsOf] at he
    all_goals first
      | (rcases he with he | he <;> subst he <;>
          simp [washStartNotification, washDoneNotification, laundryNotification])
      | (subst he; simp [washStartNotification, washDoneNotification, laundryNotification])

/-- In an inbox in delivery order some signal of a name is delivered by an instant exactly
    when the first signal of the name is. -/
theorem any_first (l : List Signal) (n : String) (now : Int)
    (hs : l.Pairwise (fun a b => a.time ≤ b.time)) :
    l.any (fun s => s.name == n && decide (s.time ≤ now))
      = match l.find? (fun s => s.name == n) with
        | none => false
        | some s => decide (s.time ≤ now) := by
  induction l with
  | nil => rfl
  | cons a l ih =>
    rw [List.pairwise_cons] at hs
    by_cases ha : a.name = n
    · simp only [List.any_cons, List.find?_cons, ha, beq_self_eq_true, Bool.true_and]
      by_cases hd : a.time ≤ now
      · simp [hd]
      · have hall : l.any (fun s => s.name == n && decide (s.time ≤ now)) = false := by
          rw [List.any_eq_false]
          intro s hsl
          have := hs.1 s hsl
          have hlt : ¬ s.time ≤ now := by omega
          simp [hlt]
        simp [hd, hall]
    · have hb : (a.name == n) = false := by simpa using ha
      simp only [List.any_cons, List.find?_cons, hb, Bool.false_and, Bool.false_or]
      exact ih hs.2

theorem fire_now (w : World) (c : SelCase) : (fire w c).now = w.now := by
  cases c with
  | future t => rfl
  | receive n =>
    simp only [fire]
    split
    · rfl
    · split <;> rfl

theorem fire_trace (w : World) (c : SelCase) : (fire w c).trace = w.trace := by
  cases c with
  | future t => rfl
  | receive n =>
    simp only [fire]
    split
    · rfl
    · split <;> rfl

/-- A selector over a timer that has not fired yet and a channel that holds no value
    returns at the earlier of the timer and the first signal of the channel, and at once
    when that signal is already delivered. -/
theorem select_pair_now (w : World) (t : Int) (n : String) (hheld : n ∉ w.held)
    (hs : w.inbox.Pairwise (fun a b => a.time ≤ b.time)) (ht : w.now < t) :
    ∃ w1 c, select w [SelCase.future t, SelCase.receive n] = some (w1, c)
      ∧ w1.trace = w.trace
      ∧ w1.now = match w.inbox.find? (fun s => s.name == n) with
                 | none => t
                 | some s => max w.now (min s.time t) := by
  have hnt : ¬ t ≤ w.now := by omega
  have hany := any_first w.inbox n w.now hs
  cases hf : w.inbox.find? (fun s => s.name == n) with
  | none =>
    rw [hf] at hany
    refine ⟨{ w with now := t }, SelCase.future t, ?_, rfl, rfl⟩
    simp [select, List.find?, caseReady, hnt, hheld, hany, earliest, caseTime, hf, fire]
  | some s =>
    rw [hf] at hany
    by_cases hd : s.time ≤ w.now
    · refine ⟨fire w (SelCase.receive n), SelCase.receive n, ?_, fire_trace _ _, ?_⟩
      · simp [select, List.find?, caseReady, hnt, hheld, hany, hd]
      · rw [fire_now]
        simp only
        have : min s.time t = s.time := min_eq_left (by omega)
        rw [this, max_eq_left hd]
    · by_cases hts : t ≤ s.time
      · refine ⟨{ w with now := t }, SelCase.future t, ?_, rfl, ?_⟩
        · simp [select, List.find?, caseReady, hnt, hheld, hany, hd, earliest, caseTime, hf,
            hts, fire]
        · simp only
          rw [min_eq_right hts, max_eq_right (by omega)]
      · refine ⟨fire { w with now := s.time } (SelCase.receive n), SelCase.receive n, ?_,
          fire_trace _ _, ?_⟩
        · simp [select, List.find?, caseReady, hnt, hheld, hany, hd, earliest, caseTime, hf,
            hts]
        · rw [fire_now]
          simp only
          rw [min_eq_left (by omega), max_eq_right (by omega)]

/-- A selector over one channel that holds no value returns when the first signal of the
    channel is delivered, and never when there is none. -/
theorem select_single_now (w : World) (n : String) (hheld : n ∉ w.held)
    (hs : w.inbox.Pairwise (fun a b => a.time ≤ b.time)) :
    match w.inbox.find? (fun s => s.name == n) with
    | none => select w [SelCase.receive n] = none
    | some s => ∃ w1 c, select w [SelCase.receive n] = some (w1, c)
        ∧ w1.trace = w.trace ∧ w1.now = max w.now s.time := by
  have hany := any_first w.inbox n w.now hs
  cases hf : w.inbox.find? (fun s => s.name == n) with
  | none =>
    rw [hf] at hany
    simp [select, List.find?, caseReady, hheld, hany, earliest, caseTime, hf]
  | some s =>
    rw [hf] at hany
    simp only
    by_cases hd : s.time ≤ w.now
    · refine ⟨fire w (SelCase.receive n), SelCase.receive n, ?_, fire_trace _ _, ?_⟩
      · simp [select, List.find?, caseReady, hheld, hany, hd]
      · rw [fire_now, max_eq_left hd]
    · refine ⟨fire { w with now := s.time } (SelCase.receive n), SelCase.receive n, ?_,
        fire_trace _ _, ?_⟩
      · simp [select, List.find?, caseReady, hheld, hany, hd, earliest, caseTime, hf]
      · rw [fire_now]
        simp only
        rw [max_eq_right (by omega)]

/-- The case with which a `Select` returns is one of its cases. -/
theorem earliest_mem (w : World) (cases : List SelCase) (r : Int × SelCase)
    (h : earliest w cases = some r) : r.2 ∈ cases := by
  induction cases generalizing r with
  | nil => simp [earliest] at h
  | cons c cs ih =>
    simp only [earliest] at h
    split at h
    · exact List.mem_cons_of_mem _ (ih r h)
    · cases h; exact List.mem_cons_self _ _
    · split at h
      · cases h; exact List.mem_cons_self _ _
      · rename_i r0 _ _
        cases h
        exact List.mem_cons_of_mem _ (ih _ (by assumption))

theorem select_mem (w : World) (cases : List SelCase) (w1 : World) (c : SelCase)
    (h : select w cases = some (w1, c)) : c ∈ cases := by
  unfold select at h
  split at h
  · rename_i c0 hf
    cases h
    exact List.mem_of_find?_eq_some hf
  · split at h
    · rename_i t c0 he
      cases h
      exact earliest_mem w cases (t, c) he
    · cases h

theorem fire_held (w : World) (c : SelCase) (n : String) (h : n ∈ (fire w c).held) :
    n ∈ w.held ∨ c = SelCase.receive n := by
  cases c with
  | future t => exact Or.inl h
  | receive m =>
    simp only [fire] at h
    split at h
    · exact Or.inl h
    · split at h
      · simp only [List.mem_cons] at h
        rcases h with h | h
        · exact Or.inr (by rw [h])
        · exact Or.inl h
      · exact Or.inl h

theorem fire_inbox (w : World) (c : SelCase) : (fire w c).inbox.Sublist w.inbox := by
  cases c with
  | future t => exact List.Sublist.refl _
  | receive m =>
    simp only [fire]
    split
    · exact List.Sublist.refl _
    · split
      · exact List.erase_sublist _ _
      · exact List.Sublist.refl _

/-- What a `Select` leaves of the channels: it adds to the held values at most the channel
    of the case that fired, and removes signals from the inbox without reordering it. -/
theorem select_channels (w w1 : World) (cases : List SelCase) (c : SelCase)
    (h : select w cases = some (w1, c)) :
    (∀ n, n ∈ w1.held → n ∈ w.held ∨ c = SelCase.receive n) ∧ w1.inbox.Sublist w.inbox := by
  unfold select at h
  split at h
  · cases h
    exact ⟨fun n hn => fire_held _ _ n hn, fire_inbox _ _⟩
  · split at h
    · rename_i t c0 _
      cases h
      exact ⟨fun n hn => fire_held { w with now := t } _ n hn,
        fire_inbox { w with now := t } _⟩
    · cases h

/-- The world in which `LaundryWorkflow` enters `runDryCycle`: the `start_dry` channel
    holds no value and the inbox is still in delivery order. -/
theorem wash_world (fails : Nat → Bool) (w : World) (params : LaundryWorkflowParams)
    (state : LaundryState) (hheld : w.held = [])
    (hs : w.inbox.Pairwise (fun a b => a.time ≤ b.time)) :
    "start_dry" ∉ (runWashCycle fails w params state).world.held
    ∧ (runWashCycle fails w params state).world.inbox.Pairwise (fun a b => a.time ≤ b.time) := by
  have key : ∀ (v w2 : World) (c : SelCase), v.held = [] →
      v.inbox.Pairwise (fun a b => a.time ≤ b.time) →
      select (newTimer v params.WashTime).1
        [(newTimer v params.WashTime).2, SelCase.receive "wash_complete"] = some (w2, c) →
      "start_dry" ∉ w2.held ∧ w2.inbox.Pairwise (fun a b => a.time ≤ b.time) := by
    intro v w2 c hv hvs hsel
    obtain ⟨h1, h2⟩ := select_channels _ _ _ _ hsel
    refine ⟨?_, List.Pairwise.sublist h2 hvs⟩
    intro hmem
    rcases h1 _ hmem with h | h
    · simp [newTimer, hv] at h
    · have hc := (select_mem (newTimer v params.WashTime).1 _ w2 c hsel)
      rw [h] at hc
      simp [newTimer] at hc
  unfold runWashCycle washBegin washEnd
  simp only
  split
  · rename_i hsel
    obtain ⟨w2, c, hsel2⟩ := select_with_future
      (newTimer (if params.Settings.NotifyOnStart then
        (executeActivity fails w (Activity.sendNotification (washStartNotification params))).1
        else w) params.WashTime).1
      ((if params.Settings.NotifyOnStart then
        (executeActivity fails w (Activity.sendNotification (washStartNotification params))).1
        else w).now + params.WashTime) [SelCase.receive "wash_complete"]
    simp only [newTimer] at hsel hsel2
    rw [hsel] at hsel2
    cases hsel2
  · rename_i w2 c hsel
    have hk := key _ w2 c (by split <;> simp [executeActivity, hheld])
      (by split <;> simpa [executeActivity] using hs) hsel
    split <;> simpa [executeActivity] using hk

/-- Claim C18: the first part of `runDryCycle`, entered in a world whose `start_dry` channel
    holds no value and whose inbox is in delivery order, as it is when `LaundryWorkflow`
    calls it (`wash_world`).  With `AutoStart` it arms a timer
    of five minutes and drying begins at the earlier of that timer and the first
    `start_dry` signal (at once when the signal is already delivered).  Without
    `AutoStart` it arms no timer and drying begins when the first `start_dry` signal is
    delivered, and never when there is none. -/
theorem dry_start_instant (w : World) (params : LaundryWorkflowParams) (state : LaundryState)
    (hheld : "start_dry" ∉ w.held)
    (hs : w.inbox.Pairwise (fun a b => a.time ≤ b.time)) :
    (params.Settings.AutoStart = true →
      (awaitDryStart w params state).stopped = none
      ∧ (awaitDryStart w params state).state.Status = "drying"
      ∧ (awaitDryStart w params state).world.trace
          = w.trace ++ [(w.now, Event.newTimer (5 * Minute))]
      ∧ (awaitDryStart w params state).state.DryStarted
          = match w.inbox.find? (fun s => s.name == "start_dry") with
            | none => w.now + 5 * Minute
            | some s => max w.now (min s.time (w.now + 5 * Minute)))
    ∧ (params.Settings.AutoStart = false →
      (awaitDryStart w params state).world.trace = w.trace
      ∧ match w.inbox.find? (fun s => s.name == "start_dry") with
        | none => (awaitDryStart w params state).stopped = some Outcome.blocked
        | some s =>
          (awaitDryStart w params state).stopped = none
          ∧ (awaitDryStart w params state).state.Status = "drying"
          ∧ (awaitDryStart w params state).state.DryStarted = max w.now s.time) := by
  constructor
  · intro hauto
    have h5 : (0 : Int) < 5 * Minute := by decide
    obtain ⟨w1, c, hsel, htr, hnow⟩ := select_pair_now (newTimer w (5 * Minute)).1
      (w.now + 5 * Minute) "start_dry" hheld hs (by simp only [newTimer]; omega)
    unfold awaitDryStart dryArm dryEnter
    simp only [hauto, if_true]
    simp only [newTimer] at hsel htr hnow ⊢
    rw [hsel]
    exact ⟨rfl, rfl, htr, hnow⟩
  · intro hauto
    have hsel := select_single_now w "start_dry" hheld hs
    unfold awaitDryStart dryArm dryEnter
    simp only [hauto, Bool.false_eq_true, if_false]
    cases hf : w.inbox.find? (fun s => s.name == "start_dry") with
    | none =>
      rw [hf] at hsel
      simp only at hsel ⊢
      rw [hsel]
      exact ⟨rfl, rfl⟩
    | some s =>
      rw [hf] at hsel
      obtain ⟨w1, c, hsel1, htr, hnow⟩ := hsel
      simp only
      rw [hsel1]
      exact ⟨htr, rfl, rfl, hnow⟩

/-! ### Claims C16 to C18 on the example laundries -/

theorem laundry_full_cycle_witness :
    (LaundryWorkflow (laundryEnv []) laundryFull).outcome = Outcome.completed
    ∧ timersOf (LaundryWorkflow (laundryEnv []) laundryFull).trace
        = [(0, 30 * Minute), (30 * Minute, 5 * Minute), (35 * Minute, 45 * Minute)]
    ∧ (notificationsOf (LaundryWorkflow (laundryEnv []) laundryFull).trace).map
          (fun e => (e.1, e.2.Title))
        = [(0, "Laundry Started"), (30 * Minute, "Wash Cycle Complete"),
           (35 * Minute, "Dry Cycle Started"), (80 * Minute, "Laundry Complete")] :=
  ⟨(laundry_full_cycle (laundryEnv []) laundryFull (by decide) (by decide) rfl rfl rfl rfl
      rfl rfl (fun _ => rfl)).1,
    by rw [(laundry_full_cycle (laundryEnv []) laundryFull (by decide) (by decide) rfl rfl rfl
      rfl rfl rfl (fun _ => rfl)).2.1]; decide,
    by rw [(laundry_full_cycle (laundryEnv []) laundryFull (by decide) (by decide) rfl rfl rfl
      rfl rfl rfl (fun _ => rfl)).2.1]; decide⟩

theorem laundry_without_dry_witness :
    laundryWashOnly.DryTime = 0
    ∧ (LaundryWorkflow (laundryEnv []) laundryWashOnly).outcome = Outcome.completed
    ∧ timersOf (LaundryWorkflow (laundryEnv []) laundryWashOnly).trace
        = [(0, 30 * Minute)]
    ∧ (LaundryWorkflow (laundryEnv []) laundryWashOnly).trace.getLast?
        = some (30 * Minute, Event.activity (Activity.completeLaundry
            ⟨"laundry-001", "user-001", 30 * Minute, 0, 2 * Hour, "completed"⟩)) :=
  ⟨rfl, (laundry_without_dry (laundryEnv []) laundryWashOnly rfl rfl).1,
    (laundry_without_dry (laundryEnv []) laundryWashOnly rfl rfl).2.2.1, by decide⟩

theorem dry_start_instant_witness :
    (awaitDryStart (washed laundryFull [⟨32 * Minute, "start_dry"⟩]).world laundryFull
        (washed laundryFull [⟨32 * Minute, "start_dry"⟩]).state).state.DryStarted
      = 32 * Minute
    ∧ (awaitDryStart (washed laundryFull []).world laundryFull
        (washed laundryFull []).state).state.DryStarted = 35 * Minute
    ∧ (awaitDryStart (washed laundryReminders []).world laundryReminders
        (washed laundryReminders []).state).stopped = some Outcome.blocked :=
  ⟨((dry_start_instant (washed laundryFull [⟨32 * Minute, "start_dry"⟩]).world laundryFull
      (washed laundryFull [⟨32 * Minute, "start_dry"⟩]).state (by decide) (by decide)).1
      rfl).2.2.2.trans (by decide),
    ((dry_start_instant (washed laundryFull []).world laundryFull
      (washed laundryFull []).state (by decide) (by decide)).1 rfl).2.2.2.trans (by decide),
    ((dry_start_instant (washed laundryReminders []).world laundryReminders
      (washed laundryReminders []).state (by decide) (by decide)).2 rfl).2⟩

/-! ### Claims C19 and C20: the wash reminder loop on its goroutine -/

/-- On a goroutine the wash reminder loop ends in its first iteration: it returns when no
    reminder is left or the status is not `wash_done`, and otherwise panics in
    `workflow.NewTimer`; in either case it leaves the world and the state as they were. -/
theorem runWashReminders_goroutine (fails : Nat → Bool) (params : LaundryWorkflowParams)
    (fuel : Nat) (w : World) (state : LaundryState) :
    runWashReminders Routine.goroutine fails params (fuel + 1) w state
      = if state.RemindersLeft > 0 ∧ state.Status = "wash_done" then
          ⟨Outcome.panicked outsideWorkflowContext, w, state⟩
        else ⟨Outcome.completed, w, state⟩ := by
  simp only [runWashReminders, workflowNewTimer]

/-- The loop started with `go` sends nothing, whatever the fuel: the trace it leaves is
    the trace it found. -/
theorem goRunWashReminders_sends_nothing (fuel : Nat) (fails : Nat → Bool)
    (params : LaundryWorkflowParams) (ph : LaundryPhase) :
    (goRunWashReminders fuel fails params ph).world = ph.world
    ∧ (goRunWashReminders fuel fails params ph).state = ph.state := by
  cases fuel with
  | zero => exact ⟨rfl, rfl⟩
  | succ n =>
    unfold goRunWashReminders
    rw [runWashReminders_goroutine]
    split <;> exact ⟨rfl, rfl⟩

/-- Claim C19 fails in the code: the laundry `laundryReminders` has reminders enabled, an
    interval of ten minutes and `MaxReminders = 2`, and gets no `start_dry` signal.  Its
    wash ends at 25 minutes with the status `wash_done` and two reminders left, and
    `runWashCycle` starts the reminder loop with `go`.  The loop enters its body and
    panics in `workflow.NewTimer`: it sends no reminder and counts none, where the claim
    has two, at 35 and at 45 minutes. -/
theorem wash_reminder_loop_panics :
    remindersOn laundryReminders = true
    ∧ laundryReminders.Settings.ReminderInterval = 10 * Minute
    ∧ laundryReminders.Settings.MaxReminders = 2
    ∧ (LaundryWorkflow (laundryEnv []) laundryReminders).started = ["runWashReminders"]
    ∧ (washed laundryReminders []).world.now = 25 * Minute
    ∧ (washed laundryReminders []).state.Status = "wash_done"
    ∧ (washed laundryReminders []).state.RemindersLeft = 2
    ∧ (goRunWashReminders 10 (fun _ => false) laundryReminders
        (washed laundryReminders [])).outcome = Outcome.panicked outsideWorkflowContext
    ∧ remindersOf laundryReminders (goRunWashReminders 10 (fun _ => false) laundryReminders
        (washed laundryReminders [])).world.trace = []
    ∧ (goRunWashReminders 10 (fun _ => false) laundryReminders
        (washed laundryReminders [])).state.RemindersLeft = 2 := by
  decide

/-- Claim C20 fails in the code: the laundry `laundryReminders` ends its wash at 25
    minutes and gets `start_dry` at 40 minutes, 15 minutes later.  The reminder loop is
    started with `go` at 25 minutes, when no signal has arrived, and panics in its first
    `workflow.NewTimer`: there is no loop left for the signal to end, and no reminder was
    sent at 35 minutes, where the claim has exactly one. -/
theorem start_dry_finds_no_loop :
    (washed laundryReminders [⟨40 * Minute, "start_dry"⟩]).world.now = 25 * Minute
    ∧ (washed laundryReminders [⟨40 * Minute, "start_dry"⟩]).world.inbox
        = [⟨40 * Minute, "start_dry"⟩]
    ∧ (washed laundryReminders [⟨40 * Minute, "start_dry"⟩]).started = ["runWashReminders"]
    ∧ (washed laundryReminders [⟨40 * Minute, "start_dry"⟩]).state.Status = "wash_done"
    ∧ (washed laundryReminders [⟨40 * Minute, "start_dry"⟩]).state.RemindersLeft = 2
    ∧ goRunWashReminders 10 (fun _ => false) laundryReminders
        (washed laundryReminders [⟨40 * Minute, "start_dry"⟩])
      = ⟨Outcome.panicked outsideWorkflowContext,
          (washed laundryReminders [⟨40 * Minute, "start_dry"⟩]).world,
          (washed laundryReminders [⟨40 * Minute, "start_dry"⟩]).state⟩
    ∧ remindersOf laundryReminders
        (washed laundryReminders [⟨40 * Minute, "start_dry"⟩]).world.trace = [] := by
  decide


/-! ### Claims C27 and C28: the status reported by `CompleteTimer`, unsupported types -/

/-- The worlds in which `TimerWorkflow` enters its phase hold no completion call. -/
theorem started_noCompletion (env : TimerEnv) (params : TimerWorkflowParams) (p : Prop)
    [Decidable p] :
    NoCompletion params
      (if p then
        ({ now := env.start, inbox := env.signals, held := [],
           trace := [(env.start, Event.activity (Activity.startTimer
              { TimerID := params.TimerID, UserID := params.UserID, Name := params.Name })),
             (env.start, Event.activity
                (Activity.sendNotification (startNotification params)))] } : World)
       else
        { now := env.start, inbox := env.signals, held := [],
          trace := [(env.start, Event.activity (Activity.startTimer
              { TimerID := params.TimerID, UserID := params.UserID,
                Name := params.Name }))] }).trace := by
  split <;> simp [NoCompletion, completeTimerCalls, startNotification, finishNotification]

/-- The `CompleteTimer` invocations of the tail of `TimerWorkflow` after a phase that made
    none: at most one, with the status `completed`. -/
theorem completeTimer_calls (fails : Nat → Bool) (params : TimerWorkflowParams) (ph : Phase)
    (hgood : NoCompletion params ph.world.trace) :
    ∀ e ∈ completeTimerCalls (completeTimer fails params ph).trace,
      e.2.Status = "completed" := by
  intro e he
  unfold completeTimer at he
  cases hs : ph.stopped with
  | some o =>
    rw [hs] at he
    simp only [hgood.1] at he
    simp at he
  | none =>
    rw [hs] at he
    have h1 := hgood.1
    simp only [completeTimerCalls] at h1
    cases hf : params.Settings.NotifyOnFinish <;>
      simp [hf, executeActivity, completeTimerCalls, List.filterMap_append, h1] at he <;>
      rw [he]

/-- Claim C27: every `CompleteTimer` request of every run of `TimerWorkflow` has the status
    `completed`.  So it is for the countdown that a stop signal ends with the internal
    status `stopped`, and for the countdown that a pause signal ends with the internal
    status `paused`: both report `completed`. -/
theorem complete_timer_reports_completed :
    (∀ (fuel : Nat) (env : TimerEnv) (params : TimerWorkflowParams),
      ∀ e ∈ completeTimerCalls (TimerWorkflow fuel env params).trace,
        e.2.Status = "completed")
    ∧ (runCountdownTimer (afterStart stopEnv countdown5m) countdown5m
          (runningState countdown5m)).state.Status = "stopped"
    ∧ completeTimerCalls (TimerWorkflow 0 stopEnv countdown5m).trace
        = [(2 * Minute, ⟨"timer-001", "user-001", 0, "completed"⟩)]
    ∧ (runCountdownTimer (afterStart pauseEnv countdown5m) countdown5m
          (runningState countdown5m)).state.Status = "paused"
    ∧ completeTimerCalls (TimerWorkflow 0 pauseEnv countdown5m).trace
        = [(2 * Minute, ⟨"timer-001", "user-001", 0, "completed"⟩)] := by
  refine ⟨?_, by decide, by decide, by decide, by decide⟩
  intro fuel env params
  by_cases hst : env.fails 0 = true
  · simp [TimerWorkflow, executeActivity, hst, completeTimerCalls]
  · by_cases hc : params.Type_ = "countdown"
    · simp only [TimerWorkflow, executeActivity, hst, hc, List.length_nil, if_true, if_false,
        List.nil_append, List.singleton_append]
      exact completeTimer_calls _ _ _
        (runCountdownTimer_noCompletion _ _ _ (started_noCompletion env params _))
    · by_cases hp : params.Type_ = "pomodoro"
      · simp only [TimerWorkflow, executeActivity, hst, hc, hp, List.length_nil, if_true,
          if_false, List.nil_append, List.singleton_append]
        exact completeTimer_calls _ _ _
          (pomodoroLoop_noCompletion _ _ _ _ _ _ (started_noCompletion env params _))
      · by_cases hs : params.Type_ = "stopwatch"
        · simp only [TimerWorkflow, executeActivity, hst, hc, hp, hs, List.length_nil,
            if_true, if_false, List.nil_append, List.singleton_append]
          exact completeTimer_calls _ _ _
            (stopwatchLoop_noCompletion _ _ _ _ _ (started_noCompletion env params _))
        · have h := (started_noCompletion env params
            (params.Settings.NotifyOnStart = true)).1
          simp only [TimerWorkflow, executeActivity, hst, hc, hp, hs, List.length_nil,
            if_true, if_false, List.nil_append, List.singleton_append, Bool.false_eq_true]
          intro e he
          rw [h] at he
          simp at he

/-- Claim C28: a run of `TimerWorkflow` whose type is none of countdown, pomodoro and
    stopwatch and whose `StartTimer` succeeds returns the error that names the type after
    invoking `StartTimer` and, when `NotifyOnStart` is set, the start notification, and
    nothing else: no `CompleteTimer`, no completion notification.  A run whose
    `StartTimer` fails returns an error after that one invocation. -/
theorem unsupported_type_and_failed_start (fuel : Nat) (env : TimerEnv)
    (params : TimerWorkflowParams) :
    (params.Type_ ≠ "countdown" → params.Type_ ≠ "pomodoro" → params.Type_ ≠ "stopwatch" →
      env.fails 0 = false →
      (TimerWorkflow fuel env params).outcome
          = Outcome.failed ("unsupported timer type: " ++ params.Type_)
      ∧ (TimerWorkflow fuel env params).trace.map Prod.snd =
          [Event.activity (Activity.startTimer
            { TimerID := params.TimerID, UserID := params.UserID, Name := params.Name })]
          ++ (if params.Settings.NotifyOnStart then
                [Event.activity (Activity.sendNotification (startNotification params))]
              else [])
      ∧ NoCompletion params (TimerWorkflow fuel env params).trace)
    ∧ (env.fails 0 = true →
      (TimerWorkflow fuel env params).outcome = Outcome.failed "failed to start timer"
      ∧ (TimerWorkflow fuel env params).trace.map Prod.snd =
          [Event.activity (Activity.startTimer
            { TimerID := params.TimerID, UserID := params.UserID, Name := params.Name })]) := by
  refine ⟨?_, ?_⟩
  · intro hc hp hs hok
    have h := started_noCompletion env params (params.Settings.NotifyOnStart = true)
    simp only [TimerWorkflow, executeActivity, hok, hc, hp, hs, List.length_nil,
      if_false, List.nil_append, List.singleton_append, Bool.false_eq_true]
    refine ⟨trivial, ?_, h⟩
    cases params.Settings.NotifyOnStart <;> simp
  · intro hfail
    simp [TimerWorkflow, executeActivity, hfail]

/-- Claim C28 on a timer of type `interval`, and on a countdown whose `StartTimer` fails. -/
theorem unsupported_type_and_failed_start_witness :
    (TimerWorkflow 5 quietTimerEnv intervalTimer).outcome
        = Outcome.failed "unsupported timer type: interval"
    ∧ (TimerWorkflow 5 quietTimerEnv intervalTimer).trace =
        [(0, Event.activity (Activity.startTimer ⟨"timer-006", "user-001", "Laps"⟩)),
         (0, Event.activity (Activity.sendNotification (startNotification intervalTimer)))]
    ∧ (TimerWorkflow 5 failingStartEnv countdownNotify).outcome
        = Outcome.failed "failed to start timer"
    ∧ (TimerWorkflow 5 failingStartEnv countdownNotify).trace.map Prod.snd =
        [Event.activity (Activity.startTimer ⟨"timer-005", "user-001", "Tea"⟩)] :=
  ⟨((unsupported_type_and_failed_start 5 quietTimerEnv intervalTimer).1
      (by decide) (by decide) (by decide) rfl).1,
    by decide,
    ((unsupported_type_and_failed_start 5 failingStartEnv countdownNotify).2 rfl).1,
    ((unsupported_type_and_failed_start 5 failingStartEnv countdownNotify).2 rfl).2⟩


/-! ### Claim C23: the notifications of a pomodoro run -/

/-- The number of notifications of a trace depends on its calls only, not on their
    instants. -/
theorem notificationsOf_length_congr :
    ∀ (a b : List (Int × Event)), a.map Prod.snd = b.map Prod.snd →
      (notificationsOf a).length = (notificationsOf b).length := by
  intro a
  induction a with
  | nil =>
    intro b h
    cases b with
    | nil => rfl
    | cons y ys => simp at h
  | cons x xs ih =>
    intro b h
    cases b with
    | nil => simp at h
    | cons y ys =>
      obtain ⟨t, ex⟩ := x
      obtain ⟨u, ey⟩ := y
      simp only [List.map_cons, List.cons.injEq] at h
      obtain ⟨h1, h2⟩ := h
      subst h1
      have h3 := ih ys h2
      simp only [notificationsOf] at h3
      cases ex with
      | newTimer d => simpa [notificationsOf] using h3
      | activity a => cases a <;> simpa [notificationsOf] using h3

/-- The same for the `StartTimer` and `CompleteTimer` invocations. -/
theorem timerCalls_length_congr :
    ∀ (a b : List (Int × Event)), a.map Prod.snd = b.map Prod.snd →
      (startTimerCalls a).length = (startTimerCalls b).length
      ∧ (completeTimerCalls a).length = (completeTimerCalls b).length := by
  intro a
  induction a with
  | nil =>
    intro b h
    cases b with
    | nil => exact ⟨rfl, rfl⟩
    | cons y ys => simp at h
  | cons x xs ih =>
    intro b h
    cases b with
    | nil => simp at h
    | cons y ys =>
      obtain ⟨t, ex⟩ := x
      obtain ⟨u, ey⟩ := y
      simp only [List.map_cons, List.cons.injEq] at h
      obtain ⟨h1, h2⟩ := h
      subst h1
      obtain ⟨h3, h4⟩ := ih ys h2
      simp only [startTimerCalls, completeTimerCalls] at h3 h4
      cases ex with
      | newTimer d => exact ⟨by simpa [startTimerCalls] using h3,
          by simpa [completeTimerCalls] using h4⟩
      | activity a =>
        cases a <;> exact ⟨by simpa [startTimerCalls] using h3,
          by simpa [completeTimerCalls] using h4⟩

/-- The calls of a list of periods, at any instants: one notification for each period,
    no `StartTimer` and no `CompleteTimer`. -/
theorem periodEvents_counts (params : TimerWorkflowParams) (cfg : PomodoroConfig)
    (plan : List Period) :
    (notificationsOf ((plan.flatMap (periodEvents params cfg)).map
        (fun e => ((0 : Int), e)))).length = plan.length
    ∧ startTimerCalls ((plan.flatMap (periodEvents params cfg)).map
        (fun e => ((0 : Int), e))) = []
    ∧ completeTimerCalls ((plan.flatMap (periodEvents params cfg)).map
        (fun e => ((0 : Int), e))) = [] := by
  induction plan with
  | nil => exact ⟨rfl, rfl, rfl⟩
  | cons p ps ih =>
    obtain ⟨h1, h2, h3⟩ := ih
    simp only [List.flatMap_cons, List.map_append]
    refine ⟨?_, ?_, ?_⟩
    · rw [notificationsOf_append, List.length_append, h1]
      simp [notificationsOf, periodEvents, Nat.add_comm]
    · simp only [startTimerCalls, List.filterMap_append] at h2 ⊢
      rw [h2]
      simp [periodEvents]
    · simp only [completeTimerCalls, List.filterMap_append] at h3 ⊢
      rw [h3]
      simp [periodEvents]

/-- The number of periods of the cycles of a list. -/
theorem plan_length (cfg : PomodoroConfig) (n : Nat) (l : List Nat) :
    (l.flatMap (cyclePeriods cfg n)).length
      = l.length + (l.filter (fun c => decide (c < n))).length := by
  induction l with
  | nil => rfl
  | cons c cs ih =>
    simp only [List.flatMap_cons, List.length_append, ih, List.filter_cons, cyclePeriods]
    by_cases hc : c < n <;> simp [hc] <;> omega

/-- Claim C23: a pomodoro timer with `Repetitions = n >= 1`, the start and the finish
    notification on, no signals and succeeding activities (run with fuel of at least n)
    completes after invoking `SendNotification` exactly `2 n + 1` times, `StartTimer` once
    and `CompleteTimer` once. -/
theorem pomodoro_notification_count (fuel n : Nat) (env : TimerEnv)
    (params : TimerWorkflowParams) (htype : params.Type_ = "pomodoro") (hn : 1 ≤ n)
    (hrep : params.Settings.Repetitions = n)
    (hstart : params.Settings.NotifyOnStart = true)
    (hfinish : params.Settings.NotifyOnFinish = true)
    (hsig : env.signals = []) (hok : ∀ i, env.fails i = false) (hfuel : n ≤ fuel) :
    (TimerWorkflow fuel env params).outcome = Outcome.completed
    ∧ (notificationsOf (TimerWorkflow fuel env params).trace).length = 2 * n + 1
    ∧ (startTimerCalls (TimerWorkflow fuel env params).trace).length = 1
    ∧ (completeTimerCalls (TimerWorkflow fuel env params).trace).length = 1 := by
  have hmaxc : (pomodoroConfig params.Settings).maxCycles = n := by
    have hne : params.Settings.Repetitions ≠ 0 := by rw [hrep]; exact_mod_cast (by omega : n ≠ 0)
    simp only [pomodoroConfig, hne, if_false]
    exact hrep
  obtain ⟨now1, trace1, state1, hrun, hst, htr⟩ :=
    pomodoroLoop_quiet env.fails params (pomodoroConfig params.Settings) n hmaxc n fuel 1
      env.start
      [(env.start, Event.activity (Activity.startTimer
          { TimerID := params.TimerID, UserID := params.UserID, Name := params.Name })),
       (env.start, Event.activity (Activity.sendNotification (startNotification params)))]
      (runningState params) (by simp [runningState]) rfl rfl (by omega) hfuel
  have hcount := periodEvents_counts params (pomodoroConfig params.Settings)
    ((List.range' 1 n).flatMap (cyclePeriods (pomodoroConfig params.Settings) n))
  have hlen := plan_length (pomodoroConfig params.Settings) n (List.range' 1 n)
  rw [range'_filter_lt n hn] at hlen
  simp only [List.length_range'] at hlen
  have hshape : trace1.map Prod.snd =
      ([(env.start, Event.activity (Activity.startTimer
          { TimerID := params.TimerID, UserID := params.UserID, Name := params.Name })),
        (env.start, Event.activity (Activity.sendNotification (startNotification params)))]
        ++ (((List.range' 1 n).flatMap (cyclePeriods (pomodoroConfig params.Settings) n)).flatMap
            (periodEvents params (pomodoroConfig params.Settings))).map
          (fun e => ((0 : Int), e))).map Prod.snd := by
    rw [htr, List.map_append, List.map_map]
    congr 1
    simp [Function.comp_def]
  have hN := notificationsOf_length_congr _ _ hshape
  obtain ⟨hS, hC⟩ := timerCalls_length_congr _ _ hshape
  rw [notificationsOf_append, List.length_append, hcount.1, hlen] at hN
  simp only [startTimerCalls, completeTimerCalls, List.filterMap_append] at hS hC
  have hc2 := hcount.2.1
  have hc3 := hcount.2.2
  simp only [startTimerCalls, completeTimerCalls] at hc2 hc3
  rw [hc2] at hS
  rw [hc3] at hC
  have hne1 : ¬ ("pomodoro" = "countdown") := by decide
  simp only [TimerWorkflow, executeActivity, hok, htype, hstart, hfinish, hsig, hne1,
    List.length_nil, if_true, if_false, Bool.false_eq_true, List.nil_append,
    List.singleton_append, runPomodoroTimer, hrun, completeTimer]
  refine ⟨trivial, ?_, ?_, ?_⟩
  · simp only [notificationsOf_append, List.length_append, hN]
    simp [notificationsOf]
    omega
  · simp only [startTimerCalls, List.filterMap_append, List.length_append] at hS ⊢
    rw [hS]
    simp
  · simp only [completeTimerCalls, List.filterMap_append, List.length_append] at hC ⊢
    rw [hC]
    simp

/-- Claim C23 for two repetitions: five notifications. -/
theorem pomodoro_notification_count_witness :
    (TimerWorkflow 2 quietTimerEnv pomodoro2).outcome = Outcome.completed
    ∧ (notificationsOf (TimerWorkflow 2 quietTimerEnv pomodoro2).trace).length = 5
    ∧ (startTimerCalls (TimerWorkflow 2 quietTimerEnv pomodoro2).trace).length = 1
    ∧ (completeTimerCalls (TimerWorkflow 2 quietTimerEnv pomodoro2).trace).length = 1 :=
  pomodoro_notification_count 2 2 quietTimerEnv pomodoro2 rfl (by decide) rfl rfl rfl rfl
    (fun _ => rfl) (by decide)


/-! ### Claim C24: the notifications of a full laundry cycle -/

/-- The calls of a laundry with positive wash and dry times, auto-start, the three
    notifications on and reminders off, run without signals and failures. -/
theorem laundry_quiet_trace (env : LaundryEnv) (params : LaundryWorkflowParams)
    (hW : 0 < params.WashTime) (hD : 0 < params.DryTime)
    (hauto : params.Settings.AutoStart = true)
    (hstart : params.Settings.NotifyOnStart = true)
    (hwash : params.Settings.NotifyOnWashDone = true)
    (hdry : params.Settings.NotifyOnDryDone = true)
    (hrem : params.Settings.NotifyReminders = false)
    (hsig : env.signals = []) (hok : ∀ i, env.fails i = false) :
    (LaundryWorkflow env params).outcome = Outcome.completed
    ∧ (LaundryWorkflow env params).trace =
        [(env.start, Event.activity (Activity.startLaundry
            { LaundryID := params.LaundryID, UserID := params.UserID,
              HouseholdID := params.HouseholdID, LoadType := params.LoadType,
              Settings := params.Settings })),
         (env.start, Event.activity (Activity.sendNotification (washStartNotification params))),
         (env.start, Event.newTimer params.WashTime),
         (env.start + params.WashTime,
            Event.activity (Activity.sendNotification (washDoneNotification params))),
         (env.start + params.WashTime, Event.newTimer (5 * Minute)),
         (env.start + params.WashTime + 5 * Minute,
            Event.activity (Activity.sendNotification (dryStartNotification params))),
         (env.start + params.WashTime + 5 * Minute, Event.newTimer params.DryTime),
         (env.start + params.WashTime + 5 * Minute + params.DryTime,
            Event.activity (Activity.sendNotification (dryDoneNotification params))),
         (env.start + params.WashTime + 5 * Minute + params.DryTime,
            Event.activity (Activity.completeLaundry
              { LaundryID := params.LaundryID, UserID := params.UserID,
                WashTime := params.WashTime, DryTime := params.DryTime,
                TotalTime := env.wallClock - env.start, Status := "completed" }))] := by
  have hW1 : (0 : Int) < params.WashTime := hW
  have hD1 : (0 : Int) < params.DryTime := hD
  have hM : (0 : Int) < 5 * Minute := by decide
  have m1 : max env.start (env.start + params.WashTime) = env.start + params.WashTime :=
    max_eq_right (by omega)
  have m2 : max (env.start + params.WashTime) (env.start + params.WashTime + 5 * Minute)
      = env.start + params.WashTime + 5 * Minute := max_eq_right (by omega)
  have m3 : max (env.start + params.WashTime + 5 * Minute)
      (env.start + params.WashTime + 5 * Minute + params.DryTime)
      = env.start + params.WashTime + 5 * Minute + params.DryTime := max_eq_right (by omega)
  have hD2 : params.DryTime > 0 := hD
  simp only [LaundryWorkflow, runWashCycle, washBegin, washEnd, runDryCycle, awaitDryStart,
    dryArm, dryEnter, dryBegin, dryEnd, completeLaundry,
    createdLaundry, remindersOn, executeActivity, newTimer, hok, hsig, hauto, hstart, hwash,
    hdry, hrem, hD2, if_true, Bool.false_eq_true, if_false, select_quiet_pair, m1, m2, m3,
    Bool.false_and, List.nil_append, List.append_nil, List.cons_append, List.append_assoc]
  refine ⟨trivial, ?_⟩
  simp

/-- Claim C24 as worded fails: the laundry of the claim with a wash of thirty and a dry of
    forty-five minutes invokes `SendNotification` four times, not three: the "Dry Cycle
    Started" notification is sent as well. -/
theorem laundry_full_four_notifications :
    (notificationsOf (LaundryWorkflow (laundryEnv []) laundryFull).trace).map
        (fun e => e.2.Title)
      = ["Laundry Started", "Wash Cycle Complete", "Dry Cycle Started", "Laundry Complete"]
    ∧ (notificationsOf (LaundryWorkflow (laundryEnv []) laundryFull).trace).length ≠ 3 := by
  decide

/-- Claim C24 (amended): a laundry with positive wash and dry times, auto-start, the three
    notifications on and reminders off, run without signals and with succeeding
    activities, invokes `SendNotification` exactly four times (wash start, wash done, dry
    start, dry done), `StartLaundry` once and `CompleteLaundry` once, and completes. -/
theorem laundry_notification_count (env : LaundryEnv) (params : LaundryWorkflowParams)
    (hW : 0 < params.WashTime) (hD : 0 < params.DryTime)
    (hauto : params.Settings.AutoStart = true)
    (hstart : params.Settings.NotifyOnStart = true)
    (hwash : params.Settings.NotifyOnWashDone = true)
    (hdry : params.Settings.NotifyOnDryDone = true)
    (hrem : params.Settings.NotifyReminders = false)
    (hsig : env.signals = []) (hok : ∀ i, env.fails i = false) :
    (LaundryWorkflow env params).outcome = Outcome.completed
    ∧ (notificationsOf (LaundryWorkflow env params).trace).map Prod.snd
        = [washStartNotification params, washDoneNotification params,
           dryStartNotification params, dryDoneNotification params]
    ∧ (notificationsOf (LaundryWorkflow env params).trace).length = 4
    ∧ (startLaundryCalls (LaundryWorkflow env params).trace).length = 1
    ∧ (completeLaundryCalls (LaundryWorkflow env params).trace).length = 1 := by
  obtain ⟨h1, h2⟩ := laundry_quiet_trace env params hW hD hauto hstart hwash hdry hrem hsig hok
  rw [h2]
  exact ⟨h1, by simp [notificationsOf], by simp [notificationsOf],
    by simp [startLaundryCalls], by simp [completeLaundryCalls]⟩

/-- The amended claim C24 on the laundry of thirty minutes of wash and forty-five of dry. -/
theorem laundry_notification_count_witness :
    (LaundryWorkflow (laundryEnv []) laundryFull).outcome = Outcome.completed
    ∧ (notificationsOf (LaundryWorkflow (laundryEnv []) laundryFull).trace).map Prod.snd
        = [washStartNotification laundryFull, washDoneNotification laundryFull,
           dryStartNotification laundryFull, dryDoneNotification laundryFull]
    ∧ (notificationsOf (LaundryWorkflow (laundryEnv []) laundryFull).trace).length = 4
    ∧ (startLaundryCalls (LaundryWorkflow (laundryEnv []) laundryFull).trace).length = 1
    ∧ (completeLaundryCalls (LaundryWorkflow (laundryEnv []) laundryFull).trace).length = 1 :=
  laundry_notification_count (laundryEnv []) laundryFull (by decide) (by decide) rfl rfl rfl
    rfl rfl rfl (fun _ => rfl)

/-! ### Claim C21: the wall clock in the `CompleteLaundry` request -/

/-- The tail of `LaundryWorkflow` on two workers that differ in their wall clock only: the
    same outcome, and the same calls up to the field `TotalTime`. -/
theorem completeLaundry_wall_clock (env : LaundryEnv) (c : Int)
    (params : LaundryWorkflowParams) (ph : LaundryPhase) (started : List String) :
    (completeLaundry { env with wallClock := c } params ph started).outcome
        = (completeLaundry env params ph started).outcome
    ∧ (completeLaundry { env with wallClock := c } params ph started).trace.map
          (fun e => (e.1, withoutTotalTime e.2))
        = (completeLaundry env params ph started).trace.map
          (fun e => (e.1, withoutTotalTime e.2)) := by
  unfold completeLaundry
  cases ph.stopped with
  | some o => exact ⟨rfl, rfl⟩
  | none => simp [executeActivity, withoutTotalTime]

/-- Two runs of `LaundryWorkflow` with the same input, signals and activity results on
    workers that differ in their wall clock: the same outcome, and the same calls at the
    same instants up to the field `TotalTime` of the `CompleteLaundry` request. -/
theorem laundry_wall_clock_only_total_time (env : LaundryEnv) (c : Int)
    (params : LaundryWorkflowParams) :
    (LaundryWorkflow { env with wallClock := c } params).outcome
        = (LaundryWorkflow env params).outcome
    ∧ (LaundryWorkflow { env with wallClock := c } params).trace.map
          (fun e => (e.1, withoutTotalTime e.2))
        = (LaundryWorkflow env params).trace.map (fun e => (e.1, withoutTotalTime e.2)) := by
  simp only [LaundryWorkflow]
  split
  · exact ⟨rfl, rfl⟩
  · split
    · exact ⟨rfl, rfl⟩
    · split
      · exact completeLaundry_wall_clock env c params _ _
      · exact completeLaundry_wall_clock env c params _ _

/-- Claim C21 fails in the code: two runs of `LaundryWorkflow` on the same input with the
    same signals (none), timer firings and activity results, on workers whose wall clocks
    read two and three hours at the end, issue `CompleteLaundry` requests that differ in
    the field `TotalTime`. -/
theorem total_time_reads_wall_clock :
    (laundryEnvLate []).start = (laundryEnv []).start
    ∧ (laundryEnvLate []).signals = (laundryEnv []).signals
    ∧ completeLaundryCalls (LaundryWorkflow (laundryEnv []) laundryFull).trace
        = [(80 * Minute, ⟨"laundry-001", "user-001", 30 * Minute, 45 * Minute, 2 * Hour,
            "completed"⟩)]
    ∧ completeLaundryCalls (LaundryWorkflow (laundryEnvLate []) laundryFull).trace
        = [(80 * Minute, ⟨"laundry-001", "user-001", 30 * Minute, 45 * Minute, 3 * Hour,
            "completed"⟩)]
    ∧ (LaundryWorkflow (laundryEnvLate []) laundryFull).trace
        ≠ (LaundryWorkflow (laundryEnv []) laundryFull).trace := by
  decide


/-! ### Claim C26: due dates strictly increase -/

/-- The first day of the month after a month comes as many days after the first day of
    that month as the month has. -/
theorem monthStart_next (y m y1 m1 : Int) (h1 : 1 ≤ m) (h12 : m ≤ 12) (h1' : 1 ≤ m1)
    (h12' : m1 ≤ 12) (h : y1 * 12 + m1 = y * 12 + m + 1) :
    daysBeforeYear y1 + daysBeforeMonth y1 m1
      = daysBeforeYear y + daysBeforeMonth y m + daysIn y m := by
  by_cases hm : m = 12
  · have hy : y1 = y + 1 := by omega
    have hm1 : m1 = 1 := by omega
    rw [hy, hm1, hm, daysBeforeYear_succ, daysBeforeMonth_one, daysBeforeMonth_twelve]
    have : daysIn y 12 = 31 := by simp [daysIn]
    omega
  · have hy : y1 = y := by omega
    have hm1 : m1 = m + 1 := by omega
    rw [hy, hm1, daysBeforeMonth_succ y m h1 (by omega)]
    omega

/-- The first day of a later month comes at least a month after the first day of a
    month. -/
theorem monthStart_mono :
    ∀ (k : Nat) (y m y1 m1 : Int), 1 ≤ m → m ≤ 12 → 1 ≤ m1 → m1 ≤ 12 →
      y1 * 12 + m1 = y * 12 + m + (k + 1 : Nat) →
      daysBeforeYear y + daysBeforeMonth y m + daysIn y m
        ≤ daysBeforeYear y1 + daysBeforeMonth y1 m1 := by
  intro k
  induction k with
  | zero =>
    intro y m y1 m1 h1 h12 h1' h12' h
    rw [monthStart_next y m y1 m1 h1 h12 h1' h12' (by push_cast at h; omega)]
  | succ k ih =>
    intro y m y1 m1 h1 h12 h1' h12' h
    obtain ⟨y2, m2, hm2a, hm2b, hnext⟩ : ∃ y2 m2 : Int, 1 ≤ m2 ∧ m2 ≤ 12
        ∧ y2 * 12 + m2 = y * 12 + m + 1 := by
      by_cases hm : m = 12
      · exact ⟨y + 1, 1, by omega, by omega, by omega⟩
      · exact ⟨y, m + 1, by omega, by omega, by omega⟩
    have e := monthStart_next y m y2 m2 h1 h12 hm2a hm2b hnext
    have h2 := ih y2 m2 y1 m1 hm2a hm2b h1' h12' (by push_cast at h ⊢; omega)
    have := daysIn_pos y2 m2
    omega

/-- A valid date in a later month is a later day. -/
theorem daysFromCivil_later_month (a b : CivilDate) (ha : a.Valid) (hb : b.Valid)
    (h : a.year * 12 + a.month < b.year * 12 + b.month) :
    daysFromCivil a + 1 ≤ daysFromCivil b := by
  obtain ⟨k, hk⟩ : ∃ k : Nat, b.year * 12 + b.month = a.year * 12 + a.month + (k + 1 : Nat) :=
    ⟨(b.year * 12 + b.month - (a.year * 12 + a.month) - 1).toNat, by push_cast; omega⟩
  have := monthStart_mono k a.year a.month b.year b.month ha.1 ha.2.1 hb.1 hb.2.1 hk
  unfold daysFromCivil
  have h3 := ha.2.2.2
  have h4 := hb.2.2.1
  omega

/-- Two times with the same clock and location, the second at least a day later in the
    calendar: the second is at least 24 hours later. -/
theorem UnixNano_later_day (t r : Time)
    (hday : daysFromCivil t.date + 1 ≤ daysFromCivil r.date)
    (hh : r.hour = t.hour) (hm : r.minute = t.minute) (hs : r.second = t.second)
    (hn : r.nanosecond = t.nanosecond) (hl : r.loc = t.loc) :
    t.UnixNano + 24 * Hour ≤ r.UnixNano := by
  unfold Time.UnixNano
  rw [hh, hm, hs, hn, hl]
  simp only [Hour, Minute, Second]
  omega

/-- Adding months to a valid time: the first day of the month that many months later,
    moved on by the days of the time, at the same clock. -/
theorem AddDate_months (t : Time) (ht : t.Valid) (k : Int) :
    ∃ y1 m1 : Int, 1 ≤ m1 ∧ m1 ≤ 12 ∧ y1 * 12 + m1 = t.year * 12 + t.month + k
      ∧ t.AddDate 0 k 0 =
        ⟨(addDays ⟨y1, m1, 1⟩ (t.day - 1)).year, (addDays ⟨y1, m1, 1⟩ (t.day - 1)).month,
         (addDays ⟨y1, m1, 1⟩ (t.day - 1)).day, t.hour, t.minute, t.second, t.nanosecond,
         t.loc⟩ := by
  obtain ⟨⟨h1, h2, h3, h4⟩, hh0, hh1, hm0, hm1, hs0, hs1, hn0, hn1⟩ := ht
  simp only [Time.date] at h1 h2 h3 h4
  refine ⟨t.year + (t.month + k - 1) / 12, (t.month + k - 1) % 12 + 1, by omega, by omega,
    by omega, ?_⟩
  unfold Time.AddDate Date
  rw [norm_inRange t.second t.nanosecond 1000000000 hn0 hn1]
  simp only
  rw [norm_inRange t.minute t.second 60 hs0 hs1]
  simp only
  rw [norm_inRange t.hour t.minute 60 hm0 hm1]
  simp only
  rw [norm_inRange (t.day + 0) t.hour 24 hh0 hh1]
  simp only [norm, add_zero]

/-- A date the weekly search returns lies a number of days after its start. -/
theorem weeklySearch_result (days : List Int) :
    ∀ (fuel : Nat) (s r : Time), s.Valid → weeklySearch days fuel s = some r →
      ∃ j : Nat, r = s.AddDate 0 0 j := by
  intro fuel
  induction fuel with
  | zero => intro s r _ h; simp [weeklySearch] at h
  | succ f ih =>
    intro s r hs h
    unfold weeklySearch at h
    split at h
    · cases h
      exact ⟨0, by rw [Nat.cast_zero, AddDate_zero s hs]⟩
    · have hv := AddDate_days_valid s hs 1
      simp only [Nat.cast_one] at hv
      obtain ⟨j, hj⟩ := ih _ r hv h
      exact ⟨j + 1, by rw [hj, AddDate_days_succ s hs j]⟩

/-- The date `calculateNextDueDate` returns for a rule with an interval of at least one is
    valid and at least 24 hours after the current date. -/
theorem calculateNextDueDate_later (fuel : Nat) (rule : RecurrenceRule) (t r : Time)
    (ht : t.Valid) (hI : 1 ≤ rule.Interval)
    (h : calculateNextDueDate fuel rule t = some r) :
    r.Valid ∧ t.UnixNano + 24 * Hour ≤ r.UnixNano := by
  have hv := calculateNextDueDate_valid fuel rule t r h
  refine ⟨hv, ?_⟩
  have hdays : ∀ n : Int, 1 ≤ n →
      t.UnixNano + 24 * Hour ≤ (t.AddDate 0 0 n).UnixNano := by
    intro n hn
    obtain ⟨k, rfl⟩ := Int.eq_ofNat_of_zero_le (show 0 ≤ n by omega)
    rw [UnixNano_AddDate_days t ht k]
    have h24 : (0 : Int) < 24 * Hour := by decide
    have hk : (1 : Int) ≤ (k : Int) := hn
    nlinarith
  unfold calculateNextDueDate at h
  split at h
  · cases h; exact hdays _ hI
  · split at h
    · split at h
      · cases h; exact hdays _ (by omega)
      · obtain ⟨j, hj⟩ := weeklySearch_result rule.DaysOfWeek fuel (t.AddDate 0 0 1) r
          (by have := AddDate_days_valid t ht 1; simpa using this) h
        have h1 := AddDate_days_succ t ht j
        rw [← hj] at h1
        rw [h1]
        exact hdays _ (by push_cast; omega)
    · split at h
      · split at h
        · rename_i hpos
          cases h
          obtain ⟨r, hr, hsum, hm1, hm12, hday, hh, hm, hs, hn, hl⟩ :=
            monthlyNext_spec rule t ht (by omega) hI
          rw [hr]
          rw [hr] at hv
          exact UnixNano_later_day t r
            (daysFromCivil_later_month t.date r.date ht.1 hv.1
              (by simp only [Time.date]; omega)) hh hm hs hn hl
        · cases h
          obtain ⟨y1, m1, hm1, hm12, hsum, he⟩ := AddDate_months t ht rule.Interval
          rw [he] at hv ⊢
          obtain ⟨k, hk⟩ := Int.eq_ofNat_of_zero_le (show 0 ≤ t.day - 1 by have h3 : 1 ≤ t.day := ht.1.2.2.1; omega)
          have hfirst : (⟨y1, m1, 1⟩ : CivilDate).Valid :=
            ⟨hm1, hm12, le_refl _, by have := daysIn_pos y1 m1; simp only; omega⟩
          have hit := (iterate_nextDay ⟨y1, m1, 1⟩ hfirst k).2
          have hmono := daysFromCivil_later_month t.date ⟨y1, m1, 1⟩ ht.1 hfirst
            (by simp only [Time.date]; omega)
          refine UnixNano_later_day t _ ?_ rfl rfl rfl rfl rfl
          simp only [Time.date]
          rw [hk, addDays_natCast]
          have hgoal : daysFromCivil (nextDay^[k] ⟨y1, m1, 1⟩) =
              daysFromCivil ⟨(nextDay^[k] ⟨y1, m1, 1⟩).year, (nextDay^[k] ⟨y1, m1, 1⟩).month,
                (nextDay^[k] ⟨y1, m1, 1⟩).day⟩ := rfl
          rw [← hgoal, hit]
          simp only [Time.date] at hmono
          omega
      · cases h; exact hdays _ hI

/-- Along a chain of due dates computed by `calculateNextDueDate` for a rule with an
    interval of at least one, each date is at least 24 hours after the one before. -/
theorem chain_later (inner : Nat) (rule : RecurrenceRule) (hI : 1 ≤ rule.Interval) :
    ∀ (rest : List Time) (due : Time), due.Valid →
      List.Chain (fun a b => calculateNextDueDate inner rule a = some b) due rest →
      List.Chain (fun a b : Time => a.UnixNano + 24 * Hour ≤ b.UnixNano) due rest := by
  intro rest
  induction rest with
  | nil => intro due _ _; exact List.Chain.nil
  | cons b bs ih =>
    intro due hv hc
    cases hc with
    | cons h1 h2 =>
      obtain ⟨hbv, hlater⟩ := calculateNextDueDate_later inner rule due b hv hI h1
      exact List.Chain.cons hlater (ih b hbv h2)

/-- A chain of dates, each at least 24 hours after the one before, none after a bound:
    its length times 24 hours fits between its start and the bound. -/
theorem chain_length_bound (bound : Int) :
    ∀ (rest : List Time) (due : Time),
      List.Chain (fun a b : Time => a.UnixNano + 24 * Hour ≤ b.UnixNano) due rest →
      (∀ x ∈ due :: rest, x.UnixNano ≤ bound) →
      (rest.length : Int) * (24 * Hour) ≤ bound - due.UnixNano := by
  intro rest
  induction rest with
  | nil =>
    intro due _ hb
    have := hb due (List.mem_cons_self _ _)
    simp only [List.length_nil, Nat.cast_zero, zero_mul]
    omega
  | cons b bs ih =>
    intro due hc hb
    cases hc with
    | cons h1 h2 =>
      have h3 := ih b h2 (fun x hx => hb x (List.mem_cons_of_mem _ hx))
      simp only [List.length_cons, Nat.cast_add, Nat.cast_one]
      have : ((bs.length : Int) + 1) * (24 * Hour)
          = (bs.length : Int) * (24 * Hour) + 24 * Hour := by ring
      omega

/-- A run of the loop that uses less than its fuel, for a rule on which
    `calculateNextDueDate` returns, has completed. -/
theorem recurringLoop_within_fuel (params : RecurringTaskWorkflowParams)
    (env : RecurringEnv) (inner : Nat)
    (htot : ∀ t : Time, t.Valid →
      ∃ r, calculateNextDueDate inner params.RecurrenceRule t = some r ∧ r.Valid) :
    ∀ (fuel count : Nat) (due : Time) (now : Int), due.Valid →
      (recurringLoop params env inner fuel count due now).trace.length < fuel →
      (recurringLoop params env inner fuel count due now).outcome = Outcome.completed := by
  intro fuel
  induction fuel with
  | zero => intro count due now _ h; omega
  | succ f ih =>
    intro count due now hv hlen
    rcases recurringLoop_step params env inner f count due now with
      ⟨-, e⟩ | ⟨-, -, a, -, ⟨hnone, -⟩ | ⟨next, hn, ⟨-, e⟩ | ⟨-, e⟩⟩⟩
    · rw [e]
    · obtain ⟨r, hr, -⟩ := htot due hv
      rw [hr] at hnone
      cases hnone
    · rw [e]
    · obtain ⟨r, hr, hrv⟩ := htot due hv
      rw [hr] at hn
      cases hn
      rw [e] at hlen ⊢
      simp only [List.length_cons] at hlen
      exact ih _ _ _ hrv (by omega)

/-- The due dates of a run: each is at least 24 hours after the one before. -/
theorem dueDates_later (fuel : Nat) (env : RecurringEnv)
    (params : RecurringTaskWorkflowParams) (hvalid : params.RecurrenceRule.StartDate.Valid)
    (hI : 1 ≤ params.RecurrenceRule.Interval) :
    dueDates (RecurringTaskWorkflow fuel env params) = [] ∨
    ∃ rest, dueDates (RecurringTaskWorkflow fuel env params)
        = params.RecurrenceRule.StartDate :: rest ∧
      List.Chain (fun a b : Time => a.UnixNano + 24 * Hour ≤ b.UnixNano)
        params.RecurrenceRule.StartDate rest := by
  rcases recurringLoop_chain params env fuel fuel 0 params.RecurrenceRule.StartDate env.start
    with h | ⟨rest, h1, h2⟩
  · exact Or.inl h
  · exact Or.inr ⟨rest, h1, chain_later fuel params.RecurrenceRule hI rest _ hvalid h2⟩

/-- The due dates of a run form a chain of `calculateNextDueDate`. -/
theorem dueDates_chain (fuel : Nat) (env : RecurringEnv)
    (params : RecurringTaskWorkflowParams) :
    List.Chain' (fun a b => calculateNextDueDate fuel params.RecurrenceRule a = some b)
      (dueDates (RecurringTaskWorkflow fuel env params)) := by
  rcases recurringLoop_chain params env fuel fuel 0 params.RecurrenceRule.StartDate env.start
    with h | ⟨rest, h1, h2⟩
  · unfold RecurringTaskWorkflow
    rw [h]
    exact List.chain'_nil
  · unfold RecurringTaskWorkflow
    rw [h1]
    exact h2

/-- The location of the date `calculateNextDueDate` returns is that of the current
    date. -/
theorem calculateNextDueDate_loc (fuel : Nat) (rule : RecurrenceRule) (t r : Time)
    (ht : t.Valid) (h : calculateNextDueDate fuel rule t = some r) : r.loc = t.loc := by
  unfold calculateNextDueDate at h
  split at h
  · cases h; rfl
  · split at h
    · split at h
      · cases h; rfl
      · obtain ⟨j, hj⟩ := weeklySearch_result rule.DaysOfWeek fuel (t.AddDate 0 0 1) r
          (by have := AddDate_days_valid t ht 1; simpa using this) h
        rw [hj]
        rfl
    · split at h
      · split at h
        · cases h; rfl
        · cases h; rfl
      · cases h; rfl

/-- Along a chain of due dates every date is valid, in the location of the first, and not
    before the first. -/
theorem chain_invariant (inner : Nat) (rule : RecurrenceRule) (hI : 1 ≤ rule.Interval) :
    ∀ (rest : List Time) (due : Time), due.Valid →
      List.Chain (fun a b => calculateNextDueDate inner rule a = some b) due rest →
      ∀ x ∈ due :: rest, x.Valid ∧ x.loc = due.loc ∧ due.UnixNano ≤ x.UnixNano := by
  intro rest
  induction rest with
  | nil =>
    intro due hv _ x hx
    rw [List.mem_singleton] at hx
    subst hx
    exact ⟨hv, rfl, le_refl _⟩
  | cons b bs ih =>
    intro due hv hc x hx
    cases hc with
    | cons h1 h2 =>
      obtain ⟨hbv, hlater⟩ := calculateNextDueDate_later inner rule due b hv hI h1
      have hloc := calculateNextDueDate_loc inner rule due b hv h1
      rcases List.mem_cons.1 hx with hx | hx
      · subst hx
        exact ⟨hv, rfl, le_refl _⟩
      · obtain ⟨xv, xl, xu⟩ := ih b hbv h2 x hx
        have h24 : (0 : Int) < 24 * Hour := by decide
        exact ⟨xv, xl.trans hloc, by omega⟩

/-- A valid time that is not before another valid time of the same location is not in an
    earlier year. -/
theorem year_le_of_UnixNano_le (s x : Time) (hs : s.Valid) (hx : x.Valid)
    (hloc : x.loc = s.loc) (h : s.UnixNano ≤ x.UnixNano) : s.year ≤ x.year := by
  obtain ⟨a1, a2⟩ := daysFromCivil_year s.date hs.1
  obtain ⟨b1, b2⟩ := daysFromCivil_year x.date hx.1
  obtain ⟨-, sh0, sh1, sm0, sm1, ss0, ss1, sn0, sn1⟩ := hs
  obtain ⟨-, xh0, xh1, xm0, xm1, xs0, xs1, xn0, xn1⟩ := hx
  simp only [Time.UnixNano, hloc] at h
  simp only [Time.date] at a1 a2 b1 b2 h
  by_contra hlt
  have := daysBeforeYear_le (x.year + 1) s.year (by omega)
  omega

/-- A valid time that is not after another valid time, both in locations at most a day
    from UTC, is at most one year beyond the year of the other. -/
theorem year_le_succ_of_UnixNano_le (x e : Time) (hx : x.Valid) (he : e.Valid)
    (hox : -86400 ≤ x.loc.offset ∧ x.loc.offset ≤ 86400)
    (hoe : -86400 ≤ e.loc.offset ∧ e.loc.offset ≤ 86400)
    (h : x.UnixNano ≤ e.UnixNano) : x.year ≤ e.year + 1 := by
  obtain ⟨a1, a2⟩ := daysFromCivil_year e.date he.1
  obtain ⟨b1, b2⟩ := daysFromCivil_year x.date hx.1
  obtain ⟨-, eh0, eh1, em0, em1, es0, es1, en0, en1⟩ := he
  obtain ⟨-, xh0, xh1, xm0, xm1, xs0, xs1, xn0, xn1⟩ := hx
  simp only [Time.UnixNano] at h
  simp only [Time.date] at a1 a2 b1 b2 h
  by_contra hgt
  have := daysBeforeYear_le (e.year + 1) x.year (by omega)
  omega

/-- The claim C26 as worded fails on a 64-bit platform: with the largest `int` as
    interval, the monthly rule `hugeMonthlyRule` leads from 2025-01-31 00:00 UTC to
    2024-12-27 21:07:12 UTC and the daily rule `hugeDailyRule` to 2025-01-30 00:00 UTC;
    neither date is later than the current date. -/
theorem huge_interval_not_later :
    1 ≤ hugeMonthlyRule.Interval ∧ hugeMonthlyRule.Type_ = "monthly"
    ∧ 1 ≤ hugeDailyRule.Interval ∧ hugeDailyRule.Type_ = "daily"
    ∧ Machine.calculateNextDueDate 7 hugeMonthlyRule (midnight 2025 1 31)
        = some ⟨2024, 12, 27, 21, 7, 12, 0, UTC⟩
    ∧ (Time.mk 2024 12 27 21 7 12 0 UTC).After (midnight 2025 1 31) = false
    ∧ Machine.calculateNextDueDate 7 hugeDailyRule (midnight 2025 1 31)
        = some (midnight 2025 1 30)
    ∧ (midnight 2025 1 30).After (midnight 2025 1 31) = false := by
  decide

/-- Claim C26 (amended): for a rule with `1 <= Interval <= 1000000000` that is not a
    weekly rule whose non-empty day list lacks every value in 0..6, and every current
    date in a year from -1000000000 to 1000000000, `calculateNextDueDate` returns on a
    64-bit platform (with fuel of at least 7 for the weekly search) a date strictly after
    the current date; in every run, a due date in those years is followed by the date
    `calculateNextDueDate` returns for it, which is strictly later; and when the start
    date is not before the year -1000000000 and the end date is before the year
    1000000000, both in locations at most a day from UTC, there is a bound on the number
    of occurrences of every run, a run with more fuel than the bound completes, and all
    its due dates lie in those years. -/
theorem due_dates_strictly_increase (rule : RecurrenceRule) (hvalid : rule.StartDate.Valid)
    (hI : 1 ≤ rule.Interval) (hmax : rule.Interval ≤ 1000000000)
    (hterm : rule.Type_ = "weekly" →
      rule.DaysOfWeek = [] ∨ ∃ d ∈ rule.DaysOfWeek, 0 ≤ d ∧ d ≤ 6) :
    (∀ (t : Time), t.Valid → -1000000000 ≤ t.year → t.year ≤ 1000000000 →
      ∀ fuel, 7 ≤ fuel →
      ∃ r, Machine.calculateNextDueDate fuel rule t = some r ∧ r.After t = true)
    ∧ (∀ (fuel : Nat) (env : RecurringEnv) (params : RecurringTaskWorkflowParams),
        params.RecurrenceRule = rule →
        List.Chain' (fun a b : Time => -1000000000 ≤ a.year → a.year ≤ 1000000000 →
            Machine.calculateNextDueDate fuel rule a = some b ∧ b.After a = true)
          (dueDates (RecurringTaskWorkflow fuel env params)))
    ∧ (∀ e, rule.EndDate = some e → e.Valid →
        -1000000000 ≤ rule.StartDate.year → e.year < 1000000000 →
        (-86400 ≤ rule.StartDate.loc.offset ∧ rule.StartDate.loc.offset ≤ 86400) →
        (-86400 ≤ e.loc.offset ∧ e.loc.offset ≤ 86400) →
        ∃ N : Nat, ∀ (fuel : Nat) (env : RecurringEnv) (params : RecurringTaskWorkflowParams),
          params.RecurrenceRule = rule →
          (RecurringTaskWorkflow fuel env params).trace.length ≤ N
          ∧ (N + 7 ≤ fuel →
              (RecurringTaskWorkflow fuel env params).outcome = Outcome.completed)
          ∧ (∀ x ∈ dueDates (RecurringTaskWorkflow fuel env params),
              -1000000000 ≤ x.year ∧ x.year ≤ 1000000000)) := by
  have h24 : (0 : Int) < 24 * Hour := by decide
  refine ⟨?_, ?_, ?_⟩
  · intro t ht hy1 hy2 fuel hfuel
    obtain ⟨r, hr, -⟩ := calculateNextDueDate_total rule hterm fuel hfuel t ht
    obtain ⟨-, hl⟩ := calculateNextDueDate_later fuel rule t r ht hI hr
    refine ⟨r, ?_, by simp only [Time.After, decide_eq_true_eq]; omega⟩
    rw [machine_calculateNextDueDate_eq fuel rule t ht ⟨by omega, by omega⟩
      ⟨by omega, by omega⟩, hr]
  · intro fuel env params hp
    subst hp
    have hchain := dueDates_chain fuel env params
    rcases dueDates_later fuel env params hvalid hI with h | ⟨rest, h1, -⟩
    · rw [h]; exact List.chain'_nil
    · rw [h1] at hchain ⊢
      have hinv := chain_invariant fuel params.RecurrenceRule hI rest _ hvalid hchain
      have key : ∀ (l : List Time),
          (∀ x ∈ l, x.Valid) →
          List.Chain' (fun a b => calculateNextDueDate fuel params.RecurrenceRule a = some b) l →
          List.Chain' (fun a b : Time => -1000000000 ≤ a.year → a.year ≤ 1000000000 →
            Machine.calculateNextDueDate fuel params.RecurrenceRule a = some b
              ∧ b.After a = true) l := by
        intro l hl hc
        refine (List.Chain'.iff_mem.1 hc).imp ?_
        intro a b ⟨ha, _, hab⟩ hy1 hy2
        obtain ⟨-, hlater⟩ := calculateNextDueDate_later fuel params.RecurrenceRule a b
          (hl a ha) hI hab
        refine ⟨?_, by simp only [Time.After, decide_eq_true_eq]; omega⟩
        rw [machine_calculateNextDueDate_eq fuel params.RecurrenceRule a (hl a ha)
          ⟨by omega, by omega⟩ ⟨by omega, by omega⟩, hab]
      exact key _ (fun x hx => (hinv x hx).1) hchain
  · intro e he hev hs1 he1 hos hoe
    refine ⟨((e.UnixNano - rule.StartDate.UnixNano) / (24 * Hour) + 1).toNat, ?_⟩
    intro fuel env params hp
    subst hp
    have hall : ∀ x ∈ dueDates (RecurringTaskWorkflow fuel env params),
        x.UnixNano ≤ e.UnixNano := by
      intro x hx
      simp only [dueDates, List.mem_map] at hx
      obtain ⟨rec, hrec, rfl⟩ := hx
      obtain ⟨i, hi, rfl⟩ := List.getElem_of_mem hrec
      obtain ⟨a, d, t, -, hrec2, hend, -⟩ := recurringLoop_records params env fuel fuel 0
        params.RecurrenceRule.StartDate env.start i hi
      have hrec3 : (RecurringTaskWorkflow fuel env params).trace[i]
          = iteration params env (0 + i) d a t := hrec2
      rw [hrec3]
      simp only [endReached, he, Time.After, decide_eq_false_iff_not, not_lt] at hend
      simpa [iteration, mkRequest] using hend
    have hbound : (RecurringTaskWorkflow fuel env params).trace.length
        ≤ ((e.UnixNano - params.RecurrenceRule.StartDate.UnixNano) / (24 * Hour) + 1).toNat := by
      rw [← dueDates_length]
      rcases dueDates_later fuel env params hvalid hI with h | ⟨rest, h1, h2⟩
      · rw [h]; simp
      · rw [h1] at hall ⊢
        have hlen := chain_length_bound e.UnixNano rest _ h2 hall
        have hdiv : (rest.length : Int)
            ≤ (e.UnixNano - params.RecurrenceRule.StartDate.UnixNano) / (24 * Hour) :=
          Int.le_ediv_of_mul_le h24 hlen
        simp only [List.length_cons]
        omega
    refine ⟨hbound, ?_, ?_⟩
    · intro hfuel
      exact recurringLoop_within_fuel params env fuel
        (fun t ht => calculateNextDueDate_total params.RecurrenceRule hterm fuel (by omega) t ht)
        fuel 0 _ _ hvalid (by
          have : (RecurringTaskWorkflow fuel env params).trace.length < fuel := by omega
          exact this)
    · intro x hx
      have hchain := dueDates_chain fuel env params
      rcases dueDates_later fuel env params hvalid hI with h | ⟨rest, h1, -⟩
      · rw [h] at hx; simp at hx
      · rw [h1] at hchain hx
        obtain ⟨xv, xl, xu⟩ :=
          chain_invariant fuel params.RecurrenceRule hI rest _ hvalid hchain x hx
        have hle := hall x (by rw [h1]; exact hx)
        have y1 := year_le_of_UnixNano_le _ x hvalid xv xl xu
        have y2 := year_le_succ_of_UnixNano_le x e xv hev (by rw [xl]; exact hos) hoe hle
        constructor <;> omega

/-- Claim C26 (amended) on the daily rule from 2025-01-01 with end date 2025-01-03. -/
theorem due_dates_strictly_increase_witness :
    (∀ (t : Time), t.Valid → -1000000000 ≤ t.year → t.year ≤ 1000000000 →
      ∀ fuel, 7 ≤ fuel →
      ∃ r, Machine.calculateNextDueDate fuel endingRule t = some r ∧ r.After t = true)
    ∧ (∀ (fuel : Nat) (env : RecurringEnv) (params : RecurringTaskWorkflowParams),
        params.RecurrenceRule = endingRule →
        List.Chain' (fun a b : Time => -1000000000 ≤ a.year → a.year ≤ 1000000000 →
            Machine.calculateNextDueDate fuel endingRule a = some b ∧ b.After a = true)
          (dueDates (RecurringTaskWorkflow fuel env params)))
    ∧ (∀ e, endingRule.EndDate = some e → e.Valid →
        -1000000000 ≤ endingRule.StartDate.year → e.year < 1000000000 →
        (-86400 ≤ endingRule.StartDate.loc.offset ∧ endingRule.StartDate.loc.offset ≤ 86400) →
        (-86400 ≤ e.loc.offset ∧ e.loc.offset ≤ 86400) →
        ∃ N : Nat, ∀ (fuel : Nat) (env : RecurringEnv) (params : RecurringTaskWorkflowParams),
          params.RecurrenceRule = endingRule →
          (RecurringTaskWorkflow fuel env params).trace.length ≤ N
          ∧ (N + 7 ≤ fuel →
              (RecurringTaskWorkflow fuel env params).outcome = Outcome.completed)
          ∧ (∀ x ∈ dueDates (RecurringTaskWorkflow fuel env params),
              -1000000000 ≤ x.year ∧ x.year ≤ 1000000000)) :=
  due_dates_strictly_increase endingRule (by decide) (by decide) (by decide) (by decide)


/-! ### Claim C29: reminder children and failed creations -/

/-- Claim C29: in every run of `RecurringTaskWorkflow` the request at position k (counted
    from 1) carries the id suffix k, whether or not earlier activities failed; the
    reminder child workflow of an occurrence is started exactly when reminders are enabled
    and its `CreateTaskOccurrence` succeeded, and it is the child of that occurrence; the
    due date of the next request is computed from the one before, whether or not the
    activity failed; and no run returns an error. -/
theorem reminder_child_iff_created (fuel : Nat) (env : RecurringEnv)
    (params : RecurringTaskWorkflowParams) :
    (∀ msg, (RecurringTaskWorkflow fuel env params).outcome ≠ Outcome.failed msg)
    ∧ ∀ (i : Nat) (h : i < (RecurringTaskWorkflow fuel env params).trace.length),
      ((RecurringTaskWorkflow fuel env params).trace[i]).failed = env.createFails i
      ∧ ((RecurringTaskWorkflow fuel env params).trace[i]).request.Occurrence.OccurrenceID
          = params.TaskID ++ "_" ++ toString (i + 1)
      ∧ ((((RecurringTaskWorkflow fuel env params).trace[i]).child.isSome = true)
          ↔ (params.ReminderSettings.Enabled = true ∧ env.createFails i = false))
      ∧ (∀ c, ((RecurringTaskWorkflow fuel env params).trace[i]).child = some c →
          c = mkChild params
            ((RecurringTaskWorkflow fuel env params).trace[i]).request.Occurrence)
      ∧ ∀ (h2 : i + 1 < (RecurringTaskWorkflow fuel env params).trace.length),
          calculateNextDueDate fuel params.RecurrenceRule
            ((RecurringTaskWorkflow fuel env params).trace[i]).request.Occurrence.DueDate
          = some ((RecurringTaskWorkflow fuel env params).trace[i + 1]).request.Occurrence.DueDate := by
  refine ⟨fun msg => recurringLoop_no_error params env fuel fuel 0 _ _ msg, ?_⟩
  intro i h
  obtain ⟨a, d, t, -, he, -, -⟩ := recurringLoop_records params env fuel fuel 0
    params.RecurrenceRule.StartDate env.start i h
  rw [Nat.zero_add] at he
  have hrec : (RecurringTaskWorkflow fuel env params).trace[i] = iteration params env i d a t := he
  refine ⟨?_, ?_, ?_, ?_, ?_⟩
  · rw [hrec]; rfl
  · rw [hrec]; simp [iteration, mkRequest]
  · rw [hrec]
    simp only [iteration]
    cases env.createFails i <;> cases params.ReminderSettings.Enabled <;> simp
  · intro c hc
    rw [hrec] at hc ⊢
    simp only [iteration] at hc ⊢
    split at hc
    · cases hc; rfl
    · cases hc
  · intro h2
    have hch := List.chain'_iff_get.1 (dueDates_chain fuel env params) i
      (by rw [dueDates_length]; omega)
    simpa [dueDates] using hch

/-- Claim C29 on a daily task of three occurrences with reminders enabled whose second
    `CreateTaskOccurrence` fails: the run completes with the ids task_1, task_2, task_3
    and starts the reminder children of the first and the third occurrence only. -/
theorem reminder_child_iff_created_witness :
    (∀ msg, (RecurringTaskWorkflow 10 secondFailsEnv remindedParams).outcome
        ≠ Outcome.failed msg)
    ∧ (RecurringTaskWorkflow 10 secondFailsEnv remindedParams).outcome = Outcome.completed
    ∧ (RecurringTaskWorkflow 10 secondFailsEnv remindedParams).trace.map
        (fun x => (x.request.Occurrence.OccurrenceID, x.failed, x.child.map Prod.fst))
      = [("task_1", false, some "task-reminders-task_1"), ("task_2", true, none),
         ("task_3", false, some "task-reminders-task_3")]
    ∧ dueDates (RecurringTaskWorkflow 10 secondFailsEnv remindedParams)
      = [midnight 2025 1 1, midnight 2025 1 2, midnight 2025 1 3] :=
  ⟨(reminder_child_iff_created 10 secondFailsEnv remindedParams).1, by decide, by decide,
    by decide⟩


/-! ### Claim C30: the page bounds of `GetTasks` -/

/-- For a limit and an offset that are not negative and whose sum is an `int` the bounds
    of `GetTasks` are in range and the page is the part of the list that starts at the
    offset and holds at most `limit` tasks. -/
theorem pageBounds_nonneg {α : Type} (s : List α) (limit offset : Int) (hl : 0 ≤ limit)
    (ho : 0 ≤ offset) (hsum : offset + limit < 9223372036854775808) :
    0 ≤ (pageBounds s.length limit offset).1
    ∧ (pageBounds s.length limit offset).1 ≤ (pageBounds s.length limit offset).2
    ∧ (pageBounds s.length limit offset).2 ≤ s.length
    ∧ sliceExpr s (pageBounds s.length limit offset).1 (pageBounds s.length limit offset).2
        = Except.ok ((s.drop offset.toNat).take limit.toNat) := by
  have hb : 0 ≤ (pageBounds s.length limit offset).1
      ∧ (pageBounds s.length limit offset).1 ≤ (pageBounds s.length limit offset).2
      ∧ (pageBounds s.length limit offset).2 ≤ s.length := by
    simp only [pageBounds, wrapInt_of_range (offset + limit) (by omega) hsum]
    split_ifs <;> omega
  refine ⟨hb.1, hb.2.1, hb.2.2, ?_⟩
  rw [sliceExpr, if_pos hb]
  congr 1
  obtain ⟨o, rfl⟩ := Int.eq_ofNat_of_zero_le ho
  obtain ⟨l, rfl⟩ := Int.eq_ofNat_of_zero_le hl
  simp only [pageBounds, Int.toNat_ofNat, wrapInt_of_range ((o : Int) + l) (by omega) hsum]
  by_cases h1 : (o : Int) > s.length
  · have h2 : (o : Int) + l > s.length := by omega
    rw [if_pos h1, if_pos h2]
    simp only [Int.toNat_ofNat, Nat.sub_self, List.take_zero]
    rw [List.drop_eq_nil_of_le (by omega), List.take_nil]
  · rw [if_neg h1]
    by_cases h2 : (o : Int) + l > s.length
    · rw [if_pos h2]
      simp only [Int.toNat_ofNat]
      rw [List.take_of_length_le (by rw [List.length_drop]),
        List.take_of_length_le (by rw [List.length_drop]; omega)]
    · rw [if_neg h2]
      have e : ((o : Int) + l).toNat - ((o : Int)).toNat = l := by omega
      rw [e, Int.toNat_ofNat]

/-- For a limit and an offset that are not negative and whose sum is an `int`, `GetTasks`
    answers with the page of at most `limit` tasks that starts at the offset of the
    filtered list. -/
theorem getTasks_nonneg (id : String) (now : Int) (status : String) (limit offset : Int)
    (hl : 0 ≤ limit) (ho : 0 ≤ offset) (hsum : offset + limit < 9223372036854775808) :
    GetTasks (some id) now status limit offset
      = TasksResponse.ok
          { tasks := ((filterByStatus (mockTasks id now) status).drop offset.toNat).take
              limit.toNat,
            total := (filterByStatus (mockTasks id now) status).length,
            limit := limit, offset := offset } := by
  simp only [GetTasks]
  rw [(pageBounds_nonneg (filterByStatus (mockTasks id now) status) limit offset hl ho
    hsum).2.2.2]

/-- With the largest `int` as limit and the offset 1 the sum wraps to the smallest `int`:
    the upper bound is below the lower bound and the slice expression panics. -/
theorem huge_limit_out_of_range :
    pageBounds 3 9223372036854775807 1 = (1, -9223372036854775808)
    ∧ GetTasks (some "household-001") 0 "" 9223372036854775807 1
        = TasksResponse.panicked "slice bounds out of range" := by
  decide

/-- Claim C30 fails in the code: with the offset -1 (and the default limit 50, no status
    filter) `GetTasks` computes the lower bound -1 and the upper bound 3 for its three
    tasks, and the slice expression panics; so it does with the limit -1 at the offset 2,
    where the upper bound 1 is below the lower bound 2. -/
theorem negative_offset_out_of_range :
    pageBounds 3 50 (-1) = (-1, 3)
    ∧ GetTasks (some "household-001") 0 "" 50 (-1)
        = TasksResponse.panicked "slice bounds out of range"
    ∧ pageBounds 3 (-1) 2 = (2, 1)
    ∧ GetTasks (some "household-001") 0 "" (-1) 2
        = TasksResponse.panicked "slice bounds out of range" := by
  decide


/-! ### Claim C25: strong passwords -/

/-- The flags after the loop: a flag is set when it was set before or the switch sets it
    for some character. -/
theorem classify_foldl (tables : UnicodeTables) :
    ∀ (l : List Char) (flags : PasswordFlags),
      l.foldl (classify tables) flags =
        { hasUpper := flags.hasUpper || l.any (fun c => isUpper tables c)
          hasLower := flags.hasLower
            || l.any (fun c => !isUpper tables c && isLower tables c)
          hasNumber := flags.hasNumber
            || l.any (fun c => !isUpper tables c && !isLower tables c && isNumber tables c)
          hasSpecial := flags.hasSpecial
            || l.any (fun c => !isUpper tables c && !isLower tables c && !isNumber tables c
                && (isPunct tables c || isSymbol tables c)) } := by
  intro l
  induction l with
  | nil => intro flags; simp
  | cons c cs ih =>
    intro flags
    rw [List.foldl_cons, ih]
    simp only [classify, List.any_cons]
    cases isUpper tables c <;> cases isLower tables c <;> cases isNumber tables c <;>
      cases isPunct tables c <;> cases isSymbol tables c <;> simp [Bool.or_assoc]

/-- What `validateStrongPassword` accepts: the passwords of at least 8 bytes that hold an
    uppercase letter, a lowercase letter, a number and a punctuation or symbol character
    (each counted in the first of these classes it belongs to). -/
theorem validateStrongPassword_iff (tables : UnicodeTables) (password : String) :
    validateStrongPassword tables password = true ↔
      8 ≤ password.utf8ByteSize
      ∧ (∃ c ∈ password.toList, isUpper tables c = true)
      ∧ (∃ c ∈ password.toList, isUpper tables c = false ∧ isLower tables c = true)
      ∧ (∃ c ∈ password.toList, isUpper tables c = false ∧ isLower tables c = false
          ∧ isNumber tables c = true)
      ∧ (∃ c ∈ password.toList, isUpper tables c = false ∧ isLower tables c = false
          ∧ isNumber tables c = false
          ∧ (isPunct tables c = true ∨ isSymbol tables c = true)) := by
  unfold validateStrongPassword
  by_cases h : password.utf8ByteSize < 8
  · simp [h]
  · simp only [h, if_false, classify_foldl, Bool.false_or, Bool.and_eq_true,
      List.any_eq_true, Bool.not_eq_true', Bool.or_eq_true]
    constructor
    · rintro ⟨⟨⟨h1, h2⟩, h3⟩, h4⟩
      refine ⟨by omega, h1, ?_, ?_, ?_⟩
      · obtain ⟨c, hc, h5⟩ := h2; exact ⟨c, hc, h5⟩
      · obtain ⟨c, hc, ⟨h5, h6⟩, h7⟩ := h3; exact ⟨c, hc, h5, h6, h7⟩
      · obtain ⟨c, hc, ⟨⟨h5, h6⟩, h7⟩, h8⟩ := h4; exact ⟨c, hc, h5, h6, h7, h8⟩
    · rintro ⟨-, h1, ⟨c2, hc2, h2⟩, ⟨c3, hc3, h3, h3', h3''⟩, ⟨c4, hc4, h4, h4', h4'', h4'''⟩⟩
      exact ⟨⟨⟨h1, c2, hc2, h2⟩, c3, hc3, ⟨h3, h3'⟩, h3''⟩, c4, hc4, ⟨⟨h4, h4'⟩, h4''⟩, h4'''⟩

/-- Claim C25 fails in the code: the password `Aa1!ééé` has seven characters, so fewer
    than eight, and is accepted: its UTF-8 encoding has ten bytes, and the length test of
    `validateStrongPassword` counts bytes. -/
theorem seven_characters_accepted :
    "Aa1!ééé".length = 7 ∧ "Aa1!ééé".utf8ByteSize = 10
    ∧ ∀ tables : UnicodeTables, validateStrongPassword tables "Aa1!ééé" = true := by
  refine ⟨by decide, by decide, ?_⟩
  intro tables
  rw [validateStrongPassword_iff]
  refine ⟨by decide, ⟨'A', by decide, rfl⟩, ⟨'a', by decide, rfl, rfl⟩,
    ⟨'1', by decide, rfl, rfl, rfl⟩, ⟨'!', by decide, rfl, rfl, rfl, Or.inl rfl⟩⟩

/-! ### Claim C22: events through JSON -/

/-- The character of a digit is a digit and denotes it. -/
theorem digitChar_spec (n : Nat) :
    isDigitChar (digitChar n) = true ∧ (digitChar n).toNat - 48 = n % 10 := by
  have h : n % 10 < 10 := Nat.mod_lt _ (by decide)
  unfold digitChar
  generalize n % 10 = r at h
  interval_cases r <;> exact ⟨by decide, by decide⟩

theorem digitsValue_append (a : List Char) (c : Char) :
    digitsValue (a ++ [c]) = digitsValue a * 10 + (c.toNat - 48) := by
  simp [digitsValue, List.foldl_append]

/-- The digits of a number in a width: all digits, as many as the width, and they denote
    the number modulo ten to the width. -/
theorem padDigits_spec : ∀ (width n : Nat),
    (padDigits width n).all isDigitChar = true ∧ (padDigits width n).length = width
    ∧ digitsValue (padDigits width n) = n % 10 ^ width := by
  intro width
  induction width with
  | zero => intro n; simp [padDigits, digitsValue, Nat.mod_one]
  | succ w ih =>
    intro n
    obtain ⟨h1, h2, h3⟩ := ih (n / 10)
    obtain ⟨d1, d2⟩ := digitChar_spec n
    refine ⟨?_, ?_, ?_⟩
    · simp only [padDigits, List.all_append, h1, List.all_cons, d1, List.all_nil, Bool.and_self]
    · simp [padDigits, h2]
    · rw [padDigits, digitsValue_append, h3, d2, pow_succ, Nat.mul_comm (10 ^ w) 10,
        Nat.mod_mul]
      omega

/-- The helper `parseUint` reads the digits of a number in a width back. -/
theorem parseUint_padDigits (width n lo hi : Nat) (hn : n < 10 ^ width) (hlo : lo ≤ n)
    (hhi : n ≤ hi) : parseUint (padDigits width n) lo hi = some n := by
  obtain ⟨h1, -, h3⟩ := padDigits_spec width n
  rw [Nat.mod_eq_of_lt hn] at h3
  simp [parseUint, h1, h3, hlo, hhi]

theorem padDigits_two (n : Nat) : padDigits 2 n = [digitChar (n / 10), digitChar n] := rfl

theorem padDigits_four (n : Nat) :
    padDigits 4 n
      = [digitChar (n / 10 / 10 / 10), digitChar (n / 10 / 10), digitChar (n / 10),
         digitChar n] := rfl

/-- A list of digits followed by zeros denotes the number of the digits times a power of
    ten. -/
theorem digitsValue_zeros (l : List Char) (k : Nat) :
    digitsValue (l ++ List.replicate k '0') = digitsValue l * 10 ^ k := by
  induction k with
  | zero => simp
  | succ k ih =>
    rw [List.replicate_succ', ← List.append_assoc, digitsValue_append, ih, pow_succ]
    have : ('0' : Char).toNat - 48 = 0 := by decide
    rw [this]
    ring

/-- A list is its part without the zeros at the end, followed by zeros. -/
theorem trimZeros_spec (s : List Char) :
    s = trimZeros s ++ List.replicate (s.length - (trimZeros s).length) '0' := by
  have h := List.takeWhile_append_dropWhile (fun c => c == '0') s.reverse
  have hz : List.takeWhile (fun c => c == '0') s.reverse
      = List.replicate (List.takeWhile (fun c => c == '0') s.reverse).length '0' := by
    apply List.eq_replicate_iff.2
    refine ⟨rfl, ?_⟩
    intro b hb
    have := List.mem_takeWhile_imp hb
    simpa using this
  have hs : s = (List.dropWhile (fun c => c == '0') s.reverse).reverse
      ++ (List.takeWhile (fun c => c == '0') s.reverse).reverse := by
    rw [← List.reverse_append, h, List.reverse_reverse]
  have hlen : s.length = (List.dropWhile (fun c => c == '0') s.reverse).length
      + (List.takeWhile (fun c => c == '0') s.reverse).length := by
    have := congrArg List.length h
    simp only [List.length_append, List.length_reverse] at this
    omega
  unfold trimZeros
  rw [List.length_reverse]
  have e : s.length - (List.dropWhile (fun c => c == '0') s.reverse).length
      = (List.takeWhile (fun c => c == '0') s.reverse).length := by omega
  rw [e, ← List.reverse_replicate, ← hz]
  exact hs

/-- The digits at the head of a list of digits that another character follows. -/
theorem leadingDigits_append (l : List Char) (c : Char) (r : List Char)
    (hl : l.all isDigitChar = true) (hc : isDigitChar c = false) :
    leadingDigits (l ++ c :: r) = (l, c :: r) := by
  induction l with
  | nil => simp [leadingDigits, hc]
  | cons d ds ih =>
    simp only [List.all_cons, Bool.and_eq_true] at hl
    simp [leadingDigits, hl.1, ih hl.2]

/-- The fractional second of the layout is read back, up to the zone `Z`. -/
theorem parseFraction_fractionChars (nsec : Nat) (h : nsec < 1000000000) :
    parseFraction (fractionChars nsec ++ ['Z']) = (nsec, ['Z']) := by
  unfold fractionChars
  by_cases h0 : nsec = 0
  · subst h0
    rfl
  · rw [if_neg h0]
    obtain ⟨h1, h2, h3⟩ := padDigits_spec 9 nsec
    rw [Nat.mod_eq_of_lt (by norm_num; exact h)] at h3
    have hsplit := trimZeros_spec (padDigits 9 nsec)
    generalize hT : trimZeros (padDigits 9 nsec) = T at hsplit
    rw [h2] at hsplit
    have hTd : T.all isDigitChar = true := by
      rw [hsplit, List.all_append] at h1
      simp only [Bool.and_eq_true] at h1
      exact h1.1
    have hTlen : T.length ≤ 9 := by
      have := congrArg List.length hsplit
      simp only [List.length_append, List.length_replicate, h2] at this
      omega
    have hval : digitsValue T * 10 ^ (9 - T.length) = nsec := by
      rw [← digitsValue_zeros, ← hsplit, h3]
    cases T with
    | nil =>
      simp [digitsValue] at hval
      omega
    | cons c cs =>
      simp only [List.all_cons, Bool.and_eq_true] at hTd
      have hlead := leadingDigits_append (c :: cs) 'Z' [] (by simp [hTd.1, hTd.2]) (by decide)
      simp only [List.cons_append] at hlead ⊢
      simp only [parseFraction, hTd.1, if_true, hlead]
      rw [List.take_of_length_le hTlen, hval]

/-- A valid time in UTC with a year in 0..9999 is written by `Time.MarshalJSON` in the
    layout `RFC3339Nano`, and `Time.UnmarshalJSON` reads that text back as the same
    time. -/
theorem time_json_roundtrip (t : Time) (hv : t.Valid) (hloc : t.loc = UTC)
    (hy0 : 0 ≤ t.year) (hy1 : t.year ≤ 9999) :
    t.MarshalJSON = Except.ok t.formatRFC3339Nano
    ∧ Time.UnmarshalJSON t.formatRFC3339Nano = Except.ok t := by
  obtain ⟨⟨hm1, hm2, hd1, hd2⟩, hh0, hh1, hmi0, hmi1, hs0, hs1, hn0, hn1⟩ := hv
  simp only [Time.date] at hm1 hm2 hd1 hd2
  obtain ⟨year, month, day, hour, minute, second, nanosecond, loc⟩ := t
  simp only at hm1 hm2 hd1 hd2 hh0 hh1 hmi0 hmi1 hs0 hs1 hn0 hn1 hy0 hy1 hloc
  subst hloc
  obtain ⟨Y, rfl⟩ := Int.eq_ofNat_of_zero_le hy0
  obtain ⟨M, rfl⟩ := Int.eq_ofNat_of_zero_le (show 0 ≤ month by omega)
  obtain ⟨D, rfl⟩ := Int.eq_ofNat_of_zero_le (show 0 ≤ day by omega)
  obtain ⟨h, rfl⟩ := Int.eq_ofNat_of_zero_le hh0
  obtain ⟨mi, rfl⟩ := Int.eq_ofNat_of_zero_le hmi0
  obtain ⟨s, rfl⟩ := Int.eq_ofNat_of_zero_le hs0
  obtain ⟨ns, rfl⟩ := Int.eq_ofNat_of_zero_le hn0
  have hdim := daysIn_pos (Y : Int) (M : Int)
  constructor
  · have hy : ¬ ((Y : Int) < 0 ∨ (Y : Int) ≥ 10000) := by omega
    simp [Time.MarshalJSON, hy, UTC]
    omega
  · have eY : parseUint [digitChar (Y / 10 / 10 / 10), digitChar (Y / 10 / 10),
        digitChar (Y / 10), digitChar Y] 0 9999 = some Y :=
      parseUint_padDigits 4 Y 0 9999 (by norm_num; omega) (by omega) (by omega)
    have eM : parseUint [digitChar (M / 10), digitChar M] 1 12 = some M :=
      parseUint_padDigits 2 M 1 12 (by norm_num; omega) (by omega) (by omega)
    have eD : parseUint [digitChar (D / 10), digitChar D] 1 (daysIn (Y : Int) (M : Int)).toNat
        = some D :=
      parseUint_padDigits 2 D 1 _ (by norm_num; omega) (by omega) (by omega)
    have eh : parseUint [digitChar (h / 10), digitChar h] 0 23 = some h :=
      parseUint_padDigits 2 h 0 23 (by norm_num; omega) (by omega) (by omega)
    have emi : parseUint [digitChar (mi / 10), digitChar mi] 0 59 = some mi :=
      parseUint_padDigits 2 mi 0 59 (by norm_num; omega) (by omega) (by omega)
    have es : parseUint [digitChar (s / 10), digitChar s] 0 59 = some s :=
      parseUint_padDigits 2 s 0 59 (by norm_num; omega) (by omega) (by omega)
    have efrac := parseFraction_fractionChars ns (by omega)
    have edate : Date (Y : Int) M D h mi s ns UTC = ⟨Y, M, D, h, mi, s, ns, UTC⟩ :=
      Date_valid _ _ _ _ _ _ _ _ ⟨hm1, hm2⟩ ⟨hd1, hd2⟩ ⟨hh0, hh1⟩ ⟨hmi0, hmi1⟩ ⟨hs0, hs1⟩
        ⟨hn0, hn1⟩
    simp only [Time.UnmarshalJSON, Time.formatRFC3339Nano, Int.toNat_ofNat, padDigits_four,
      padDigits_two, zoneChars, UTC, if_true, List.cons_append, List.nil_append,
      String.toList]
    simp only [parseRFC3339, eY, eM, eD, eh, emi, es, and_self, if_true, efrac, parseZone]
    rw [edate]

theorem hexValue_hexDigit (n : Nat) (h : n < 16) : hexValue (hexDigit n) = some n := by
  interval_cases n <;> decide

/-- The bytes of a character that `decodeRune` reads at a byte outside ASCII: there are two
    to four of them, none is an ASCII byte, `encodeRune` writes them for the character,
    and `decodeRune` reads them whatever follows. -/
theorem decodeRune_spec (b : Nat) (rest : List Nat) (hb : 128 ≤ b)
    (hv : ¬ ((decodeRune (b :: rest)).1 = runeError ∧ (decodeRune (b :: rest)).2 = 1)) :
    ∃ l tail, b :: rest = l ++ tail ∧ l.length = (decodeRune (b :: rest)).2
      ∧ 1 ≤ l.length ∧ (∀ c ∈ l, 128 ≤ c)
      ∧ encodeRune (decodeRune (b :: rest)).1 = l
      ∧ 128 ≤ (decodeRune (b :: rest)).1
      ∧ ∀ tail2, decodeRune (l ++ tail2) = decodeRune (b :: rest) := by
  have h0 : ¬ b < 128 := by omega
  by_cases h2 : 194 ≤ b ∧ b ≤ 223
  · cases rest with
    | nil => simp [decodeRune, h0, h2] at hv
    | cons b1 r1 =>
      by_cases c1 : 128 ≤ b1 ∧ b1 ≤ 191
      · refine ⟨[b, b1], r1, rfl, ?_, by simp, ?_, ?_, ?_, ?_⟩
        · simp [decodeRune, h0, h2, c1]
        · intro c hc
          simp at hc
          omega
        · simp only [decodeRune, h0, h2, c1, if_true, if_false, and_self, encodeRune]
          have e1 : ¬ b % 32 * 64 + b1 % 64 < 128 := by omega
          have e2 : b % 32 * 64 + b1 % 64 < 2048 := by omega
          rw [if_neg e1, if_pos e2]
          congr 1
          · omega
          · congr 1
            omega
        · simp only [decodeRune, h0, h2, c1, if_true, if_false, and_self]
          omega
        · intro tail2
          simp [decodeRune, h0, h2, c1]
      · simp [decodeRune, h0, h2, c1] at hv
  · by_cases h3 : 224 ≤ b ∧ b ≤ 239
    · match rest with
      | [] => simp [decodeRune, h0, h2, h3] at hv
      | [_] => simp [decodeRune, h0, h2, h3] at hv
      | b1 :: b2 :: r2 =>
        by_cases c1 : (if b = 224 then 160 else 128) ≤ b1 ∧ b1 ≤ (if b = 237 then 159 else 191)
            ∧ 128 ≤ b2 ∧ b2 ≤ 191
        · have hd : decodeRune (b :: b1 :: b2 :: r2)
              = (b % 16 * 4096 + b1 % 64 * 64 + b2 % 64, 3) := by
            simp only [decodeRune, h0, h2, h3, if_true, if_false, and_self]
            rw [if_pos c1]
          have hb1 : 128 ≤ b1 ∧ b1 ≤ 191 := by
            obtain ⟨x1, x2, -, -⟩ := c1
            split_ifs at x1 x2 <;> omega
          have hr1 : 2048 ≤ b % 16 * 4096 + b1 % 64 * 64 + b2 % 64 := by
            obtain ⟨x1, x2, -, -⟩ := c1
            split_ifs at x1 x2 <;> omega
          have hr2 : ¬ (55296 ≤ b % 16 * 4096 + b1 % 64 * 64 + b2 % 64
              ∧ b % 16 * 4096 + b1 % 64 * 64 + b2 % 64 < 57344) := by
            obtain ⟨x1, x2, -, -⟩ := c1
            split_ifs at x1 x2 <;> omega
          have hr3 : b % 16 * 4096 + b1 % 64 * 64 + b2 % 64 < 65536 := by omega
          refine ⟨[b, b1, b2], r2, rfl, by rw [hd]; rfl, by simp, ?_, ?_, ?_, ?_⟩
          · intro c hc
            simp at hc
            omega
          · rw [hd]
            simp only [encodeRune]
            rw [if_neg (by omega), if_neg (by omega), if_neg (by omega), if_pos hr3]
            congr 1
            · omega
            · congr 1
              · omega
              · congr 1
                omega
          · rw [hd]
            simp only
            omega
          · intro tail2
            rw [hd]
            simp only [List.cons_append, List.nil_append, decodeRune, h0, h2, h3, if_true,
              if_false, and_self]
            rw [if_pos c1]
        · exfalso
          apply hv
          simp only [decodeRune, h0, h2, h3, if_true, if_false, and_self]
          rw [if_neg c1]
          exact ⟨rfl, rfl⟩
    · by_cases h4 : 240 ≤ b ∧ b ≤ 244
      · match rest with
        | [] => simp [decodeRune, h0, h2, h3, h4] at hv
        | [_] => simp [decodeRune, h0, h2, h3, h4] at hv
        | [_, _] => simp [decodeRune, h0, h2, h3, h4] at hv
        | b1 :: b2 :: b3 :: r3 =>
          by_cases c1 : (if b = 240 then 144 else 128) ≤ b1
              ∧ b1 ≤ (if b = 244 then 143 else 191) ∧ 128 ≤ b2 ∧ b2 ≤ 191 ∧ 128 ≤ b3 ∧ b3 ≤ 191
          · have hd : decodeRune (b :: b1 :: b2 :: b3 :: r3)
                = (b % 8 * 262144 + b1 % 64 * 4096 + b2 % 64 * 64 + b3 % 64, 4) := by
              simp only [decodeRune, h0, h2, h3, h4, if_true, if_false, and_self]
              rw [if_pos c1]
            have hb1 : 128 ≤ b1 ∧ b1 ≤ 191 := by
              obtain ⟨x1, x2, -, -⟩ := c1
              split_ifs at x1 x2 <;> omega
            have hr1 : 65536 ≤ b % 8 * 262144 + b1 % 64 * 4096 + b2 % 64 * 64 + b3 % 64 := by
              obtain ⟨x1, x2, -, -⟩ := c1
              split_ifs at x1 x2 <;> omega
            have hr2 : b % 8 * 262144 + b1 % 64 * 4096 + b2 % 64 * 64 + b3 % 64
                ≤ 1114111 := by
              obtain ⟨x1, x2, -, -⟩ := c1
              split_ifs at x1 x2 <;> omega
            refine ⟨[b, b1, b2, b3], r3, rfl, by rw [hd]; rfl, by simp, ?_, ?_, ?_, ?_⟩
            · intro c hc
              simp at hc
              omega
            · rw [hd]
              simp only [encodeRune]
              rw [if_neg (by omega), if_neg (by omega), if_neg (by omega), if_neg (by omega)]
              congr 1
              · omega
              · congr 1
                · omega
                · congr 1
                  · omega
                  · congr 1
                    omega
            · rw [hd]
              simp only
              omega
            · intro tail2
              rw [hd]
              simp only [List.cons_append, List.nil_append, decodeRune, h0, h2, h3, h4,
                if_true, if_false, and_self]
              rw [if_pos c1]
          · exfalso
            apply hv
            simp only [decodeRune, h0, h2, h3, h4, if_true, if_false, and_self]
            rw [if_neg c1]
            exact ⟨rfl, rfl⟩
      · exfalso
        apply hv
        simp [decodeRune, h0, h2, h3, h4]

theorem scanString_cons (c : Nat) (cs : List Nat) :
    scanString (c :: cs) =
    if c = 34 then some ([], cs)
    else if c = 92 then
      match cs with
      | [] => none
      | e :: rest =>
        if e = 'u'.toNat then
          match rest with
          | h1 :: h2 :: h3 :: h4 :: rest1 =>
            match getu4 h1 h2 h3 h4 with
            | none => none
            | some _ =>
              (scanString rest1).map (fun r => (c :: e :: h1 :: h2 :: h3 :: h4 :: r.1, r.2))
          | _ => none
        else if isEscape e then (scanString rest).map (fun r => (c :: e :: r.1, r.2))
        else none
    else if c < 32 then none
    else (scanString cs).map (fun r => (c :: r.1, r.2)) := by
  conv_lhs => rw [scanString.eq_def]

/-- The scanner reads bytes that are neither control characters nor the quote nor the
    backslash, and goes on behind them. -/
theorem scanString_safe (l tail : List Nat) (h : ∀ c ∈ l, 32 ≤ c ∧ c ≠ 34 ∧ c ≠ 92) :
    scanString (l ++ tail) = (scanString tail).map (fun r => (l ++ r.1, r.2)) := by
  induction l with
  | nil => simp
  | cons c cs ih =>
    obtain ⟨a1, a2, a3⟩ := h c (List.mem_cons_self _ _)
    have a4 : ¬ c < 32 := by omega
    rw [List.cons_append, scanString_cons, if_neg a2, if_neg a3, if_neg a4,
      ih (fun d hd => h d (List.mem_cons_of_mem _ hd))]
    cases scanString tail <;> rfl

/-- The scanner reads an escape `\uXXXX` and goes on behind it. -/
theorem scanString_escape (h1 h2 h3 h4 n : Nat) (tail : List Nat)
    (hg : getu4 h1 h2 h3 h4 = some n) :
    scanString (92 :: 'u'.toNat :: h1 :: h2 :: h3 :: h4 :: tail)
      = (scanString tail).map
          (fun r => (92 :: 'u'.toNat :: h1 :: h2 :: h3 :: h4 :: r.1, r.2)) := by
  rw [scanString_cons]
  simp [hg]

/-- The scanner reads one escaped ASCII byte and goes on behind it. -/
theorem scanString_escapeByte (short : Bool) (b : Nat) (tail : List Nat) :
    scanString (escapeByte short b ++ tail)
      = (scanString tail).map (fun r => (escapeByte short b ++ r.1, r.2)) := by
  unfold escapeByte
  split_ifs with h1 h2 h3 h4 h5 h6 h7
  · have hu : ¬ b = 117 := by omega
    have he : isEscape b = true := by
      simp only [isEscape, decide_eq_true_eq]
      rcases h1 with h | h
      · exact Or.inl h
      · exact Or.inr (Or.inl h)
    simp [scanString_cons, hu, he]
  · simp [scanString_cons, isEscape]
  · simp [scanString_cons, isEscape]
  · simp [scanString_cons, isEscape]
  · simp [scanString_cons, isEscape]
  · simp [scanString_cons, isEscape]
  · have hn : b / 16 < 16 := by simp at h7; omega
    have hm : b % 16 < 16 := Nat.mod_lt _ (by decide)
    have h0 : hexValue '0'.toNat = some 0 := by decide
    have hg : getu4 '0'.toNat '0'.toNat (hexDigit (b / 16)) (hexDigit (b % 16))
        = some (((0 * 16 + 0) * 16 + b / 16) * 16 + b % 16) := by
      simp only [getu4, hexValue_hexDigit _ hn, hexValue_hexDigit _ hm, h0]
    exact scanString_escape _ _ _ _ _ tail hg
  · have a1 : ¬ b = 34 := fun h => h1 (Or.inl h)
    have a2 : ¬ b = 92 := fun h => h1 (Or.inr h)
    have a3 : ¬ b < 32 := fun h => h7 (Or.inl h)
    simp [scanString_cons, a1, a2, a3]

/-- The scanner reads the bytes that the encoder writes for a string, and goes on behind
    them. -/
theorem scanString_escapeFrom (short : Bool) : ∀ (fuel : Nat) (s tail : List Nat),
    scanString (escapeFrom short fuel s ++ tail)
      = (scanString tail).map (fun r => (escapeFrom short fuel s ++ r.1, r.2)) := by
  intro fuel
  induction fuel with
  | zero =>
    intro s tail
    cases s <;> simp [escapeFrom]
  | succ f ih =>
    intro s tail
    cases s with
    | nil => simp [escapeFrom]
    | cons b rest =>
      rw [escapeFrom]
      split_ifs with h1 h2 h3
      · rw [List.append_assoc, scanString_escapeByte, ih]
        cases scanString tail <;> simp
      · have hg : getu4 'f'.toNat 'f'.toNat 'f'.toNat 'd'.toNat = some 65533 := by decide
        have := scanString_escape _ _ _ _ _ (escapeFrom short f rest ++ tail) hg
        rw [ih] at this
        simp only [ascii, List.append_assoc]
        rw [show (String.toList "\\ufffd").map Char.toNat
          = [92, 'u'.toNat, 'f'.toNat, 'f'.toNat, 'f'.toNat, 'd'.toNat] from by decide]
        simp only [List.cons_append, List.nil_append, this]
        cases scanString tail <;> simp
      · generalize hd : decodeRune (b :: rest) = d at h2 h3 ⊢
        have hm : d.1 % 16 < 16 := Nat.mod_lt _ (by decide)
        have h0 : hexValue '0'.toNat = some 0 := by decide
        have h22 : hexValue '2'.toNat = some 2 := by decide
        have hg : getu4 '2'.toNat '0'.toNat '2'.toNat (hexDigit (d.1 % 16))
            = some (((2 * 16 + 0) * 16 + 2) * 16 + d.1 % 16) := by
          simp only [getu4, hexValue_hexDigit _ hm, h0, h22]
        have := scanString_escape _ _ _ _ _ (escapeFrom short f (List.drop d.2 (b :: rest)) ++ tail) hg
        rw [ih] at this
        simp only [ascii, List.append_assoc]
        rw [show (String.toList "\\u202").map Char.toNat
          = [92, 'u'.toNat, '2'.toNat, '0'.toNat, '2'.toNat] from by decide]
        simp only [List.cons_append, List.nil_append, this]
        cases scanString tail <;> simp
      · have hb : 128 ≤ b := by omega
        obtain ⟨l, t, hl, hlen, -, hall, -, -, -⟩ := decodeRune_spec b rest hb h2
        have htake : List.take (decodeRune (b :: rest)).2 (b :: rest) = l := by
          have : List.take l.length (l ++ t) = l := List.take_left' rfl
          rw [← hl] at this
          rw [← hlen]
          exact this
        rw [htake, List.append_assoc, scanString_safe l _ (fun c hc => by
          have := hall c hc
          omega), ih]
        cases scanString tail <;> simp

theorem scanString_quote (rest : List Nat) : scanString (34 :: rest) = some ([], rest) := by
  rw [scanString_cons]
  simp

/-- The scanner reads the bytes that the encoder writes for a string up to the closing
    quote. -/
theorem scanString_escapeString (short : Bool) (s rest : List Nat) :
    scanString (escapeString short s ++ 34 :: rest) = some (escapeString short s, rest) := by
  rw [escapeString, scanString_escapeFrom, scanString_quote]
  simp

theorem unquoteFrom_succ (fuel : Nat) (c : Nat) (cs : List Nat) :
    unquoteFrom (fuel + 1) (c :: cs) =
    if c = 92 then
      match unquoteEscape cs with
      | none => none
      | some (d, n) => (unquoteFrom fuel (cs.drop n)).map (fun r => d ++ r)
    else if c = 34 ∨ c < 32 then none
    else if c < 128 then (unquoteFrom fuel cs).map (fun r => c :: r)
    else
      (unquoteFrom fuel ((c :: cs).drop (decodeRune (c :: cs)).2)).map
        (fun r => encodeRune (decodeRune (c :: cs)).1 ++ r) := rfl

/-- The decoder reads an escape `\uXXXX` of a character that is no surrogate as the bytes
    of the character. -/
theorem unquoteFrom_escape (fuel h1 h2 h3 h4 n : Nat) (tail : List Nat)
    (hg : getu4 h1 h2 h3 h4 = some n) (hs : ¬ (55296 ≤ n ∧ n < 57344)) :
    unquoteFrom (fuel + 1) (92 :: 'u'.toNat :: h1 :: h2 :: h3 :: h4 :: tail)
      = (unquoteFrom fuel tail).map (fun r => encodeRune n ++ r) := by
  rw [unquoteFrom_succ]
  simp [unquoteEscape, hg, hs]

/-- The decoder reads one escaped ASCII byte as the byte. -/
theorem unquoteFrom_escapeByte (short : Bool) (fuel : Nat) (b : Nat) (hb : b < 128)
    (tail : List Nat) :
    unquoteFrom (fuel + 1) (escapeByte short b ++ tail)
      = (unquoteFrom fuel tail).map (fun r => b :: r) := by
  unfold escapeByte
  split_ifs with h1 h2 h3 h4 h5 h6 h7
  · have hu : ¬ b = 117 := by omega
    have he : unescape b = some b := by
      simp only [unescape]
      rw [if_pos]
      rcases h1 with h | h
      · exact Or.inl h
      · exact Or.inr (Or.inl h)
    simp [unquoteFrom_succ, unquoteEscape, hu, he]
  · simp [unquoteFrom_succ, unquoteEscape, unescape, h2]
  · simp [unquoteFrom_succ, unquoteEscape, unescape, h3]
  · simp [unquoteFrom_succ, unquoteEscape, unescape, h4]
  · simp [unquoteFrom_succ, unquoteEscape, unescape, h5]
  · simp [unquoteFrom_succ, unquoteEscape, unescape, h6]
  · have hn : b / 16 < 16 := by omega
    have hm : b % 16 < 16 := Nat.mod_lt _ (by decide)
    have h0 : hexValue '0'.toNat = some 0 := by decide
    have hg : getu4 '0'.toNat '0'.toNat (hexDigit (b / 16)) (hexDigit (b % 16)) = some b := by
      simp only [getu4, hexValue_hexDigit _ hn, hexValue_hexDigit _ hm, h0]
      congr 1
      omega
    have he : encodeRune b = [b] := by simp [encodeRune, hb]
    have := unquoteFrom_escape fuel _ _ _ _ _ tail hg (by omega)
    rw [he] at this
    exact this
  · have a1 : ¬ b = 34 := fun h => h1 (Or.inl h)
    have a2 : ¬ b = 92 := fun h => h1 (Or.inr h)
    have a3 : ¬ b < 32 := fun h => h7 (Or.inl h)
    simp [unquoteFrom_succ, a1, a2, a3, hb]

theorem escapeByte_length (short : Bool) (b : Nat) : 1 ≤ (escapeByte short b).length := by
  unfold escapeByte
  split_ifs <;> simp

/-- The decoder reads the bytes that the encoder writes for a string of valid UTF-8 as the
    string. -/
theorem unquoteFrom_escapeFrom (short : Bool) : ∀ (f : Nat) (s : List Nat),
    validFrom f s = true → ∀ fuel, (escapeFrom short f s).length ≤ fuel →
    unquoteFrom fuel (escapeFrom short f s) = some s := by
  intro f
  induction f with
  | zero =>
    intro s hv fuel _
    cases s with
    | nil => cases fuel <;> rfl
    | cons b rest => simp [validFrom] at hv
  | succ f ih =>
    intro s hv fuel hf
    cases s with
    | nil => cases fuel <;> rfl
    | cons b rest =>
      rw [validFrom] at hv
      split_ifs at hv with hbad
      rw [escapeFrom] at hf ⊢
      by_cases h1 : b < 128
      · have hd : decodeRune (b :: rest) = (b, 1) := by simp [decodeRune, h1]
        rw [hd] at hv
        simp only [List.drop_succ_cons, List.drop_zero] at hv
        rw [if_pos h1] at hf ⊢
        have hl := escapeByte_length short b
        rw [List.length_append] at hf
        obtain ⟨g, rfl⟩ : ∃ g, fuel = g + 1 := ⟨fuel - 1, by omega⟩
        rw [unquoteFrom_escapeByte short g b h1, ih rest hv g (by omega)]
        rfl
      · rw [if_neg h1, if_neg hbad] at hf ⊢
        obtain ⟨l, t, hl, hlen, hpos, hall, henc, hge, hdec⟩ :=
          decodeRune_spec b rest (by omega) hbad
        have htake : List.take (decodeRune (b :: rest)).2 (b :: rest) = l := by
          have : List.take l.length (l ++ t) = l := List.take_left' rfl
          rw [← hl] at this
          rw [← hlen]
          exact this
        have hdrop : List.drop (decodeRune (b :: rest)).2 (b :: rest) = t := by
          have : List.drop l.length (l ++ t) = t := List.drop_left' rfl
          rw [← hl] at this
          rw [← hlen]
          exact this
        rw [hdrop] at hv hf ⊢
        split_ifs at hf ⊢ with h3
        · have hm : (decodeRune (b :: rest)).1 % 16 < 16 := Nat.mod_lt _ (by decide)
          have h0 : hexValue '0'.toNat = some 0 := by decide
          have h22 : hexValue '2'.toNat = some 2 := by decide
          have hg : getu4 '2'.toNat '0'.toNat '2'.toNat
              (hexDigit ((decodeRune (b :: rest)).1 % 16))
              = some (decodeRune (b :: rest)).1 := by
            simp only [getu4, hexValue_hexDigit _ hm, h0, h22]
            congr 1
            omega
          have e : ascii "\\u202" = [92, 'u'.toNat, '2'.toNat, '0'.toNat, '2'.toNat] := by
            decide
          rw [e] at hf ⊢
          simp only [List.cons_append, List.nil_append, List.length_cons] at hf ⊢
          obtain ⟨g, rfl⟩ : ∃ g, fuel = g + 1 := ⟨fuel - 1, by omega⟩
          rw [unquoteFrom_escape g _ _ _ _ _ _ hg (by omega), ih t hv g (by omega), henc, hl]
          rfl
        · rw [htake] at hf ⊢
          rw [List.length_append] at hf
          obtain ⟨g, rfl⟩ : ∃ g, fuel = g + 1 := ⟨fuel - 1, by omega⟩
          obtain ⟨c, l2, rfl⟩ : ∃ c l2, l = c :: l2 := by
            cases l with
            | nil => simp at hpos
            | cons c l2 => exact ⟨c, l2, rfl⟩
          have hc := hall c (List.mem_cons_self _ _)
          have hd2 := hdec (escapeFrom short f t)
          rw [List.cons_append] at hd2 ⊢
          rw [unquoteFrom_succ, if_neg (by omega), if_neg (by omega), if_neg (by omega), hd2,
            ← List.cons_append, ← hlen, List.drop_left', ih t hv g (by omega), henc, hl]
          · rfl
          · rfl

/-- A string of valid UTF-8 is read back from what the encoder writes for it. -/
theorem unquoteString_escapeString (short : Bool) (s : List Nat)
    (hv : validUTF8 s = true) : unquoteString (escapeString short s) = s := by
  simp [unquoteString, unquote, escapeString,
    unquoteFrom_escapeFrom short s.length s hv _ (le_refl _)]

theorem parseValue_succ (fuel depth : Nat) (c : Nat) (cs : List Nat) :
    parseValue (fuel + 1) depth (c :: cs) =
      if c = 34 then (scanString cs).map (fun r => (JSONValue.string r.1, r.2))
      else if c = '['.toNat then
        if depth ≥ maxNestingDepth then none
        else
          match skipSpace cs with
          | [] => none
          | d :: ds =>
            if d = ']'.toNat then some (JSONValue.array [], ds)
            else (parseElements fuel (depth + 1) (d :: ds)).map
              (fun r => (JSONValue.array r.1, r.2))
      else if c = 123 then
        if depth ≥ maxNestingDepth then none
        else
          match skipSpace cs with
          | [] => none
          | d :: ds =>
            if d = 125 then some (JSONValue.object [], ds)
            else (parseMembers fuel (depth + 1) (d :: ds)).map
              (fun r => (JSONValue.object r.1, r.2))
      else if c = 't'.toNat then
        if cs.take 3 = ascii "rue" then some (JSONValue.bool true, cs.drop 3) else none
      else if c = 'f'.toNat then
        if cs.take 4 = ascii "alse" then some (JSONValue.bool false, cs.drop 4) else none
      else if c = 'n'.toNat then
        if cs.take 3 = ascii "ull" then some (JSONValue.null, cs.drop 3) else none
      else (scanNumber (c :: cs)).map (fun r => (JSONValue.number r.1, r.2)) := rfl

theorem parseElements_succ (fuel depth : Nat) (s : List Nat) :
    parseElements (fuel + 1) depth s =
    match parseValue fuel depth s with
    | none => none
    | some (v, rest) =>
      match skipSpace rest with
      | [] => none
      | d :: ds =>
        if d = ','.toNat then
          (parseElements fuel depth (skipSpace ds)).map (fun r => (v :: r.1, r.2))
        else if d = ']'.toNat then some ([v], ds)
        else none := rfl

theorem parseMembers_succ (fuel depth : Nat) (q : Nat) (cs : List Nat) :
    parseMembers (fuel + 1) depth (q :: cs) =
      if q = 34 then
        match scanString cs with
        | none => none
        | some (key, rest) =>
          match skipSpace rest with
          | [] => none
          | c :: rest1 =>
            if c = ':'.toNat then
              match parseValue fuel depth (skipSpace rest1) with
              | none => none
              | some (v, rest2) =>
                match skipSpace rest2 with
                | [] => none
                | d :: ds =>
                  if d = ','.toNat then
                    (parseMembers fuel depth (skipSpace ds)).map
                      (fun r => ((key, v) :: r.1, r.2))
                  else if d = 125 then some ([(key, v)], ds)
                  else none
            else none
      else none := rfl

theorem skipSpace_cons (c : Nat) (cs : List Nat) (h : isSpace c = false) :
    skipSpace (c :: cs) = c :: cs := by
  simp [skipSpace, h]

theorem ascii_null : ascii "null" = [110, 117, 108, 108] := by decide

theorem ascii_true : ascii "true" = [116, 114, 117, 101] := by decide

theorem ascii_false : ascii "false" = [102, 97, 108, 115, 101] := by decide

/-- The text of a document begins with a quote, a bracket, a brace, a letter, a minus
    sign or a digit. -/
theorem printValue_head (v : JSONValue) (hw : v.written) :
    ∃ c tail, printValue v = c :: tail ∧ isSpace c = false ∧ c ≠ 93 ∧ c ≠ 125 := by
  cases v with
  | null =>
    exact ⟨110, [117, 108, 108], by simp [printValue, ascii_null], by decide, by decide,
      by decide⟩
  | bool b =>
    cases b
    · exact ⟨102, [97, 108, 115, 101], by simp [printValue, ascii_false], by decide,
        by decide, by decide⟩
    · exact ⟨116, [114, 117, 101], by simp [printValue, ascii_true], by decide, by decide,
        by decide⟩
  | number l =>
    simp only [JSONValue.written, numberScannedBack] at hw
    obtain ⟨⟨c, tail, rfl, hc⟩, -⟩ := hw
    refine ⟨c, tail, by simp [printValue], ?_, ?_, ?_⟩
    · rcases hc with h | h
      · subst h; decide
      · simp only [isDigit, decide_eq_true_eq] at h
        simp only [isSpace, decide_eq_false_iff_not]
        omega
    · rcases hc with h | h
      · subst h; decide
      · simp only [isDigit, decide_eq_true_eq] at h
        omega
    · rcases hc with h | h
      · subst h; decide
      · simp only [isDigit, decide_eq_true_eq] at h
        omega
  | string raw =>
    exact ⟨34, raw ++ [34], by simp [printValue], by decide, by decide, by decide⟩
  | array elems =>
    exact ⟨91, printElements elems, by simp [printValue], by decide, by decide, by decide⟩
  | object members =>
    exact ⟨123, printMembers members, by simp [printValue], by decide, by decide,
      by decide⟩

theorem printElements_length (v : JSONValue) (vs : List JSONValue) :
    (printValue v).length + 1 ≤ (printElements (v :: vs)).length
    ∧ (vs ≠ [] → (printValue v).length + 1 + (printElements vs).length
        = (printElements (v :: vs)).length) := by
  cases vs with
  | nil => simp [printElements]
  | cons w ws => simp [printElements]; omega

theorem printMembers_length (k : List Nat) (v : JSONValue)
    (rest : List (List Nat × JSONValue)) :
    (printValue v).length + 1 ≤ (printMembers ((k, v) :: rest)).length
    ∧ (rest ≠ [] → (printValue v).length + 1 + (printMembers rest).length
        ≤ (printMembers ((k, v) :: rest)).length) := by
  cases rest with
  | nil => simp [printMembers]; omega
  | cons w ws => simp [printMembers]; omega

mutual
/-- The scanner reads the text of a document back as the document, when the document is
    nested no deeper than the scanner accepts and, if it is a number, is followed by a
    delimiter. -/
theorem parseValue_printValue : ∀ (v : JSONValue), v.written →
    ∀ (fuel depth : Nat) (rest : List Nat), (printValue v).length ≤ fuel →
    depth + v.height ≤ maxNestingDepth →
    ((∃ literal, v = JSONValue.number literal) → delimited rest) →
    parseValue fuel depth (printValue v ++ rest) = some (v, rest)
  | JSONValue.null, _, fuel, depth, rest, hf, _, _ => by
    obtain ⟨f, rfl⟩ : ∃ f, fuel = f + 1 :=
      ⟨fuel - 1, by simp [printValue, ascii_null] at hf; omega⟩
    simp [printValue, ascii_null, parseValue_succ, ascii]
  | JSONValue.bool b, _, fuel, depth, rest, hf, _, _ => by
    obtain ⟨f, rfl⟩ : ∃ f, fuel = f + 1 :=
      ⟨fuel - 1, by cases b <;> simp [printValue, ascii_true, ascii_false] at hf <;> omega⟩
    cases b <;> simp [printValue, ascii_true, ascii_false, parseValue_succ, ascii]
  | JSONValue.number literal, hw, fuel, depth, rest, hf, _, hrest => by
    simp only [JSONValue.written, numberScannedBack] at hw
    obtain ⟨⟨c, tail, rfl, hc⟩, hscan⟩ := hw
    have h := hscan rest (hrest ⟨_, rfl⟩)
    obtain ⟨f, rfl⟩ : ∃ f, fuel = f + 1 := ⟨fuel - 1, by simp [printValue] at hf; omega⟩
    have hc2 : c = 45 ∨ (48 ≤ c ∧ c ≤ 57) := by
      rcases hc with h1 | h1
      · exact Or.inl h1
      · simp only [isDigit, decide_eq_true_eq] at h1
        exact Or.inr h1
    rw [printValue, List.cons_append, parseValue_succ]
    rw [List.cons_append] at h
    have n1 : ¬ c = 34 := by omega
    have n2 : ¬ c = '['.toNat := by simp; omega
    have n3 : ¬ c = 123 := by omega
    have n4 : ¬ c = 't'.toNat := by simp; omega
    have n5 : ¬ c = 'f'.toNat := by simp; omega
    have n6 : ¬ c = 'n'.toNat := by simp; omega
    rw [if_neg n1, if_neg n2, if_neg n3, if_neg n4, if_neg n5, if_neg n6, h]
    rfl
  | JSONValue.string raw, hw, fuel, depth, rest, hf, _, _ => by
    obtain ⟨f, rfl⟩ : ∃ f, fuel = f + 1 := ⟨fuel - 1, by simp [printValue] at hf; omega⟩
    simp only [JSONValue.written] at hw
    have h := hw rest
    simp [printValue, parseValue_succ, h]
  | JSONValue.array elems, hw, fuel, depth, rest, hf, hd, _ => by
    obtain ⟨f, rfl⟩ : ∃ f, fuel = f + 1 := ⟨fuel - 1, by simp [printValue] at hf; omega⟩
    simp only [JSONValue.written] at hw
    simp only [JSONValue.height] at hd
    have hdepth : ¬ depth ≥ maxNestingDepth := by omega
    have ih := fun hne => parseElements_printElements elems hne hw f (depth + 1) rest
      (by simp [printValue] at hf; omega) (by omega)
    cases elems with
    | nil => simp [printValue, printElements, parseValue_succ, hdepth, skipSpace, isSpace]
    | cons v vs =>
      have ih := ih (by simp)
      obtain ⟨c, tail, hc, hs, hb, -⟩ := printValue_head v hw.1
      obtain ⟨t, ht⟩ : ∃ t, printElements (v :: vs) ++ rest = c :: t := by
        simp [printElements, hc]
      rw [printValue, List.cons_append, parseValue_succ, ht]
      rw [ht] at ih
      simp [hdepth, skipSpace_cons, hs, hb, ih]
  | JSONValue.object members, hw, fuel, depth, rest, hf, hd, _ => by
    obtain ⟨f, rfl⟩ : ∃ f, fuel = f + 1 := ⟨fuel - 1, by simp [printValue] at hf; omega⟩
    simp only [JSONValue.written] at hw
    simp only [JSONValue.height] at hd
    have hdepth : ¬ depth ≥ maxNestingDepth := by omega
    have ih := fun hne => parseMembers_printMembers members hne hw f (depth + 1) rest
      (by simp [printValue] at hf; omega) (by omega)
    cases members with
    | nil => simp [printValue, printMembers, parseValue_succ, hdepth, skipSpace, isSpace]
    | cons m ms =>
      have ih := ih (by simp)
      obtain ⟨k, v⟩ := m
      obtain ⟨t, ht⟩ : ∃ t, printMembers ((k, v) :: ms) ++ rest = 34 :: t := by
        simp [printMembers]
      rw [printValue, List.cons_append, parseValue_succ, ht]
      rw [ht] at ih
      have hs : isSpace 34 = false := by decide
      simp [hdepth, skipSpace_cons, hs, ih]
/-- The elements of an array likewise. -/
theorem parseElements_printElements : ∀ (vs : List JSONValue), vs ≠ [] →
    JSONValue.writtenAll vs → ∀ (fuel depth : Nat) (rest : List Nat),
    (printElements vs).length ≤ fuel → depth + JSONValue.heightAll vs ≤ maxNestingDepth →
    parseElements fuel depth (printElements vs ++ rest) = some (vs, rest)
  | [], hne, _, _, _, _, _, _ => absurd rfl hne
  | v :: vs, _, hw, fuel, depth, rest, hf, hd => by
    simp only [JSONValue.writtenAll] at hw
    simp only [JSONValue.heightAll] at hd
    obtain ⟨hl1, hl2⟩ := printElements_length v vs
    obtain ⟨f, rfl⟩ : ∃ f, fuel = f + 1 := ⟨fuel - 1, by omega⟩
    have h1 := fun tail hdel =>
      parseValue_printValue v hw.1 f depth tail (by omega) (by omega) (fun _ => hdel)
    have h2 := fun hne => parseElements_printElements vs hne hw.2 f depth rest
      (by have := hl2 hne; omega) (by omega)
    cases vs with
    | nil =>
      have h1 := h1 (93 :: rest) ⟨93, rest, rfl, Or.inr (Or.inl rfl)⟩
      simp [printElements, parseElements_succ, h1, skipSpace, isSpace]
    | cons w ws =>
      have h2 := h2 (by simp)
      obtain ⟨c, tail, hc, hs, -, -⟩ := printValue_head w hw.2.1
      obtain ⟨t, ht⟩ : ∃ t, printElements (w :: ws) ++ rest = c :: t := by
        simp [printElements, hc]
      have e : printElements (v :: w :: ws) ++ rest
          = printValue v ++ (44 :: (printElements (w :: ws) ++ rest)) := by
        simp [printElements]
      rw [e, parseElements_succ, h1 _ ⟨44, _, rfl, Or.inl rfl⟩]
      rw [ht] at h2 ⊢
      have hcomma : isSpace 44 = false := by decide
      simp [skipSpace_cons, hcomma, hs, h2]
/-- The members of an object likewise. -/
theorem parseMembers_printMembers : ∀ (ms : List (List Nat × JSONValue)), ms ≠ [] →
    JSONValue.writtenMembers ms → ∀ (fuel depth : Nat) (rest : List Nat),
    (printMembers ms).length ≤ fuel → depth + JSONValue.heightMembers ms ≤ maxNestingDepth →
    parseMembers fuel depth (printMembers ms ++ rest) = some (ms, rest)
  | [], hne, _, _, _, _, _, _ => absurd rfl hne
  | (k, v) :: ms, _, hw, fuel, depth, rest, hf, hd => by
    simp only [JSONValue.writtenMembers] at hw
    simp only [JSONValue.heightMembers] at hd
    obtain ⟨hl1, hl2⟩ := printMembers_length k v ms
    obtain ⟨f, rfl⟩ : ∃ f, fuel = f + 1 := ⟨fuel - 1, by omega⟩
    have h1 := fun tail hdel =>
      parseValue_printValue v hw.2.1 f depth tail (by omega) (by omega) (fun _ => hdel)
    have h2 := fun hne => parseMembers_printMembers ms hne hw.2.2 f depth rest
      (by have := hl2 hne; omega) (by omega)
    obtain ⟨c, tail, hc, hs, -, -⟩ := printValue_head v hw.2.1
    have hk := hw.1
    have hcolon : isSpace 58 = false := by decide
    cases ms with
    | nil =>
      have e : printMembers [(k, v)] ++ rest
          = 34 :: (k ++ 34 :: 58 :: (printValue v ++ (125 :: rest))) := by
        simp [printMembers]
      have h1 := h1 (125 :: rest) ⟨125, rest, rfl, Or.inr (Or.inr rfl)⟩
      rw [hc, List.cons_append] at h1
      rw [e, parseMembers_succ, hk, hc]
      have hbrace : isSpace 125 = false := by decide
      simp [skipSpace_cons, hcolon, hs, h1, hbrace]
    | cons w ws =>
      have h2 := h2 (by simp)
      obtain ⟨k2, v2⟩ := w
      obtain ⟨t, ht⟩ : ∃ t, printMembers ((k2, v2) :: ws) ++ rest = 34 :: t := by
        simp [printMembers]
      have e : printMembers ((k, v) :: (k2, v2) :: ws) ++ rest
          = 34 :: (k ++ 34 :: 58 :: (printValue v
              ++ (44 :: (printMembers ((k2, v2) :: ws) ++ rest)))) := by
        simp [printMembers]
      have h1 := h1 (44 :: (printMembers ((k2, v2) :: ws) ++ rest))
        ⟨44, _, rfl, Or.inl rfl⟩
      rw [hc, List.cons_append] at h1
      rw [e, parseMembers_succ, hk, hc]
      rw [ht] at h2 h1 ⊢
      have hcomma : isSpace 44 = false := by decide
      have hq : isSpace 34 = false := by decide
      simp [skipSpace_cons, hcolon, hs, h1, hcomma, hq, h2]
end

/-- The scanner reads the text of a whole document that is no number back. -/
theorem parseJSON_printValue (v : JSONValue) (hw : v.written)
    (hh : v.height ≤ maxNestingDepth) (hn : ∀ literal, v ≠ JSONValue.number literal) :
    parseJSON (printValue v) = some v := by
  obtain ⟨c, tail, hc, hs, -, -⟩ := printValue_head v hw
  have h := parseValue_printValue v hw ((printValue v).length + 1) 0 [] (by omega) (by omega)
    (fun ⟨l, hl⟩ => absurd hl (hn l))
  rw [List.append_nil] at h
  unfold parseJSON
  rw [hc, skipSpace_cons _ _ hs, ← hc, h]
  simp [skipSpace]

/-- Assigning a key above all keys of a map adds the entry at the end. -/
theorem mapAssign_last {α : Type} (k : List Nat) (v : α) :
    ∀ (m : List (List Nat × α)), (∀ x ∈ m, x.1 < k) → mapAssign m k v = m ++ [(k, v)] := by
  intro m
  induction m with
  | nil => intro _; rfl
  | cons x xs ih =>
    intro h
    obtain ⟨k1, v1⟩ := x
    have h1 : k1 < k := h (k1, v1) (List.mem_cons_self _ _)
    have h2 : ¬ k < k1 := lt_asymm h1
    have h3 : ¬ k = k1 := fun e => (ne_of_gt h1) e
    simp only [mapAssign, h2, h3, if_false, List.cons_append]
    rw [ih (fun y hy => h y (List.mem_cons_of_mem _ hy))]

/-- Assigning the entries of a map in the order of their keys to an empty map gives the
    map. -/
theorem mapAssignAll_increasing {α : Type} :
    ∀ (l acc : List (List Nat × α)), keysIncrease (acc ++ l) →
    mapAssignAll acc l = acc ++ l := by
  intro l
  induction l with
  | nil => intro acc _; simp [mapAssignAll]
  | cons x xs ih =>
    intro acc h
    have hlast : ∀ y ∈ acc, y.1 < x.1 := by
      intro y hy
      unfold keysIncrease at h
      rw [List.map_append, List.pairwise_append] at h
      exact h.2.2 y.1 (List.mem_map_of_mem _ hy) x.1 (by simp)
    have hstep : mapAssignAll acc (x :: xs) = mapAssignAll (mapAssign acc x.1 x.2) xs := rfl
    rw [hstep, mapAssign_last x.1 x.2 acc hlast]
    have h2 : keysIncrease ((acc ++ [(x.1, x.2)]) ++ xs) := by
      simpa using h
    rw [ih _ h2]
    simp

mutual
/-- The document of a value that holds no `int`, no NaN and no infinity, whose strings are
    valid UTF-8 and whose `float64` values are written as `strconv` promises, is read back
    by the scanner, is as high as the value is deep, holds no number out of range, and is
    decoded as the value. -/
theorem marshalValue_plain (enc : Encoder) : ∀ (v : GoValue),
    v.plain = true → v.readBack enc →
    (marshalValue enc v).written
    ∧ (marshalValue enc v).height = v.depth
    ∧ (marshalValue enc v).rangeError = false
    ∧ unmarshalValue (marshalValue enc v) = v
    ∧ v.unsupported = false
  | GoValue.nil, _, _ => by
    simp [marshalValue, JSONValue.written, JSONValue.height, GoValue.depth,
      JSONValue.rangeError, unmarshalValue, GoValue.unsupported]
  | GoValue.bool _, _, _ => by
    simp [marshalValue, JSONValue.written, JSONValue.height, GoValue.depth,
      JSONValue.rangeError, unmarshalValue, GoValue.unsupported]
  | GoValue.int _, h, _ => by simp [GoValue.plain] at h
  | GoValue.float64 x, h, hr => by
    simp only [GoValue.readBack] at hr
    cases x with
    | finite neg m e =>
      simp [marshalValue, JSONValue.written, JSONValue.height, GoValue.depth,
        JSONValue.rangeError, unmarshalValue, GoValue.unsupported, hr.1, hr.2]
    | inf neg => simp [GoValue.plain] at h
    | nan => simp [GoValue.plain] at h
  | GoValue.string s, h, _ => by
    simp only [GoValue.plain] at h
    simp only [marshalValue, JSONValue.written, JSONValue.height, GoValue.depth,
      JSONValue.rangeError, unmarshalValue, GoValue.unsupported,
      unquoteString_escapeString _ s h, and_true]
    exact fun rest => scanString_escapeString _ _ rest
  | GoValue.slice elems, h, hr => by
    simp only [GoValue.plain] at h
    simp only [GoValue.readBack] at hr
    obtain ⟨h1, h2, h3, h4, h5⟩ := marshalValues_plain enc elems h hr
    simp [marshalValue, JSONValue.written, JSONValue.height, GoValue.depth,
      JSONValue.rangeError, unmarshalValue, GoValue.unsupported, h1, h2, h3, h4, h5]
  | GoValue.map entries, h, hr => by
    simp only [GoValue.plain, Bool.and_eq_true, decide_eq_true_eq] at h
    simp only [GoValue.readBack] at hr
    obtain ⟨h1, h2, h3, h4, h5⟩ := marshalEntries_plain enc entries h.2 hr
    have hm := mapAssignAll_increasing entries [] (by simpa using h.1)
    simp only [List.nil_append] at hm
    simp [marshalValue, JSONValue.written, JSONValue.height, GoValue.depth,
      JSONValue.rangeError, unmarshalValue, GoValue.unsupported, h1, h2, h3, h4, h5, hm]
/-- The elements of a slice of such values likewise. -/
theorem marshalValues_plain (enc : Encoder) : ∀ (l : List GoValue),
    GoValue.plainAll l = true → GoValue.readBackAll enc l →
    JSONValue.writtenAll (marshalValues enc l)
    ∧ JSONValue.heightAll (marshalValues enc l) = GoValue.depthAll l
    ∧ JSONValue.rangeErrorAny (marshalValues enc l) = false
    ∧ unmarshalValues (marshalValues enc l) = l
    ∧ GoValue.unsupportedAny l = false
  | [], _, _ => by
    simp [marshalValues, JSONValue.writtenAll, JSONValue.heightAll, GoValue.depthAll,
      JSONValue.rangeErrorAny, unmarshalValues, GoValue.unsupportedAny]
  | v :: vs, h, hr => by
    simp only [GoValue.plainAll, Bool.and_eq_true] at h
    simp only [GoValue.readBackAll] at hr
    obtain ⟨h1, h2, h3, h4, h5⟩ := marshalValue_plain enc v h.1 hr.1
    obtain ⟨g1, g2, g3, g4, g5⟩ := marshalValues_plain enc vs h.2 hr.2
    simp [marshalValues, JSONValue.writtenAll, JSONValue.heightAll, GoValue.depthAll,
      JSONValue.rangeErrorAny, unmarshalValues, GoValue.unsupportedAny, h1, h2, h3, h4, h5,
      g1, g2, g3, g4, g5]
/-- The entries of a map of such values likewise. -/
theorem marshalEntries_plain (enc : Encoder) :
    ∀ (m : List (List Nat × GoValue)), GoValue.plainEntries m = true →
    GoValue.readBackEntries enc m →
    JSONValue.writtenMembers (marshalEntries enc m)
    ∧ JSONValue.heightMembers (marshalEntries enc m) = GoValue.depthEntries m
    ∧ JSONValue.rangeErrorMembers (marshalEntries enc m) = false
    ∧ unmarshalMembers (marshalEntries enc m) = m
    ∧ GoValue.unsupportedEntries m = false
  | [], _, _ => by
    simp [marshalEntries, JSONValue.writtenMembers, JSONValue.heightMembers,
      GoValue.depthEntries, JSONValue.rangeErrorMembers, unmarshalMembers,
      GoValue.unsupportedEntries]
  | (k, v) :: rest, h, hr => by
    simp only [GoValue.plainEntries, Bool.and_eq_true] at h
    simp only [GoValue.readBackEntries] at hr
    obtain ⟨h1, h2, h3, h4, h5⟩ := marshalValue_plain enc v h.1.2 hr.1
    obtain ⟨g1, g2, g3, g4, g5⟩ := marshalEntries_plain enc rest h.2 hr.2
    have hk : scannedBack (escapeString enc.shortEscapes k) :=
      fun r => scanString_escapeString _ _ r
    simp [marshalEntries, JSONValue.writtenMembers, JSONValue.heightMembers,
      GoValue.depthEntries, JSONValue.rangeErrorMembers, unmarshalMembers,
      GoValue.unsupportedEntries, h1, h2, h3, h4, h5, g1, g2, g3, g4, g5,
      unquoteString_escapeString _ k h.1.1]
    exact hk
end

theorem unmarshalMember_id (enc : Encoder) (e : Events.Event) (v : JSONValue) :
    Events.unmarshalMember e (unquoteString (fieldKey enc "id")) v
      = (unmarshalString "id" e.ID v).map (fun s => { e with ID := s }) := rfl

theorem unmarshalMember_type (enc : Encoder) (e : Events.Event) (v : JSONValue) :
    Events.unmarshalMember e (unquoteString (fieldKey enc "type")) v
      = (unmarshalString "type" e.Type_ v).map (fun s => { e with Type_ := s }) := rfl

theorem unmarshalMember_source (enc : Encoder) (e : Events.Event) (v : JSONValue) :
    Events.unmarshalMember e (unquoteString (fieldKey enc "source")) v
      = (unmarshalString "source" e.Source v).map (fun s => { e with Source := s }) := rfl

theorem unmarshalMember_householdId (enc : Encoder) (e : Events.Event) (v : JSONValue) :
    Events.unmarshalMember e (unquoteString (fieldKey enc "householdId")) v
      = (unmarshalString "householdId" e.HouseholdID v).map
          (fun s => { e with HouseholdID := s }) := rfl

theorem unmarshalMember_userId (enc : Encoder) (e : Events.Event) (v : JSONValue) :
    Events.unmarshalMember e (unquoteString (fieldKey enc "userId")) v
      = (unmarshalString "userId" e.UserID v).map (fun s => { e with UserID := s }) := rfl

theorem unmarshalMember_timestamp (enc : Encoder) (e : Events.Event) (raw : List Nat) :
    Events.unmarshalMember e (unquoteString (fieldKey enc "timestamp")) (JSONValue.string raw)
      = (Time.UnmarshalJSON (String.mk (raw.map Char.ofNat))).map
          (fun t => { e with Timestamp := t }) := rfl

theorem unmarshalMember_version (enc : Encoder) (e : Events.Event) (v : JSONValue) :
    Events.unmarshalMember e (unquoteString (fieldKey enc "version")) v
      = (unmarshalString "version" e.Version v).map (fun s => { e with Version := s }) := rfl

theorem unmarshalMember_data_null (enc : Encoder) (e : Events.Event) :
    Events.unmarshalMember e (unquoteString (fieldKey enc "data")) JSONValue.null
      = Except.ok { e with Data := none } := rfl

theorem unmarshalMember_data (enc : Encoder) (e : Events.Event) (members : List (List Nat × JSONValue)) :
    Events.unmarshalMember e (unquoteString (fieldKey enc "data")) (JSONValue.object members)
      = if JSONValue.rangeErrorMembers members then
          Except.error
            "json: cannot unmarshal number into Go struct field Event.data of type float64"
        else
          Except.ok { e with
            Data := some (mapAssignAll (e.Data.getD []) (unmarshalMembers members)) } := rfl

theorem unmarshalMember_metadata (enc : Encoder) (e : Events.Event)
    (members : List (List Nat × JSONValue)) :
    Events.unmarshalMember e (unquoteString (fieldKey enc "metadata"))
        (JSONValue.object members)
      = (unmarshalStrings members).map
          (fun m => { e with Metadata := some (mapAssignAll (e.Metadata.getD []) m) }) := rfl

/-- The entries of a `map[string]string` of valid UTF-8 are decoded from their members as
    they were. -/
theorem unmarshalStrings_map (short : Bool) : ∀ (m : List (List Nat × List Nat)),
    m.all (fun kv => validUTF8 kv.1 && validUTF8 kv.2) = true →
    unmarshalStrings (m.map (fun kv =>
      (escapeString short kv.1, JSONValue.string (escapeString short kv.2))))
      = Except.ok m := by
  intro m
  induction m with
  | nil => intro _; rfl
  | cons x xs ih =>
    intro h
    obtain ⟨k, v⟩ := x
    simp only [List.all_cons, Bool.and_eq_true] at h
    simp only [List.map_cons, unmarshalStrings, ih h.2,
      unquoteString_escapeString short k h.1.1, unquoteString_escapeString short v h.1.2]

/-- The members of an event are decoded into the zero event as the event, an empty
    metadata map apart, which stays nil. -/
theorem unmarshalMembers_members (enc : Encoder) (e : Events.Event)
    (hts : Time.UnmarshalJSON e.Timestamp.formatRFC3339Nano = Except.ok e.Timestamp)
    (hstr : e.validStrings = true)
    (hdata : ∀ m, e.Data = some m →
      keysIncrease m ∧ GoValue.plainEntries m = true ∧ GoValue.readBackEntries enc m)
    (hmeta : ∀ m, e.Metadata = some m → keysIncrease m) :
    Events.unmarshalMembers Events.zeroEvent
        (Events.members enc e e.Timestamp.formatRFC3339Nano)
      = Except.ok { e with Metadata := if e.Metadata = some [] then none else e.Metadata } := by
  obtain ⟨id, ty, src, hh, uid, ts, ver, data, md⟩ := e
  simp only [Events.Event.validStrings, Bool.and_eq_true] at hstr
  obtain ⟨⟨⟨⟨⟨⟨v1, v2⟩, v3⟩, v4⟩, v5⟩, v6⟩, v7⟩ := hstr
  simp only at hts hdata hmeta
  have hts2 : Time.UnmarshalJSON (String.mk ((ascii ts.formatRFC3339Nano).map Char.ofNat))
      = Except.ok ts := by
    have e : (ascii ts.formatRFC3339Nano).map Char.ofNat = ts.formatRFC3339Nano.toList := by
      simp [ascii, Function.comp_def, Char.ofNat_toNat]
    rw [e]
    exact hts
  have hdat : Events.unmarshalMember
      { ID := id, Type_ := ty, Source := src, HouseholdID := hh, UserID := uid,
        Timestamp := ts, Version := ver, Data := none, Metadata := none }
      (unquoteString (fieldKey enc "data")) (Events.dataValue enc data)
      = Except.ok
      { ID := id, Type_ := ty, Source := src, HouseholdID := hh, UserID := uid,
        Timestamp := ts, Version := ver, Data := data, Metadata := none } := by
    cases data with
    | none => rfl
    | some d =>
      obtain ⟨hdinc, hdplain, hdread⟩ := hdata d rfl
      obtain ⟨-, -, g3, g4, -⟩ := marshalEntries_plain enc d hdplain hdread
      have hd := mapAssignAll_increasing d [] (by simpa using hdinc)
      simp only [List.nil_append] at hd
      simp [Events.dataValue, unmarshalMember_data, g3, g4, hd]
  have hmd : Events.unmarshalMembers
      { ID := id, Type_ := ty, Source := src, HouseholdID := hh, UserID := uid,
        Timestamp := ts, Version := ver, Data := data, Metadata := none }
      (Events.metadataMembers enc md)
      = Except.ok
      { ID := id, Type_ := ty, Source := src, HouseholdID := hh, UserID := uid,
        Timestamp := ts, Version := ver, Data := data,
        Metadata := if md = some [] then none else md } := by
    cases md with
    | none => rfl
    | some m =>
      cases m with
      | nil => rfl
      | cons x xs =>
        have hm := mapAssignAll_increasing (x :: xs) [] (by simpa using hmeta _ rfl)
        have hs := unmarshalStrings_map enc.shortEscapes (x :: xs) (by simpa using v7)
        simp only [List.nil_append] at hm
        simp only [Events.metadataMembers, Events.unmarshalMembers,
          unmarshalMember_metadata, hs]
        simp [Except.map, hm]
  by_cases c1 : hh = []
  · subst c1
    by_cases c2 : uid = []
    · subst c2
      simp [Events.members, Events.unmarshalMembers, stringMember, omitEmpty,
        unmarshalMember_id, unmarshalMember_type,
        unmarshalMember_source, unmarshalMember_timestamp, unmarshalMember_version,
        unmarshalString, unquoteString_escapeString, v1, v2, v3, v6, Events.zeroEvent,
        Except.map, hts2, hdat, hmd]
    · simp [Events.members, Events.unmarshalMembers, stringMember, omitEmpty,
        unmarshalMember_id, unmarshalMember_type,
        unmarshalMember_source, unmarshalMember_userId, unmarshalMember_timestamp,
        unmarshalMember_version, unmarshalString, unquoteString_escapeString, v1, v2, v3,
        v5, v6, Events.zeroEvent, Except.map, hts2, c2, hdat, hmd]
  · by_cases c2 : uid = []
    · subst c2
      simp [Events.members, Events.unmarshalMembers, stringMember, omitEmpty,
        unmarshalMember_id, unmarshalMember_type,
        unmarshalMember_source, unmarshalMember_householdId, unmarshalMember_timestamp,
        unmarshalMember_version, unmarshalString, unquoteString_escapeString, v1, v2, v3,
        v4, v6, Events.zeroEvent, Except.map, hts2, c1, hdat, hmd]
    · simp [Events.members, Events.unmarshalMembers, stringMember, omitEmpty,
        unmarshalMember_id, unmarshalMember_type,
        unmarshalMember_source, unmarshalMember_householdId, unmarshalMember_userId,
        unmarshalMember_timestamp, unmarshalMember_version, unmarshalString,
        unquoteString_escapeString, v1, v2, v3, v4, v5, v6, Events.zeroEvent, Except.map,
        hts2, c1, c2, hdat, hmd]

theorem writtenMembers_append : ∀ (a b : List (List Nat × JSONValue)),
    JSONValue.writtenMembers (a ++ b)
      ↔ JSONValue.writtenMembers a ∧ JSONValue.writtenMembers b
  | [], b => by simp [JSONValue.writtenMembers]
  | (k, v) :: a, b => by
    simp [JSONValue.writtenMembers, writtenMembers_append a b, and_assoc]

theorem heightMembers_append : ∀ (a b : List (List Nat × JSONValue)),
    JSONValue.heightMembers (a ++ b)
      = max (JSONValue.heightMembers a) (JSONValue.heightMembers b)
  | [], b => by simp [JSONValue.heightMembers]
  | (k, v) :: a, b => by
    simp [JSONValue.heightMembers, heightMembers_append a b, max_assoc]

theorem members_nil (n : Nat) :
    JSONValue.writtenMembers [] ∧ JSONValue.heightMembers [] ≤ n := by
  simp [JSONValue.writtenMembers, JSONValue.heightMembers]

theorem members_cons (n : Nat) (k : List Nat) (v : JSONValue)
    (rest : List (List Nat × JSONValue)) (hk : scannedBack k) (hv : v.written)
    (hh : v.height ≤ n)
    (hr : JSONValue.writtenMembers rest ∧ JSONValue.heightMembers rest ≤ n) :
    JSONValue.writtenMembers ((k, v) :: rest)
    ∧ JSONValue.heightMembers ((k, v) :: rest) ≤ n := by
  simp only [JSONValue.writtenMembers, JSONValue.heightMembers]
  exact ⟨⟨hk, hv, hr.1⟩, max_le hh hr.2⟩

theorem members_append (n : Nat) (a b : List (List Nat × JSONValue))
    (ha : JSONValue.writtenMembers a ∧ JSONValue.heightMembers a ≤ n)
    (hb : JSONValue.writtenMembers b ∧ JSONValue.heightMembers b ≤ n) :
    JSONValue.writtenMembers (a ++ b) ∧ JSONValue.heightMembers (a ++ b) ≤ n := by
  rw [writtenMembers_append, heightMembers_append]
  exact ⟨⟨ha.1, hb.1⟩, max_le ha.2 hb.2⟩

/-- The members of a `map[string]string` are read back by the scanner and hold no array
    and no object. -/
theorem stringMembers_written (short : Bool) : ∀ (m : List (List Nat × List Nat)),
    JSONValue.writtenMembers (m.map (fun kv =>
      (escapeString short kv.1, JSONValue.string (escapeString short kv.2))))
    ∧ JSONValue.heightMembers (m.map (fun kv =>
      (escapeString short kv.1, JSONValue.string (escapeString short kv.2)))) = 0
  | [] => by simp [JSONValue.writtenMembers, JSONValue.heightMembers]
  | (k, v) :: rest => by
    obtain ⟨h1, h2⟩ := stringMembers_written short rest
    have hk : scannedBack (escapeString short k) := fun r => scanString_escapeString _ _ r
    have hv : scannedBack (escapeString short v) := fun r => scanString_escapeString _ _ r
    simp only [List.map_cons, JSONValue.writtenMembers, JSONValue.written,
      JSONValue.heightMembers, JSONValue.height, h2, max_self]
    exact ⟨⟨hk, hv, h1⟩, trivial⟩

theorem mem_trimZeros (c : Char) (s : List Char) (h : c ∈ trimZeros s) : c ∈ s := by
  unfold trimZeros at h
  rw [List.mem_reverse] at h
  have := (List.dropWhile_suffix (fun c => c == '0')).subset h
  simpa using this

/-- The text of a time in UTC holds digits, `-`, `:`, `.`, `T` and `Z` only, which the
    scanner reads back as they are. -/
theorem formatRFC3339Nano_scannedBack (t : Time) (hloc : t.loc = UTC) :
    scannedBack (ascii t.formatRFC3339Nano) := by
  intro rest
  have hsafe : ∀ c ∈ t.formatRFC3339Nano.toList,
      32 ≤ c.toNat ∧ c.toNat ≠ 34 ∧ c.toNat ≠ 92 := by
    have hd : ∀ c, isDigitChar c = true → 32 ≤ c.toNat ∧ c.toNat ≠ 34 ∧ c.toNat ≠ 92 := by
      intro c hc
      simp only [isDigitChar, decide_eq_true_eq] at hc
      omega
    have hp : ∀ w n, ∀ c ∈ padDigits w n, 32 ≤ c.toNat ∧ c.toNat ≠ 34 ∧ c.toNat ≠ 92 :=
      fun w n c hc => hd c (List.all_eq_true.1 (padDigits_spec w n).1 c hc)
    have hf : ∀ n, ∀ c ∈ fractionChars n, 32 ≤ c.toNat ∧ c.toNat ≠ 34 ∧ c.toNat ≠ 92 := by
      intro n c hc
      unfold fractionChars at hc
      split_ifs at hc
      · simp at hc
      · rcases List.mem_cons.1 hc with h | h
        · subst h; decide
        · exact hp 9 n c (mem_trimZeros c _ h)
    have hz : zoneChars t.loc.offset = ['Z'] := by rw [hloc]; rfl
    simp only [Time.formatRFC3339Nano, String.toList, hz, List.forall_mem_append,
      List.forall_mem_cons, List.cons_append, List.append_assoc]
    refine ⟨hp _ _, by decide, hp _ _, by decide, hp _ _, by decide, hp _ _, by decide,
      hp _ _, by decide, hp _ _, hf _, by decide, ?_⟩
    simp
  rw [scanString_safe (ascii t.formatRFC3339Nano) _ (by
    intro c hc
    simp only [ascii, List.mem_map] at hc
    obtain ⟨d, hd, rfl⟩ := hc
    exact hsafe d hd), scanString_quote]
  simp

/-- The members of an event are read back by the scanner, and are nested as deep as the
    data of the event. -/
theorem members_written (enc : Encoder) (e : Events.Event)
    (ts : String) (hts : scannedBack (ascii ts))
    (hdata : ∀ m, e.Data = some m →
      GoValue.plainEntries m = true ∧ GoValue.readBackEntries enc m) :
    JSONValue.writtenMembers (Events.members enc e ts)
    ∧ JSONValue.heightMembers (Events.members enc e ts)
        ≤ GoValue.depthEntries (e.Data.getD []) + 1 := by
  generalize hn : GoValue.depthEntries (e.Data.getD []) + 1 = n
  have hn1 : 1 ≤ n := by omega
  have hk : ∀ name : String, scannedBack (fieldKey enc name) :=
    fun name r => scanString_escapeString _ _ r
  have hv : ∀ value : List Nat,
      (JSONValue.string (escapeString enc.shortEscapes value)).written
      ∧ (JSONValue.string (escapeString enc.shortEscapes value)).height ≤ n := by
    intro value
    simp only [JSONValue.written, JSONValue.height]
    exact ⟨fun r => scanString_escapeString _ _ r, Nat.zero_le _⟩
  have hs : ∀ (name : String) (value : List Nat) (rest : List (List Nat × JSONValue)),
      JSONValue.writtenMembers rest ∧ JSONValue.heightMembers rest ≤ n →
      JSONValue.writtenMembers (stringMember enc name value :: rest)
      ∧ JSONValue.heightMembers (stringMember enc name value :: rest) ≤ n :=
    fun name value rest hr => members_cons n _ _ rest (hk name) (hv value).1 (hv value).2 hr
  have ho : ∀ (name : String) (value : List Nat),
      JSONValue.writtenMembers (omitEmpty enc name value)
      ∧ JSONValue.heightMembers (omitEmpty enc name value) ≤ n := by
    intro name value
    unfold omitEmpty
    split_ifs
    · exact members_nil n
    · exact hs name value [] (members_nil n)
  have hd : (Events.dataValue enc e.Data).written
      ∧ (Events.dataValue enc e.Data).height ≤ n := by
    cases hD : e.Data with
    | none => simp [Events.dataValue, JSONValue.written, JSONValue.height]
    | some m =>
      obtain ⟨g1, g2, -, -, -⟩ := marshalEntries_plain enc m (hdata m hD).1 (hdata m hD).2
      rw [hD] at hn
      simp only [Events.dataValue, JSONValue.written, JSONValue.height, g2]
      exact ⟨g1, by simp at hn; omega⟩
  have hm : JSONValue.writtenMembers (Events.metadataMembers enc e.Metadata)
      ∧ JSONValue.heightMembers (Events.metadataMembers enc e.Metadata) ≤ n := by
    cases e.Metadata with
    | none => exact members_nil n
    | some m =>
      cases m with
      | nil => exact members_nil n
      | cons x xs =>
        obtain ⟨g1, g2⟩ := stringMembers_written enc.shortEscapes (x :: xs)
        refine members_cons n _ _ [] (hk _) ?_ ?_ (members_nil n)
        · simp only [JSONValue.written]
          exact g1
        · simp only [JSONValue.height, g2]
          omega
  have htsw : (JSONValue.string (ascii ts)).written
      ∧ (JSONValue.string (ascii ts)).height ≤ n := by
    simp only [JSONValue.written, JSONValue.height]
    exact ⟨hts, Nat.zero_le _⟩
  unfold Events.members
  refine members_append n _ _ (members_append n _ _ (members_append n _ _
    (members_append n _ _ ?_ (ho _ _)) (ho _ _)) ?_) hm
  · exact hs _ _ _ (hs _ _ _ (hs _ _ _ (members_nil n)))
  · exact members_cons n _ _ _ (hk _) htsw.1 htsw.2
      (hs _ _ _ (members_cons n _ _ _ (hk _) hd.1 hd.2 (members_nil n)))

/-- Claim C22 as worded fails: the event `shoppingEvent`, built as the producer builds
    the event of a shopping item with `NewEvent`, is written by `ToJSON` as the text
    `shoppingEventText`, and `FromJSON` decodes that text without error into an event
    whose quantity is the `float64` 2, not the `int` 2, and whose metadata map is nil, not
    the empty map. -/
theorem shopping_event_changes :
    (∀ enc : Encoder,
      Events.ToJSON enc shoppingEvent = Except.ok (utf8 shoppingEventText))
    ∧ Events.FromJSON (utf8 shoppingEventText) = Except.ok shoppingEventDecoded
    ∧ shoppingEventDecoded.Data ≠ shoppingEvent.Data
    ∧ shoppingEventDecoded.Metadata ≠ shoppingEvent.Metadata := by
  refine ⟨fun _ => rfl, rfl, ?_, ?_⟩
  · simp [shoppingEventDecoded, shoppingEvent]
  · simp [shoppingEventDecoded, shoppingEvent]

/-- Claim C22 (amended): for every event whose strings are valid UTF-8, whose timestamp is
    a time in UTC with a year in 0..9999, and whose data map is nil or holds only nil,
    `bool`, finite `float64` and `string` values and slices and maps of such values, nested
    at most 9998 deep, `ToJSON` succeeds, and `FromJSON` of its result succeeds and returns
    an event identical to the event in id, type, source, household id, user id, timestamp,
    version and data map, and in the metadata map but for an empty one, which comes back as
    the nil map.  For the `float64` values of the data this rests on what package `strconv`
    promises of the text it writes for a `float64`: that it is a number which
    `strconv.ParseFloat` converts to that `float64` (`GoValue.readBackEntries`). -/
theorem event_json_roundtrip (enc : Encoder) (e : Events.Event)
    (htime : e.Timestamp.Valid) (hutc : e.Timestamp.loc = UTC)
    (hy0 : 0 ≤ e.Timestamp.year) (hy1 : e.Timestamp.year ≤ 9999)
    (hstr : e.validStrings = true)
    (hdata : ∀ m, e.Data = some m →
      keysIncrease m ∧ GoValue.plainEntries m = true ∧ GoValue.depthEntries m ≤ 9998
        ∧ GoValue.readBackEntries enc m)
    (hmeta : ∀ m, e.Metadata = some m → keysIncrease m) :
    ∃ text, Events.ToJSON enc e = Except.ok text
      ∧ Events.FromJSON text
          = Except.ok { e with
              Metadata := if e.Metadata = some [] then none else e.Metadata } := by
  obtain ⟨h1, h2⟩ := time_json_roundtrip e.Timestamp htime hutc hy0 hy1
  have hu : GoValue.unsupportedEntries (e.Data.getD []) = false := by
    cases hD : e.Data with
    | none => rfl
    | some m =>
      exact (marshalEntries_plain enc m (hdata m hD).2.1 (hdata m hD).2.2.2).2.2.2.2
  have hdepth : GoValue.depthEntries (e.Data.getD []) ≤ 9998 := by
    cases hD : e.Data with
    | none => simp [GoValue.depthEntries]
    | some m => exact (hdata m hD).2.2.1
  obtain ⟨hw, hh⟩ := members_written enc e e.Timestamp.formatRFC3339Nano
    (formatRFC3339Nano_scannedBack e.Timestamp hutc)
    (fun m hm => ⟨(hdata m hm).2.1, (hdata m hm).2.2.2⟩)
  have hparse := parseJSON_printValue
    (JSONValue.object (Events.members enc e e.Timestamp.formatRFC3339Nano))
    (by simp only [JSONValue.written]; exact hw)
    (by simp only [JSONValue.height, maxNestingDepth]; omega)
    (fun literal h => by cases h)
  refine ⟨_, by simp only [Events.ToJSON, h1, hu]; rfl, ?_⟩
  simp only [Events.FromJSON, hparse]
  exact unmarshalMembers_members enc e h2 hstr
    (fun m hm => ⟨(hdata m hm).1, (hdata m hm).2.1, (hdata m hm).2.2.2⟩) hmeta

/-- The literal `1.5` is read back by the scanner in front of a delimiter. -/
theorem numberScannedBack_example : numberScannedBack (ascii "1.5") := by
  refine ⟨⟨49, [46, 53], by decide, Or.inr (by decide)⟩, ?_⟩
  rintro rest ⟨c, tail, rfl, hc⟩
  have e : ascii "1.5" = [49, 46, 53] := by decide
  rw [e]
  rcases hc with h | h | h <;> subst h <;> rfl

/-- The amended claim C22 on `timerEvent`, an event as `NewEvent` builds it: its metadata
    map is empty, its data hold strings, one of them with characters that the encoder
    escapes and a character beyond ASCII, the `float64` 1.5, a `bool`, nil and a slice, and
    its time has a fractional second.  `ToJSON` writes the text `timerEventText` for
    it. -/
theorem event_json_roundtrip_witness :
    Events.ToJSON timerEncoder timerEvent = Except.ok (utf8 timerEventText)
    ∧ ∃ text, Events.ToJSON timerEncoder timerEvent = Except.ok text
        ∧ Events.FromJSON text = Except.ok { timerEvent with Metadata := none } :=
  ⟨rfl,
    event_json_roundtrip timerEncoder timerEvent (by decide) rfl (by decide) (by decide)
      (by decide)
      (fun m hm => by
        cases hm
        refine ⟨by decide, by decide, by decide, ?_⟩
        simp only [GoValue.readBackEntries, GoValue.readBack, GoValue.readBackAll, and_true,
          true_and]
        exact ⟨numberScannedBack_example, by decide⟩)
      (fun m hm => by
        cases hm
        decide)⟩

/-- Bytes that are not valid UTF-8 do not come back: the encoder writes `\ufffd` for the
    byte 255, and the decoder reads the three bytes of U+FFFD. -/
theorem invalid_byte_replaced :
    validUTF8 [104, 255, 105] = false
    ∧ escapeString true [104, 255, 105] = ascii "h\\ufffdi"
    ∧ unquoteString (escapeString true [104, 255, 105]) = [104, 239, 191, 189, 105] := by
  decide

/-- A number of a text is rounded to the nearest `float64`, a tie to the even mantissa:
    9007199254740993 becomes 9007199254740992. -/
theorem convertNumber_rounds :
    convertNumber (ascii "9007199254740993")
      = some (Float64.finite false 4503599627370496 1)
    ∧ convertNumber (ascii "9007199254740992")
      = some (Float64.finite false 4503599627370496 1)
    ∧ convertNumber (ascii "0.1") = some (Float64.finite false 7205759403792794 (-56)) := by
  decide

/-- An event whose data hold NaN is rejected by `ToJSON`. -/
theorem toJSON_rejects_nan (enc : Encoder) :
    Events.ToJSON enc
      { shoppingEvent with Data := some [(utf8 "amount", GoValue.float64 Float64.nan)] }
      = Except.error "json: unsupported value" := rfl

/-- The decoder takes a key that differs from the name of a field in the case of its
    letters, and skips white space and unknown members. -/
theorem fromJSON_folds_keys :
    Events.FromJSON (utf8 " \x7b \"ID\" : \"a\\u0041\", \"other\" : [1, 2] \x7d ")
      = Except.ok { Events.zeroEvent with ID := utf8 "aA" } := rfl

end HouseHelper
